import Mathlib

/-!
# memtier_benchmark: protocol engine

A shallow embedding of `src/protocol.cpp`: the response record
(`protocol_response`), the three streaming reply parsers
(`redis_protocol`, `memcache_text_protocol`, `memcache_binary_protocol`)
and the library calls they make on the read buffer.

Conventions.
* A byte is a `UInt8`, a buffer or a C string is a `List UInt8`.
* `unsigned int` values are natural numbers reduced `% 2 ^ 32` wherever the
  source can overflow them; `int` values are integers wrapped by `toInt32`;
  `size_t` byte counts of data that is in memory are plain natural numbers.
* A pointer to an allocated buffer is `some bytes`, `NULL` is `none`.
* The body of each `while (true) switch (m_response_state)` loop is a
  `step` function; `parse_response` iterates it.
-/

namespace Memtier

/-! ## Bytes and C library helpers -/

abbrev Bytes := List UInt8

/-- The bytes of an ASCII string literal. -/
def str (s : String) : Bytes := s.toList.map (fun c => UInt8.ofNat c.toNat)

/-- `unsigned int`: reduction modulo 2^32. -/
def toUInt32 (x : Int) : Nat := (x % 4294967296).toNat

/-- `int`: two's complement wrap-around to the range [-2^31, 2^31). -/
def toInt32 (x : Int) : Int :=
  let m := x % 4294967296
  if m < 2147483648 then m else m - 4294967296

/-- `size_t` (64 bit): what an `int` becomes when passed as a length. -/
def toSizeT (x : Int) : Nat := (x % 18446744073709551616).toNat

/-- C `isspace` in the "C" locale. -/
def isspace (c : UInt8) : Bool := c.toNat = 32 || (9 ≤ c.toNat && c.toNat ≤ 13)

/-- C `isdigit`. -/
def isdigit (c : UInt8) : Bool := 48 ≤ c.toNat && c.toNat ≤ 57

/-- The value of the longest run of decimal digits at the head of `s`,
continuing from the accumulator `acc`. -/
def digits_value : Nat → Bytes → Nat
  | acc, [] => acc
  | acc, c :: cs => if isdigit c then digits_value (acc * 10 + (c.toNat - 48)) cs else acc

/-- C `strtol(s, NULL, 10)` on a 64-bit `long`: white space, an optional
sign, then digits; no digits give 0; the result saturates at `LONG_MIN` and
`LONG_MAX`. The NUL that ends a C string is no space, sign or digit, so the
scan never runs past it. -/
def strtol (s : Bytes) : Int :=
  let s1 := s.dropWhile isspace
  match s1 with
  | 45 :: t => max (-9223372036854775808) (-(digits_value 0 t : Int))
  | 43 :: t => min 9223372036854775807 (digits_value 0 t : Int)
  | _ => min 9223372036854775807 (digits_value 0 s1 : Int)

/-- C `memcmp(line, lit, n) == 0` where `line` is a NUL-terminated buffer
and `lit` a literal of `n` non-NUL bytes: the comparison is decided at the
terminator at the latest. -/
def memcmp_eq (line lit : Bytes) : Bool := lit.isPrefixOf (line ++ [0])

/-! ## The read buffer (libevent `evbuffer`) -/

/-- Modelled from the spec: the byte queue of section 4.A, which the source uses
through libevent. `evbuffer_readln(buf, &n, EVBUFFER_EOL_CRLF_STRICT)`:
the bytes before the first CR LF and the buffer after it, or `none` when
the buffer holds no CR LF (the call then stores 0 in `n`). -/
def evbuffer_readln : Bytes → Option (Bytes × Bytes)
  | [] => none
  | [_] => none
  | a :: b :: rest =>
    if a = 13 ∧ b = 10 then some ([], rest)
    else match evbuffer_readln (b :: rest) with
      | none => none
      | some (line, rest1) => some (a :: line, rest1)

/-- Modelled from the spec: `evbuffer_get_length`. -/
def evbuffer_get_length (buf : Bytes) : Nat := buf.length

/-- Modelled from the spec: `evbuffer_drain(buf, n)` discards `n` bytes, or
all of them if the buffer holds fewer; it reports success (0) either way. -/
def evbuffer_drain (buf : Bytes) (n : Nat) : Bytes := buf.drop n

/-- Modelled from the spec: `evbuffer_remove(buf, dst, n)` moves `n` bytes
out of the buffer, or all of them if it holds fewer; the return value is the
number of bytes moved. The result is (bytes moved, remaining buffer). -/
def evbuffer_remove (buf : Bytes) (n : Nat) : Bytes × Bytes := (buf.take n, buf.drop n)

/-! ## protocol_response -/

/-- One queued pair: `key_val_node`. -/
structure key_val_node where
  value : Option Bytes
  value_len : Nat
  key : Option Bytes
  key_len : Nat
  deriving DecidableEq, Repr

structure protocol_response where
  m_status : Option Bytes
  m_values : List key_val_node
  m_latencies : List Nat
  m_value_len : Nat
  m_total_len : Nat
  m_hits : Nat
  m_error : Bool
  deriving DecidableEq, Repr

namespace protocol_response

/-- The constructor initialises every member but `m_total_len`, whose
indeterminate initial value is the parameter `t0`. -/
def new (t0 : Nat) : protocol_response :=
  { m_status := none, m_values := [], m_latencies := [], m_value_len := 0,
    m_total_len := t0, m_hits := 0, m_error := false }

def set_error (r : protocol_response) (error : Bool) : protocol_response :=
  { r with m_error := error }

def is_error (r : protocol_response) : Bool := r.m_error

def set_status (r : protocol_response) (status : Option Bytes) : protocol_response :=
  { r with m_status := status }

def get_status (r : protocol_response) : Option Bytes := r.m_status

def set_value (r : protocol_response) (value : Option Bytes) (value_len : Nat)
    (key : Option Bytes) (key_len : Nat) : protocol_response :=
  { r with m_values := r.m_values ++ [⟨value, value_len, key, key_len⟩],
           m_value_len := value_len }

/-- The front pair and the response without it; `none` on an empty queue,
where the source reads `front()` of an empty list. -/
def get_value (r : protocol_response) : Option (key_val_node × protocol_response) :=
  match r.m_values with
  | [] => none
  | v :: vs => some (v, { r with m_values := vs })

/-- The size of the list, returned as an `unsigned int`. -/
def get_values_count (r : protocol_response) : Nat := r.m_values.length % 4294967296

def set_latency (r : protocol_response) (latency : Nat) : protocol_response :=
  { r with m_latencies := r.m_latencies ++ [latency] }

def get_latency (r : protocol_response) : Option (Nat × protocol_response) :=
  match r.m_latencies with
  | [] => none
  | l :: ls => some (l, { r with m_latencies := ls })

/-- The size of the list, returned as an `unsigned int`. -/
def get_latencies_count (r : protocol_response) : Nat :=
  r.m_latencies.length % 4294967296

def set_total_len (r : protocol_response) (total_len : Nat) : protocol_response :=
  { r with m_total_len := total_len % 4294967296 }

def get_total_len (r : protocol_response) : Nat := r.m_total_len

def incr_hits (r : protocol_response) : protocol_response :=
  { r with m_hits := (r.m_hits + 1) % 4294967296 }

def get_hits (r : protocol_response) : Nat := r.m_hits

def clear (r : protocol_response) : protocol_response :=
  { r with m_status := none, m_values := [], m_latencies := [], m_value_len := 0,
           m_total_len := 0, m_hits := 0, m_error := false }

end protocol_response

/-! ## The parser loop -/

/-- How a call of `parse_response` ends: it returns an `int`, an `assert`
fails, or it leaves defined behaviour (a write through a null pointer or
past the end of a stack array). -/
inductive Outcome where
  | ret (code : Int)
  | assert_failed
  | undefined
  deriving DecidableEq, Repr

/-- One pass through the body of `while (true)`. -/
inductive Step (σ : Type) where
  | again (s : σ)
  | done (o : Outcome) (s : σ)

/-- Run the loop for at most `fuel` passes. -/
def iterate {σ : Type} (step : σ → Step σ) : Nat → σ → Option (Outcome × σ)
  | 0, _ => none
  | fuel + 1, s =>
    match step s with
    | Step.again s1 => iterate step fuel s1
    | Step.done o s1 => some (o, s1)

/-! ## redis_protocol -/

inductive redis_response_state where
  | rs_initial
  | rs_read_bulk
  deriving DecidableEq, Repr

structure redis_protocol where
  m_read_buf : Bytes
  m_keep_value : Bool
  m_last_response : protocol_response
  m_response_state : redis_response_state
  m_bulk_len : Nat
  m_response_len : Nat
  deriving DecidableEq, Repr

namespace redis_protocol

open redis_response_state

/-- A new parser on the read buffer `buf`, after `set_keep_value(keep)`. -/
def new (buf : Bytes) (keep : Bool) (t0 : Nat) : redis_protocol :=
  { m_read_buf := buf, m_keep_value := keep, m_last_response := protocol_response.new t0,
    m_response_state := rs_initial, m_bulk_len := 0, m_response_len := 0 }

def step (latency : Nat) (p : redis_protocol) : Step redis_protocol :=
  match p.m_response_state with
  | rs_initial =>
    match evbuffer_readln p.m_read_buf with
    | none => Step.done (Outcome.ret 0) { p with m_response_len := 0 }
    | some (line, rest) =>
      let p1 := { p with m_read_buf := rest, m_response_len := line.length + 2 }
      if line.headD 0 = 42 then
        Step.done (Outcome.ret (-1)) p1
      else
        let r := (p1.m_last_response.clear).set_latency latency
        if line.headD 0 = 36 then
          let len := toInt32 (strtol line.tail)
          if len = -1 then
            Step.done (Outcome.ret 1) { p1 with m_last_response := r.set_status (some line) }
          else
            Step.again { p1 with m_bulk_len := toUInt32 len, m_response_state := rs_read_bulk,
                                 m_last_response := r.set_status (some line) }
        else if line.headD 0 = 43 ∨ line.headD 0 = 45 ∨ line.headD 0 = 58 then
          let r1 := (r.set_status (some line)).set_total_len p1.m_response_len
          let r2 := if line.headD 0 = 45 then r1.set_error true else r1
          Step.done (Outcome.ret 1) { p1 with m_last_response := r2 }
        else
          Step.done (Outcome.ret (-1)) { p1 with m_last_response := r }
  | rs_read_bulk =>
    if evbuffer_get_length p.m_read_buf ≥ (p.m_bulk_len + 2) % 4294967296 then
      let p1 :=
        if p.m_keep_value ∧ p.m_bulk_len > 0 then
          let got := evbuffer_remove p.m_read_buf p.m_bulk_len
          { p with m_read_buf := evbuffer_drain got.2 2,
                   m_last_response := p.m_last_response.set_value (some got.1) p.m_bulk_len none 0 }
        else
          { p with m_read_buf := evbuffer_drain p.m_read_buf ((p.m_bulk_len + 2) % 4294967296) }
      let r := p1.m_last_response.set_total_len (p.m_response_len + p.m_bulk_len + 2)
      let r1 := if p.m_bulk_len > 0 then r.incr_hits else r
      Step.done (Outcome.ret 1) { p1 with m_response_state := rs_initial, m_last_response := r1 }
    else
      Step.done (Outcome.ret 0) p

/-- The loop leaves at the latest on its second pass. -/
def parse_response (p : redis_protocol) (latency : Nat) : Option (Outcome × redis_protocol) :=
  iterate (step latency) 2 p

end redis_protocol

/-! ## memcache_text_protocol -/

/-- The C string held in a buffer: the bytes before the first NUL. -/
def cstr (s : Bytes) : Bytes := s.takeWhile (fun c => c != 0)

/-- One `%s` of `sscanf`: skip white space, then take the run of non-space
bytes; `none` when the input ends first. The result is (token, rest). -/
def scan_s (s : Bytes) : Option (Bytes × Bytes) :=
  let s1 := s.dropWhile isspace
  let tok := s1.takeWhile (fun c => !isspace c)
  if tok.isEmpty then none else some (tok, s1.dropWhile (fun c => !isspace c))

/-- One `%u` of `sscanf` (glibc): skip white space, an optional sign, at
least one digit; the number is converted as by `strtoul` on 64 bits
(saturating, negated modulo 2^64 after a minus sign) and stored in an
`unsigned int`. The result is (value stored, rest). -/
def scan_u (s : Bytes) : Option (Nat × Bytes) :=
  let s1 := s.dropWhile isspace
  let neg := s1.head? = some 45
  let s2 := if s1.head? = some 45 ∨ s1.head? = some 43 then s1.tail else s1
  let ds := s2.takeWhile isdigit
  if ds.isEmpty then none
  else
    let v := digits_value 0 ds
    let v64 := if v > 18446744073709551615 then 18446744073709551615
               else if neg then (18446744073709551616 - v) % 18446744073709551616 else v
    some (v64 % 4294967296, s2.dropWhile isdigit)

/-- What `sscanf(line, "%s %s %u %u %u", prefix, key, &flags, &m_value_len, &cas)`
does: `res` is its return value, `value_len` the number stored in
`m_value_len` (when the fourth conversion was reached), `overrun` says that a
token did not fit `char prefix[50]` or `char key[256]`. -/
structure sscanf_result where
  res : Int
  value_len : Option Nat
  overrun : Bool
  deriving DecidableEq, Repr

def sscanf_value (line : Bytes) : sscanf_result :=
  match scan_s (cstr line) with
  | none => ⟨-1, none, false⟩
  | some (pfx, s1) =>
    if pfx.length ≥ 50 then ⟨1, none, true⟩ else
    match scan_s s1 with
    | none => ⟨1, none, false⟩
    | some (key, s2) =>
      if key.length ≥ 256 then ⟨2, none, true⟩ else
      match scan_u s2 with
      | none => ⟨2, none, false⟩
      | some (_, s3) =>
        match scan_u s3 with
        | none => ⟨3, none, false⟩
        | some (vlen, s4) =>
          match scan_u s4 with
          | none => ⟨4, some vlen, false⟩
          | some _ => ⟨5, some vlen, false⟩

inductive text_response_state where
  | rs_initial
  | rs_read_section
  | rs_read_value
  | rs_read_end
  deriving DecidableEq, Repr

structure memcache_text_protocol where
  m_read_buf : Bytes
  m_keep_value : Bool
  m_last_response : protocol_response
  m_response_state : text_response_state
  m_value_len : Nat
  m_response_len : Nat
  deriving DecidableEq, Repr

namespace memcache_text_protocol

open text_response_state

def new (buf : Bytes) (keep : Bool) (t0 : Nat) : memcache_text_protocol :=
  { m_read_buf := buf, m_keep_value := keep, m_last_response := protocol_response.new t0,
    m_response_state := rs_initial, m_value_len := 0, m_response_len := 0 }

/-- One pass of the loop. `ndebug` says whether the file was compiled with
`NDEBUG`, that is, with its `assert`s removed. -/
def step (ndebug : Bool) (latency : Nat) (p : memcache_text_protocol) :
    Step memcache_text_protocol :=
  match p.m_response_state with
  | rs_initial =>
    Step.again { p with m_last_response := p.m_last_response.clear,
                        m_response_state := rs_read_section, m_response_len := 0 }
  | rs_read_section =>
    match evbuffer_readln p.m_read_buf with
    | none => Step.done (Outcome.ret 0) p
    | some (line, rest) =>
      let p1 := { p with m_read_buf := rest,
                         m_response_len := p.m_response_len + (line.length + 2) }
      let r1 := if p1.m_last_response.get_status = none
                then p1.m_last_response.set_status (some line) else p1.m_last_response
      let r2 := r1.set_total_len p1.m_response_len
      if memcmp_eq line (str "VALUE") then
        let sc := sscanf_value line
        if sc.overrun then
          Step.done Outcome.undefined { p1 with m_last_response := r2 }
        else if sc.res < 4 ∨ sc.res > 5 then
          Step.done (Outcome.ret (-1))
            { p1 with m_last_response := r2, m_value_len := sc.value_len.getD p1.m_value_len }
        else
          Step.again { p1 with m_last_response := r2.set_latency latency,
                               m_value_len := sc.value_len.getD p1.m_value_len,
                               m_response_state := rs_read_value }
      else if memcmp_eq line (str "END") ∨ memcmp_eq line (str "STORED") then
        Step.again { p1 with m_last_response := r2.set_latency latency,
                             m_response_state := rs_read_end }
      else
        Step.done (Outcome.ret (-1)) { p1 with m_last_response := r2.set_error true }
  | rs_read_value =>
    if evbuffer_get_length p.m_read_buf ≥ (p.m_value_len + 2) % 4294967296 then
      if p.m_keep_value then
        let got := evbuffer_remove p.m_read_buf p.m_value_len
        if !ndebug ∧ got.1.length % 4294967296 ≠ 0 then
          Step.done Outcome.assert_failed { p with m_read_buf := got.2 }
        else
          Step.again
            { p with m_read_buf := evbuffer_drain got.2 2,
                     m_last_response :=
                       (p.m_last_response.set_value (some got.1) p.m_value_len none 0).incr_hits,
                     m_response_len := p.m_response_len + (p.m_value_len + 2) % 4294967296,
                     m_response_state := rs_read_section }
      else
        Step.again
          { p with m_read_buf := evbuffer_drain (evbuffer_drain p.m_read_buf p.m_value_len) 2,
                   m_last_response := p.m_last_response.incr_hits,
                   m_response_len := p.m_response_len + (p.m_value_len + 2) % 4294967296,
                   m_response_state := rs_read_section }
    else
      Step.done (Outcome.ret 0) p
  | rs_read_end =>
    Step.done (Outcome.ret 1) { p with m_response_state := rs_initial }

/-- The loop makes at most two passes for each line it consumes. -/
def parse_response (ndebug : Bool) (p : memcache_text_protocol) (latency : Nat) :
    Option (Outcome × memcache_text_protocol) :=
  iterate (step ndebug latency) (p.m_read_buf.length + 3) p

end memcache_text_protocol

/-! ## memcache_binary_protocol -/

/-- Modelled from the spec: the constants of `libmemcached_protocol/binary.h`,
the magic bytes and status codes of the glossary and the command codes of
the standard binary caching protocol. -/
def PROTOCOL_BINARY_REQ : UInt8 := 0x80
/-- Modelled from the spec: response magic of `binary.h`. -/
def PROTOCOL_BINARY_RES : UInt8 := 0x81
/-- Modelled from the spec: command codes of `binary.h`. -/
def PROTOCOL_BINARY_CMD_GET : UInt8 := 0x00
/-- Modelled from the spec: command codes of `binary.h`. -/
def PROTOCOL_BINARY_CMD_SET : UInt8 := 0x01
/-- Modelled from the spec: command codes of `binary.h`. -/
def PROTOCOL_BINARY_CMD_GETK : UInt8 := 0x0c
/-- Modelled from the spec: command codes of `binary.h`. -/
def PROTOCOL_BINARY_CMD_GETKQ : UInt8 := 0x0d
/-- Modelled from the spec: command codes of `binary.h`. -/
def PROTOCOL_BINARY_CMD_SASL_AUTH : UInt8 := 0x21
/-- Modelled from the spec: status codes of the glossary. -/
def PROTOCOL_BINARY_RESPONSE_SUCCESS : Nat := 0x00
/-- Modelled from the spec: status codes of the glossary. -/
def PROTOCOL_BINARY_RESPONSE_EINVAL : Nat := 0x04
/-- Modelled from the spec: status codes of the glossary. -/
def PROTOCOL_BINARY_RESPONSE_AUTH_ERROR : Nat := 0x20
/-- Modelled from the spec: status codes of the glossary. -/
def PROTOCOL_BINARY_RESPONSE_AUTH_CONTINUE : Nat := 0x21
/-- Modelled from the spec: status codes of the glossary. -/
def PROTOCOL_BINARY_RESPONSE_UNKNOWN_COMMAND : Nat := 0x81
/-- Modelled from the spec: status codes of the glossary. -/
def PROTOCOL_BINARY_RESPONSE_NOT_SUPPORTED : Nat := 0x83
/-- Modelled from the spec: status codes of the glossary. -/
def PROTOCOL_BINARY_RESPONSE_EBUSY : Nat := 0x85

/-- Modelled from the spec: the 24-byte response header of `binary.h`. The
multi-byte fields hold the number that their bytes spell in network byte
order, so `ntohs` and `ntohl` are the identity on this view. -/
structure protocol_binary_response_header where
  magic : UInt8
  opcode : UInt8
  keylen : Nat
  extlen : UInt8
  datatype : UInt8
  status : Nat
  bodylen : Nat
  opaq : Nat
  cas : Nat
  deriving DecidableEq, Repr

/-- The number spelled by a run of bytes, most significant first. -/
def be_value (bs : Bytes) : Nat := bs.foldl (fun acc b => acc * 256 + b.toNat) 0

/-- The header held in the first 24 bytes of `b`. -/
def read_header (b : Bytes) : protocol_binary_response_header :=
  { magic := b.getD 0 0, opcode := b.getD 1 0,
    keylen := be_value ((b.drop 2).take 2),
    extlen := b.getD 4 0, datatype := b.getD 5 0,
    status := be_value ((b.drop 6).take 2),
    bodylen := be_value ((b.drop 8).take 4),
    opaq := be_value ((b.drop 12).take 4),
    cas := be_value ((b.drop 16).take 8) }

def status_str_00 : List (Option Bytes) :=
  [ some (str "PROTOCOL_BINARY_RESPONSE_SUCCESS"),
    some (str "PROTOCOL_BINARY_RESPONSE_KEY_ENOENT"),
    some (str "PROTOCOL_BINARY_RESPONSE_KEY_EEXISTS"),
    some (str "PROTOCOL_BINARY_RESPONSE_E2BIG"),
    some (str "PROTOCOL_BINARY_RESPONSE_EINVAL"),
    some (str "PROTOCOL_BINARY_RESPONSE_NOT_STORED"),
    some (str "PROTOCOL_BINARY_RESPONSE_DELTA_BADVAL"),
    some (str "PROTOCOL_BINARY_RESPONSE_NOT_MY_VBUCKET") ]

def status_str_20 : List (Option Bytes) :=
  [ some (str "PROTOCOL_BINARY_RESPONSE_AUTH_ERROR"),
    some (str "PROTOCOL_BINARY_RESPONSE_AUTH_CONTINUE") ]

def status_str_80 : List (Option Bytes) :=
  [ none,
    some (str "PROTOCOL_BINARY_RESPONSE_UNKNOWN_COMMAND"),
    some (str "PROTOCOL_BINARY_RESPONSE_ENOMEM"),
    some (str "PROTOCOL_BINARY_RESPONSE_NOT_SUPPORTED"),
    some (str "PROTOCOL_BINARY_RESPONSE_EINTERNAL"),
    some (str "PROTOCOL_BINARY_RESPONSE_EBUSY"),
    some (str "PROTOCOL_BINARY_RESPONSE_ETMPFAIL") ]

inductive binary_response_state where
  | rs_initial
  | rs_multi_initial
  | rs_read_body
  deriving DecidableEq, Repr

structure memcache_binary_protocol where
  m_read_buf : Bytes
  m_keep_value : Bool
  m_last_response : protocol_response
  m_response_state : binary_response_state
  m_response_hdr : protocol_binary_response_header
  m_response_len : Nat
  deriving DecidableEq, Repr

namespace memcache_binary_protocol

open binary_response_state

/-- The constructor leaves `m_response_hdr` uninitialised: `hdr0` is whatever
it holds. -/
def new (buf : Bytes) (keep : Bool) (t0 : Nat) (hdr0 : protocol_binary_response_header) :
    memcache_binary_protocol :=
  { m_read_buf := buf, m_keep_value := keep, m_last_response := protocol_response.new t0,
    m_response_state := rs_initial, m_response_hdr := hdr0, m_response_len := 0 }

def status_text (p : memcache_binary_protocol) : Option Bytes :=
  let status := p.m_response_hdr.status
  if status ≤ 0x07 then status_str_00.getD status none
  else if status ≥ 0x20 ∧ status ≤ 0x21 then status_str_20.getD (status - 0x20) none
  else if status ≥ 0x80 ∧ status ≤ 0x86 then status_str_80.getD (status - 0x80) none
  else none

/-- The code under `case rs_multi_initial:`, which `case rs_initial:` falls
through to. -/
def multi_initial (latency : Nat) (p : memcache_binary_protocol) :
    Step memcache_binary_protocol :=
  if evbuffer_get_length p.m_read_buf < 24 then
    Step.done (Outcome.ret 0) p
  else
    let got := evbuffer_remove p.m_read_buf 24
    let p1 := { p with m_read_buf := got.2, m_response_hdr := read_header got.1 }
    if p1.m_response_hdr.magic ≠ PROTOCOL_BINARY_RES then
      Step.done (Outcome.ret (-1)) p1
    else
      let p2 := { p1 with m_response_len := p1.m_response_len + 24 }
      let r1 := p2.m_last_response.set_total_len p2.m_response_len
      let r2 := match p2.status_text with
                | some s => r1.set_status (some s)
                | none => r1
      let status := p2.m_response_hdr.status
      let r3 := if status = PROTOCOL_BINARY_RESPONSE_EINVAL ∨
                   status = PROTOCOL_BINARY_RESPONSE_AUTH_ERROR ∨
                   status = PROTOCOL_BINARY_RESPONSE_AUTH_CONTINUE ∨
                   status = PROTOCOL_BINARY_RESPONSE_NOT_SUPPORTED ∨
                   status = PROTOCOL_BINARY_RESPONSE_UNKNOWN_COMMAND ∨
                   status = PROTOCOL_BINARY_RESPONSE_NOT_SUPPORTED ∨
                   status = PROTOCOL_BINARY_RESPONSE_EBUSY
                then r2.set_error true else r2
      let r4 := r3.set_latency latency
      if p2.m_response_hdr.bodylen > 0 then
        Step.again { p2 with m_last_response := r4, m_response_state := rs_read_body }
      else
        Step.done (Outcome.ret 1) { p2 with m_last_response := r4 }

/-- The end of `case rs_read_body:`, after the body has left the buffer. -/
def finish_body (p : memcache_binary_protocol) : Step memcache_binary_protocol :=
  let r1 := if p.m_response_hdr.status = PROTOCOL_BINARY_RESPONSE_SUCCESS
            then p.m_last_response.incr_hits else p.m_last_response
  let p1 := { p with m_response_len := p.m_response_len + p.m_response_hdr.bodylen }
  let r2 := r1.set_total_len p1.m_response_len
  if p1.m_response_hdr.opcode = PROTOCOL_BINARY_CMD_GETKQ then
    Step.again { p1 with m_last_response := r2, m_response_state := rs_multi_initial }
  else
    Step.done (Outcome.ret 1) { p1 with m_last_response := r2, m_response_state := rs_initial }

/-- One pass of the loop. A `malloc` of a negative `int` (a size of at least
2^63) returns `NULL`: with `assert` compiled in the next line fails; with
`NDEBUG` the following `evbuffer_remove` copies to the null pointer whatever
the buffer still holds. Every other `malloc` succeeds. -/
def step (ndebug : Bool) (latency : Nat) (p : memcache_binary_protocol) :
    Step memcache_binary_protocol :=
  match p.m_response_state with
  | rs_initial =>
    multi_initial latency
      { p with m_last_response := p.m_last_response.clear,
               m_response_state := rs_multi_initial, m_response_len := 0 }
  | rs_multi_initial => multi_initial latency p
  | rs_read_body =>
    if evbuffer_get_length p.m_read_buf ≥ p.m_response_hdr.bodylen then
      let buf1 := evbuffer_drain p.m_read_buf p.m_response_hdr.extlen.toNat
      let actual_body_len : Int :=
        toInt32 ((p.m_response_hdr.bodylen : Int) - (p.m_response_hdr.extlen.toNat : Int))
      if p.m_keep_value then
        let keylen := p.m_response_hdr.keylen
        let opcode := p.m_response_hdr.opcode
        let actual_body_len1 : Int := toInt32 (actual_body_len - (keylen : Int))
        let gotk : Option Bytes × Bytes :=
          if opcode = PROTOCOL_BINARY_CMD_GETK ∨ opcode = PROTOCOL_BINARY_CMD_GETKQ then
            (some (evbuffer_remove buf1 keylen).1, (evbuffer_remove buf1 keylen).2)
          else (none, evbuffer_drain buf1 keylen)
        if actual_body_len1 < 0 then
          if !ndebug then Step.done Outcome.assert_failed { p with m_read_buf := gotk.2 }
          else if gotk.2.length ≠ 0 then Step.done Outcome.undefined { p with m_read_buf := gotk.2 }
          else
            finish_body
              { p with m_read_buf := gotk.2,
                       m_last_response :=
                         p.m_last_response.set_value none (toUInt32 actual_body_len1) gotk.1 keylen }
        else
          let gotv := evbuffer_remove gotk.2 actual_body_len1.toNat
          finish_body
            { p with m_read_buf := gotv.2,
                     m_last_response :=
                       p.m_last_response.set_value (some gotv.1) (toUInt32 actual_body_len1)
                         gotk.1 keylen }
      else
        finish_body { p with m_read_buf := evbuffer_drain buf1 (toSizeT actual_body_len) }
    else
      Step.done (Outcome.ret 0) p

/-- The loop makes at most two passes for each header it consumes. -/
def parse_response (ndebug : Bool) (p : memcache_binary_protocol) (latency : Nat) :
    Option (Outcome × memcache_binary_protocol) :=
  iterate (step ndebug latency) (p.m_read_buf.length + 2) p

end memcache_binary_protocol


/-! ## Input shapes used by the statements -/

/-- Whether a CR LF pair occurs in the bytes. -/
def has_crlf : Bytes → Bool
  | [] => false
  | [_] => false
  | a :: b :: rest => (a == 13 && b == 10) || has_crlf (b :: rest)


/-- The digits that `printf("%u", n)` prints, with `fuel` bounding their number. -/
def decimal_digits : Nat → Nat → Bytes
  | 0, _ => []
  | fuel + 1, n =>
    if n < 10 then [UInt8.ofNat (48 + n)]
    else decimal_digits fuel (n / 10) ++ [UInt8.ofNat (48 + n % 10)]

/-- The decimal form of `n`, as `printf("%u", n)` prints it. -/
def decimal (n : Nat) : Bytes := decimal_digits (n + 1) n


/-- The status table of the glossary: code and name. -/
def glossary_status_codes : List (Nat × String) :=
  [ (0x00, "PROTOCOL_BINARY_RESPONSE_SUCCESS"),
    (0x01, "PROTOCOL_BINARY_RESPONSE_KEY_ENOENT"),
    (0x02, "PROTOCOL_BINARY_RESPONSE_KEY_EEXISTS"),
    (0x03, "PROTOCOL_BINARY_RESPONSE_E2BIG"),
    (0x04, "PROTOCOL_BINARY_RESPONSE_EINVAL"),
    (0x05, "PROTOCOL_BINARY_RESPONSE_NOT_STORED"),
    (0x06, "PROTOCOL_BINARY_RESPONSE_DELTA_BADVAL"),
    (0x07, "PROTOCOL_BINARY_RESPONSE_NOT_MY_VBUCKET"),
    (0x20, "PROTOCOL_BINARY_RESPONSE_AUTH_ERROR"),
    (0x21, "PROTOCOL_BINARY_RESPONSE_AUTH_CONTINUE"),
    (0x81, "PROTOCOL_BINARY_RESPONSE_UNKNOWN_COMMAND"),
    (0x82, "PROTOCOL_BINARY_RESPONSE_ENOMEM"),
    (0x83, "PROTOCOL_BINARY_RESPONSE_NOT_SUPPORTED"),
    (0x84, "PROTOCOL_BINARY_RESPONSE_EINTERNAL"),
    (0x85, "PROTOCOL_BINARY_RESPONSE_EBUSY"),
    (0x86, "PROTOCOL_BINARY_RESPONSE_ETMPFAIL") ]

/-- The name the glossary gives to a status code, if any. -/
def glossary_status (s : Nat) : Option Bytes :=
  (glossary_status_codes.find? (fun e => e.1 == s)).map (fun e => str e.2)

/-- The codes that the spec lists as marking an error: EINVAL, AUTH_ERROR,
AUTH_CONTINUE, NOT_SUPPORTED, UNKNOWN_COMMAND, EBUSY. -/
def glossary_error_codes : List Nat := [0x04, 0x20, 0x21, 0x83, 0x81, 0x85]

/-- What the spec says a response header with status code `s` does to the
response: the status text of the table replaces the status (a code outside
the table leaves it), a code of the error set marks the error, the latency is
queued, and `total` is the count of bytes so far. -/
def after_header (r : protocol_response) (s total latency : Nat) : protocol_response :=
  { r with m_status := (glossary_status s).orElse (fun _ => r.m_status),
           m_error := r.m_error || decide (s ∈ glossary_error_codes),
           m_total_len := total % 4294967296,
           m_latencies := r.m_latencies ++ [latency] }

/-- The canonical reply to a binary SET: a 24-byte header with magic 0x81,
opcode SET, status 0, bodylen 0 and every other field 0. -/
def set_success_header : Bytes :=
  [0x81, 0x01, 0, 0, 0, 0, 0, 0, 0, 0, 0, 0, 0, 0, 0, 0, 0, 0, 0, 0, 0, 0, 0, 0]

/-- A response frame on the wire: the 24 header bytes, then the body made of
the extras, the key and the value. -/
structure binary_frame where
  header : Bytes
  extras : Bytes
  key : Bytes
  value : Bytes
  deriving DecidableEq, Repr

namespace binary_frame

def hdr (f : binary_frame) : protocol_binary_response_header := read_header f.header

def body (f : binary_frame) : Bytes := f.extras ++ f.key ++ f.value

def bytes (f : binary_frame) : Bytes := f.header ++ f.body

/-- A frame whose header is a response header that describes its body: magic
0x81, `extlen`, `keylen` and `bodylen` are the lengths of the parts (so
extlen + keylen <= bodylen), and the body is not empty and shorter than 2^31
bytes. -/
def sane (f : binary_frame) : Prop :=
  f.header.length = 24 ∧ f.hdr.magic = PROTOCOL_BINARY_RES ∧
  f.hdr.extlen.toNat = f.extras.length ∧ f.hdr.keylen = f.key.length ∧
  f.hdr.bodylen = f.body.length ∧ 0 < f.body.length ∧ f.body.length < 2147483648

instance (f : binary_frame) : Decidable f.sane := by
  unfold sane; infer_instance

/-- The pair that the frame puts in the queue of values when retention is
on: the value, and the key for the opcodes GETK and GETKQ. -/
def pair (f : binary_frame) : key_val_node :=
  { value := some f.value, value_len := f.value.length,
    key := if f.hdr.opcode = PROTOCOL_BINARY_CMD_GETK ∨ f.hdr.opcode = PROTOCOL_BINARY_CMD_GETKQ
           then some f.key else none,
    key_len := f.key.length }

/-- What one frame does to the response, `len` being the bytes counted for
the reply before it. -/
def response (keep : Bool) (latency : Nat) (r : protocol_response) (len : Nat)
    (f : binary_frame) : protocol_response :=
  let r1 := after_header r f.hdr.status (len + 24) latency
  let r2 := if keep then
              { r1 with m_values := r1.m_values ++ [f.pair], m_value_len := f.value.length }
            else r1
  let r3 := if f.hdr.status = 0 then r2.incr_hits else r2
  r3.set_total_len (len + 24 + f.body.length)

end binary_frame

/-- The bytes of a run of frames. -/
def frames_bytes : List binary_frame → Bytes
  | [] => []
  | f :: fs => f.bytes ++ frames_bytes fs

/-- The parser after it has taken the frame `f` from the head of its buffer
in the MultiInitial state and stays there for the next frame. -/
def binary_frame.advance (latency : Nat) (p : memcache_binary_protocol) (f : binary_frame) :
    memcache_binary_protocol :=
  { p with m_read_buf := p.m_read_buf.drop f.bytes.length,
           m_response_hdr := f.hdr,
           m_response_len := p.m_response_len + 24 + f.body.length,
           m_last_response :=
             f.response p.m_keep_value latency p.m_last_response p.m_response_len,
           m_response_state := binary_response_state.rs_multi_initial }

/-- A hit: a sane frame with status SUCCESS. -/
def binary_frame.hit (f : binary_frame) : Prop := f.sane ∧ f.hdr.status = 0

instance (f : binary_frame) : Decidable f.hit := by
  unfold binary_frame.hit; infer_instance

/-- A GET hit frame: magic 0x81, the given opcode, status SUCCESS, four bytes
of extras (the flags), a one-byte key and a one-byte value. -/
def hit_frame (opcode key value : UInt8) : binary_frame :=
  { header := [0x81, opcode, 0, 1, 4, 0, 0, 0, 0, 0, 0, 6, 0, 0, 0, 0, 0, 0, 0, 0, 0, 0, 0, 0],
    extras := [0, 0, 0, 0], key := [key], value := [value] }

/-- The header of a GETKQ hit with no extras, no key and a body of 2^31 bytes. -/
def huge_getkq_header : Bytes :=
  [0x81, 0x0d, 0, 0, 0, 0, 0, 0, 0x80, 0, 0, 0, 0, 0, 0, 0, 0, 0, 0, 0, 0, 0, 0, 0]

/-- A reply header with status UNKNOWN_COMMAND (0x81) and no body. -/
def unknown_command_header : Bytes :=
  [0x81, 0x01, 0, 0, 0, 0, 0, 0x81, 0, 0, 0, 0, 0, 0, 0, 0, 0, 0, 0, 0, 0, 0, 0, 0]

/-- The reply to a GET that misses: status KEY_ENOENT (0x01) and the text
`Not found` as body. -/
def not_found_frame : binary_frame :=
  { header := [0x81, 0x00, 0, 0, 0, 0, 0, 0x01, 0, 0, 0, 9, 0, 0, 0, 0, 0, 0, 0, 0, 0, 0, 0, 0],
    extras := [], key := [], value := str "Not found" }

/-- One section of a cache-text GET reply, `VALUE <key> <flags> <vlen>\r\n<value>\r\n`,
where `<vlen>` is the length of the value. -/
structure text_section where
  key : Bytes
  flags : Nat
  value : Bytes
  deriving DecidableEq, Repr

namespace text_section

/-- The header line, without its CR LF. -/
def line (s : text_section) : Bytes :=
  str "VALUE " ++ (s.key ++ 32 :: (decimal s.flags ++ 32 :: decimal s.value.length))

def bytes (s : text_section) : Bytes := s.line ++ 13 :: 10 :: (s.value ++ [13, 10])

/-- The key is a non-empty word of fewer than 256 bytes, none of them white
space or NUL, and the value is shorter than 2^32 - 2 bytes. -/
def ok (s : text_section) : Prop :=
  s.key ≠ [] ∧ s.key.length < 256 ∧ (∀ c ∈ s.key, isspace c = false ∧ c ≠ 0) ∧
  s.value.length + 2 < 4294967296

instance (s : text_section) : Decidable s.ok := by
  unfold ok; infer_instance

/-- The pair that the section puts in the queue of values when retention is on. -/
def pair (s : text_section) : key_val_node :=
  { value := some s.value, value_len := s.value.length, key := none, key_len := 0 }

end text_section

/-- The bytes of a run of sections. -/
def sections_bytes : List text_section → Bytes
  | [] => []
  | s :: ss => s.bytes ++ sections_bytes ss

/-- The parser after it has taken the section `s` from the head of its buffer
in the ReadSection state: the first line seen stays the status, total_len
counts the bytes up to the end of the header line, the latency is queued once,
the value is queued when retention is on, and hits grows by one. -/
def text_section.advance (latency : Nat) (p : memcache_text_protocol) (s : text_section) :
    memcache_text_protocol :=
  { p with
    m_read_buf := p.m_read_buf.drop s.bytes.length,
    m_value_len := s.value.length,
    m_response_len := p.m_response_len + (s.line.length + 2) + (s.value.length + 2),
    m_last_response :=
      { m_status := p.m_last_response.m_status.orElse (fun _ => some s.line),
        m_values := p.m_last_response.m_values ++ (if p.m_keep_value then [s.pair] else []),
        m_latencies := p.m_last_response.m_latencies ++ [latency],
        m_value_len := if p.m_keep_value then s.value.length
                       else p.m_last_response.m_value_len,
        m_total_len := (p.m_response_len + (s.line.length + 2)) % 4294967296,
        m_hits := (p.m_last_response.m_hits + 1) % 4294967296,
        m_error := p.m_last_response.m_error },
    m_response_state := text_response_state.rs_read_section }

/-! ## Feeding a parser in chunks -/

/-- A parser as its caller sees it: the loop body `step`, the passes one call
of `parse_response` may make (`fuel`), the arrival of bytes in the read buffer
(`feed`), the length of the read buffer, the last response, and three
functions used to reason about runs: `sane` says that the lengths the parser
is waiting for fit their machine types, `rank` bounds the passes of a call
and `mu` the calls that complete a reply. -/
structure Machine (σ : Type) where
  step : σ → Step σ
  fuel : σ → Nat
  feed : σ → Bytes → σ
  len : σ → Nat
  resp : σ → protocol_response
  sane : σ → Bool
  rank : σ → Nat
  mu : σ → Nat

/-- One completed call, as the caller observes it: the result, the number of
bytes taken from the stream so far, and the response. -/
structure Event where
  outcome : Outcome
  consumed : Nat
  response : protocol_response
  deriving DecidableEq, Repr

/-- A connection: the parser, the number of bytes received so far, whether a
call has ended the connection (any result other than 0 and 1), and the events
so far. -/
structure Session (σ : Type) where
  parser : σ
  fed : Nat
  dead : Bool
  events : List Event

namespace Machine

variable {σ : Type}

/-- One call of `parse_response`. -/
def call (M : Machine σ) (s : σ) : Option (Outcome × σ) := iterate M.step (M.fuel s) s

/-- The session after a call that ended with outcome `o` in parser state `s1`:
0 changes the parser only, 1 adds an event, anything else adds an event and
ends the connection. -/
def record (M : Machine σ) (x : Session σ) (o : Outcome) (s1 : σ) : Session σ :=
  if o = Outcome.ret 0 then { x with parser := s1 }
  else
    { x with parser := s1, dead := decide (o ≠ Outcome.ret 1),
             events := x.events ++ [⟨o, x.fed - M.len s1, M.resp s1⟩] }

/-- Call `parse_response` again and again while it returns 1, at most `n`
times. -/
def settle (M : Machine σ) : Nat → Session σ → Session σ
  | 0, x => x
  | n + 1, x =>
    match M.call x.parser with
    | none => x
    | some (o, s1) =>
      if o = Outcome.ret 1 then settle M n (M.record x o s1) else M.record x o s1

/-- The bytes of a chunk arrive in the read buffer. -/
def arrive (M : Machine σ) (x : Session σ) (chunk : Bytes) : Session σ :=
  { x with parser := M.feed x.parser chunk, fed := x.fed + chunk.length }

/-- A chunk arrives and the caller parses what it can. -/
def receive (M : Machine σ) (x : Session σ) (chunk : Bytes) : Session σ :=
  if x.dead then M.arrive x chunk
  else M.settle (M.mu (M.feed x.parser chunk) + 1) (M.arrive x chunk)

/-- A whole connection: the parser `s` receives the chunks in turn. -/
def session (M : Machine σ) (s : σ) (chunks : List Bytes) : Session σ :=
  chunks.foldl M.receive ⟨s, M.len s, false, []⟩

/-- The same run pass by pass, for at most `n` passes: `none` when they do
not suffice. -/
def drive (M : Machine σ) : Nat → Session σ → Option (Session σ)
  | 0, _ => none
  | n + 1, x =>
    match M.step x.parser with
    | Step.again s1 => drive M n { x with parser := s1 }
    | Step.done o s1 =>
      if o = Outcome.ret 1 then drive M n (M.record x o s1) else some (M.record x o s1)

/-- Every parser state passed through in at most `n` passes, up to the first
call that does not return 1, is sane, and that call is reached. -/
def checked (M : Machine σ) : Nat → σ → Bool
  | 0, _ => false
  | n + 1, s =>
    M.sane s &&
      match M.step s with
      | Step.again s1 => checked M n s1
      | Step.done o s1 => if o = Outcome.ret 1 then checked M n s1 else true

/-- The laws that make chunk boundaries invisible. -/
structure Lawful (M : Machine σ) : Prop where
  feed_feed : ∀ s a b, M.feed (M.feed s a) b = M.feed s (a ++ b)
  len_feed : ∀ s e, M.len (M.feed s e) = M.len s + e.length
  resp_feed : ∀ s e, M.resp (M.feed s e) = M.resp s
  sane_feed : ∀ s e, M.sane (M.feed s e) = M.sane s
  step_again : ∀ s s1 e, M.step s = Step.again s1 → M.sane s = true →
    M.step (M.feed s e) = Step.again (M.feed s1 e)
  step_done : ∀ s s1 o e, M.step s = Step.done o s1 → o ≠ Outcome.ret 0 → M.sane s = true →
    M.step (M.feed s e) = Step.done o (M.feed s1 e)
  step_zero : ∀ s s1 e, M.step s = Step.done (Outcome.ret 0) s1 →
    M.step (M.feed s1 e) = M.step (M.feed s e) ∧ M.sane s1 = M.sane s
  rank_again : ∀ s s1, M.step s = Step.again s1 → M.rank s1 < M.rank s
  rank_fuel : ∀ s, M.rank s < M.fuel s
  mu_again : ∀ s s1, M.step s = Step.again s1 → M.mu s1 ≤ M.mu s
  mu_done : ∀ s s1, M.step s = Step.done (Outcome.ret 1) s1 → M.mu s1 < M.mu s

end Machine

/-- The stream that a list of chunks carries. -/
def concat_chunks : List Bytes → Bytes
  | [] => []
  | c :: cs => c ++ concat_chunks cs

/-- The redis parser as a machine. A state is sane unless it waits, with
retention on, for a bulk whose length plus 2 does not fit an `unsigned int`
(the header `$-2`). -/
def redis_machine (latency : Nat) : Machine redis_protocol :=
  { step := redis_protocol.step latency,
    fuel := fun _ => 2,
    feed := fun p e => { p with m_read_buf := p.m_read_buf ++ e },
    len := fun p => p.m_read_buf.length,
    resp := fun p => p.m_last_response,
    sane := fun p =>
      decide (p.m_response_state = redis_response_state.rs_read_bulk → p.m_keep_value = true →
        p.m_bulk_len > 0 → p.m_bulk_len + 2 < 4294967296),
    rank := fun p => if p.m_response_state = redis_response_state.rs_initial then 1 else 0,
    mu := fun p => p.m_read_buf.length +
      (if p.m_response_state = redis_response_state.rs_read_bulk then 1 else 0) }

/-- The cache-text parser as a machine. A state is sane unless it waits for a
value whose length plus 2 does not fit an `unsigned int`. -/
def text_machine (ndebug : Bool) (latency : Nat) : Machine memcache_text_protocol :=
  { step := memcache_text_protocol.step ndebug latency,
    fuel := fun p => p.m_read_buf.length + 3,
    feed := fun p e => { p with m_read_buf := p.m_read_buf ++ e },
    len := fun p => p.m_read_buf.length,
    resp := fun p => p.m_last_response,
    sane := fun p =>
      decide (p.m_response_state = text_response_state.rs_read_value →
        p.m_value_len + 2 < 4294967296),
    rank := fun p => p.m_read_buf.length +
      (if p.m_response_state = text_response_state.rs_initial ∨
          p.m_response_state = text_response_state.rs_read_value then 1 else 0),
    mu := fun p => p.m_read_buf.length +
      (if p.m_response_state = text_response_state.rs_read_end then 1 else 0) }

/-- The cache-binary parser as a machine. A state is sane unless it waits for
a body that is shorter than its extras (and key, with retention on), or
whose length without the extras does not fit an `int`. -/
def binary_machine (ndebug : Bool) (latency : Nat) : Machine memcache_binary_protocol :=
  { step := memcache_binary_protocol.step ndebug latency,
    fuel := fun p => p.m_read_buf.length + 2,
    feed := fun p e => { p with m_read_buf := p.m_read_buf ++ e },
    len := fun p => p.m_read_buf.length,
    resp := fun p => p.m_last_response,
    sane := fun p =>
      decide (p.m_response_state = binary_response_state.rs_read_body →
        (p.m_response_hdr.extlen.toNat ≤ p.m_response_hdr.bodylen ∧
         p.m_response_hdr.bodylen - p.m_response_hdr.extlen.toNat < 2147483648 ∧
         (p.m_keep_value = true →
           p.m_response_hdr.extlen.toNat + p.m_response_hdr.keylen ≤ p.m_response_hdr.bodylen))),
    rank := fun p => p.m_read_buf.length +
      (if p.m_response_state = binary_response_state.rs_read_body then 1 else 0),
    mu := fun p => p.m_read_buf.length +
      (if p.m_response_state = binary_response_state.rs_read_body then 1 else 0) }

/-- A GET reply header that announces 4 bytes of extras in a body of 1 byte. -/
def short_body_header : Bytes :=
  [0x81, 0x00, 0, 0, 4, 0, 0, 0, 0, 0, 0, 1, 0, 0, 0, 0, 0, 0, 0, 0, 0, 0, 0, 0]

/-- What the caller sees of a session: for each completed call its result and
the number of bytes taken from the stream up to then. -/
def completions {σ : Type} (x : Session σ) : List (Outcome × Nat) :=
  x.events.map (fun e => (e.outcome, e.consumed))

/-- The read buffer of a redis parser does not yet hold the unit the parser is
waiting for: a line ended by CR LF in the Initial state, the bulk and its CR LF
in the ReadBulk state. -/
def redis_protocol.needs_more (p : redis_protocol) : Bool :=
  match p.m_response_state with
  | redis_response_state.rs_initial => !has_crlf p.m_read_buf
  | redis_response_state.rs_read_bulk =>
    decide (p.m_read_buf.length < (p.m_bulk_len + 2) % 4294967296)

/-- The read buffer of a cache-text parser does not yet hold the unit the parser
is waiting for: a line ended by CR LF, or the value and its CR LF. -/
def memcache_text_protocol.needs_more (p : memcache_text_protocol) : Bool :=
  match p.m_response_state with
  | text_response_state.rs_initial => !has_crlf p.m_read_buf
  | text_response_state.rs_read_section => !has_crlf p.m_read_buf
  | text_response_state.rs_read_value =>
    decide (p.m_read_buf.length < (p.m_value_len + 2) % 4294967296)
  | text_response_state.rs_read_end => false

/-- The read buffer of a cache-binary parser does not yet hold the unit the
parser is waiting for: the 24 bytes of a header, or the body. -/
def memcache_binary_protocol.needs_more (p : memcache_binary_protocol) : Bool :=
  match p.m_response_state with
  | binary_response_state.rs_initial => decide (p.m_read_buf.length < 24)
  | binary_response_state.rs_multi_initial => decide (p.m_read_buf.length < 24)
  | binary_response_state.rs_read_body =>
    decide (p.m_read_buf.length < p.m_response_hdr.bodylen)

namespace Machine

variable {σ : Type}

/-- Every parser state of the session satisfies `I`, and every event carries the
response of such a state. -/
def Within (M : Machine σ) (I : σ → Prop) (x : Session σ) : Prop :=
  I x.parser ∧ ∀ e ∈ x.events, ∃ s1, I s1 ∧ e.response = M.resp s1

end Machine

/-- The response without its retained values. -/
def protocol_response.forget (r : protocol_response) : protocol_response :=
  { r with m_values := [], m_value_len := 0 }

/-- The redis parser with retention switched off and no value retained. -/
def redis_protocol.forget (p : redis_protocol) : redis_protocol :=
  { p with m_keep_value := false, m_last_response := p.m_last_response.forget }

/-- The cache-text parser with retention switched off and no value retained. -/
def memcache_text_protocol.forget (p : memcache_text_protocol) : memcache_text_protocol :=
  { p with m_keep_value := false, m_last_response := p.m_last_response.forget }

/-- The cache-binary parser with retention switched off and no value retained. -/
def memcache_binary_protocol.forget (p : memcache_binary_protocol) :
    memcache_binary_protocol :=
  { p with m_keep_value := false, m_last_response := p.m_last_response.forget }

/-- The session seen through `f` on the parser and `g` on the response of every
event: results, byte counts and the order of events stay. -/
def Session.erase {σ : Type} (f : σ → σ) (g : protocol_response → protocol_response)
    (x : Session σ) : Session σ :=
  { parser := f x.parser, fed := x.fed, dead := x.dead,
    events := x.events.map (fun e => { e with response := g e.response }) }

namespace Machine

variable {σ : Type}

/-- The map `f` on parser states, with `g` on responses, does not touch what the
caller measures: it commutes with the arrival of bytes and keeps the buffer
length, the bounds on calls, and the response up to `g`. -/
structure Erasure (M : Machine σ) (f : σ → σ) (g : protocol_response → protocol_response) :
    Prop where
  feed_f : ∀ s e, f (M.feed s e) = M.feed (f s) e
  len_f : ∀ s, M.len (f s) = M.len s
  resp_f : ∀ s, M.resp (f s) = g (M.resp s)
  fuel_f : ∀ s, M.fuel (f s) = M.fuel s
  mu_f : ∀ s, M.mu (f s) = M.mu s

end Machine

/-! ## The write buffer and `printf` -/

/-- `evbuffer_add(buf, data, datlen)`: `data` stands for the bytes readable from the
caller's pointer, of which `datlen` are appended. -/
def evbuffer_add (buf data : Bytes) (datlen : Nat) : Bytes := buf ++ data.take datlen

/-- `evbuffer_add_printf`, given the text `out` that the format produces. libevent
formats with `vsnprintf`, whose result is an `int`: a text longer than INT_MAX fails,
nothing is appended and the result is -1; otherwise the text is appended and the result
is its length. -/
def evbuffer_add_printf (buf out : Bytes) : Int × Bytes :=
  if out.length ≤ 2147483647 then ((out.length : Int), buf ++ out) else (-1, buf)

/-- What `%d` prints for an `int`. -/
def decimal_int (v : Int) : Bytes :=
  if v < 0 then 45 :: decimal (-v).toNat else decimal v.toNat

/-- What `%u` prints for an argument of type `int` or `unsigned int`: the value
taken as an `unsigned int`. -/
def printf_u (v : Int) : Bytes := decimal (toUInt32 v)

/-- What `%s` prints: the C string at the pointer. -/
def printf_s (s : Bytes) : Bytes := cstr s

/-- What `%.*s` prints: the C string at the pointer, cut after `precision` bytes; a
negative precision counts as none. -/
def printf_precision_s (precision : Int) (s : Bytes) : Bytes :=
  if precision < 0 then cstr s else (cstr s).take precision.toNat

/-- The array that `snprintf(buf, size, ...)` leaves in `buf` when the format
produces `out`: at most `size - 1` bytes of it, then the NUL. -/
def snprintf (size : Nat) (out : Bytes) : Bytes := out.take (size - 1) ++ [0]

def strlen (s : Bytes) : Nat := (cstr s).length

/-! ## redis_protocol: the encoders

Every encoder takes the write buffer and returns what it returns in C, or how it ends
otherwise, together with the write buffer afterwards. Pointer arguments are taken to be
valid (not NULL). An `int` sum that overflows, undefined in C, is taken to wrap around
like the conversion to `int`. -/

namespace redis_protocol

def select_db (m_write_buf : Bytes) (db : Int) : Outcome × Bytes :=
  let db_str := snprintf (20 - 1) (decimal_int db)
  let r := evbuffer_add_printf m_write_buf
    (str "*2\r\n$6\r\nSELECT\r\n$" ++ printf_u (strlen db_str) ++ str "\r\n" ++
      printf_s db_str ++ str "\r\n")
  (Outcome.ret r.1, r.2)

def authenticate (m_write_buf : Bytes) (credentials : Bytes) : Outcome × Bytes :=
  let r := evbuffer_add_printf m_write_buf
    (str "*2\r\n$4\r\nAUTH\r\n$" ++ printf_u (strlen credentials) ++ str "\r\n" ++
      printf_s credentials ++ str "\r\n")
  (Outcome.ret r.1, r.2)

/-- `key` and `value` stand for the bytes readable from the two pointers, `key_len`
and `value_len` are the `int` arguments. -/
def write_command_set (ndebug : Bool) (m_write_buf : Bytes) (key : Bytes) (key_len : Int)
    (value : Bytes) (value_len : Int) (expiry : Int) (offset : Nat) : Outcome × Bytes :=
  if !ndebug ∧ ¬ key_len > 0 then (Outcome.assert_failed, m_write_buf)
  else if !ndebug ∧ ¬ value_len > 0 then (Outcome.assert_failed, m_write_buf)
  else
    let head : Int × Bytes :=
      if expiry = 0 ∧ offset = 0 then
        let r1 := evbuffer_add_printf m_write_buf
          (str "*3\r\n$3\r\nSET\r\n$" ++ printf_u key_len ++ str "\r\n")
        let w2 := evbuffer_add r1.2 key (toSizeT key_len)
        let size := toInt32 (r1.1 + key_len)
        let r3 := evbuffer_add_printf w2 (str "\r\n$" ++ printf_u value_len ++ str "\r\n")
        (toInt32 (size + r3.1), r3.2)
      else if offset ≠ 0 then
        let offset_str := snprintf (30 - 1) (printf_u offset)
        let r1 := evbuffer_add_printf m_write_buf
          (str "*4\r\n$8\r\nSETRANGE\r\n$" ++ printf_u key_len ++ str "\r\n")
        let w2 := evbuffer_add r1.2 key (toSizeT key_len)
        let size := toInt32 (r1.1 + key_len)
        let r3 := evbuffer_add_printf w2
          (str "\r\n$" ++ printf_u (strlen offset_str) ++ str "\r\n" ++ printf_s offset_str ++
            str "\r\n$" ++ printf_u value_len ++ str "\r\n")
        (toInt32 (size + r3.1), r3.2)
      else
        let expiry_str := snprintf (30 - 1) (printf_u expiry)
        let r1 := evbuffer_add_printf m_write_buf
          (str "*4\r\n$5\r\nSETEX\r\n$" ++ printf_u key_len ++ str "\r\n")
        let w2 := evbuffer_add r1.2 key (toSizeT key_len)
        let size := toInt32 (r1.1 + key_len)
        let r3 := evbuffer_add_printf w2
          (str "\r\n$" ++ printf_u (strlen expiry_str) ++ str "\r\n" ++ printf_s expiry_str ++
            str "\r\n$" ++ printf_u value_len ++ str "\r\n")
        (toInt32 (size + r3.1), r3.2)
    let w4 := evbuffer_add head.2 value (toSizeT value_len)
    let w5 := evbuffer_add w4 (str "\r\n") 2
    (Outcome.ret (toInt32 (head.1 + toInt32 (value_len + 2))), w5)

def write_command_get (ndebug : Bool) (m_write_buf : Bytes) (key : Bytes) (key_len : Int)
    (offset : Nat) : Outcome × Bytes :=
  if !ndebug ∧ ¬ key_len > 0 then (Outcome.assert_failed, m_write_buf)
  else if offset = 0 then
    let r1 := evbuffer_add_printf m_write_buf
      (str "*2\r\n$3\r\nGET\r\n$" ++ printf_u key_len ++ str "\r\n")
    let w2 := evbuffer_add r1.2 key (toSizeT key_len)
    let w3 := evbuffer_add w2 (str "\r\n") 2
    (Outcome.ret (toInt32 (r1.1 + toInt32 (key_len + 2))), w3)
  else
    let offset_str := snprintf (30 - 1) (printf_u offset)
    let r1 := evbuffer_add_printf m_write_buf
      (str "*4\r\n$8\r\nGETRANGE\r\n$" ++ printf_u key_len ++ str "\r\n")
    let w2 := evbuffer_add r1.2 key (toSizeT key_len)
    let size := toInt32 (r1.1 + key_len)
    let r3 := evbuffer_add_printf w2
      (str "\r\n$" ++ printf_u (strlen offset_str) ++ str "\r\n" ++ printf_s offset_str ++
        str "\r\n$2\r\n-1\r\n")
    (Outcome.ret (toInt32 (size + r3.1)), r3.2)

end redis_protocol

def get_number_length (num : Nat) : Int :=
  if num < 10 then 1
  else if num < 100 then 2
  else if num < 1000 then 3
  else if num < 10000 then 4
  else if num < 100000 then 5
  else if num < 1000000 then 6
  else if num < 10000000 then 7
  else if num < 100000000 then 8
  else if num < 1000000000 then 9
  else 10

def redis_protocol.write_command_wait (m_write_buf : Bytes) (num_slaves timeout : Nat) :
    Outcome × Bytes :=
  let r := evbuffer_add_printf m_write_buf
    (str "*3\r\n$4\r\nWAIT\r\n$" ++ printf_u (get_number_length num_slaves) ++ str "\r\n" ++
      printf_u num_slaves ++ str "\r\n$" ++ printf_u (get_number_length timeout) ++
      str "\r\n" ++ printf_u timeout ++ str "\r\n")
  (Outcome.ret r.1, r.2)

/-- One element of a RESP array: `$<decimal length>\r\n<bytes>\r\n`. -/
def resp_bulk (a : Bytes) : Bytes := 36 :: decimal a.length ++ str "\r\n" ++ a ++ str "\r\n"

/-- The RESP array of the elements `args`: `*N\r\n` and then every element. -/
def resp (args : List Bytes) : Bytes :=
  42 :: decimal args.length ++ str "\r\n" ++ (args.map resp_bulk).flatten

/-- The command that the claim gives for a redis SET: `SET key value` without expiry
and offset, `SETRANGE key offset value` with an offset, `SETEX key expiry value`
otherwise. -/
def redis_set_args (key value : Bytes) (expiry offset : Nat) : List Bytes :=
  if expiry = 0 ∧ offset = 0 then [str "SET", key, value]
  else if offset > 0 then [str "SETRANGE", key, decimal offset, value]
  else [str "SETEX", key, decimal expiry, value]

/-- The command that the claim gives for a redis GET: `GET key` without offset,
`GETRANGE key offset -1` with one. -/
def redis_get_args (key : Bytes) (offset : Nat) : List Bytes :=
  if offset = 0 then [str "GET", key] else [str "GETRANGE", key, decimal offset, str "-1"]

/-! ## keylist

The class is declared in `protocol.h`; its members are those that the constructors and
methods in `protocol.cpp` use. `m_buffer` is the block of `m_buffer_size` bytes, and a
pointer into the block (`m_buffer_ptr`, `key_ptr`) is its offset from the start of the
block. -/

/-- Modelled from the spec: an entry of the index array, (pointer-into-buffer, length),
declared in `protocol.h`; `none` is the NULL pointer. -/
structure key_entry where
  key_ptr : Option Nat
  key_len : Nat
  deriving DecidableEq, Repr

/-- Modelled from the spec: the members of the class, declared in `protocol.h`, as the
constructors and methods in `protocol.cpp` use them. -/
structure keylist where
  m_buffer : Bytes
  m_buffer_ptr : Nat
  m_buffer_size : Nat
  m_keys : List key_entry
  m_keys_size : Nat
  m_keys_count : Nat
  deriving DecidableEq, Repr

namespace keylist

def get_keys_count (kl : keylist) : Nat := kl.m_keys_count

/-- The pointer returned (`none` for NULL), as the bytes readable from it up to the
end of the block, and the value of `*key_len` after the call, `key_len` being its
value before. -/
def get_key (kl : keylist) (index : Nat) (key_len : Nat) : Option Bytes × Nat :=
  if index ≥ kl.m_keys_count then (none, key_len)
  else
    ((kl.m_keys.getD index ⟨none, 0⟩).key_ptr.map (fun off => kl.m_buffer.drop off),
     (kl.m_keys.getD index ⟨none, 0⟩).key_len)

end keylist

/-! ## memcache_text_protocol: the encoders -/

namespace memcache_text_protocol

/-- The argument `offset`, which the body does not use, is left out, here and in
`write_command_get`. -/
def write_command_set (ndebug : Bool) (m_write_buf : Bytes) (key : Bytes) (key_len : Int)
    (value : Bytes) (value_len : Int) (expiry : Int) : Outcome × Bytes :=
  if !ndebug ∧ ¬ key_len > 0 then (Outcome.assert_failed, m_write_buf)
  else if !ndebug ∧ ¬ value_len > 0 then (Outcome.assert_failed, m_write_buf)
  else
    let r := evbuffer_add_printf m_write_buf
      (str "set " ++ printf_precision_s key_len key ++ str " 0 " ++ printf_u expiry ++
        str " " ++ printf_u value_len ++ str "\r\n")
    let w2 := evbuffer_add r.2 value (toSizeT value_len)
    let w3 := evbuffer_add w2 (str "\r\n") 2
    (Outcome.ret (toInt32 (r.1 + toInt32 (value_len + 2))), w3)

def write_command_get (ndebug : Bool) (m_write_buf : Bytes) (key : Bytes) (key_len : Int) :
    Outcome × Bytes :=
  if !ndebug ∧ ¬ key_len > 0 then (Outcome.assert_failed, m_write_buf)
  else
    let r := evbuffer_add_printf m_write_buf
      (str "get " ++ printf_precision_s key_len key ++ str "\r\n")
    (Outcome.ret r.1, r.2)

def write_command_get_key (ndebug : Bool) (m_write_buf : Bytes) (key : Bytes)
    (key_len : Int) : Outcome × Bytes :=
  write_command_get ndebug m_write_buf key key_len

/-- The `for` loop of `write_command_multi_get`, from index `i` on, with `fuel`
passes left; `u` is what the uninitialised `key_len` holds. A NULL key fails the
assertion; with `NDEBUG` the next line copies from the null pointer. -/
def multi_get_loop (ndebug : Bool) (kl : keylist) (u : Nat) :
    Nat → Nat → Int → Bytes → Outcome × Bytes
  | 0, _, size, w => (Outcome.ret size, w)
  | fuel + 1, i, size, w =>
    let w1 := evbuffer_add w (str " ") 1
    let size1 := toInt32 (size + 1)
    let got := kl.get_key i u
    match got.1 with
    | none => (if ndebug then Outcome.undefined else Outcome.assert_failed, w1)
    | some key =>
      multi_get_loop ndebug kl u fuel (i + 1) (toInt32 (size1 + got.2))
        (evbuffer_add w1 key got.2)

def write_command_multi_get (ndebug : Bool) (m_write_buf : Bytes) (kl : keylist) (u : Nat) :
    Outcome × Bytes :=
  if !ndebug ∧ ¬ kl.get_keys_count > 0 then (Outcome.assert_failed, m_write_buf)
  else
    let w1 := evbuffer_add m_write_buf (str "get") 3
    match multi_get_loop ndebug kl u kl.get_keys_count 0 3 w1 with
    | (Outcome.ret size, w2) =>
      (Outcome.ret (toInt32 (size + 2)), evbuffer_add w2 (str "\r\n") 2)
    | r => r

end memcache_text_protocol

/-! ## Keylists as the statements see them -/

/-- The entries below `keys_count` exist and point at `key_len` bytes inside the
block, and the count fits an `unsigned int`. -/
def keylist.valid (kl : keylist) : Prop :=
  kl.m_keys_count ≤ kl.m_keys.length ∧ kl.m_keys_count < 4294967296 ∧
  ∀ e ∈ kl.m_keys.take kl.m_keys_count,
    e.key_ptr.isSome = true ∧ e.key_ptr.getD 0 + e.key_len ≤ kl.m_buffer.length ∧
      e.key_len < 4294967296

instance (kl : keylist) : Decidable kl.valid := by
  unfold keylist.valid; infer_instance

/-- The bytes of an entry's key. -/
def keylist.entry_key (kl : keylist) (e : key_entry) : Bytes :=
  (kl.m_buffer.drop (e.key_ptr.getD 0)).take e.key_len

/-- The keys of the list, in order. -/
def keylist.keys (kl : keylist) : List Bytes :=
  (kl.m_keys.take kl.m_keys_count).map kl.entry_key

/-- The line `get <k1> <k2> ...\r\n` of the cache-text protocol. -/
def text_get_line (ks : List Bytes) : Bytes :=
  str "get" ++ (ks.map (fun k => 32 :: k)).flatten ++ str "\r\n"

/-- The cache-text SET command `set <key> 0 <expiry> <value_len>\r\n<value>\r\n`, the
expiry written as the `unsigned int` that `%u` makes of it. -/
def text_set_command (key : Bytes) (expiry : Int) (value : Bytes) : Bytes :=
  str "set " ++ key ++ str " 0 " ++ decimal (toUInt32 expiry) ++ str " " ++
    decimal value.length ++ str "\r\n" ++ value ++ str "\r\n"

/-! ## memcache_binary_protocol: the multi-get encoder -/

/-- Modelled from the spec: `PROTOCOL_BINARY_RAW_BYTES` of `binary.h`. -/
def PROTOCOL_BINARY_RAW_BYTES : UInt8 := 0x00

/-- The `k` low bytes of `n`, most significant first: what `htons` (`k = 2`) and
`htonl` (`k = 4`) store for the value converted to their argument type. -/
def be_bytes : Nat → Nat → Bytes
  | 0, _ => []
  | k + 1, n => UInt8.ofNat (n / 256 ^ k % 256) :: be_bytes k n

/-- Modelled from the spec: the 24-byte request header of `binary.h` (magic, opcode,
keylen, extlen, datatype, vbucket, bodylen, opaque, cas) after `memset(&req, 0, ...)`
and the assignments to magic, opcode, keylen, datatype, bodylen and extlen. -/
def request_header (opcode : UInt8) (keylen : Nat) (extlen : UInt8) (bodylen : Nat) : Bytes :=
  [PROTOCOL_BINARY_REQ, opcode] ++ be_bytes 2 keylen ++ [extlen, PROTOCOL_BINARY_RAW_BYTES] ++
    [0, 0] ++ be_bytes 4 bodylen ++ List.replicate 4 0 ++ List.replicate 8 0

namespace memcache_binary_protocol

/-- The `for` loop of `write_command_multi_get`, from index `i` on, with `fuel` passes
left; the result is `cmd_size` and the write buffer. A NULL key is handed to
`evbuffer_add`, which copies from it. -/
def multi_get_loop (kl : keylist) : Nat → Nat → Int → Bytes → Outcome × Bytes
  | 0, _, cmd_size, w => (Outcome.ret cmd_size, w)
  | fuel + 1, i, cmd_size, w =>
    let got := kl.get_key i 0
    let w1 := evbuffer_add w
      (request_header PROTOCOL_BINARY_CMD_GETKQ got.2 0 got.2) 24
    match got.1 with
    | none => (Outcome.undefined, w1)
    | some key =>
      multi_get_loop kl fuel (i + 1) (toInt32 (cmd_size + (24 + got.2)))
        (evbuffer_add w1 key got.2)

/-- The loop runs while `i < get_keys_count() - 1`, an `unsigned int` difference. -/
def write_command_multi_get (m_write_buf : Bytes) (kl : keylist) : Outcome × Bytes :=
  match multi_get_loop kl (toUInt32 ((kl.get_keys_count : Int) - 1)) 0 0 m_write_buf with
  | (Outcome.ret cmd_size, w) =>
    let got := kl.get_key (toUInt32 ((kl.get_keys_count : Int) - 1)) 0
    let w1 := evbuffer_add w
      (request_header PROTOCOL_BINARY_CMD_GETK got.2 0 got.2) 24
    match got.1 with
    | none => (Outcome.undefined, w1)
    | some last_key =>
      (Outcome.ret (toInt32 (24 + got.2 + cmd_size)), evbuffer_add w1 last_key got.2)
  | r => r

end memcache_binary_protocol

/-- A request frame without extras and without value: the header, whose keylen and
bodylen are the key length, and the key. -/
def getk_frame (opcode : UInt8) (k : Bytes) : Bytes :=
  request_header opcode k.length 0 k.length ++ k

/-- The frames of a binary multi-get: GETKQ for every key but the last, GETK for the
last. -/
def getk_frames : List Bytes → Bytes
  | [] => []
  | [k] => getk_frame PROTOCOL_BINARY_CMD_GETK k
  | k :: k2 :: ks => getk_frame PROTOCOL_BINARY_CMD_GETKQ k ++ getk_frames (k2 :: ks)

/-- A keylist of `n` keys of 65535 bytes each, every key followed by one more byte of
the block, as `add_key` lays them out. -/
def full_keylist (n : Nat) (block : Bytes) : keylist :=
  { m_buffer := block, m_buffer_ptr := n * 65536, m_buffer_size := n * 65536,
    m_keys := (List.range n).map (fun i => ⟨some (i * 65536), 65535⟩),
    m_keys_size := n, m_keys_count := n }

/-! ## Runs of calls on the queues of a response -/

namespace protocol_response

/-- The calls `set_value(v.value, v.value_len, v.key, v.key_len)` for the nodes `v` of a
list, in order. -/
def set_values (r : protocol_response) (vs : List key_val_node) : protocol_response :=
  vs.foldl (fun r v => r.set_value v.value v.value_len v.key v.key_len) r

/-- The calls `set_latency(l)` for the members of a list, in order. -/
def set_latencies (r : protocol_response) (ls : List Nat) : protocol_response :=
  ls.foldl set_latency r

/-- What `k` successive calls of `get_value` return, in call order, and the response
they leave; `none` when one of them finds the queue empty. -/
def get_values : Nat → protocol_response → Option (List key_val_node × protocol_response)
  | 0, r => some ([], r)
  | k + 1, r =>
    match r.get_value with
    | none => none
    | some (v, r1) =>
      match get_values k r1 with
      | none => none
      | some (vs, r2) => some (v :: vs, r2)

/-- What `k` successive calls of `get_latency` return, in call order, and the response
they leave; `none` when one of them finds the queue empty. -/
def get_latencies : Nat → protocol_response → Option (List Nat × protocol_response)
  | 0, r => some ([], r)
  | k + 1, r =>
    match r.get_latency with
    | none => none
    | some (l, r1) =>
      match get_latencies k r1 with
      | none => none
      | some (ls, r2) => some (l :: ls, r2)

end protocol_response

/-! ## memcache_binary_protocol: the SET and AUTH encoders -/

/-- `strchr(s, c)` for a `c` other than NUL: the offset of the first `c` in the C string
at `s`, or `none` (NULL) when the string has none. -/
def strchr (s : Bytes) (c : UInt8) : Option Nat :=
  if ((cstr s).takeWhile (fun b => b != c)).length < (cstr s).length
  then some ((cstr s).takeWhile (fun b => b != c)).length else none

namespace memcache_binary_protocol

/-- Modelled from the spec: `protocol_binary_request_set` of `binary.h` is the 24-byte
header followed by the extras, 4 bytes of flags and 4 bytes of expiration. The argument
`offset`, which the body does not use, is left out. -/
def write_command_set (ndebug : Bool) (m_write_buf : Bytes) (key : Bytes) (key_len : Int)
    (value : Bytes) (value_len : Int) (expiry : Int) : Outcome × Bytes :=
  if !ndebug ∧ ¬ key_len > 0 then (Outcome.assert_failed, m_write_buf)
  else if !ndebug ∧ ¬ value_len > 0 then (Outcome.assert_failed, m_write_buf)
  else
    let req :=
      request_header PROTOCOL_BINARY_CMD_SET (toUInt32 key_len) 8
          (toUInt32 (8 + value_len + key_len)) ++
        [0, 0, 0, 0] ++ be_bytes 4 (toUInt32 expiry)
    let w1 := evbuffer_add m_write_buf req 32
    let w2 := evbuffer_add w1 key (toSizeT key_len)
    let w3 := evbuffer_add w2 value (toSizeT value_len)
    (Outcome.ret (toInt32 (32 + key_len + value_len)), w3)

/-- The lengths `user_len` and `passwd_len` are `int`s. Without a colon in the
credentials the assertion fails; with `NDEBUG` the code goes on to subtract from the
null pointer. -/
def authenticate (ndebug : Bool) (m_write_buf : Bytes) (credentials : Bytes) :
    Outcome × Bytes :=
  match strchr credentials 58 with
  | none => (if ndebug then Outcome.undefined else Outcome.assert_failed, m_write_buf)
  | some colon =>
    let mechanism_len : Int := 5
    let user_len : Int := toInt32 colon
    let passwd := credentials.drop (colon + 1)
    let passwd_len : Int := toInt32 (strlen passwd)
    let req :=
      request_header PROTOCOL_BINARY_CMD_SASL_AUTH (toUInt32 mechanism_len) 0
        (toUInt32 (toInt32 (mechanism_len + user_len + passwd_len + 2)))
    let w1 := evbuffer_add m_write_buf req 24
    let w2 := evbuffer_add w1 (str "PLAIN" ++ [0]) (toSizeT mechanism_len)
    let w3 := evbuffer_add w2 [0] 1
    let w4 := evbuffer_add w3 credentials (toSizeT user_len)
    let w5 := evbuffer_add w4 [0] 1
    let w6 := evbuffer_add w5 passwd (toSizeT passwd_len)
    (Outcome.ret (toInt32 (24 + user_len + passwd_len + 2 + 6 - 1)), w6)

end memcache_binary_protocol

/-! ## Replies of several binary frames -/

/-- A frame that ends a reply: a sane frame whose opcode is not GETKQ, or a header with
magic 0x81 that announces no body and has none. -/
def binary_frame.ends_reply (f : binary_frame) : Prop :=
  (f.sane ∧ f.hdr.opcode ≠ PROTOCOL_BINARY_CMD_GETKQ) ∨
  (f.header.length = 24 ∧ f.hdr.magic = PROTOCOL_BINARY_RES ∧ f.hdr.bodylen = 0 ∧ f.body = [])

instance (f : binary_frame) : Decidable f.ends_reply := by
  unfold binary_frame.ends_reply; infer_instance

/-- The table text of the last frame of a list whose status code is in the table, if
there is one. -/
def reply_status (fs : List binary_frame) : Option Bytes :=
  (fs.reverse.find? (fun g => (glossary_status g.hdr.status).isSome)).bind
    (fun g => glossary_status g.hdr.status)

/-- At least one frame of the list carries a status of the error set. -/
def reply_error (fs : List binary_frame) : Bool :=
  fs.any (fun g => decide (g.hdr.status ∈ glossary_error_codes))

/-! ## keylist: construction, add_key and clear

Every `malloc` and `realloc` is taken to succeed. -/

namespace keylist

/-- The constructor `keylist(max_keys)`, which calls `init`: an array of `max_keys`
zeroed entries and a zeroed block of `256 * max_keys` bytes, a product computed in
`unsigned int`. -/
def init (max_keys : Nat) : keylist :=
  { m_buffer := List.replicate (256 * max_keys % 4294967296) 0,
    m_buffer_ptr := 0,
    m_buffer_size := 256 * max_keys % 4294967296,
    m_keys := List.replicate max_keys ⟨none, 0⟩,
    m_keys_size := max_keys,
    m_keys_count := 0 }

/-- The loop `while (m_buffer_ptr + key_len >= m_buffer + m_buffer_size)
m_buffer_size *= 2;` for at most `fuel` tests of its condition, `need` being
`m_buffer_ptr + key_len - m_buffer`: the size it ends with, or `none` when `fuel` tests
do not end it. The size is an `unsigned int`. -/
def grow_size (need : Nat) : Nat → Nat → Option Nat
  | 0, _ => none
  | fuel + 1, size =>
    if need ≥ size then grow_size need fuel (size * 2 % 4294967296) else some size

/-- The method `add_key(key, key_len)`: `key` stands for the bytes readable from the pointer. The
result is `none` when the loop does not end within `fuel` tests, and otherwise how the
call ends (`ret 0` for false, `ret 1` for true) and the keylist it leaves.

`moved` says what `realloc` does when it is called: with `false` it extends the block
in place, the new bytes holding `fill` (zero where `fill` is too short); with `true` it
returns a block at another address and frees the old one, and since `m_buffer_ptr` is
not updated the `memcpy` that follows writes into the freed block, which is undefined
behaviour. Reading `key_len` bytes from a shorter `key` is undefined as well. -/
def add_key (fuel : Nat) (moved : Bool) (fill : Bytes) (kl : keylist) (key : Bytes)
    (key_len : Nat) : Option (Outcome × keylist) :=
  if kl.m_keys_count ≥ kl.m_keys_size then some (Outcome.ret 0, kl)
  else
    let grown : Option (Bool × keylist) :=
      if kl.m_buffer_ptr + key_len ≥ kl.m_buffer_size then
        (grow_size (kl.m_buffer_ptr + key_len) fuel kl.m_buffer_size).map (fun size =>
          (moved,
            { kl with
              m_buffer_size := size,
              m_buffer := kl.m_buffer ++
                (fill ++ List.replicate size 0).take (size - kl.m_buffer.length) }))
      else some (false, kl)
    match grown with
    | none => none
    | some (stale, kl1) =>
      if stale ∨ key.length < key_len then some (Outcome.undefined, kl1)
      else
        some (Outcome.ret 1,
          { kl1 with
            m_buffer := kl1.m_buffer.take kl1.m_buffer_ptr ++ key.take key_len ++ [0] ++
              kl1.m_buffer.drop (kl1.m_buffer_ptr + key_len + 1),
            m_keys := kl1.m_keys.set kl1.m_keys_count ⟨some kl1.m_buffer_ptr, key_len⟩,
            m_buffer_ptr := kl1.m_buffer_ptr + key_len + 1,
            m_keys_count := kl1.m_keys_count + 1 })

/-- The keylist after `realloc` has extended the block in place to `size` bytes. -/
def grown (kl : keylist) (size : Nat) (fill : Bytes) : keylist :=
  { kl with
    m_buffer_size := size,
    m_buffer := kl.m_buffer ++ (fill ++ List.replicate size 0).take (size - kl.m_buffer.length) }

/-- The keylist after `add_key` has copied the key to the write pointer and entered it
in the array. -/
def stored (kl : keylist) (key : Bytes) (key_len : Nat) : keylist :=
  { kl with
    m_buffer := kl.m_buffer.take kl.m_buffer_ptr ++ key.take key_len ++ [0] ++
      kl.m_buffer.drop (kl.m_buffer_ptr + key_len + 1),
    m_keys := kl.m_keys.set kl.m_keys_count ⟨some kl.m_buffer_ptr, key_len⟩,
    m_buffer_ptr := kl.m_buffer_ptr + key_len + 1,
    m_keys_count := kl.m_keys_count + 1 }

def clear (kl : keylist) : keylist :=
  { kl with m_keys_count := 0, m_buffer_ptr := 0 }

/-- What the constructor, `add_key` and `clear` keep true: the array has
`m_keys_size` entries and the block `m_buffer_size` bytes, both sizes fit an
`unsigned int`, at most `m_keys_size` keys are stored, the write pointer is inside
the block, and every stored key lies, with its NUL, below the write pointer. -/
def wf (kl : keylist) : Prop :=
  kl.m_keys.length = kl.m_keys_size ∧ kl.m_buffer.length = kl.m_buffer_size ∧
  kl.m_keys_size < 4294967296 ∧ kl.m_buffer_size < 4294967296 ∧
  kl.m_keys_count ≤ kl.m_keys_size ∧ kl.m_buffer_ptr ≤ kl.m_buffer_size ∧
  ∀ e ∈ kl.m_keys.take kl.m_keys_count,
    e.key_ptr.isSome = true ∧ e.key_ptr.getD 0 + e.key_len < kl.m_buffer_ptr

instance (kl : keylist) : Decidable kl.wf := by
  unfold wf; infer_instance

/-- One call of `add_key` as the statements describe it: the key, its length, and
the bytes that `realloc`, extending the block in place, leaves in the new part. -/
structure call where
  key : Bytes
  key_len : Nat
  fill : Bytes
  deriving DecidableEq, Repr

/-- The calls of a list in turn, `realloc` extending the block in place whenever it is
called: the keylist they leave, or `none` unless every call returns true. -/
def add_keys (fuel : Nat) : keylist → List call → Option keylist
  | kl, [] => some kl
  | kl, c :: cs =>
    match add_key fuel false c.fill kl c.key c.key_len with
    | some (Outcome.ret 1, kl1) => add_keys fuel kl1 cs
    | _ => none

/-- A call of `add_key` or of `clear`, with what the call of `add_key` finds: the
fuel of its loop and what `realloc` does. -/
inductive op where
  | add (fuel : Nat) (moved : Bool) (fill key : Bytes) (key_len : Nat)
  | clear

/-- A sequence of calls: the keylist after them, or `none` when a call of `add_key`
does not return. -/
def run : keylist → List op → Option keylist
  | kl, [] => some kl
  | kl, op.clear :: os => run kl.clear os
  | kl, op.add fuel moved fill key key_len :: os =>
    match add_key fuel moved fill kl key key_len with
    | some (Outcome.ret _, kl1) => run kl1 os
    | _ => none

end keylist

/-! ## keylist: the copy constructor -/

namespace keylist

/-- The `for` loop of the copy constructor from index `i` on, with `n` passes left, on
the keylist `kl` under construction: `get_key(i, &key_length)` on the source, with
`key_length` set to 0 before, then `add_key(key, key_length)`, whose result the loop
does not look at. `moved i` and `fill i` say what `realloc` does in pass `i`, and `fuel`
bounds the loop of each `add_key`. The result is `none` when a call of `add_key` does
not return, `some none` when a pass has undefined behaviour, and otherwise the keylist
after the last pass. A null key reaches `add_key` as a null pointer: the call returns
false on a full keylist and otherwise copies from the null pointer. -/
def copy_loop (fuel : Nat) (moved : Nat → Bool) (fill : Nat → Bytes) (source : keylist) :
    Nat → Nat → keylist → Option (Option keylist)
  | 0, _, kl => some (some kl)
  | n + 1, i, kl =>
    let got := source.get_key i 0
    match got.1 with
    | none =>
      match add_key fuel (moved i) (fill i) kl [] got.2 with
      | none => none
      | some (o, kl1) =>
        if o = Outcome.ret 0 then copy_loop fuel moved fill source n (i + 1) kl1
        else some none
    | some key =>
      match add_key fuel (moved i) (fill i) kl key got.2 with
      | none => none
      | some (Outcome.ret _, kl1) => copy_loop fuel moved fill source n (i + 1) kl1
      | some (_, _) => some none

/-- The copy constructor `keylist(const keylist &source)`: `init` with the number of
keys of the source, then one pass of the loop for each of them. -/
def copy (fuel : Nat) (moved : Nat → Bool) (fill : Nat → Bytes) (source : keylist) :
    Option (Option keylist) :=
  copy_loop fuel moved fill source source.get_keys_count 0 (init source.get_keys_count)

end keylist

/-! # Theorems -/


/-! ## Lemmas on the library model and the loop -/

theorem evbuffer_readln_line (line rest : Bytes) (h : has_crlf line = false) :
    evbuffer_readln (line ++ 13 :: 10 :: rest) = some (line, rest) := by
  induction line with
  | nil => simp [evbuffer_readln]
  | cons a l ih =>
    cases l with
    | nil =>
      by_cases ha : a = 13
      · subst ha
        simp [evbuffer_readln]
      · simp [evbuffer_readln, ha]
    | cons b l2 =>
      simp only [has_crlf, Bool.or_eq_false_iff, Bool.and_eq_false_iff] at h
      have ih2 := ih h.2
      simp only [List.cons_append] at ih2 ⊢
      have h1 : ¬ (a = 13 ∧ b = 10) := by
        rcases h.1 with h1 | h1
        · simp at h1; tauto
        · simp at h1; tauto
      simp only [evbuffer_readln, h1, if_false, ih2]

theorem has_crlf_of_no_lf (line : Bytes) (h : ∀ c ∈ line, c ≠ 10) : has_crlf line = false := by
  induction line with
  | nil => rfl
  | cons a l ih =>
    cases l with
    | nil => rfl
    | cons b l2 =>
      have hb : b ≠ 10 := h b (by simp)
      simp only [has_crlf, Bool.or_eq_false_iff, Bool.and_eq_false_iff]
      refine ⟨Or.inr (by simpa using hb), ih (fun c hc => h c (List.mem_cons_of_mem _ hc))⟩

theorem iterate_done {σ : Type} (step : σ → Step σ) (n : Nat) (s s1 : σ) (o : Outcome)
    (h : step s = Step.done o s1) : iterate step (n + 1) s = some (o, s1) := by
  simp [iterate, h]

theorem iterate_again {σ : Type} (step : σ → Step σ) (n : Nat) (s s1 : σ)
    (h : step s = Step.again s1) : iterate step (n + 1) s = iterate step n s1 := by
  simp [iterate, h]

theorem iterate_mono {σ : Type} (step : σ → Step σ) (n k : Nat) (s : σ) (r : Outcome × σ)
    (h : iterate step n s = some r) : iterate step (n + k) s = some r := by
  induction n generalizing s with
  | zero => simp [iterate] at h
  | succ n ih =>
    have e : n + 1 + k = (n + k) + 1 := by omega
    rw [e]
    cases hs : step s with
    | again s1 =>
      rw [iterate_again step _ s s1 hs] at h ⊢
      exact ih s1 h
    | done o s1 =>
      rw [iterate_done step _ s s1 o hs] at h ⊢
      exact h

theorem digit_toNat (d : Nat) (h : d < 10) : (UInt8.ofNat (48 + d)).toNat = 48 + d :=
  UInt8.toNat_ofNat_of_lt (by simp [UInt8.size]; omega)

theorem digit_isdigit (d : Nat) (h : d < 10) : isdigit (UInt8.ofNat (48 + d)) = true := by
  simp [isdigit, digit_toNat d h]; omega

theorem decimal_digits_value (fuel : Nat) :
    ∀ (n acc : Nat) (rest : Bytes), n < fuel →
      digits_value acc (decimal_digits fuel n ++ rest)
        = digits_value (acc * 10 ^ (decimal_digits fuel n).length + n) rest := by
  induction fuel with
  | zero => intro n acc rest h; omega
  | succ fuel ih =>
    intro n acc rest h
    unfold decimal_digits
    by_cases h10 : n < 10
    · simp [h10, digits_value, digit_isdigit n h10, digit_toNat n h10]
    · simp only [h10, if_false, List.append_assoc, List.length_append, List.length_singleton]
      rw [ih (n / 10) acc _ (by omega)]
      have hd : n % 10 < 10 := Nat.mod_lt _ (by omega)
      simp only [List.singleton_append, digits_value, digit_isdigit _ hd, digit_toNat _ hd, if_true]
      congr 1
      rw [pow_succ]
      have := Nat.div_add_mod n 10
      have e : 48 + n % 10 - 48 = n % 10 := by omega
      rw [e]
      nlinarith [Nat.div_add_mod n 10]

theorem decimal_digits_all (fuel : Nat) :
    ∀ n, ∀ c ∈ decimal_digits fuel n, isdigit c = true := by
  induction fuel with
  | zero => intro n c hc; simp [decimal_digits] at hc
  | succ fuel ih =>
    intro n c hc
    unfold decimal_digits at hc
    by_cases h10 : n < 10
    · simp [h10] at hc; subst hc; exact digit_isdigit n h10
    · simp only [h10, if_false, List.mem_append, List.mem_singleton] at hc
      rcases hc with hc | hc
      · exact ih _ c hc
      · subst hc; exact digit_isdigit _ (Nat.mod_lt _ (by omega))

theorem decimal_ne_nil (n : Nat) : decimal n ≠ [] := by
  unfold decimal decimal_digits
  by_cases h10 : n < 10 <;> simp [h10]

theorem decimal_value (n acc : Nat) (rest : Bytes) :
    digits_value acc (decimal n ++ rest) = digits_value (acc * 10 ^ (decimal n).length + n) rest :=
  decimal_digits_value (n + 1) n acc rest (by omega)

theorem decimal_all (n : Nat) : ∀ c ∈ decimal n, isdigit c = true := decimal_digits_all (n + 1) n

theorem isdigit_not_space (c : UInt8) (h : isdigit c = true) : isspace c = false := by
  simp only [isdigit, Bool.and_eq_true, decide_eq_true_eq] at h
  simp only [isspace, Bool.or_eq_false_iff, decide_eq_false_iff_not, Bool.and_eq_false_iff]
  omega

theorem isdigit_toNat (c : UInt8) (h : isdigit c = true) : 48 ≤ c.toNat ∧ c.toNat ≤ 57 := by
  simpa [isdigit] using h

theorem strtol_decimal (n : Nat) : strtol (decimal n) = min 9223372036854775807 (n : Int) := by
  have hv := decimal_value n 0 []
  simp only [List.append_nil, digits_value, Nat.zero_mul, Nat.zero_add] at hv
  have hall := decimal_all n
  have hne := decimal_ne_nil n
  cases hd : decimal n with
  | nil => exact absurd hd hne
  | cons c t =>
    rw [hd] at hv hall
    have hc : isdigit c = true := hall c (by simp)
    have hsp := isdigit_not_space c hc
    have hr := isdigit_toNat c hc
    unfold strtol
    simp only [List.dropWhile, hsp]
    split
    · rename_i heq
      simp only [List.cons.injEq] at heq
      rw [heq.1] at hc
      exact absurd hc (by decide)
    · rename_i heq
      simp only [List.cons.injEq] at heq
      rw [heq.1] at hc
      exact absurd hc (by decide)
    · rw [hv]

theorem has_crlf_dollar_decimal (n : Nat) : has_crlf (36 :: decimal n) = false := by
  apply has_crlf_of_no_lf
  intro c hc
  simp only [List.mem_cons] at hc
  rcases hc with hc | hc
  · subst hc; decide
  · have hd := decimal_all n c hc
    intro h; subst h; exact absurd hd (by decide)

/-! ## redis_protocol: replies -/


theorem redis_single_line (latency : Nat) (p : redis_protocol) (line rest : Bytes)
    (hs : p.m_response_state = redis_response_state.rs_initial)
    (hb : p.m_read_buf = line ++ 13 :: 10 :: rest)
    (hc : has_crlf line = false)
    (hh : line.head? = some 43 ∨ line.head? = some 45 ∨ line.head? = some 58) :
    p.parse_response latency = some (Outcome.ret 1,
      { p with m_read_buf := rest, m_response_len := line.length + 2,
               m_last_response :=
                 { m_status := some line, m_values := [], m_latencies := [latency],
                   m_value_len := 0, m_total_len := (line.length + 2) % 4294967296,
                   m_hits := 0, m_error := decide (line.head? = some 45) } }) := by
  cases line with
  | nil => simp at hh
  | cons a l =>
    simp only [List.head?_cons, Option.some.injEq] at hh
    unfold redis_protocol.parse_response
    apply iterate_done
    unfold redis_protocol.step
    rw [hs]
    simp only [hb, evbuffer_readln_line _ _ hc]
    rcases hh with h | h | h <;> subst h <;> rfl

theorem bulk_len_of_decimal (L : Nat) (hL : L + 2 < 4294967296) :
    toInt32 (strtol (decimal L)) ≠ -1 ∧ toUInt32 (toInt32 (strtol (decimal L))) = L := by
  rw [strtol_decimal]
  have e : min (9223372036854775807 : Int) (L : Int) = L := by omega
  rw [e]
  unfold toInt32 toUInt32
  constructor
  · simp only; split <;> omega
  · simp only; split <;> omega

theorem redis_bulk (latency : Nat) (p : redis_protocol) (L : Nat) (payload rest : Bytes)
    (hs : p.m_response_state = redis_response_state.rs_initial)
    (hb : p.m_read_buf = 36 :: decimal L ++ 13 :: 10 :: (payload ++ 13 :: 10 :: rest))
    (hl : payload.length = L) (hL : L + 2 < 4294967296) :
    p.parse_response latency = some (Outcome.ret 1,
      { p with
        m_read_buf := rest,
        m_bulk_len := L,
        m_response_len := (decimal L).length + 3,
        m_last_response :=
          { m_status := some (36 :: decimal L),
            m_values := if p.m_keep_value = true ∧ L > 0 then [⟨some payload, L, none, 0⟩] else [],
            m_latencies := [latency],
            m_value_len := if p.m_keep_value = true ∧ L > 0 then L else 0,
            m_total_len := ((decimal L).length + 3 + L + 2) % 4294967296,
            m_hits := if L > 0 then 1 else 0,
            m_error := false } }) := by
  obtain ⟨h1, h2⟩ := bulk_len_of_decimal L hL
  have hc := has_crlf_dollar_decimal L
  unfold redis_protocol.parse_response
  rw [iterate_again (redis_protocol.step latency) 1 p
    { p with m_read_buf := payload ++ 13 :: 10 :: rest,
             m_response_len := (decimal L).length + 3,
             m_bulk_len := L,
             m_response_state := redis_response_state.rs_read_bulk,
             m_last_response := ((p.m_last_response.clear).set_latency latency).set_status
                (some (36 :: decimal L)) }]
  · apply iterate_done
    unfold redis_protocol.step
    have hmod : (L + 2) % 4294967296 = L + 2 := Nat.mod_eq_of_lt hL
    have hlen : L + 2 ≤ (payload ++ 13 :: 10 :: rest).length := by simp [hl]
    simp only [evbuffer_get_length, hmod, ge_iff_le, hlen, if_true, evbuffer_remove,
      evbuffer_drain]
    by_cases hk : p.m_keep_value = true ∧ L > 0
    · have ht : List.take L (payload ++ 13 :: 10 :: rest) = payload := by
        rw [← hl]; simp
      have hd : List.drop 2 (List.drop L (payload ++ 13 :: 10 :: rest)) = rest := by
        rw [← hl]; simp
      have hpos : L > 0 := hk.2
      simp only [hk, and_self, if_true, ht, hd, hpos]
      simp [protocol_response.set_total_len, protocol_response.incr_hits,
        protocol_response.set_value, protocol_response.set_status,
        protocol_response.set_latency, protocol_response.clear, hs.symm]
    · have hd : List.drop (L + 2) (payload ++ 13 :: 10 :: rest) = rest := by
        rw [← hl, ← List.drop_drop]; simp
      simp only [hk, if_false, hd]
      by_cases hpos : L > 0
      · simp [hpos, protocol_response.set_total_len, protocol_response.incr_hits,
          protocol_response.set_value, protocol_response.set_status,
          protocol_response.set_latency, protocol_response.clear, hs.symm]
      · simp [hpos, protocol_response.set_total_len, protocol_response.incr_hits,
          protocol_response.set_value, protocol_response.set_status,
          protocol_response.set_latency, protocol_response.clear, hs.symm]
  · unfold redis_protocol.step
    rw [hs]
    have hb2 : p.m_read_buf = (36 :: decimal L) ++ 13 :: 10 :: (payload ++ 13 :: 10 :: rest) := by
      rw [hb]
    simp only [hb2, evbuffer_readln_line _ _ hc]
    simp [h1, h2]

theorem redis_initial_empty (latency : Nat) (p : redis_protocol)
    (hs : p.m_response_state = redis_response_state.rs_initial) (hb : p.m_read_buf = []) :
    p.parse_response latency = some (Outcome.ret 0, { p with m_response_len := 0 }) := by
  unfold redis_protocol.parse_response
  apply iterate_done
  unfold redis_protocol.step
  rw [hs]
  simp [hb, evbuffer_readln]

/-- C3: a redis parser in the Initial state fed `$-1\r\n` returns 1 with status "$-1",
error=false and hits=0 after consuming the 5 bytes, but the nil branch never calls
`set_total_len`: total_len is left at the 0 that `clear` put there, not 5. -/
theorem redis_nil_bulk (rest : Bytes) (keep : Bool) (r : protocol_response)
    (b n latency : Nat) :
    redis_protocol.parse_response
      { m_read_buf := str "$-1\r\n" ++ rest, m_keep_value := keep, m_last_response := r,
        m_response_state := redis_response_state.rs_initial, m_bulk_len := b,
        m_response_len := n } latency
    = some (Outcome.ret 1,
      { m_read_buf := rest, m_keep_value := keep,
        m_last_response :=
          { m_status := some (str "$-1"), m_values := [], m_latencies := [latency],
            m_value_len := 0, m_total_len := 0, m_hits := 0, m_error := false },
        m_response_state := redis_response_state.rs_initial, m_bulk_len := b,
        m_response_len := 5 }) := by
  rfl

theorem redis_nil_header (rest : Bytes) :
    redis_protocol.parse_response
      (redis_protocol.new (str "$4294967295\r\n" ++ rest) true 0) 0
    = some (Outcome.ret 1,
      { m_read_buf := rest, m_keep_value := true,
        m_last_response :=
          { m_status := some (str "$4294967295"), m_values := [], m_latencies := [0],
            m_value_len := 0, m_total_len := 0, m_hits := 0, m_error := false },
        m_response_state := redis_response_state.rs_initial, m_bulk_len := 0,
        m_response_len := 13 }) := by
  rfl

/-- C4 as stated fails for lengths that do not fit the 32-bit `int`: the header
`$4294967295` parses to -1, so the call completes at once as a nil bulk with hits = 0
and total_len = 0, and the 4294967295 payload bytes and their CR LF stay in the buffer. -/
theorem redis_bulk_length_wraps :
    redis_protocol.parse_response
      (redis_protocol.new
        (str "$4294967295\r\n" ++ (List.replicate 4294967295 120 ++ str "\r\n")) true 0) 0
    = some (Outcome.ret 1,
      { m_read_buf := List.replicate 4294967295 120 ++ str "\r\n", m_keep_value := true,
        m_last_response :=
          { m_status := some (str "$4294967295"), m_values := [], m_latencies := [0],
            m_value_len := 0, m_total_len := 0, m_hits := 0, m_error := false },
        m_response_state := redis_response_state.rs_initial, m_bulk_len := 0,
        m_response_len := 13 }) :=
  redis_nil_header _

/-- C4 (amended): for every L and payload of L bytes such that the whole reply is
shorter than 2^32 bytes, a redis parser in the Initial state fed `$<L>\r\n<payload>\r\n`
returns 1 having consumed exactly the reply, with status `$<L>`, error=false,
total_len = (header line length + 2) + L + 2, hits = 1 if L > 0 and 0 if L = 0, and,
when retention is on and L > 0, the payload as the single queued value; with nothing
behind the reply the next call returns 0. -/
theorem redis_bulk_reply (latency : Nat) (p : redis_protocol) (L : Nat) (payload rest : Bytes)
    (hs : p.m_response_state = redis_response_state.rs_initial)
    (hb : p.m_read_buf = 36 :: decimal L ++ 13 :: 10 :: (payload ++ 13 :: 10 :: rest))
    (hl : payload.length = L)
    (hL : (36 :: decimal L).length + 2 + L + 2 < 4294967296) :
    ∃ p1, p.parse_response latency = some (Outcome.ret 1, p1) ∧
      p1.m_read_buf = rest ∧
      p1.m_response_state = redis_response_state.rs_initial ∧
      p1.m_last_response =
        { m_status := some (36 :: decimal L),
          m_values := if p.m_keep_value = true ∧ L > 0 then [⟨some payload, L, none, 0⟩] else [],
          m_latencies := [latency],
          m_value_len := if p.m_keep_value = true ∧ L > 0 then L else 0,
          m_total_len := (36 :: decimal L).length + 2 + L + 2,
          m_hits := if L > 0 then 1 else 0,
          m_error := false } ∧
      (rest = [] → ∃ p2, p1.parse_response latency = some (Outcome.ret 0, p2)) := by
  simp only [List.length_cons] at hL
  refine ⟨_, redis_bulk latency p L payload rest hs hb hl (by omega), rfl, hs, ?_, ?_⟩
  · have e : ((decimal L).length + 3 + L + 2) % 4294967296 = (decimal L).length + 3 + L + 2 :=
      Nat.mod_eq_of_lt (by omega)
    simp only [e, List.length_cons]
  · intro hr
    exact ⟨_, redis_initial_empty latency _ hs hr⟩

theorem redis_bulk_reply_witness :
    ∃ p1, (redis_protocol.new (str "$5\r\nhello\r\n") true 0).parse_response 7
        = some (Outcome.ret 1, p1) ∧
      p1.m_read_buf = [] ∧
      p1.m_response_state = redis_response_state.rs_initial ∧
      p1.m_last_response =
        { m_status := some (str "$5"),
          m_values := [⟨some (str "hello"), 5, none, 0⟩],
          m_latencies := [7], m_value_len := 5, m_total_len := 11, m_hits := 1,
          m_error := false } ∧
      ([] = ([] : Bytes) → ∃ p2, p1.parse_response 7 = some (Outcome.ret 0, p2)) :=
  redis_bulk_reply 7 (redis_protocol.new (str "$5\r\nhello\r\n") true 0) 5 (str "hello") []
    rfl rfl rfl (by decide)

theorem redis_single_line_long (l : Bytes) (hl : l.length = 4294967293)
    (hno : ∀ c ∈ l, c ≠ 10) :
    (redis_protocol.parse_response
      (redis_protocol.new (43 :: l ++ [13, 10]) false 0) 0).map
        (fun x => (x.1, x.2.m_last_response.m_status, x.2.m_last_response.m_total_len))
      = some (Outcome.ret 1, some (43 :: l), 0) ∧
    (43 :: l).length + 2 = 4294967296 := by
  constructor
  · rw [redis_single_line 0 _ (43 :: l) [] rfl rfl
      (has_crlf_of_no_lf _ (by
        intro c hc
        simp only [List.mem_cons] at hc
        rcases hc with hc | hc
        · subst hc; decide
        · exact hno c hc)) (Or.inl rfl)]
    simp [hl]
  · simp [hl]

/-- C5 as stated fails for a line of 2^32 - 2 bytes: `set_total_len` takes an
`unsigned int`, so total_len is 0 and not the line length plus 2. -/
theorem redis_single_line_length_wraps :
    (redis_protocol.parse_response
      (redis_protocol.new (43 :: List.replicate 4294967293 120 ++ [13, 10]) false 0) 0).map
        (fun x => (x.1, x.2.m_last_response.m_status, x.2.m_last_response.m_total_len))
      = some (Outcome.ret 1, some (43 :: List.replicate 4294967293 120), 0) ∧
    (43 :: List.replicate 4294967293 120 : Bytes).length + 2 = 4294967296 := by
  have h1 : (List.replicate 4294967293 (120 : UInt8)).length = 4294967293 :=
    List.length_replicate _ _
  have h2 : ∀ c ∈ List.replicate 4294967293 (120 : UInt8), c ≠ 10 := by
    intro c hc
    have e : c = 120 := List.eq_of_mem_replicate hc
    clear hc
    subst e
    decide
  exact redis_single_line_long _ h1 h2

/-- C5 (amended): for every line without CR LF, shorter than 2^32 - 2 bytes, whose
first byte is '+', '-' or ':', a redis parser in the Initial state fed the line and
CR LF returns 1 having consumed exactly these bytes, with status equal to the line,
hits=0, total_len = line length + 2, no queued value, and error = true exactly when
the first byte is '-'. -/
theorem redis_single_line_reply (latency : Nat) (p : redis_protocol) (line rest : Bytes)
    (hs : p.m_response_state = redis_response_state.rs_initial)
    (hb : p.m_read_buf = line ++ 13 :: 10 :: rest)
    (hc : has_crlf line = false)
    (hh : line.head? = some 43 ∨ line.head? = some 45 ∨ line.head? = some 58)
    (hlen : line.length + 2 < 4294967296) :
    ∃ p1, p.parse_response latency = some (Outcome.ret 1, p1) ∧
      p1.m_read_buf = rest ∧
      p1.m_response_state = redis_response_state.rs_initial ∧
      p1.m_last_response.m_status = some line ∧
      p1.m_last_response.m_hits = 0 ∧
      p1.m_last_response.m_total_len = line.length + 2 ∧
      p1.m_last_response.m_values = [] ∧
      (p1.m_last_response.m_error = true ↔ line.head? = some 45) := by
  refine ⟨_, redis_single_line latency p line rest hs hb hc hh, rfl, hs, rfl, rfl, ?_, rfl, ?_⟩
  · exact Nat.mod_eq_of_lt hlen
  · simp

theorem redis_single_line_reply_witness :
    ∃ p1, (redis_protocol.new (str "+OK\r\n") false 0).parse_response 7
        = some (Outcome.ret 1, p1) ∧
      p1.m_read_buf = [] ∧
      p1.m_response_state = redis_response_state.rs_initial ∧
      p1.m_last_response.m_status = some (str "+OK") ∧
      p1.m_last_response.m_hits = 0 ∧
      p1.m_last_response.m_total_len = 5 ∧
      p1.m_last_response.m_values = [] ∧
      (p1.m_last_response.m_error = true ↔ (str "+OK").head? = some 45) :=
  redis_single_line_reply 7 (redis_protocol.new (str "+OK\r\n") false 0) (str "+OK") []
    rfl rfl rfl (Or.inl rfl) (by decide)

theorem status_text_eq_glossary (p : memcache_binary_protocol) :
    p.status_text = glossary_status p.m_response_hdr.status := by
  unfold memcache_binary_protocol.status_text
  generalize p.m_response_hdr.status = s
  simp only
  by_cases h1 : s ≤ 0x07
  · simp only [h1, if_true]
    interval_cases s <;> rfl
  · simp only [h1, if_false]
    by_cases h2 : s ≥ 0x20 ∧ s ≤ 0x21
    · simp only [h2, and_self, if_true]
      obtain ⟨h2a, h2b⟩ := h2
      interval_cases s <;> rfl
    · simp only [h2, if_false]
      by_cases h3 : s ≥ 0x80 ∧ s ≤ 0x86
      · simp only [h3, and_self, if_true]
        obtain ⟨h3a, h3b⟩ := h3
        interval_cases s <;> rfl
      · simp only [h3, if_false]
        unfold glossary_status glossary_status_codes
        have hne : ∀ k : Nat, (k ≤ 7 ∨ (0x20 ≤ k ∧ k ≤ 0x21) ∨ (0x80 ≤ k ∧ k ≤ 0x86)) →
            (k == s) = false := by
          intro k hk
          simp only [beq_eq_false_iff_ne, ne_eq]
          omega
        simp [List.find?, hne]

theorem remove_header (hb rest : Bytes) (h : hb.length = 24) :
    evbuffer_remove (hb ++ rest) 24 = (hb, rest) := by
  unfold evbuffer_remove
  rw [← h]
  simp

theorem binary_header (latency : Nat) (p : memcache_binary_protocol) (hb rest : Bytes)
    (hbuf : p.m_read_buf = hb ++ rest) (hlen : hb.length = 24)
    (hmagic : (read_header hb).magic = PROTOCOL_BINARY_RES) :
    memcache_binary_protocol.multi_initial latency p =
      if (read_header hb).bodylen > 0 then
        Step.again
          { p with m_read_buf := rest, m_response_hdr := read_header hb,
                   m_response_len := p.m_response_len + 24,
                   m_last_response := after_header p.m_last_response (read_header hb).status
                     (p.m_response_len + 24) latency,
                   m_response_state := binary_response_state.rs_read_body }
      else
        Step.done (Outcome.ret 1)
          { p with m_read_buf := rest, m_response_hdr := read_header hb,
                   m_response_len := p.m_response_len + 24,
                   m_last_response := after_header p.m_last_response (read_header hb).status
                     (p.m_response_len + 24) latency } := by
  unfold memcache_binary_protocol.multi_initial
  have hl : ¬ (evbuffer_get_length (hb ++ rest) < 24) := by
    simp [evbuffer_get_length, hlen]
  simp only [hbuf, hl, if_false, remove_header hb rest hlen, hmagic, ne_eq, not_true_eq_false,
    status_text_eq_glossary]
  have hresp : (if (read_header hb).status = PROTOCOL_BINARY_RESPONSE_EINVAL ∨
                   (read_header hb).status = PROTOCOL_BINARY_RESPONSE_AUTH_ERROR ∨
                   (read_header hb).status = PROTOCOL_BINARY_RESPONSE_AUTH_CONTINUE ∨
                   (read_header hb).status = PROTOCOL_BINARY_RESPONSE_NOT_SUPPORTED ∨
                   (read_header hb).status = PROTOCOL_BINARY_RESPONSE_UNKNOWN_COMMAND ∨
                   (read_header hb).status = PROTOCOL_BINARY_RESPONSE_NOT_SUPPORTED ∨
                   (read_header hb).status = PROTOCOL_BINARY_RESPONSE_EBUSY
                then (match glossary_status (read_header hb).status with
                      | some s => (p.m_last_response.set_total_len (p.m_response_len + 24)).set_status (some s)
                      | none => p.m_last_response.set_total_len (p.m_response_len + 24)).set_error true
                else (match glossary_status (read_header hb).status with
                      | some s => (p.m_last_response.set_total_len (p.m_response_len + 24)).set_status (some s)
                      | none => p.m_last_response.set_total_len (p.m_response_len + 24))).set_latency latency
        = after_header p.m_last_response (read_header hb).status (p.m_response_len + 24) latency := by
    generalize (read_header hb).status = s
    have hcond : (s = PROTOCOL_BINARY_RESPONSE_EINVAL ∨
                   s = PROTOCOL_BINARY_RESPONSE_AUTH_ERROR ∨
                   s = PROTOCOL_BINARY_RESPONSE_AUTH_CONTINUE ∨
                   s = PROTOCOL_BINARY_RESPONSE_NOT_SUPPORTED ∨
                   s = PROTOCOL_BINARY_RESPONSE_UNKNOWN_COMMAND ∨
                   s = PROTOCOL_BINARY_RESPONSE_NOT_SUPPORTED ∨
                   s = PROTOCOL_BINARY_RESPONSE_EBUSY) ↔ s ∈ glossary_error_codes := by
      simp only [glossary_error_codes, List.mem_cons, List.mem_singleton, List.not_mem_nil,
        or_false, PROTOCOL_BINARY_RESPONSE_EINVAL, PROTOCOL_BINARY_RESPONSE_AUTH_ERROR,
        PROTOCOL_BINARY_RESPONSE_AUTH_CONTINUE, PROTOCOL_BINARY_RESPONSE_NOT_SUPPORTED,
        PROTOCOL_BINARY_RESPONSE_UNKNOWN_COMMAND, PROTOCOL_BINARY_RESPONSE_EBUSY]
      omega
    unfold after_header
    by_cases he : s ∈ glossary_error_codes
    · rw [if_pos (hcond.2 he)]
      cases hg : glossary_status s <;>
        simp [protocol_response.set_total_len, protocol_response.set_status,
          protocol_response.set_error, protocol_response.set_latency, he]
    · rw [if_neg (fun h => he (hcond.1 h))]
      cases hg : glossary_status s <;>
        simp [protocol_response.set_total_len, protocol_response.set_status,
          protocol_response.set_error, protocol_response.set_latency, he]
  simp only [hresp]

theorem binary_zero_body_fresh (ndebug : Bool) (latency : Nat) (keep : Bool) (t0 : Nat)
    (hdr0 : protocol_binary_response_header) (hb rest : Bytes)
    (hlen : hb.length = 24)
    (hmagic : (read_header hb).magic = PROTOCOL_BINARY_RES)
    (hbody : (read_header hb).bodylen = 0) :
    memcache_binary_protocol.parse_response ndebug
      (memcache_binary_protocol.new (hb ++ rest) keep t0 hdr0) latency
    = some (Outcome.ret 1,
        { m_read_buf := rest, m_keep_value := keep,
          m_last_response :=
            after_header (protocol_response.new t0).clear (read_header hb).status 24 latency,
          m_response_state := binary_response_state.rs_multi_initial,
          m_response_hdr := read_header hb, m_response_len := 24 }) := by
  unfold memcache_binary_protocol.parse_response
  apply iterate_done
  unfold memcache_binary_protocol.step
  simp only [memcache_binary_protocol.new]
  rw [binary_header latency _ hb rest rfl hlen hmagic]
  simp [hbody]

theorem binary_multi_initial_empty (ndebug : Bool) (latency : Nat)
    (p : memcache_binary_protocol)
    (hs : p.m_response_state = binary_response_state.rs_multi_initial)
    (hb : p.m_read_buf.length < 24) :
    p.parse_response ndebug latency = some (Outcome.ret 0, p) := by
  unfold memcache_binary_protocol.parse_response
  apply iterate_done
  unfold memcache_binary_protocol.step
  rw [hs]
  simp [memcache_binary_protocol.multi_initial, evbuffer_get_length, hb]

/-- C8: for a single 24-byte response header with magic 0x81 and bodylen 0, whose
status field spells the code s in network order, a fresh binary parser returns 1
having consumed the header, with total_len = 24 and hits = 0; the status is the
name the glossary table gives to s, and none for a code outside the table; and
error = true if and only if s is in the error set (EINVAL, AUTH_ERROR,
AUTH_CONTINUE, NOT_SUPPORTED, UNKNOWN_COMMAND, EBUSY). -/
theorem binary_status_classification (ndebug : Bool) (latency : Nat) (keep : Bool) (t0 : Nat)
    (hdr0 : protocol_binary_response_header) (hb : Bytes)
    (hlen : hb.length = 24)
    (hmagic : (read_header hb).magic = 0x81)
    (hbody : (read_header hb).bodylen = 0) :
    ∃ p1, memcache_binary_protocol.parse_response ndebug
        (memcache_binary_protocol.new hb keep t0 hdr0) latency = some (Outcome.ret 1, p1) ∧
      p1.m_read_buf = [] ∧
      p1.m_last_response.m_total_len = 24 ∧
      p1.m_last_response.m_hits = 0 ∧
      p1.m_last_response.m_status = glossary_status (be_value ((hb.drop 6).take 2)) ∧
      (p1.m_last_response.m_error = true ↔
        be_value ((hb.drop 6).take 2) ∈ glossary_error_codes) := by
  have h := binary_zero_body_fresh ndebug latency keep t0 hdr0 hb [] hlen hmagic hbody
  rw [List.append_nil] at h
  refine ⟨_, h, rfl, rfl, rfl, ?_, ?_⟩
  · show (glossary_status (read_header hb).status).orElse (fun _ => none)
      = glossary_status (read_header hb).status
    cases glossary_status (read_header hb).status <;> rfl
  · show ((false || decide ((read_header hb).status ∈ glossary_error_codes)) = true) ↔ _
    simp [read_header]

theorem binary_status_classification_witness :
    ∃ p1, memcache_binary_protocol.parse_response false
        (memcache_binary_protocol.new set_success_header false 0 ⟨0, 0, 0, 0, 0, 0, 0, 0, 0⟩) 7
          = some (Outcome.ret 1, p1) ∧
      p1.m_read_buf = [] ∧
      p1.m_last_response.m_total_len = 24 ∧
      p1.m_last_response.m_hits = 0 ∧
      p1.m_last_response.m_status
        = glossary_status (be_value ((set_success_header.drop 6).take 2)) ∧
      (p1.m_last_response.m_error = true ↔
        be_value ((set_success_header.drop 6).take 2) ∈ glossary_error_codes) :=
  binary_status_classification false 7 false 0 ⟨0, 0, 0, 0, 0, 0, 0, 0, 0⟩ set_success_header
    rfl rfl rfl

theorem redis_ok_reply (keep : Bool) (t0 latency : Nat) :
    (redis_protocol.new (str "+OK\r\n") keep t0).parse_response latency
    = some (Outcome.ret 1,
        { m_read_buf := [], m_keep_value := keep,
          m_last_response :=
            { m_status := some (str "+OK"), m_values := [], m_latencies := [latency],
              m_value_len := 0, m_total_len := 5, m_hits := 0, m_error := false },
          m_response_state := redis_response_state.rs_initial, m_bulk_len := 0,
          m_response_len := 5 }) := by
  rfl

theorem text_stored_reply (ndebug keep : Bool) (t0 latency : Nat) :
    memcache_text_protocol.parse_response ndebug
      (memcache_text_protocol.new (str "STORED\r\n") keep t0) latency
    = some (Outcome.ret 1,
        { m_read_buf := [], m_keep_value := keep,
          m_last_response :=
            { m_status := some (str "STORED"), m_values := [], m_latencies := [latency],
              m_value_len := 0, m_total_len := 8, m_hits := 0, m_error := false },
          m_response_state := text_response_state.rs_initial, m_value_len := 0,
          m_response_len := 8 }) := by
  rfl

theorem text_initial_empty (ndebug : Bool) (latency : Nat) (p : memcache_text_protocol)
    (hs : p.m_response_state = text_response_state.rs_initial) (hb : p.m_read_buf = []) :
    p.parse_response ndebug latency
    = some (Outcome.ret 0,
        { p with m_last_response := p.m_last_response.clear,
                 m_response_state := text_response_state.rs_read_section,
                 m_response_len := 0 }) := by
  unfold memcache_text_protocol.parse_response
  rw [hb]
  simp [iterate, memcache_text_protocol.step, hs, hb, evbuffer_readln]

/-- C9: for each of the three protocols a fresh parser fed the canonical success
reply to a write (`+OK\r\n` for redis, `STORED\r\n` for cache-text, any 24-byte header
with magic 0x81, status 0 and bodylen 0 for cache-binary, so also one with opcode SET) returns 1 with
error=false and hits=0, having consumed the whole reply, and the next call returns 0:
exactly one completed response, and a write never increments hits. -/
theorem set_success_round_trip (ndebug keep : Bool) (t0 latency : Nat)
    (hdr0 : protocol_binary_response_header) (hb : Bytes)
    (hlen : hb.length = 24)
    (hmagic : (read_header hb).magic = 0x81)
    (hstatus : (read_header hb).status = 0)
    (hbody : (read_header hb).bodylen = 0) :
    (∃ p1, (redis_protocol.new (str "+OK\r\n") keep t0).parse_response latency
        = some (Outcome.ret 1, p1) ∧
      p1.m_read_buf = [] ∧ p1.m_last_response.m_error = false ∧
      p1.m_last_response.m_hits = 0 ∧
      ∃ p2, p1.parse_response latency = some (Outcome.ret 0, p2)) ∧
    (∃ p1, memcache_text_protocol.parse_response ndebug
        (memcache_text_protocol.new (str "STORED\r\n") keep t0) latency
        = some (Outcome.ret 1, p1) ∧
      p1.m_read_buf = [] ∧ p1.m_last_response.m_error = false ∧
      p1.m_last_response.m_hits = 0 ∧
      ∃ p2, p1.parse_response ndebug latency = some (Outcome.ret 0, p2)) ∧
    (∃ p1, memcache_binary_protocol.parse_response ndebug
        (memcache_binary_protocol.new hb keep t0 hdr0) latency
        = some (Outcome.ret 1, p1) ∧
      p1.m_read_buf = [] ∧ p1.m_last_response.m_error = false ∧
      p1.m_last_response.m_hits = 0 ∧
      ∃ p2, p1.parse_response ndebug latency = some (Outcome.ret 0, p2)) := by
  refine ⟨⟨_, redis_ok_reply keep t0 latency, rfl, rfl, rfl,
      ⟨_, redis_initial_empty latency _ rfl rfl⟩⟩,
    ⟨_, text_stored_reply ndebug keep t0 latency, rfl, rfl, rfl,
      ⟨_, text_initial_empty ndebug latency _ rfl rfl⟩⟩, ?_⟩
  have h := binary_zero_body_fresh ndebug latency keep t0 hdr0 hb [] hlen hmagic hbody
  rw [List.append_nil] at h
  refine ⟨_, h, rfl, ?_, rfl, ⟨_, binary_multi_initial_empty ndebug latency _ rfl (by simp)⟩⟩
  show (false || decide ((read_header hb).status ∈ glossary_error_codes)) = false
  rw [hstatus]
  rfl

theorem set_success_round_trip_witness :
    (∃ p1, (redis_protocol.new (str "+OK\r\n") false 0).parse_response 7
        = some (Outcome.ret 1, p1) ∧
      p1.m_read_buf = [] ∧ p1.m_last_response.m_error = false ∧
      p1.m_last_response.m_hits = 0 ∧
      ∃ p2, p1.parse_response 7 = some (Outcome.ret 0, p2)) ∧
    (∃ p1, memcache_text_protocol.parse_response false
        (memcache_text_protocol.new (str "STORED\r\n") false 0) 7
        = some (Outcome.ret 1, p1) ∧
      p1.m_read_buf = [] ∧ p1.m_last_response.m_error = false ∧
      p1.m_last_response.m_hits = 0 ∧
      ∃ p2, p1.parse_response false 7 = some (Outcome.ret 0, p2)) ∧
    (∃ p1, memcache_binary_protocol.parse_response false
        (memcache_binary_protocol.new set_success_header false 0
          ⟨0, 0, 0, 0, 0, 0, 0, 0, 0⟩) 7
        = some (Outcome.ret 1, p1) ∧
      p1.m_read_buf = [] ∧ p1.m_last_response.m_error = false ∧
      p1.m_last_response.m_hits = 0 ∧
      ∃ p2, p1.parse_response false 7 = some (Outcome.ret 0, p2)) :=
  set_success_round_trip false false 0 7 ⟨0, 0, 0, 0, 0, 0, 0, 0, 0⟩ set_success_header
    rfl rfl rfl rfl

/-- C2: two SET success headers fed to a fresh binary parser. The first call returns 1
with total_len = 24; the parser stays in rs_multi_initial, so the second call neither
clears the response nor resets the byte count: it returns 1 having consumed 24 bytes,
with total_len = 48 (and two queued latencies). -/
theorem binary_total_len_after_zero_body (ndebug keep : Bool) (t0 latency : Nat)
    (hdr0 : protocol_binary_response_header) :
    (memcache_binary_protocol.parse_response ndebug
      (memcache_binary_protocol.new (set_success_header ++ set_success_header) keep t0 hdr0)
      latency).map (fun x => (x.1, x.2.m_read_buf, x.2.m_last_response.m_total_len))
      = some (Outcome.ret 1, set_success_header, 24) ∧
    ((memcache_binary_protocol.parse_response ndebug
      (memcache_binary_protocol.new (set_success_header ++ set_success_header) keep t0 hdr0)
      latency).bind (fun x => x.2.parse_response ndebug latency)).map
        (fun x => (x.1, x.2.m_read_buf, x.2.m_last_response.m_total_len,
                   x.2.m_last_response.m_latencies))
      = some (Outcome.ret 1, [], 48, [latency, latency]) := by
  constructor <;> rfl

theorem toInt32_of_small (x : Int) (h0 : 0 ≤ x) (h1 : x < 2147483648) : toInt32 x = x := by
  unfold toInt32
  simp only
  split <;> omega

theorem toUInt32_of_small (x : Int) (h0 : 0 ≤ x) (h1 : x < 4294967296) :
    toUInt32 x = x.toNat := by
  unfold toUInt32
  congr 1
  omega

theorem toSizeT_of_small (x : Int) (h0 : 0 ≤ x) (h1 : x < 4294967296) :
    toSizeT x = x.toNat := by
  unfold toSizeT
  congr 1
  omega

theorem binary_read_body (ndebug : Bool) (latency : Nat) (p : memcache_binary_protocol)
    (f : binary_frame) (rest : Bytes)
    (hs : p.m_response_state = binary_response_state.rs_read_body)
    (hh : p.m_response_hdr = f.hdr)
    (hbuf : p.m_read_buf = f.body ++ rest)
    (hf : f.sane) :
    memcache_binary_protocol.step ndebug latency p =
      memcache_binary_protocol.finish_body
        { p with m_read_buf := rest,
                 m_last_response :=
                   if p.m_keep_value then
                     { p.m_last_response with
                       m_values := p.m_last_response.m_values ++ [f.pair],
                       m_value_len := f.value.length }
                   else p.m_last_response } := by
  obtain ⟨h24, hmagic, hext, hkey, hbody, hpos, hlt⟩ := hf
  unfold memcache_binary_protocol.step
  rw [hs]
  have hlen : evbuffer_get_length (f.body ++ rest) ≥ f.body.length := by
    simp [evbuffer_get_length]
  have hbl : f.body.length = f.extras.length + f.key.length + f.value.length := by
    simp [binary_frame.body]; omega
  have e1 : toInt32 ((f.body.length : Int) - (f.extras.length : Int))
      = ((f.key.length + f.value.length : Nat) : Int) := by
    rw [toInt32_of_small _ (by omega) (by omega)]
    omega
  have e2 : toInt32 (((f.key.length + f.value.length : Nat) : Int) - (f.key.length : Int))
      = ((f.value.length : Nat) : Int) := by
    rw [toInt32_of_small _ (by omega) (by omega)]
    omega
  have d1 : List.drop f.extras.length (f.body ++ rest) = f.key ++ (f.value ++ rest) := by
    simp [binary_frame.body, List.append_assoc]
  have d2 : List.drop f.key.length (f.key ++ (f.value ++ rest)) = f.value ++ rest := by
    simp
  have t2 : List.take f.key.length (f.key ++ (f.value ++ rest)) = f.key := by
    simp
  have d3 : List.drop f.value.length (f.value ++ rest) = rest := by simp
  have t3 : List.take f.value.length (f.value ++ rest) = f.value := by simp
  have d4 : List.drop (f.key.length + f.value.length) (f.key ++ (f.value ++ rest)) = rest := by
    rw [← List.drop_drop]; simp
  simp only [hbuf, hh, hext, hkey, hbody, hlen, if_true, evbuffer_drain, evbuffer_remove, e1, d1]
  cases hk : p.m_keep_value
  · simp only [Bool.false_eq_true, if_false]
    rw [toSizeT_of_small _ (by omega) (by omega)]
    simp only [Int.toNat_ofNat, d4]
  · simp only [if_true, e2, t2, d2]
    have hneg : ¬ ((f.value.length : Int) < 0) := by omega
    simp only [hneg, if_false, Int.toNat_ofNat, t3, d3]
    rw [toUInt32_of_small _ (by omega) (by omega)]
    simp only [Int.toNat_ofNat, protocol_response.set_value, binary_frame.pair]
    by_cases ho : f.hdr.opcode = PROTOCOL_BINARY_CMD_GETK ∨
        f.hdr.opcode = PROTOCOL_BINARY_CMD_GETKQ
    · simp [ho]
    · simp [ho]

theorem binary_frame_run (ndebug : Bool) (latency n : Nat) (p : memcache_binary_protocol)
    (f : binary_frame) (rest : Bytes)
    (hs : p.m_response_state = binary_response_state.rs_multi_initial)
    (hbuf : p.m_read_buf = f.bytes ++ rest)
    (hf : f.sane) :
    iterate (memcache_binary_protocol.step ndebug latency) (n + 2) p =
      if f.hdr.opcode = PROTOCOL_BINARY_CMD_GETKQ then
        iterate (memcache_binary_protocol.step ndebug latency) n
          { p with m_read_buf := rest, m_response_hdr := f.hdr,
                   m_response_len := p.m_response_len + 24 + f.body.length,
                   m_last_response :=
                     f.response p.m_keep_value latency p.m_last_response p.m_response_len,
                   m_response_state := binary_response_state.rs_multi_initial }
      else
        some (Outcome.ret 1,
          { p with m_read_buf := rest, m_response_hdr := f.hdr,
                   m_response_len := p.m_response_len + 24 + f.body.length,
                   m_last_response :=
                     f.response p.m_keep_value latency p.m_last_response p.m_response_len,
                   m_response_state := binary_response_state.rs_initial }) := by
  have hf2 := hf
  obtain ⟨h24, hmagic, hext, hkey, hbody, hpos, hlt⟩ := hf2
  have hb2 : p.m_read_buf = f.header ++ (f.body ++ rest) := by
    rw [hbuf, binary_frame.bytes, List.append_assoc]
  have hstep1 : memcache_binary_protocol.step ndebug latency p =
      Step.again
          { p with m_read_buf := f.body ++ rest, m_response_hdr := f.hdr,
                   m_response_len := p.m_response_len + 24,
                   m_last_response := after_header p.m_last_response f.hdr.status
                     (p.m_response_len + 24) latency,
                   m_response_state := binary_response_state.rs_read_body } := by
    unfold memcache_binary_protocol.step
    rw [hs]
    simp only
    rw [binary_header latency p f.header (f.body ++ rest) hb2 h24 hmagic]
    have : (read_header f.header).bodylen > 0 := by
      show f.hdr.bodylen > 0
      omega
    simp only [this, if_true]
    rfl
  rw [iterate_again _ (n + 1) p _ hstep1]
  have hstep2 := binary_read_body ndebug latency
    { p with m_read_buf := f.body ++ rest, m_response_hdr := f.hdr,
             m_response_len := p.m_response_len + 24,
             m_last_response := after_header p.m_last_response f.hdr.status
               (p.m_response_len + 24) latency,
             m_response_state := binary_response_state.rs_read_body }
    f rest rfl rfl rfl hf
  by_cases ho : f.hdr.opcode = PROTOCOL_BINARY_CMD_GETKQ
  · rw [if_pos ho]
    rw [iterate_again _ n _ _ (hstep2.trans _)]
    unfold memcache_binary_protocol.finish_body
    simp only [ho, if_true, hbody, binary_frame.response, PROTOCOL_BINARY_RESPONSE_SUCCESS]
  · rw [if_neg ho]
    rw [iterate_done _ n _ _ _ (hstep2.trans _)]
    unfold memcache_binary_protocol.finish_body
    simp only [ho, if_false, hbody, binary_frame.response, PROTOCOL_BINARY_RESPONSE_SUCCESS]

theorem binary_step_initial (ndebug : Bool) (latency : Nat) (p : memcache_binary_protocol)
    (hs : p.m_response_state = binary_response_state.rs_initial) :
    memcache_binary_protocol.step ndebug latency p =
      memcache_binary_protocol.step ndebug latency
        { p with m_last_response := p.m_last_response.clear,
                 m_response_state := binary_response_state.rs_multi_initial,
                 m_response_len := 0 } := by
  unfold memcache_binary_protocol.step
  rw [hs]

theorem binary_iterate_initial (ndebug : Bool) (latency n : Nat) (p : memcache_binary_protocol)
    (hs : p.m_response_state = binary_response_state.rs_initial) :
    iterate (memcache_binary_protocol.step ndebug latency) n p =
      iterate (memcache_binary_protocol.step ndebug latency) n
        { p with m_last_response := p.m_last_response.clear,
                 m_response_state := binary_response_state.rs_multi_initial,
                 m_response_len := 0 } := by
  cases n with
  | zero => rfl
  | succ n => simp only [iterate, binary_step_initial ndebug latency p hs]

theorem binary_frame_advance (ndebug : Bool) (latency n : Nat) (p : memcache_binary_protocol)
    (f : binary_frame) (rest : Bytes)
    (hs : p.m_response_state = binary_response_state.rs_multi_initial)
    (hbuf : p.m_read_buf = f.bytes ++ rest)
    (hf : f.sane) :
    iterate (memcache_binary_protocol.step ndebug latency) (n + 2) p =
      if f.hdr.opcode = PROTOCOL_BINARY_CMD_GETKQ then
        iterate (memcache_binary_protocol.step ndebug latency) n (f.advance latency p)
      else
        some (Outcome.ret 1,
          { f.advance latency p with m_response_state := binary_response_state.rs_initial }) := by
  rw [binary_frame_run ndebug latency n p f rest hs hbuf hf]
  have hd : List.drop f.bytes.length p.m_read_buf = rest := by
    rw [hbuf]; simp
  simp only [binary_frame.advance, hd]

theorem frames_advance_buf (latency : Nat) (fs : List binary_frame) :
    ∀ (p : memcache_binary_protocol) (rest : Bytes),
      p.m_read_buf = frames_bytes fs ++ rest →
      (fs.foldl (binary_frame.advance latency) p).m_read_buf = rest := by
  induction fs with
  | nil => intro p rest h; simpa [frames_bytes] using h
  | cons f fs ih =>
    intro p rest h
    simp only [List.foldl_cons]
    apply ih
    simp [binary_frame.advance, h, frames_bytes, List.append_assoc]

theorem frames_advance_keep (latency : Nat) (fs : List binary_frame) :
    ∀ (p : memcache_binary_protocol),
      (fs.foldl (binary_frame.advance latency) p).m_keep_value = p.m_keep_value := by
  induction fs with
  | nil => intro p; rfl
  | cons f fs ih => intro p; simp only [List.foldl_cons]; rw [ih]; rfl

theorem frames_advance_state (latency : Nat) (fs : List binary_frame) :
    ∀ (p : memcache_binary_protocol),
      p.m_response_state = binary_response_state.rs_multi_initial →
      (fs.foldl (binary_frame.advance latency) p).m_response_state
        = binary_response_state.rs_multi_initial := by
  induction fs with
  | nil => intro p h; exact h
  | cons f fs ih => intro p _; simp only [List.foldl_cons]; exact ih _ rfl

theorem binary_getkq_run (ndebug : Bool) (latency : Nat) (fs : List binary_frame) :
    ∀ (n : Nat) (p : memcache_binary_protocol) (rest : Bytes),
      p.m_response_state = binary_response_state.rs_multi_initial →
      p.m_read_buf = frames_bytes fs ++ rest →
      (∀ g ∈ fs, g.sane ∧ g.hdr.opcode = PROTOCOL_BINARY_CMD_GETKQ) →
      iterate (memcache_binary_protocol.step ndebug latency) (n + 2 * fs.length) p =
        iterate (memcache_binary_protocol.step ndebug latency) n
          (fs.foldl (binary_frame.advance latency) p) := by
  induction fs with
  | nil => intro n p rest _ _ _; rfl
  | cons f fs ih =>
    intro n p rest hs hbuf hall
    have hf := hall f (by simp)
    have e : n + 2 * (f :: fs).length = (n + 2 * fs.length) + 2 := by
      simp only [List.length_cons]; omega
    rw [e, binary_frame_advance ndebug latency _ p f (frames_bytes fs ++ rest) hs
      (by rw [hbuf, frames_bytes, List.append_assoc]) hf.1, if_pos hf.2]
    simp only [List.foldl_cons]
    apply ih n _ rest rfl
    · simp [binary_frame.advance, hbuf, frames_bytes, List.append_assoc]
    · intro g hg
      exact hall g (List.mem_cons_of_mem _ hg)

theorem hit_response_hits (keep : Bool) (latency len : Nat) (r : protocol_response)
    (f : binary_frame) (h : f.hdr.status = 0) :
    (f.response keep latency r len).m_hits = (r.m_hits + 1) % 4294967296 := by
  cases keep <;> simp [binary_frame.response, h, after_header, protocol_response.incr_hits,
    protocol_response.set_total_len]

theorem hit_response_values (keep : Bool) (latency len : Nat) (r : protocol_response)
    (f : binary_frame) :
    (f.response keep latency r len).m_values
      = r.m_values ++ (if keep then [f.pair] else []) := by
  cases keep <;> by_cases h : f.hdr.status = 0 <;>
    simp [binary_frame.response, h, after_header, protocol_response.incr_hits,
      protocol_response.set_total_len]

theorem frames_advance_hits (latency : Nat) (fs : List binary_frame) :
    ∀ (p : memcache_binary_protocol), (∀ g ∈ fs, g.hdr.status = 0) →
      (fs.foldl (binary_frame.advance latency) p).m_last_response.m_hits % 4294967296
        = (p.m_last_response.m_hits + fs.length) % 4294967296 := by
  induction fs with
  | nil => intro p _; rfl
  | cons f fs ih =>
    intro p hall
    simp only [List.foldl_cons, List.length_cons]
    rw [ih _ (fun g hg => hall g (List.mem_cons_of_mem _ hg))]
    simp only [binary_frame.advance]
    rw [hit_response_hits _ _ _ _ _ (hall f (by simp))]
    omega

theorem frames_advance_values (latency : Nat) (fs : List binary_frame) :
    ∀ (p : memcache_binary_protocol),
      (fs.foldl (binary_frame.advance latency) p).m_last_response.m_values
        = p.m_last_response.m_values ++ (if p.m_keep_value then fs.map binary_frame.pair else []) := by
  induction fs with
  | nil => intro p; by_cases hk : p.m_keep_value = true <;> simp [hk]
  | cons f fs ih =>
    intro p
    simp only [List.foldl_cons]
    rw [ih]
    simp only [binary_frame.advance]
    rw [hit_response_values]
    by_cases hk : p.m_keep_value = true <;> simp [hk]

theorem frames_bytes_length (fs : List binary_frame) (h : ∀ g ∈ fs, g.sane) :
    25 * fs.length ≤ (frames_bytes fs).length := by
  induction fs with
  | nil => simp [frames_bytes]
  | cons f fs ih =>
    have hf := h f (by simp)
    obtain ⟨h24, _, _, _, _, hpos, _⟩ := hf
    have := ih (fun g hg => h g (List.mem_cons_of_mem _ hg))
    simp only [frames_bytes, List.length_append, List.length_cons, binary_frame.bytes]
    omega

theorem frames_bytes_append (fs gs : List binary_frame) :
    frames_bytes (fs ++ gs) = frames_bytes fs ++ frames_bytes gs := by
  induction fs with
  | nil => rfl
  | cons f fs ih => simp [frames_bytes, ih, List.append_assoc]

theorem binary_fresh_run (ndebug keep : Bool) (t0 latency : Nat)
    (hdr0 : protocol_binary_response_header) (fs : List binary_frame) (rest : Bytes)
    (hfs : ∀ g ∈ fs, g.sane ∧ g.hdr.opcode = PROTOCOL_BINARY_CMD_GETKQ) (n : Nat) :
    iterate (memcache_binary_protocol.step ndebug latency) (n + 2 * fs.length)
        (memcache_binary_protocol.new (frames_bytes fs ++ rest) keep t0 hdr0) =
      iterate (memcache_binary_protocol.step ndebug latency) n
        (fs.foldl (binary_frame.advance latency)
          { m_read_buf := frames_bytes fs ++ rest, m_keep_value := keep,
            m_last_response := (protocol_response.new t0).clear,
            m_response_state := binary_response_state.rs_multi_initial,
            m_response_hdr := hdr0, m_response_len := 0 }) := by
  rw [binary_iterate_initial ndebug latency _ _ rfl]
  exact binary_getkq_run ndebug latency fs n _ rest rfl rfl hfs

theorem binary_initial_empty (ndebug : Bool) (latency : Nat)
    (p : memcache_binary_protocol)
    (hs : p.m_response_state = binary_response_state.rs_initial)
    (hb : p.m_read_buf.length < 24) :
    p.parse_response ndebug latency = some (Outcome.ret 0,
      { p with m_last_response := p.m_last_response.clear,
               m_response_state := binary_response_state.rs_multi_initial,
               m_response_len := 0 }) := by
  unfold memcache_binary_protocol.parse_response
  apply iterate_done
  unfold memcache_binary_protocol.step
  rw [hs]
  simp [memcache_binary_protocol.multi_initial, evbuffer_get_length, hb]

theorem binary_parse_new (ndebug keep : Bool) (t0 latency : Nat)
    (hdr0 : protocol_binary_response_header) (buf : Bytes) :
    memcache_binary_protocol.parse_response ndebug
        (memcache_binary_protocol.new buf keep t0 hdr0) latency =
      iterate (memcache_binary_protocol.step ndebug latency) (buf.length + 2)
        (memcache_binary_protocol.new buf keep t0 hdr0) := rfl

/-- C7 (amended): for every k >= 0 with k + 1 < 2^32, a fresh binary parser fed k
frames with opcode GETKQ followed by one frame with another opcode, all with magic
0x81, status SUCCESS and a non-empty body shorter than 2^31 bytes made of extlen bytes
of extras, keylen bytes of key and the value, returns 1 having consumed all the
frames, with hits = k + 1 and, when retention is on, the k + 1 pairs in frame order
(the value, and the key for GETK and GETKQ frames; no pair when retention is off);
the next call returns 0, and the k GETKQ frames alone give no completion. -/
theorem binary_multi_get_reply (ndebug keep : Bool) (t0 latency : Nat)
    (hdr0 : protocol_binary_response_header) (fs : List binary_frame) (f : binary_frame)
    (hfs : ∀ g ∈ fs, g.hit ∧ g.hdr.opcode = PROTOCOL_BINARY_CMD_GETKQ)
    (hf : f.hit ∧ f.hdr.opcode ≠ PROTOCOL_BINARY_CMD_GETKQ)
    (hk : fs.length + 1 < 4294967296) :
    (∃ p1, memcache_binary_protocol.parse_response ndebug
        (memcache_binary_protocol.new (frames_bytes (fs ++ [f])) keep t0 hdr0) latency
          = some (Outcome.ret 1, p1) ∧
      p1.m_read_buf = [] ∧
      p1.m_last_response.m_hits = fs.length + 1 ∧
      p1.m_last_response.m_values = (if keep then (fs ++ [f]).map binary_frame.pair else []) ∧
      ∃ p2, p1.parse_response ndebug latency = some (Outcome.ret 0, p2)) ∧
    (∃ p0, memcache_binary_protocol.parse_response ndebug
        (memcache_binary_protocol.new (frames_bytes fs) keep t0 hdr0) latency
          = some (Outcome.ret 0, p0)) := by
  have hsane : ∀ g ∈ fs, g.sane ∧ g.hdr.opcode = PROTOCOL_BINARY_CMD_GETKQ :=
    fun g hg => ⟨(hfs g hg).1.1, (hfs g hg).2⟩
  have hstat : ∀ g ∈ fs, g.hdr.status = 0 := fun g hg => (hfs g hg).1.2
  have hlen := frames_bytes_length fs (fun g hg => (hsane g hg).1)
  constructor
  · have hb : frames_bytes (fs ++ [f]) = frames_bytes fs ++ f.bytes := by
      rw [frames_bytes_append]; simp [frames_bytes]
    have hfuel : (frames_bytes fs ++ f.bytes).length + 2
        = ((frames_bytes fs ++ f.bytes).length - 2 * fs.length + 2) + 2 * fs.length := by
      simp only [List.length_append]; omega
    have hrun := binary_fresh_run ndebug keep t0 latency hdr0 fs f.bytes hsane
      ((frames_bytes fs ++ f.bytes).length - 2 * fs.length + 2)
    obtain ⟨q0, hq0⟩ : ∃ q0 : memcache_binary_protocol, q0 =
        { m_read_buf := frames_bytes fs ++ f.bytes, m_keep_value := keep,
          m_last_response := (protocol_response.new t0).clear,
          m_response_state := binary_response_state.rs_multi_initial,
          m_response_hdr := hdr0, m_response_len := 0 } := ⟨_, rfl⟩
    rw [← hq0] at hrun
    have hq0buf : q0.m_read_buf = frames_bytes fs ++ f.bytes := by rw [hq0]
    have hq0keep : q0.m_keep_value = keep := by rw [hq0]
    have hq0resp : q0.m_last_response = (protocol_response.new t0).clear := by rw [hq0]
    have hq0state : q0.m_response_state = binary_response_state.rs_multi_initial := by
      rw [hq0]
    clear hq0
    have hqbuf := frames_advance_buf latency fs q0 f.bytes hq0buf
    have hqstate := frames_advance_state latency fs q0 hq0state
    have hqkeep := frames_advance_keep latency fs q0
    have hqhits := frames_advance_hits latency fs q0 hstat
    have hqvals := frames_advance_values latency fs q0
    generalize List.foldl (binary_frame.advance latency) q0 fs = q at *
    rw [hb, binary_parse_new, hfuel, hrun]
    rw [binary_frame_advance ndebug latency _ q f [] hqstate
      (by rw [hqbuf, List.append_nil]) hf.1.1, if_neg hf.2]
    refine ⟨_, rfl, ?_, ?_, ?_, ?_⟩
    · simp [binary_frame.advance, hqbuf]
    · show (f.response _ latency _ _).m_hits = fs.length + 1
      rw [hit_response_hits _ _ _ _ _ hf.1.2]
      rw [hq0resp] at hqhits
      simp only [protocol_response.clear, Nat.zero_add] at hqhits
      omega
    · show (f.response _ latency _ _).m_values = _
      rw [hit_response_values, hqvals, hqkeep, hq0keep, hq0resp]
      cases keep <;> simp [protocol_response.clear]
    · exact ⟨_, binary_initial_empty ndebug latency _ rfl (by
        simp [binary_frame.advance, hqbuf])⟩
  · have hfuel : (frames_bytes fs ++ []).length + 2
        = ((frames_bytes fs ++ []).length - 2 * fs.length + 1 + 1) + 2 * fs.length := by
      simp only [List.length_append, List.length_nil]; omega
    have hrun := binary_fresh_run ndebug keep t0 latency hdr0 fs [] hsane
      ((frames_bytes fs ++ []).length - 2 * fs.length + 1 + 1)
    obtain ⟨q0, hq0⟩ : ∃ q0 : memcache_binary_protocol, q0 =
        { m_read_buf := frames_bytes fs ++ [], m_keep_value := keep,
          m_last_response := (protocol_response.new t0).clear,
          m_response_state := binary_response_state.rs_multi_initial,
          m_response_hdr := hdr0, m_response_len := 0 } := ⟨_, rfl⟩
    rw [← hq0] at hrun
    have hq0buf : q0.m_read_buf = frames_bytes fs ++ [] := by rw [hq0]
    have hq0state : q0.m_response_state = binary_response_state.rs_multi_initial := by
      rw [hq0]
    clear hq0
    have hqbuf := frames_advance_buf latency fs q0 [] hq0buf
    have hqstate := frames_advance_state latency fs q0 hq0state
    generalize List.foldl (binary_frame.advance latency) q0 fs = q at *
    have hb : frames_bytes fs = frames_bytes fs ++ [] := by simp
    rw [hb, binary_parse_new, hfuel, hrun]
    refine ⟨q, iterate_done _ _ q q _ ?_⟩
    unfold memcache_binary_protocol.step
    rw [hqstate]
    simp [memcache_binary_protocol.multi_initial, evbuffer_get_length, hqbuf]

theorem binary_multi_get_reply_witness :
    (∃ p1, memcache_binary_protocol.parse_response false
        (memcache_binary_protocol.new
          (frames_bytes ([hit_frame 0x0d 97 120, hit_frame 0x0d 98 121] ++ [hit_frame 0x0c 99 122]))
          true 0 ⟨0, 0, 0, 0, 0, 0, 0, 0, 0⟩) 7
          = some (Outcome.ret 1, p1) ∧
      p1.m_read_buf = [] ∧
      p1.m_last_response.m_hits = [hit_frame 0x0d 97 120, hit_frame 0x0d 98 121].length + 1 ∧
      p1.m_last_response.m_values =
        (if true then
          ([hit_frame 0x0d 97 120, hit_frame 0x0d 98 121] ++ [hit_frame 0x0c 99 122]).map
            binary_frame.pair
         else []) ∧
      ∃ p2, p1.parse_response false 7 = some (Outcome.ret 0, p2)) ∧
    (∃ p0, memcache_binary_protocol.parse_response false
        (memcache_binary_protocol.new
          (frames_bytes [hit_frame 0x0d 97 120, hit_frame 0x0d 98 121])
          true 0 ⟨0, 0, 0, 0, 0, 0, 0, 0, 0⟩) 7
          = some (Outcome.ret 0, p0)) :=
  binary_multi_get_reply false true 0 7 ⟨0, 0, 0, 0, 0, 0, 0, 0, 0⟩
    [hit_frame 0x0d 97 120, hit_frame 0x0d 98 121] (hit_frame 0x0c 99 122)
    (by decide) (by decide) (by decide)

theorem binary_read_body_drain (ndebug : Bool) (latency : Nat) (p : memcache_binary_protocol)
    (hs : p.m_response_state = binary_response_state.rs_read_body)
    (hk : p.m_keep_value = false)
    (hlen : p.m_response_hdr.bodylen ≤ p.m_read_buf.length) :
    memcache_binary_protocol.step ndebug latency p =
      memcache_binary_protocol.finish_body
        { p with m_read_buf :=
            (List.drop (toSizeT (toInt32 ((p.m_response_hdr.bodylen : Int)
                - (p.m_response_hdr.extlen.toNat : Int))))
              (List.drop p.m_response_hdr.extlen.toNat p.m_read_buf)) } := by
  unfold memcache_binary_protocol.step
  rw [hs]
  simp only [evbuffer_get_length, ge_iff_le, hlen, if_true, hk, Bool.false_eq_true, if_false,
    evbuffer_drain]

theorem binary_huge_body (l : Bytes) (hl : l.length = 2147483648) (t0 latency : Nat)
    (hdr0 : protocol_binary_response_header) :
    (memcache_binary_protocol.parse_response false
      (memcache_binary_protocol.new
        (huge_getkq_header ++ (l ++ (hit_frame 0x0c 98 121).bytes)) false t0 hdr0)
      latency).map (fun x => (x.1, x.2.m_read_buf, x.2.m_last_response.m_hits))
    = some (Outcome.ret 0, [], 1) := by
  rw [binary_parse_new]
  have hfuel : (huge_getkq_header ++ (l ++ (hit_frame 0x0c 98 121).bytes)).length + 2
      = ((huge_getkq_header ++ (l ++ (hit_frame 0x0c 98 121).bytes)).length - 1) + 1 + 1 + 1 := by
    simp only [List.length_append, hl]; omega
  rw [hfuel]
  generalize (huge_getkq_header ++ (l ++ (hit_frame 0x0c 98 121).bytes)).length - 1 = n
  rw [binary_iterate_initial false latency _ _ rfl]
  simp only [memcache_binary_protocol.new]
  have hstep1 : memcache_binary_protocol.step false latency
        { m_read_buf := huge_getkq_header ++ (l ++ (hit_frame 0x0c 98 121).bytes),
          m_keep_value := false, m_last_response := (protocol_response.new t0).clear,
          m_response_state := binary_response_state.rs_multi_initial,
          m_response_hdr := hdr0, m_response_len := 0 }
      = Step.again
        { m_read_buf := l ++ (hit_frame 0x0c 98 121).bytes,
          m_keep_value := false,
          m_last_response :=
            after_header (protocol_response.new t0).clear 0 24 latency,
          m_response_state := binary_response_state.rs_read_body,
          m_response_hdr := read_header huge_getkq_header, m_response_len := 24 } := by
    unfold memcache_binary_protocol.step
    simp only
    rw [binary_header latency _ huge_getkq_header _ rfl rfl rfl]
    rfl
  have hd : List.drop 18446744071562067968 (l ++ (hit_frame 0x0c 98 121).bytes) = [] := by
    apply List.drop_eq_nil_of_le
    have h30 : (hit_frame 0x0c 98 121).bytes.length = 30 := rfl
    rw [List.length_append, hl, h30]
    decide
  have hstep2 : memcache_binary_protocol.step false latency
        { m_read_buf := l ++ (hit_frame 0x0c 98 121).bytes,
          m_keep_value := false,
          m_last_response :=
            after_header (protocol_response.new t0).clear 0 24 latency,
          m_response_state := binary_response_state.rs_read_body,
          m_response_hdr := read_header huge_getkq_header, m_response_len := 24 }
      = Step.again
        { m_read_buf := [],
          m_keep_value := false,
          m_last_response :=
            ((after_header (protocol_response.new t0).clear 0 24 latency).incr_hits).set_total_len
              (24 + 2147483648),
          m_response_state := binary_response_state.rs_multi_initial,
          m_response_hdr := read_header huge_getkq_header, m_response_len := 24 + 2147483648 } := by
    rw [binary_read_body_drain false latency _ rfl rfl (by
      show 2147483648 ≤ (l ++ (hit_frame 0x0c 98 121).bytes).length
      rw [List.length_append, hl]; exact Nat.le_add_right _ _)]
    have hb : (read_header huge_getkq_header).bodylen = 2147483648 := rfl
    have he : (read_header huge_getkq_header).extlen.toNat = 0 := rfl
    have hi : toSizeT (toInt32 (((2147483648 : Nat) : Int) - ((0 : Nat) : Int)))
        = 18446744071562067968 := by
      norm_num [toSizeT, toInt32]
      exact Int.toNat_ofNat 18446744071562067968
    simp only [hb, he, hi, List.drop_zero, hd]
    rfl
  have hstep3 : memcache_binary_protocol.step false latency
        { m_read_buf := [],
          m_keep_value := false,
          m_last_response :=
            ((after_header (protocol_response.new t0).clear 0 24 latency).incr_hits).set_total_len
              (24 + 2147483648),
          m_response_state := binary_response_state.rs_multi_initial,
          m_response_hdr := read_header huge_getkq_header, m_response_len := 24 + 2147483648 }
      = Step.done (Outcome.ret 0) _ := rfl
  rw [iterate_again _ _ _ _ hstep1, iterate_again _ _ _ _ hstep2, iterate_done _ _ _ _ _ hstep3]
  rfl

/-- C7 as stated fails for a body of 2^31 bytes: the body length is computed in an
`int`, so after a GETKQ hit whose body has 2^31 bytes (no extras, no key) the drain
takes everything the buffer holds, the GETK frame behind it included; the call then
returns 0 with hits = 1, where the claim has one completion with hits = 2. -/
theorem binary_multi_get_huge_body :
    (memcache_binary_protocol.parse_response false
      (memcache_binary_protocol.new
        (huge_getkq_header ++ (List.replicate 2147483648 120 ++ (hit_frame 0x0c 98 121).bytes))
        false 0 ⟨0, 0, 0, 0, 0, 0, 0, 0, 0⟩)
      7).map (fun x => (x.1, x.2.m_read_buf, x.2.m_last_response.m_hits))
    = some (Outcome.ret 0, [], 1) :=
  binary_huge_body (List.replicate 2147483648 120) (List.length_replicate _ _) 0 7
    ⟨0, 0, 0, 0, 0, 0, 0, 0, 0⟩

theorem text_unknown_line (ndebug : Bool) (latency : Nat) (p : memcache_text_protocol)
    (line rest : Bytes)
    (hs : p.m_response_state = text_response_state.rs_initial)
    (hb : p.m_read_buf = line ++ 13 :: 10 :: rest)
    (hc : has_crlf line = false)
    (h1 : memcmp_eq line (str "VALUE") = false)
    (h2 : memcmp_eq line (str "END") = false)
    (h3 : memcmp_eq line (str "STORED") = false) :
    p.parse_response ndebug latency = some (Outcome.ret (-1),
      { p with m_read_buf := rest,
               m_response_state := text_response_state.rs_read_section,
               m_response_len := line.length + 2,
               m_last_response :=
                 { m_status := some line, m_values := [], m_latencies := [],
                   m_value_len := 0, m_total_len := (line.length + 2) % 4294967296,
                   m_hits := 0, m_error := true } }) := by
  unfold memcache_text_protocol.parse_response
  have hfuel : p.m_read_buf.length + 3 = (p.m_read_buf.length + 1) + 1 + 1 := by omega
  rw [hfuel, iterate_again _ _ p
    { p with m_last_response := p.m_last_response.clear,
             m_response_state := text_response_state.rs_read_section,
             m_response_len := 0 }
    (by unfold memcache_text_protocol.step; rw [hs])]
  apply iterate_done
  unfold memcache_text_protocol.step
  simp only [hb, evbuffer_readln_line _ _ hc, h1, h2, h3]
  simp [protocol_response.clear, protocol_response.get_status, protocol_response.set_status,
    protocol_response.set_total_len, protocol_response.set_error]

theorem binary_single_frame (ndebug keep : Bool) (t0 latency : Nat)
    (hdr0 : protocol_binary_response_header) (f : binary_frame)
    (hf : f.sane) (ho : f.hdr.opcode ≠ PROTOCOL_BINARY_CMD_GETKQ) :
    memcache_binary_protocol.parse_response ndebug
        (memcache_binary_protocol.new f.bytes keep t0 hdr0) latency
      = some (Outcome.ret 1,
          { m_read_buf := [], m_keep_value := keep,
            m_last_response := f.response keep latency (protocol_response.new t0).clear 0,
            m_response_state := binary_response_state.rs_initial,
            m_response_hdr := f.hdr, m_response_len := 24 + f.body.length }) := by
  rw [binary_parse_new, binary_iterate_initial ndebug latency _ _ rfl]
  rw [binary_frame_advance ndebug latency f.bytes.length _ f [] rfl
    (by simp [memcache_binary_protocol.new]) hf, if_neg ho]
  simp [binary_frame.advance, memcache_binary_protocol.new]

theorem response_status_fresh (keep : Bool) (latency t0 : Nat) (f : binary_frame) :
    (f.response keep latency (protocol_response.new t0).clear 0).m_status
      = glossary_status f.hdr.status := by
  have : ∀ o : Option Bytes, o.orElse (fun _ => none) = o := by
    intro o; cases o <;> rfl
  cases keep <;> by_cases h : f.hdr.status = 0 <;>
    simp [binary_frame.response, h, after_header, protocol_response.incr_hits,
      protocol_response.set_total_len, protocol_response.clear, protocol_response.new, this]

theorem response_error_fresh (keep : Bool) (latency t0 : Nat) (f : binary_frame) :
    (f.response keep latency (protocol_response.new t0).clear 0).m_error
      = decide (f.hdr.status ∈ glossary_error_codes) := by
  cases keep <;> by_cases h : f.hdr.status = 0 <;>
    simp [binary_frame.response, h, after_header, protocol_response.incr_hits,
      protocol_response.set_total_len, protocol_response.clear, protocol_response.new]

/-- C10 as stated fails for cache-text: a fresh text parser fed `NOT_STORED\r\n` marks
the error and keeps the line as status, but returns -1, not 1. -/
theorem text_not_stored_is_fatal :
    (memcache_text_protocol.parse_response false
      (memcache_text_protocol.new (str "NOT_STORED\r\n") false 0) 7).map
        (fun x => (x.1, x.2.m_last_response.m_error, x.2.m_last_response.m_status))
      = some (Outcome.ret (-1), true, some (str "NOT_STORED")) := by
  rfl

theorem binary_zero_body_initial (ndebug : Bool) (latency : Nat)
    (p : memcache_binary_protocol) (hb rest : Bytes)
    (hs : p.m_response_state = binary_response_state.rs_initial)
    (hbuf : p.m_read_buf = hb ++ rest)
    (hlen : hb.length = 24)
    (hmagic : (read_header hb).magic = PROTOCOL_BINARY_RES)
    (hbody : (read_header hb).bodylen = 0) :
    p.parse_response ndebug latency
    = some (Outcome.ret 1,
        { p with m_read_buf := rest,
                 m_last_response :=
                   after_header p.m_last_response.clear (read_header hb).status 24 latency,
                 m_response_state := binary_response_state.rs_multi_initial,
                 m_response_hdr := read_header hb, m_response_len := 24 }) := by
  unfold memcache_binary_protocol.parse_response
  rw [binary_iterate_initial ndebug latency _ p hs]
  apply iterate_done
  unfold memcache_binary_protocol.step
  have h := binary_header latency
    { p with m_last_response := p.m_last_response.clear,
             m_response_state := binary_response_state.rs_multi_initial,
             m_response_len := 0 } hb rest hbuf hlen hmagic
  simp only [] at h ⊢
  rw [h]
  simp [hbody]

theorem binary_single_frame_initial (ndebug : Bool) (latency : Nat)
    (p : memcache_binary_protocol) (f : binary_frame) (rest : Bytes)
    (hs : p.m_response_state = binary_response_state.rs_initial)
    (hbuf : p.m_read_buf = f.bytes ++ rest)
    (hf : f.sane) (ho : f.hdr.opcode ≠ PROTOCOL_BINARY_CMD_GETKQ) :
    p.parse_response ndebug latency
      = some (Outcome.ret 1,
          { p with m_read_buf := rest,
                   m_last_response :=
                     f.response p.m_keep_value latency p.m_last_response.clear 0,
                   m_response_state := binary_response_state.rs_initial,
                   m_response_hdr := f.hdr, m_response_len := 24 + f.body.length }) := by
  unfold memcache_binary_protocol.parse_response
  rw [binary_iterate_initial ndebug latency _ p hs]
  rw [binary_frame_advance ndebug latency p.m_read_buf.length
    { p with m_last_response := p.m_last_response.clear,
             m_response_state := binary_response_state.rs_multi_initial,
             m_response_len := 0 } f rest rfl hbuf hf, if_neg ho]
  simp [binary_frame.advance, hbuf]

theorem response_cleared (keep : Bool) (latency : Nat) (r : protocol_response)
    (f : binary_frame) :
    (f.response keep latency r.clear 0).m_status = glossary_status f.hdr.status ∧
    (f.response keep latency r.clear 0).m_error
      = decide (f.hdr.status ∈ glossary_error_codes) ∧
    (f.hdr.status ≠ 0 → (f.response keep latency r.clear 0).m_hits = 0) := by
  have : ∀ o : Option Bytes, o.orElse (fun _ => none) = o := by
    intro o; cases o <;> rfl
  refine ⟨?_, ?_, ?_⟩
  · cases keep <;> by_cases h : f.hdr.status = 0 <;>
      simp [binary_frame.response, h, after_header, protocol_response.incr_hits,
        protocol_response.set_total_len, protocol_response.clear, this]
  · cases keep <;> by_cases h : f.hdr.status = 0 <;>
      simp [binary_frame.response, h, after_header, protocol_response.incr_hits,
        protocol_response.set_total_len, protocol_response.clear]
  · intro h
    cases keep <;>
      simp [binary_frame.response, h, after_header, protocol_response.set_total_len,
        protocol_response.clear]

/-- C10 (amended): for a parser in the Initial state, a redis line that begins with '-'
completes the reply (the call returns 1) with error=true and the line as status; a
cache-text line that begins with none of VALUE, END, STORED makes the call return -1,
with error=true and the line as status; a cache-binary reply of one frame (a header
with bodylen 0, or a frame with a body, an opcode other than GETKQ and a status code
other than SUCCESS) completes (the call returns 1) with the table's text for the code
as status (none for a code outside the table), with error=true exactly for the codes
of the error set, and with no hit. -/
theorem server_error_replies (ndebug : Bool) (latency : Nat)
    (p : redis_protocol) (t : memcache_text_protocol) (q1 q2 : memcache_binary_protocol)
    (rline rest tline trest hb rest1 rest2 : Bytes) (f : binary_frame)
    (hs : p.m_response_state = redis_response_state.rs_initial)
    (hbuf : p.m_read_buf = rline ++ 13 :: 10 :: rest)
    (hrc : has_crlf rline = false)
    (hrh : rline.head? = some 45)
    (hts : t.m_response_state = text_response_state.rs_initial)
    (htb : t.m_read_buf = tline ++ 13 :: 10 :: trest)
    (htc : has_crlf tline = false)
    (ht1 : memcmp_eq tline (str "VALUE") = false)
    (ht2 : memcmp_eq tline (str "END") = false)
    (ht3 : memcmp_eq tline (str "STORED") = false)
    (hq1 : q1.m_response_state = binary_response_state.rs_initial)
    (hb1 : q1.m_read_buf = hb ++ rest1)
    (hlen : hb.length = 24)
    (hmagic : (read_header hb).magic = 0x81)
    (hbody : (read_header hb).bodylen = 0)
    (hq2 : q2.m_response_state = binary_response_state.rs_initial)
    (hb2 : q2.m_read_buf = f.bytes ++ rest2)
    (hf : f.sane) (hfo : f.hdr.opcode ≠ PROTOCOL_BINARY_CMD_GETKQ)
    (hfs : f.hdr.status ≠ 0) :
    (∃ p1, p.parse_response latency = some (Outcome.ret 1, p1) ∧ p1.m_read_buf = rest ∧
      p1.m_last_response.m_error = true ∧ p1.m_last_response.m_status = some rline) ∧
    (∃ p1, t.parse_response ndebug latency = some (Outcome.ret (-1), p1) ∧
      p1.m_read_buf = trest ∧
      p1.m_last_response.m_error = true ∧ p1.m_last_response.m_status = some tline) ∧
    (∃ p1, q1.parse_response ndebug latency = some (Outcome.ret 1, p1) ∧
      p1.m_read_buf = rest1 ∧
      (p1.m_last_response.m_error = true ↔ (read_header hb).status ∈ glossary_error_codes) ∧
      p1.m_last_response.m_status = glossary_status (read_header hb).status) ∧
    (∃ p1, q2.parse_response ndebug latency = some (Outcome.ret 1, p1) ∧
      p1.m_read_buf = rest2 ∧
      (p1.m_last_response.m_error = true ↔ f.hdr.status ∈ glossary_error_codes) ∧
      p1.m_last_response.m_status = glossary_status f.hdr.status ∧
      p1.m_last_response.m_hits = 0) := by
  obtain ⟨c1, c2, c3⟩ := response_cleared q2.m_keep_value latency q2.m_last_response f
  refine ⟨⟨_, redis_single_line latency p rline rest hs hbuf hrc (Or.inr (Or.inl hrh)),
      rfl, ?_, rfl⟩,
    ⟨_, text_unknown_line ndebug latency t tline trest hts htb htc ht1 ht2 ht3, rfl, rfl, rfl⟩,
    ⟨_, binary_zero_body_initial ndebug latency q1 hb rest1 hq1 hb1 hlen hmagic hbody, rfl,
      ?_, ?_⟩,
    ⟨_, binary_single_frame_initial ndebug latency q2 f rest2 hq2 hb2 hf hfo, rfl, ?_, c1, c3 hfs⟩⟩
  · simp [hrh]
  · show ((false || decide ((read_header hb).status ∈ glossary_error_codes)) = true) ↔ _
    simp
  · show (glossary_status (read_header hb).status).orElse (fun _ => none)
      = glossary_status (read_header hb).status
    cases glossary_status (read_header hb).status <;> rfl
  · show (f.response q2.m_keep_value latency q2.m_last_response.clear 0).m_error = true ↔ _
    rw [c2]; simp

theorem server_error_replies_witness :
    (∃ p1, (redis_protocol.new (str "-ERR\r\n") false 0).parse_response 7
        = some (Outcome.ret 1, p1) ∧ p1.m_read_buf = [] ∧
      p1.m_last_response.m_error = true ∧ p1.m_last_response.m_status = some (str "-ERR")) ∧
    (∃ p1, memcache_text_protocol.parse_response false
        (memcache_text_protocol.new (str "NOT_STORED" ++ 13 :: 10 :: []) false 0) 7
          = some (Outcome.ret (-1), p1) ∧ p1.m_read_buf = [] ∧
      p1.m_last_response.m_error = true ∧
      p1.m_last_response.m_status = some (str "NOT_STORED")) ∧
    (∃ p1, memcache_binary_protocol.parse_response false
        (memcache_binary_protocol.new (unknown_command_header ++ []) false 0
          ⟨0, 0, 0, 0, 0, 0, 0, 0, 0⟩) 7 = some (Outcome.ret 1, p1) ∧ p1.m_read_buf = [] ∧
      (p1.m_last_response.m_error = true ↔
        (read_header unknown_command_header).status ∈ glossary_error_codes) ∧
      p1.m_last_response.m_status = glossary_status (read_header unknown_command_header).status) ∧
    (∃ p1, memcache_binary_protocol.parse_response false
        (memcache_binary_protocol.new (not_found_frame.bytes ++ []) false 0
          ⟨0, 0, 0, 0, 0, 0, 0, 0, 0⟩) 7 = some (Outcome.ret 1, p1) ∧ p1.m_read_buf = [] ∧
      (p1.m_last_response.m_error = true ↔ not_found_frame.hdr.status ∈ glossary_error_codes) ∧
      p1.m_last_response.m_status = glossary_status not_found_frame.hdr.status ∧
      p1.m_last_response.m_hits = 0) :=
  server_error_replies false 7
    (redis_protocol.new (str "-ERR\r\n") false 0)
    (memcache_text_protocol.new (str "NOT_STORED" ++ 13 :: 10 :: []) false 0)
    (memcache_binary_protocol.new (unknown_command_header ++ []) false 0
      ⟨0, 0, 0, 0, 0, 0, 0, 0, 0⟩)
    (memcache_binary_protocol.new (not_found_frame.bytes ++ []) false 0
      ⟨0, 0, 0, 0, 0, 0, 0, 0, 0⟩)
    (str "-ERR") [] (str "NOT_STORED") [] unknown_command_header [] [] not_found_frame
    rfl rfl rfl rfl rfl rfl rfl rfl rfl rfl rfl rfl rfl rfl rfl rfl rfl (by decide)
    (by decide) (by decide)

theorem takeWhile_append_stop {α : Type} (p : α → Bool) (l : List α) (c : α) (r : List α)
    (hl : ∀ x ∈ l, p x = true) (hc : p c = false) :
    (l ++ c :: r).takeWhile p = l := by
  induction l with
  | nil => simp [List.takeWhile, hc]
  | cons a l ih =>
    have ha := hl a (by simp)
    rw [List.cons_append, List.takeWhile_cons, ha, if_pos rfl,
      ih (fun x hx => hl x (List.mem_cons_of_mem _ hx))]

theorem dropWhile_append_stop {α : Type} (p : α → Bool) (l : List α) (c : α) (r : List α)
    (hl : ∀ x ∈ l, p x = true) (hc : p c = false) :
    (l ++ c :: r).dropWhile p = c :: r := by
  induction l with
  | nil => simp [List.dropWhile, hc]
  | cons a l ih =>
    have ha := hl a (by simp)
    rw [List.cons_append, List.dropWhile_cons, ha, if_pos rfl]
    exact ih (fun x hx => hl x (List.mem_cons_of_mem _ hx))

theorem takeWhile_all {α : Type} (p : α → Bool) (l : List α) (hl : ∀ x ∈ l, p x = true) :
    l.takeWhile p = l := by
  induction l with
  | nil => rfl
  | cons a l ih =>
    rw [List.takeWhile_cons, hl a (by simp), if_pos rfl,
      ih (fun x hx => hl x (List.mem_cons_of_mem _ hx))]

theorem dropWhile_all {α : Type} (p : α → Bool) (l : List α) (hl : ∀ x ∈ l, p x = true) :
    l.dropWhile p = [] := by
  induction l with
  | nil => rfl
  | cons a l ih =>
    rw [List.dropWhile_cons, hl a (by simp), if_pos rfl]
    exact ih (fun x hx => hl x (List.mem_cons_of_mem _ hx))

theorem dropWhile_space_word (w r : Bytes) (hne : w ≠ []) (hw : ∀ c ∈ w, isspace c = false) :
    List.dropWhile isspace (32 :: (w ++ r)) = w ++ r := by
  cases w with
  | nil => exact absurd rfl hne
  | cons a w =>
    have h32 : isspace 32 = true := by decide
    rw [List.dropWhile_cons, h32, if_pos rfl, List.cons_append, List.dropWhile_cons,
      hw a (by simp)]
    rfl

theorem scan_s_word (w : Bytes) (r : Bytes) (hne : w ≠ [])
    (hw : ∀ c ∈ w, isspace c = false) :
    scan_s (32 :: (w ++ 32 :: r)) = some (w, 32 :: r) := by
  unfold scan_s
  have h32 : isspace 32 = true := by decide
  simp only [dropWhile_space_word w (32 :: r) hne hw]
  rw [takeWhile_append_stop _ w 32 r (by intro x hx; simp [hw x hx]) (by simp [h32]),
    dropWhile_append_stop _ w 32 r (by intro x hx; simp [hw x hx]) (by simp [h32])]
  cases w with
  | nil => exact absurd rfl hne
  | cons a w => rfl

theorem digits_no_sign (ds r : Bytes) (hne : ds ≠ []) (hall : ∀ c ∈ ds, isdigit c = true) :
    (ds ++ r).head? ≠ some 45 ∧ (ds ++ r).head? ≠ some 43 := by
  cases ds with
  | nil => exact absurd rfl hne
  | cons c t =>
    have hc : isdigit c = true := hall c (by simp)
    simp only [List.cons_append, List.head?_cons, ne_eq, Option.some.injEq]
    constructor
    · intro h; rw [h] at hc; exact absurd hc (by decide)
    · intro h; rw [h] at hc; exact absurd hc (by decide)

theorem digits_not_space (ds : Bytes) (hall : ∀ c ∈ ds, isdigit c = true) :
    ∀ c ∈ ds, isspace c = false :=
  fun c hc => isdigit_not_space c (hall c hc)

theorem scan_u_decimal_space (n : Nat) (r : Bytes) :
    ∃ v, scan_u (32 :: (decimal n ++ 32 :: r)) = some (v, 32 :: r) := by
  unfold scan_u
  have hall := decimal_all n
  have hne := decimal_ne_nil n
  obtain ⟨h45, h43⟩ := digits_no_sign (decimal n) (32 :: r) hne hall
  simp only [dropWhile_space_word (decimal n) (32 :: r) hne (digits_not_space _ hall),
    h45, h43, or_self, if_false]
  rw [takeWhile_append_stop isdigit (decimal n) 32 r hall (by decide),
    dropWhile_append_stop isdigit (decimal n) 32 r hall (by decide)]
  have : (decimal n).isEmpty = false := by
    cases hd : decimal n with
    | nil => exact absurd hd hne
    | cons c t => rfl
  simp [this]

theorem scan_u_decimal_end (n : Nat) (h : n < 4294967296) :
    scan_u (32 :: decimal n) = some (n, []) := by
  unfold scan_u
  have hall := decimal_all n
  have hne := decimal_ne_nil n
  have hv := decimal_value n 0 []
  simp only [List.append_nil, digits_value, Nat.zero_mul, Nat.zero_add] at hv
  obtain ⟨h45, h43⟩ := digits_no_sign (decimal n) [] hne hall
  have hdw := dropWhile_space_word (decimal n) [] hne (digits_not_space _ hall)
  rw [List.append_nil] at hdw h45 h43
  simp only [hdw, h45, h43, or_self, if_false]
  rw [takeWhile_all isdigit (decimal n) hall, dropWhile_all isdigit (decimal n) hall, hv]
  have h1 : ¬ n > 18446744073709551615 := by omega
  have : (decimal n).isEmpty = false := by
    cases hd : decimal n with
    | nil => exact absurd hd hne
    | cons c t => rfl
  simp [this, h1, Nat.mod_eq_of_lt h]

theorem scan_u_nil : scan_u [] = none := by rfl

theorem str_value_space : str "VALUE " = [86, 65, 76, 85, 69, 32] := by decide

theorem str_value : str "VALUE" = [86, 65, 76, 85, 69] := by decide

theorem section_line_eq (s : text_section) :
    s.line = [86, 65, 76, 85, 69] ++
      32 :: (s.key ++ 32 :: (decimal s.flags ++ 32 :: decimal s.value.length)) := by
  unfold text_section.line
  rw [str_value_space]
  rfl

theorem section_line_mem (s : text_section) (hok : s.ok) :
    ∀ c ∈ s.line, c ≠ 0 ∧ c ≠ 10 ∧ c ≠ 13 := by
  obtain ⟨_, _, hkey, _⟩ := hok
  intro c hc
  rw [section_line_eq] at hc
  have hdig : ∀ n : Nat, ∀ c ∈ decimal n, c ≠ 0 ∧ c ≠ 10 ∧ c ≠ 13 := by
    intro n c hc
    have hd := decimal_all n c hc
    refine ⟨?_, ?_, ?_⟩ <;> (intro h; rw [h] at hd; exact absurd hd (by decide))
  simp only [List.mem_append, List.mem_cons, List.mem_singleton, List.not_mem_nil, or_false]
    at hc
  rcases hc with hc | hc | hc | hc | hc | hc | hc
  · rcases hc with hc | hc | hc | hc | hc <;> (subst hc; decide)
  · subst hc; decide
  · have h := hkey c hc
    refine ⟨h.2, ?_, ?_⟩ <;> (intro e; rw [e] at h; exact absurd h.1 (by decide))
  · subst hc; decide
  · exact hdig _ c hc
  · subst hc; decide
  · exact hdig _ c hc

theorem section_line_crlf (s : text_section) (hok : s.ok) : has_crlf s.line = false :=
  has_crlf_of_no_lf _ (fun c hc => (section_line_mem s hok c hc).2.1)

theorem section_line_memcmp (s : text_section) :
    memcmp_eq s.line (str "VALUE") = true := by
  rw [section_line_eq, str_value]
  rfl

theorem section_line_cstr (s : text_section) (hok : s.ok) : cstr s.line = s.line := by
  unfold cstr
  apply takeWhile_all
  intro c hc
  have := (section_line_mem s hok c hc).1
  simpa using this

theorem sscanf_value_section (s : text_section) (hok : s.ok) :
    sscanf_value s.line = ⟨4, some s.value.length, false⟩ := by
  have hok2 := hok
  obtain ⟨hne, hklen, hkey, hvlen⟩ := hok2
  unfold sscanf_value
  rw [section_line_cstr s hok, section_line_eq]
  have h1 : scan_s ([86, 65, 76, 85, 69] ++
      32 :: (s.key ++ 32 :: (decimal s.flags ++ 32 :: decimal s.value.length)))
      = some ([86, 65, 76, 85, 69],
          32 :: (s.key ++ 32 :: (decimal s.flags ++ 32 :: decimal s.value.length))) := by
    unfold scan_s
    have hd : List.dropWhile isspace ([86, 65, 76, 85, 69] ++
      32 :: (s.key ++ 32 :: (decimal s.flags ++ 32 :: decimal s.value.length)))
        = [86, 65, 76, 85, 69] ++
      32 :: (s.key ++ 32 :: (decimal s.flags ++ 32 :: decimal s.value.length)) := by
      rw [List.cons_append, List.dropWhile_cons]
      rfl
    simp only [hd]
    rw [takeWhile_append_stop _ [86, 65, 76, 85, 69] 32 _ (by decide) (by decide),
      dropWhile_append_stop _ [86, 65, 76, 85, 69] 32 _ (by decide) (by decide)]
    rfl
  have h2 := scan_s_word s.key (decimal s.flags ++ 32 :: decimal s.value.length) hne
    (fun c hc => (hkey c hc).1)
  obtain ⟨v, h3⟩ := scan_u_decimal_space s.flags (decimal s.value.length)
  have h4 := scan_u_decimal_end s.value.length (by omega)
  have hk : ¬ (s.key.length ≥ 256) := by omega
  simp only [h1, h2, h3, h4, scan_u_nil, hk, if_false]
  simp

theorem text_section_advance (ndebug : Bool) (latency n : Nat) (p : memcache_text_protocol)
    (s : text_section) (rest : Bytes)
    (hs : p.m_response_state = text_response_state.rs_read_section)
    (hbuf : p.m_read_buf = s.bytes ++ rest)
    (hok : s.ok)
    (hmode : p.m_keep_value = false ∨ ndebug = true ∨ s.value = []) :
    iterate (memcache_text_protocol.step ndebug latency) (n + 2) p =
      iterate (memcache_text_protocol.step ndebug latency) n (s.advance latency p) := by
  have hok2 := hok
  obtain ⟨hne, hklen, hkey, hvlen⟩ := hok2
  have hb2 : p.m_read_buf = s.line ++ 13 :: 10 :: (s.value ++ 13 :: 10 :: rest) := by
    rw [hbuf, text_section.bytes]; simp
  have hstep1 : memcache_text_protocol.step ndebug latency p =
      Step.again
        { p with
          m_read_buf := s.value ++ 13 :: 10 :: rest,
          m_value_len := s.value.length,
          m_response_len := p.m_response_len + (s.line.length + 2),
          m_last_response :=
            { p.m_last_response with
              m_status := p.m_last_response.m_status.orElse (fun _ => some s.line),
              m_latencies := p.m_last_response.m_latencies ++ [latency],
              m_total_len := (p.m_response_len + (s.line.length + 2)) % 4294967296 },
          m_response_state := text_response_state.rs_read_value } := by
    unfold memcache_text_protocol.step
    rw [hs]
    simp only [hb2, evbuffer_readln_line _ _ (section_line_crlf s hok), section_line_memcmp,
      sscanf_value_section s hok, if_true]
    cases hst : p.m_last_response.m_status <;>
      simp [protocol_response.get_status, protocol_response.set_status,
        protocol_response.set_total_len, protocol_response.set_latency, hst]
  rw [iterate_again _ (n + 1) p _ hstep1]
  apply iterate_again
  unfold memcache_text_protocol.step
  have hmod : (s.value.length + 2) % 4294967296 = s.value.length + 2 := Nat.mod_eq_of_lt hvlen
  have hlen : evbuffer_get_length (s.value ++ 13 :: 10 :: rest) ≥ s.value.length + 2 := by
    simp [evbuffer_get_length]
  have ht : List.take s.value.length (s.value ++ 13 :: 10 :: rest) = s.value := by simp
  have hd : List.drop 2 (List.drop s.value.length (s.value ++ 13 :: 10 :: rest)) = rest := by
    simp
  have hdr : List.drop s.bytes.length p.m_read_buf = rest := by rw [hbuf]; simp
  simp only [hmod, hlen, if_true, evbuffer_remove, evbuffer_drain, ht, hd,
    text_section.advance, hdr]
  by_cases hk : p.m_keep_value = true
  · have hassert : ¬ ((!ndebug) = true ∧ s.value.length % 4294967296 ≠ 0) := by
      rcases hmode with h | h | h
      · rw [hk] at h; exact absurd h (by decide)
      · simp [h]
      · simp [h]
    simp only [hk, if_true, hassert, if_false]
    simp [protocol_response.set_value, protocol_response.incr_hits, text_section.pair,
      Nat.add_assoc]
  · have hk2 : p.m_keep_value = false := by simpa using hk
    simp [hk2, protocol_response.incr_hits, Nat.add_assoc]

theorem text_end_line (ndebug : Bool) (latency n : Nat) (p : memcache_text_protocol)
    (rest : Bytes)
    (hs : p.m_response_state = text_response_state.rs_read_section)
    (hbuf : p.m_read_buf = str "END\r\n" ++ rest) :
    iterate (memcache_text_protocol.step ndebug latency) (n + 2) p =
      some (Outcome.ret 1,
        { p with
          m_read_buf := rest,
          m_response_len := p.m_response_len + 5,
          m_last_response :=
            { p.m_last_response with
              m_status := p.m_last_response.m_status.orElse (fun _ => some (str "END")),
              m_latencies := p.m_last_response.m_latencies ++ [latency],
              m_total_len := (p.m_response_len + 5) % 4294967296 },
          m_response_state := text_response_state.rs_initial }) := by
  have hb2 : p.m_read_buf = str "END" ++ 13 :: 10 :: rest := by rw [hbuf]; rfl
  have hstep1 : memcache_text_protocol.step ndebug latency p =
      Step.again
        { p with
          m_read_buf := rest,
          m_response_len := p.m_response_len + 5,
          m_last_response :=
            { p.m_last_response with
              m_status := p.m_last_response.m_status.orElse (fun _ => some (str "END")),
              m_latencies := p.m_last_response.m_latencies ++ [latency],
              m_total_len := (p.m_response_len + 5) % 4294967296 },
          m_response_state := text_response_state.rs_read_end } := by
    unfold memcache_text_protocol.step
    rw [hs]
    have h1 : memcmp_eq (str "END") (str "VALUE") = false := by decide
    have h2 : memcmp_eq (str "END") (str "END") = true := by decide
    have h3 : (str "END").length + 2 = 5 := by decide
    simp only [hb2, evbuffer_readln_line _ _ (by decide : has_crlf (str "END") = false), h1, h2,
      h3]
    cases hst : p.m_last_response.m_status <;>
      simp [protocol_response.get_status, protocol_response.set_status,
        protocol_response.set_total_len, protocol_response.set_latency, hst]
  rw [iterate_again _ (n + 1) p _ hstep1]
  apply iterate_done
  unfold memcache_text_protocol.step
  rfl

theorem sections_advance_buf (latency : Nat) (ss : List text_section) :
    ∀ (p : memcache_text_protocol) (rest : Bytes),
      p.m_read_buf = sections_bytes ss ++ rest →
      (ss.foldl (text_section.advance latency) p).m_read_buf = rest := by
  induction ss with
  | nil => intro p rest h; simpa [sections_bytes] using h
  | cons s ss ih =>
    intro p rest h
    simp only [List.foldl_cons]
    apply ih
    simp [text_section.advance, h, sections_bytes, List.append_assoc]

theorem sections_advance_keep (latency : Nat) (ss : List text_section) :
    ∀ (p : memcache_text_protocol),
      (ss.foldl (text_section.advance latency) p).m_keep_value = p.m_keep_value := by
  induction ss with
  | nil => intro p; rfl
  | cons s ss ih => intro p; simp only [List.foldl_cons]; rw [ih]; rfl

theorem sections_advance_state (latency : Nat) (ss : List text_section) :
    ∀ (p : memcache_text_protocol),
      p.m_response_state = text_response_state.rs_read_section →
      (ss.foldl (text_section.advance latency) p).m_response_state
        = text_response_state.rs_read_section := by
  induction ss with
  | nil => intro p h; exact h
  | cons s ss ih => intro p _; simp only [List.foldl_cons]; exact ih _ rfl

theorem section_bytes_length (s : text_section) :
    s.bytes.length = (s.line.length + 2) + (s.value.length + 2) := by
  simp [text_section.bytes]; omega

theorem sections_advance_len (latency : Nat) (ss : List text_section) :
    ∀ (p : memcache_text_protocol),
      (ss.foldl (text_section.advance latency) p).m_response_len
        = p.m_response_len + (sections_bytes ss).length := by
  induction ss with
  | nil => intro p; simp [sections_bytes]
  | cons s ss ih =>
    intro p
    simp only [List.foldl_cons, sections_bytes, List.length_append]
    rw [ih, section_bytes_length]
    simp only [text_section.advance]
    omega

theorem sections_advance_hits (latency : Nat) (ss : List text_section) :
    ∀ (p : memcache_text_protocol), p.m_last_response.m_hits < 4294967296 →
      (ss.foldl (text_section.advance latency) p).m_last_response.m_hits
        = (p.m_last_response.m_hits + ss.length) % 4294967296 := by
  induction ss with
  | nil => intro p h; simp only [List.foldl_nil, List.length_nil, Nat.add_zero]; omega
  | cons s ss ih =>
    intro p _
    simp only [List.foldl_cons, List.length_cons]
    rw [ih _ (by simp only [text_section.advance]; omega)]
    simp only [text_section.advance]
    omega

theorem sections_advance_values (latency : Nat) (ss : List text_section) :
    ∀ (p : memcache_text_protocol),
      (ss.foldl (text_section.advance latency) p).m_last_response.m_values
        = p.m_last_response.m_values
            ++ (if p.m_keep_value then ss.map text_section.pair else []) := by
  induction ss with
  | nil => intro p; by_cases hk : p.m_keep_value = true <;> simp [hk]
  | cons s ss ih =>
    intro p
    simp only [List.foldl_cons]
    rw [ih]
    simp only [text_section.advance]
    by_cases hk : p.m_keep_value = true <;> simp [hk]

theorem sections_advance_error (latency : Nat) (ss : List text_section) :
    ∀ (p : memcache_text_protocol),
      (ss.foldl (text_section.advance latency) p).m_last_response.m_error
        = p.m_last_response.m_error := by
  induction ss with
  | nil => intro p; rfl
  | cons s ss ih => intro p; simp only [List.foldl_cons]; rw [ih]; rfl

theorem sections_advance_latencies (latency : Nat) (ss : List text_section) :
    ∀ (p : memcache_text_protocol),
      (ss.foldl (text_section.advance latency) p).m_last_response.m_latencies
        = p.m_last_response.m_latencies ++ List.replicate ss.length latency := by
  induction ss with
  | nil => intro p; simp
  | cons s ss ih =>
    intro p
    simp only [List.foldl_cons, List.length_cons]
    rw [ih]
    simp [text_section.advance, List.replicate_succ]

theorem sections_advance_status_some (latency : Nat) (ss : List text_section) :
    ∀ (p : memcache_text_protocol) (x : Bytes), p.m_last_response.m_status = some x →
      (ss.foldl (text_section.advance latency) p).m_last_response.m_status = some x := by
  induction ss with
  | nil => intro p x h; exact h
  | cons s ss ih =>
    intro p x h
    simp only [List.foldl_cons]
    apply ih
    simp [text_section.advance, h]

theorem sections_advance_status (latency : Nat) (ss : List text_section)
    (p : memcache_text_protocol) (h : p.m_last_response.m_status = none) :
    (ss.foldl (text_section.advance latency) p).m_last_response.m_status
      = ss.head?.map text_section.line := by
  cases ss with
  | nil => simpa using h
  | cons s ss =>
    simp only [List.foldl_cons, List.head?_cons, Option.map_some']
    apply sections_advance_status_some
    simp [text_section.advance, h]

theorem text_sections_run (ndebug : Bool) (latency : Nat) (ss : List text_section) :
    ∀ (n : Nat) (p : memcache_text_protocol) (rest : Bytes),
      p.m_response_state = text_response_state.rs_read_section →
      p.m_read_buf = sections_bytes ss ++ rest →
      (∀ s ∈ ss, s.ok) →
      (p.m_keep_value = false ∨ ndebug = true ∨ ∀ s ∈ ss, s.value = []) →
      iterate (memcache_text_protocol.step ndebug latency) (n + 2 * ss.length) p =
        iterate (memcache_text_protocol.step ndebug latency) n
          (ss.foldl (text_section.advance latency) p) := by
  induction ss with
  | nil => intro n p rest _ _ _ _; rfl
  | cons s ss ih =>
    intro n p rest hs hbuf hall hmode
    have e : n + 2 * (s :: ss).length = (n + 2 * ss.length) + 2 := by
      simp only [List.length_cons]; omega
    rw [e, text_section_advance ndebug latency _ p s (sections_bytes ss ++ rest) hs
      (by rw [hbuf, sections_bytes, List.append_assoc]) (hall s (by simp))
      (by
        rcases hmode with h | h | h
        · exact Or.inl h
        · exact Or.inr (Or.inl h)
        · exact Or.inr (Or.inr (h s (by simp))))]
    simp only [List.foldl_cons]
    apply ih n _ rest rfl
    · simp [text_section.advance, hbuf, sections_bytes, List.append_assoc]
    · intro g hg
      exact hall g (List.mem_cons_of_mem _ hg)
    · rcases hmode with h | h | h
      · exact Or.inl h
      · exact Or.inr (Or.inl h)
      · exact Or.inr (Or.inr (fun g hg => h g (List.mem_cons_of_mem _ hg)))

theorem sections_bytes_length (ss : List text_section) :
    4 * ss.length ≤ (sections_bytes ss).length := by
  induction ss with
  | nil => simp [sections_bytes]
  | cons s ss ih =>
    simp only [sections_bytes, List.length_append, List.length_cons, section_bytes_length]
    omega

theorem text_get_reply_mod (ndebug : Bool) (latency : Nat) (p : memcache_text_protocol)
    (ss : List text_section)
    (hs : p.m_response_state = text_response_state.rs_initial)
    (hbuf : p.m_read_buf = sections_bytes ss ++ str "END\r\n")
    (hok : ∀ s ∈ ss, s.ok)
    (hmode : p.m_keep_value = false ∨ ndebug = true ∨ ∀ s ∈ ss, s.value = []) :
    ∃ p1, p.parse_response ndebug latency = some (Outcome.ret 1, p1) ∧
      p1.m_read_buf = [] ∧
      p1.m_response_state = text_response_state.rs_initial ∧
      p1.m_last_response.m_hits = ss.length % 4294967296 ∧
      p1.m_last_response.m_status = some ((ss.head?.map text_section.line).getD (str "END")) ∧
      p1.m_last_response.m_error = false ∧
      p1.m_last_response.m_total_len
        = (sections_bytes ss ++ str "END\r\n").length % 4294967296 ∧
      p1.m_last_response.m_values
        = (if p.m_keep_value then ss.map text_section.pair else []) ∧
      p1.m_last_response.m_latencies = List.replicate (ss.length + 1) latency := by
  have hlen := sections_bytes_length ss
  have hfuel : p.m_read_buf.length + 3
      = ((p.m_read_buf.length - 2 * ss.length) + 2 + 2 * ss.length) + 1 := by
    rw [hbuf, List.length_append]; omega
  obtain ⟨q0, hq0⟩ : ∃ q0 : memcache_text_protocol, q0 =
      { p with m_last_response := p.m_last_response.clear,
               m_response_state := text_response_state.rs_read_section,
               m_response_len := 0 } := ⟨_, rfl⟩
  have hstep0 : memcache_text_protocol.step ndebug latency p = Step.again q0 := by
    unfold memcache_text_protocol.step; rw [hs, hq0]
  have hq0buf : q0.m_read_buf = sections_bytes ss ++ str "END\r\n" := by rw [hq0]; exact hbuf
  have hq0keep : q0.m_keep_value = p.m_keep_value := by rw [hq0]
  have hq0resp : q0.m_last_response = p.m_last_response.clear := by rw [hq0]
  have hq0len : q0.m_response_len = 0 := by rw [hq0]
  have hq0state : q0.m_response_state = text_response_state.rs_read_section := by rw [hq0]
  have hrun := text_sections_run ndebug latency ss (p.m_read_buf.length - 2 * ss.length + 2)
    q0 (str "END\r\n") hq0state hq0buf hok (by rw [hq0keep]; exact hmode)
  have hqbuf := sections_advance_buf latency ss q0 _ hq0buf
  have hqstate := sections_advance_state latency ss q0 hq0state
  have hqkeep := sections_advance_keep latency ss q0
  have hqhits := sections_advance_hits latency ss q0 (by rw [hq0resp]; simp [protocol_response.clear])
  have hqvals := sections_advance_values latency ss q0
  have hqerr := sections_advance_error latency ss q0
  have hqlat := sections_advance_latencies latency ss q0
  have hqlen := sections_advance_len latency ss q0
  have hqstatus := sections_advance_status latency ss q0 (by rw [hq0resp]; rfl)
  generalize List.foldl (text_section.advance latency) q0 ss = q at *
  unfold memcache_text_protocol.parse_response
  rw [hfuel, iterate_again _ _ p q0 hstep0, hrun,
    text_end_line ndebug latency _ q [] hqstate (by rw [hqbuf, List.append_nil])]
  refine ⟨_, rfl, rfl, rfl, ?_, ?_, ?_, ?_, ?_, ?_⟩
  · show q.m_last_response.m_hits = _
    rw [hqhits, hq0resp]; simp [protocol_response.clear]
  · show q.m_last_response.m_status.orElse (fun _ => some (str "END")) = _
    rw [hqstatus]
    cases ss.head? <;> rfl
  · show q.m_last_response.m_error = false
    rw [hqerr, hq0resp]; rfl
  · show (q.m_response_len + 5) % 4294967296 = _
    rw [hqlen, hq0len, List.length_append]
    have : (str "END\r\n").length = 5 := by decide
    rw [this, Nat.zero_add]
  · show q.m_last_response.m_values = _
    rw [hqvals, hq0keep, hq0resp]
    simp [protocol_response.clear]
  · show q.m_last_response.m_latencies ++ [latency] = _
    rw [hqlat, hq0resp]
    simp [protocol_response.clear, List.replicate_succ']

theorem text_long_value (l : Bytes) (hl : l.length = 4294967290) :
    (memcache_text_protocol.parse_response false
      (memcache_text_protocol.new
        (sections_bytes [⟨str "k", 0, l⟩] ++ str "END\r\n") false 0) 7).map
        (fun x => (x.1, x.2.m_last_response.m_hits, x.2.m_last_response.m_total_len))
      = some (Outcome.ret 1, 1, 23) ∧
    (sections_bytes [⟨str "k", 0, l⟩] ++ str "END\r\n").length = 4294967319 := by
  have hdec : (decimal 4294967290).length = 10 := by rfl
  have hlenl : (text_section.line ⟨str "k", 0, l⟩).length = 20 := by
    simp only [text_section.line, List.length_append, List.length_cons, hl, hdec]
    rfl
  have htotal : (sections_bytes [⟨str "k", 0, l⟩] ++ str "END\r\n").length = 4294967319 := by
    have h5 : (str "END\r\n").length = 5 := by decide
    simp only [sections_bytes, List.length_append, section_bytes_length, hlenl, hl, h5,
      List.length_nil]
  refine ⟨?_, htotal⟩
  obtain ⟨p1, hp, _, _, hhits, _, _, htl, _, _⟩ :=
    text_get_reply_mod false 7
      (memcache_text_protocol.new (sections_bytes [⟨str "k", 0, l⟩] ++ str "END\r\n") false 0)
      [⟨str "k", 0, l⟩] rfl rfl
      (by
        intro s hs
        rw [List.mem_singleton] at hs
        subst hs
        refine ⟨?_, ?_, ?_, ?_⟩
        · show str "k" ≠ []
          decide
        · show (str "k").length < 256
          decide
        · show ∀ c ∈ str "k", isspace c = false ∧ c ≠ 0
          decide
        show l.length + 2 < 4294967296
        rw [hl]; decide)
      (Or.inl rfl)
  rw [hp, htotal] at *
  simp only [Option.map_some', hhits, htl]
  rfl

/-- C6 as stated fails in two ways. With retention on, the code compares the byte
count that `evbuffer_remove` returns with 0 in an `assert`, so on the claim's own
witness `VALUE k 0 5\r\nhello\r\nEND\r\n` the call ends in a failed assertion. And
total_len is an `unsigned int`: a reply of 4294967319 bytes (one section with a value
of 4294967290 bytes) completes with total_len = 23. -/
theorem text_get_reply_fails :
    (memcache_text_protocol.parse_response false
      (memcache_text_protocol.new (str "VALUE k 0 5\r\nhello\r\nEND\r\n") true 0) 7).map
        (fun x => x.1) = some Outcome.assert_failed ∧
    (memcache_text_protocol.parse_response false
      (memcache_text_protocol.new
        (sections_bytes [⟨str "k", 0, List.replicate 4294967290 120⟩] ++ str "END\r\n")
        false 0) 7).map
        (fun x => (x.1, x.2.m_last_response.m_hits, x.2.m_last_response.m_total_len))
      = some (Outcome.ret 1, 1, 23) ∧
    (sections_bytes [⟨str "k", 0, List.replicate 4294967290 120⟩] ++ str "END\r\n").length
      = 4294967319 :=
  ⟨by rfl, text_long_value (List.replicate 4294967290 120) (List.length_replicate _ _)⟩

/-- C6 (amended): for every n >= 0 and every sequence of n sections
`VALUE <key> <flags> <vlen>\r\n<vlen bytes>\r\n` (the key a non-empty word of fewer
than 256 bytes without white space or NUL) followed by `END\r\n`, the whole reply
shorter than 2^32 bytes, a text parser in the Initial state, with retention off or
compiled without assertions, returns 1 having consumed the whole reply, with hits = n,
status equal to the first line seen, error=false, total_len equal to the number of
bytes consumed and, when retention is on, the n payloads queued in arrival order; the
next call returns 0. -/
theorem text_get_reply (ndebug : Bool) (latency : Nat) (p : memcache_text_protocol)
    (ss : List text_section)
    (hs : p.m_response_state = text_response_state.rs_initial)
    (hbuf : p.m_read_buf = sections_bytes ss ++ str "END\r\n")
    (hok : ∀ s ∈ ss, s.ok)
    (hmode : p.m_keep_value = false ∨ ndebug = true)
    (hlen : (sections_bytes ss ++ str "END\r\n").length < 4294967296) :
    ∃ p1, p.parse_response ndebug latency = some (Outcome.ret 1, p1) ∧
      p1.m_read_buf = [] ∧
      p1.m_last_response.m_hits = ss.length ∧
      p1.m_last_response.m_status = some ((ss.head?.map text_section.line).getD (str "END")) ∧
      p1.m_last_response.m_error = false ∧
      p1.m_last_response.m_total_len = (sections_bytes ss ++ str "END\r\n").length ∧
      p1.m_last_response.m_values
        = (if p.m_keep_value then ss.map text_section.pair else []) ∧
      ∃ p2, p1.parse_response ndebug latency = some (Outcome.ret 0, p2) := by
  obtain ⟨p1, hp, hb, hst, hhits, hstatus, herr, htl, hvals, _⟩ :=
    text_get_reply_mod ndebug latency p ss hs hbuf hok
      (by rcases hmode with h | h
          · exact Or.inl h
          · exact Or.inr (Or.inl h))
  have hk := sections_bytes_length ss
  refine ⟨p1, hp, hb, ?_, hstatus, herr, ?_, hvals,
    ⟨_, text_initial_empty ndebug latency p1 hst hb⟩⟩
  · rw [hhits]
    apply Nat.mod_eq_of_lt
    rw [List.length_append] at hlen
    omega
  · rw [htl]
    exact Nat.mod_eq_of_lt hlen

theorem text_get_reply_witness :
    ∃ p1, (memcache_text_protocol.new
        (sections_bytes [⟨str "k", 0, str "hello"⟩] ++ str "END\r\n") true 0).parse_response
          true 7 = some (Outcome.ret 1, p1) ∧
      p1.m_read_buf = [] ∧
      p1.m_last_response.m_hits = [(⟨str "k", 0, str "hello"⟩ : text_section)].length ∧
      p1.m_last_response.m_status
        = some (([(⟨str "k", 0, str "hello"⟩ : text_section)].head?.map
            text_section.line).getD (str "END")) ∧
      p1.m_last_response.m_error = false ∧
      p1.m_last_response.m_total_len
        = (sections_bytes [⟨str "k", 0, str "hello"⟩] ++ str "END\r\n").length ∧
      p1.m_last_response.m_values
        = (if (memcache_text_protocol.new
              (sections_bytes [⟨str "k", 0, str "hello"⟩] ++ str "END\r\n") true 0).m_keep_value
           then [(⟨str "k", 0, str "hello"⟩ : text_section)].map text_section.pair else []) ∧
      ∃ p2, p1.parse_response true 7 = some (Outcome.ret 0, p2) :=
  text_get_reply true 7
    (memcache_text_protocol.new
      (sections_bytes [⟨str "k", 0, str "hello"⟩] ++ str "END\r\n") true 0)
    [⟨str "k", 0, str "hello"⟩] rfl rfl (by decide) (Or.inr rfl) (by decide)

theorem text_witness_bytes :
    sections_bytes [⟨str "k", 0, str "hello"⟩] ++ str "END\r\n"
      = str "VALUE k 0 5\r\nhello\r\nEND\r\n" := by
  decide

namespace Machine

variable {σ : Type}

theorem iterate_total (M : Machine σ) (L : M.Lawful) :
    ∀ (n : Nat) (s : σ), M.rank s < n → ∃ r, iterate M.step n s = some r := by
  intro n
  induction n with
  | zero => intro s h; omega
  | succ n ih =>
    intro s h
    cases hs : M.step s with
    | again s1 =>
      rw [iterate_again M.step n s s1 hs]
      exact ih s1 (by have := L.rank_again s s1 hs; omega)
    | done o s1 => exact ⟨_, iterate_done M.step n s s1 o hs⟩

theorem call_total (M : Machine σ) (L : M.Lawful) (s : σ) : ∃ r, M.call s = some r :=
  iterate_total M L (M.fuel s) s (L.rank_fuel s)

theorem drive_again (M : Machine σ) (n : Nat) (x : Session σ) (s1 : σ)
    (h : M.step x.parser = Step.again s1) :
    M.drive (n + 1) x = M.drive n { x with parser := s1 } := by
  simp [drive, h]

theorem drive_done (M : Machine σ) (n : Nat) (x : Session σ) (o : Outcome) (s1 : σ)
    (h : M.step x.parser = Step.done o s1) :
    M.drive (n + 1) x =
      if o = Outcome.ret 1 then M.drive n (M.record x o s1) else some (M.record x o s1) := by
  simp [drive, h]

theorem drive_mono (M : Machine σ) :
    ∀ (n k : Nat) (x y : Session σ), M.drive n x = some y → M.drive (n + k) x = some y := by
  intro n
  induction n with
  | zero => intro k x y h; simp [drive] at h
  | succ n ih =>
    intro k x y h
    have e : n + 1 + k = (n + k) + 1 := by omega
    rw [e]
    cases hs : M.step x.parser with
    | again s1 =>
      rw [drive_again M _ x s1 hs] at h ⊢
      exact ih k _ y h
    | done o s1 =>
      rw [drive_done M _ x o s1 hs] at h ⊢
      by_cases ho : o = Outcome.ret 1
      · rw [if_pos ho] at h ⊢
        exact ih k _ y h
      · rw [if_neg ho] at h ⊢
        exact h

theorem drive_le (M : Machine σ) (n m : Nat) (x y : Session σ) (hle : n ≤ m)
    (h : M.drive n x = some y) : M.drive m x = some y := by
  have := drive_mono M n (m - n) x y h
  rwa [Nat.add_sub_cancel' hle] at this

theorem record_state (M : Machine σ) (x : Session σ) (o : Outcome) (s1 s2 : σ) :
    M.record { x with parser := s1 } o s2 = M.record x o s2 := by
  unfold record
  by_cases h : o = Outcome.ret 0 <;> simp [h]

theorem record_parser_eq (M : Machine σ) (x : Session σ) (o : Outcome) (s1 : σ) :
    (M.record x o s1).parser = s1 := by
  unfold record
  by_cases h : o = Outcome.ret 0 <;> simp [h]

/-- One call and the pass-by-pass run go the same way. -/
theorem drive_of_iterate (M : Machine σ) :
    ∀ (k : Nat) (s s1 : σ) (o : Outcome) (n : Nat) (x y : Session σ),
      iterate M.step k s = some (o, s1) → x.parser = s → M.drive n x = some y →
      (o ≠ Outcome.ret 1 → y = M.record x o s1) ∧
      (o = Outcome.ret 1 → ∃ n1, M.drive n1 (M.record x o s1) = some y) := by
  intro k
  induction k with
  | zero => intro s s1 o n x y h; simp [iterate] at h
  | succ k ih =>
    intro s s1 o n x y h hx hd
    cases n with
    | zero => simp [drive] at hd
    | succ n =>
      cases hs : M.step s with
      | again s2 =>
        rw [iterate_again M.step k s s2 hs] at h
        rw [drive_again M n x s2 (by rw [hx]; exact hs)] at hd
        have := ih s2 s1 o n { x with parser := s2 } y h rfl hd
        rw [record_state] at this
        exact this
      | done o2 s2 =>
        rw [iterate_done M.step k s s2 o2 hs] at h
        simp only [Option.some.injEq, Prod.mk.injEq] at h
        obtain ⟨ho, hs2⟩ := h
        subst ho; subst hs2
        rw [drive_done M n x o2 s2 (by rw [hx]; exact hs)] at hd
        constructor
        · intro hne
          rw [if_neg hne] at hd
          exact (Option.some.inj hd).symm
        · intro heq
          rw [if_pos heq] at hd
          exact ⟨n, hd⟩

theorem mu_iterate (M : Machine σ) (L : M.Lawful) :
    ∀ (k : Nat) (s s1 : σ), iterate M.step k s = some (Outcome.ret 1, s1) →
      M.mu s1 < M.mu s := by
  intro k
  induction k with
  | zero => intro s s1 h; simp [iterate] at h
  | succ k ih =>
    intro s s1 h
    cases hs : M.step s with
    | again s2 =>
      rw [iterate_again M.step k s s2 hs] at h
      have h1 := ih s2 s1 h
      have h2 := L.mu_again s s2 hs
      omega
    | done o2 s2 =>
      rw [iterate_done M.step k s s2 o2 hs] at h
      simp only [Option.some.injEq, Prod.mk.injEq] at h
      obtain ⟨ho, hs2⟩ := h
      subst ho; subst hs2
      exact L.mu_done s s2 hs

/-- The calls of `settle` arrive where the passes of `drive` do. -/
theorem settle_of_drive (M : Machine σ) (L : M.Lawful) :
    ∀ (f : Nat) (x y : Session σ) (n : Nat), M.mu x.parser < f → M.drive n x = some y →
      M.settle f x = y := by
  intro f
  induction f with
  | zero => intro x y n h; omega
  | succ f ih =>
    intro x y n hmu hd
    obtain ⟨⟨o, s1⟩, hc⟩ := call_total M L x.parser
    have hpath := drive_of_iterate M (M.fuel x.parser) x.parser s1 o n x y hc rfl hd
    simp only [settle, hc]
    by_cases ho : o = Outcome.ret 1
    · rw [if_pos ho]
      obtain ⟨n1, hn1⟩ := hpath.2 ho
      apply ih _ y n1 _ hn1
      rw [record_parser_eq]
      subst ho
      have := mu_iterate M L _ _ _ hc
      omega
    · rw [if_neg ho]
      exact (hpath.1 ho).symm

end Machine

namespace Machine

variable {σ : Type}

theorem checked_succ (M : Machine σ) (n : Nat) (s : σ) :
    M.checked (n + 1) s =
      (M.sane s &&
        match M.step s with
        | Step.again s1 => M.checked n s1
        | Step.done o s1 => if o = Outcome.ret 1 then M.checked n s1 else true) := rfl

theorem checked_mono (M : Machine σ) :
    ∀ (n : Nat) (s : σ), M.checked n s = true → M.checked (n + 1) s = true := by
  intro n
  induction n with
  | zero => intro s h; simp [checked] at h
  | succ n ih =>
    intro s h
    rw [checked_succ] at h ⊢
    simp only [Bool.and_eq_true] at h ⊢
    refine ⟨h.1, ?_⟩
    have h2 := h.2
    cases hs : M.step s with
    | again s1 =>
      rw [hs] at h2
      exact ih s1 h2
    | done o s1 =>
      rw [hs] at h2
      by_cases ho : o = Outcome.ret 1
      · simp only [ho, if_true] at h2 ⊢
        exact ih s1 h2
      · simp only [ho, if_false]

theorem drive_of_checked (M : Machine σ) :
    ∀ (n : Nat) (x : Session σ), M.checked n x.parser = true → ∃ w, M.drive n x = some w := by
  intro n
  induction n with
  | zero => intro x h; simp [checked] at h
  | succ n ih =>
    intro x h
    rw [checked_succ] at h
    simp only [Bool.and_eq_true] at h
    have h2 := h.2
    cases hs : M.step x.parser with
    | again s1 =>
      rw [hs] at h2
      rw [drive_again M n x s1 hs]
      exact ih { x with parser := s1 } h2
    | done o s1 =>
      rw [hs] at h2
      rw [drive_done M n x o s1 hs]
      by_cases ho : o = Outcome.ret 1
      · simp only [ho, if_true] at h2 ⊢
        exact ih _ (by rw [record_parser_eq]; exact h2)
      · simp only [ho, if_false]
        exact ⟨_, rfl⟩

theorem drive_congr (M : Machine σ) (n : Nat) (x x1 : Session σ)
    (hf : x.fed = x1.fed) (hd : x.dead = x1.dead) (he : x.events = x1.events)
    (hs : M.step x.parser = M.step x1.parser) :
    M.drive n x = M.drive n x1 := by
  cases n with
  | zero => rfl
  | succ n =>
    have hx : ∀ s : σ, ({ x with parser := s } : Session σ) = { x1 with parser := s } := by
      intro s
      cases x; cases x1
      simp only at hf hd he
      subst hf; subst hd; subst he
      rfl
    have hr : ∀ (o : Outcome) (s : σ), M.record x o s = M.record x1 o s := by
      intro o s
      rw [← record_state M x o x1.parser s, hx, record_state]
    cases hs1 : M.step x1.parser with
    | again s1 =>
      rw [drive_again M n x s1 (hs.trans hs1), drive_again M n x1 s1 hs1, hx]
    | done o s1 =>
      rw [drive_done M n x o s1 (hs.trans hs1), drive_done M n x1 o s1 hs1, hr]

theorem arrive_record (M : Machine σ) (L : M.Lawful) (x : Session σ) (o : Outcome) (s1 : σ)
    (e : Bytes) (ho : o ≠ Outcome.ret 0) :
    M.record (M.arrive x e) o (M.feed s1 e) = M.arrive (M.record x o s1) e := by
  unfold record arrive
  simp only [ho, if_false, L.len_feed, L.resp_feed, Nat.add_sub_add_right]

theorem arrive_state (M : Machine σ) (x : Session σ) (s1 : σ) (e : Bytes) :
    ({ M.arrive x e with parser := M.feed s1 e } : Session σ)
      = M.arrive { x with parser := s1 } e := rfl

/-- What a parser does with a buffer, it does with the same buffer followed
by more bytes, up to the call that asks for more. -/
theorem drive_arrive (M : Machine σ) (L : M.Lawful) (e : Bytes) :
    ∀ (n : Nat) (x : Session σ), x.dead = false →
      M.checked n (M.feed x.parser e) = true →
      ∃ y w, M.drive n x = some y ∧ M.drive n (M.arrive x e) = some w ∧
        (y.dead = true → M.arrive y e = w) ∧
        (y.dead = false →
          M.drive n (M.arrive y e) = some w ∧ M.checked n (M.feed y.parser e) = true) := by
  intro n
  induction n with
  | zero => intro x _ h; simp [checked] at h
  | succ n ih =>
    intro x hdead h
    have hall := h
    rw [checked_succ] at h
    simp only [Bool.and_eq_true] at h
    have hsane : M.sane x.parser = true := by rw [← L.sane_feed x.parser e]; exact h.1
    have h2 := h.2
    cases hs : M.step x.parser with
    | again s1 =>
      have hfs := L.step_again x.parser s1 e hs hsane
      rw [hfs] at h2
      obtain ⟨y, w, hy, hw, hyd, hyl⟩ := ih { x with parser := s1 } hdead h2
      refine ⟨y, w, ?_, ?_, hyd, ?_⟩
      · rw [drive_again M n x s1 hs]; exact hy
      · rw [drive_again M n (M.arrive x e) (M.feed s1 e) hfs, arrive_state]; exact hw
      · intro hl
        exact ⟨drive_mono M n 1 _ _ (hyl hl).1, checked_mono M n _ (hyl hl).2⟩
    | done o s1 =>
      by_cases h0 : o = Outcome.ret 0
      · subst h0
        obtain ⟨w, hw⟩ := drive_of_checked M (n + 1) (M.arrive x e) hall
        have hz := L.step_zero x.parser s1 e hs
        have hy : M.drive (n + 1) x = some { x with parser := s1 } := by
          rw [drive_done M n x _ s1 hs]
          rfl
        refine ⟨_, w, hy, hw, ?_, ?_⟩
        · intro hd
          rw [hdead] at hd
          exact absurd hd (by decide)
        · intro _
          constructor
          · rw [← hw]
            exact drive_congr M (n + 1) _ _ rfl rfl rfl hz.1
          · rw [checked_succ, L.sane_feed, hz.2, ← L.sane_feed x.parser e]
            rw [checked_succ] at hall
            show (M.sane (M.feed x.parser e) &&
              match M.step (M.feed s1 e) with
              | Step.again s2 => M.checked n s2
              | Step.done o s2 => if o = Outcome.ret 1 then M.checked n s2 else true) = true
            rw [hz.1]
            exact hall
      · have hfs := L.step_done x.parser s1 o e hs h0 hsane
        rw [hfs] at h2
        by_cases h1 : o = Outcome.ret 1
        · subst h1
          simp only [if_true] at h2
          have hrd : (M.record x (Outcome.ret 1) s1).dead = false := by
            unfold record; simp
          obtain ⟨y, w, hy, hw, hyd, hyl⟩ :=
            ih (M.record x (Outcome.ret 1) s1) hrd (by rw [record_parser_eq]; exact h2)
          refine ⟨y, w, ?_, ?_, hyd, ?_⟩
          · rw [drive_done M n x _ s1 hs, if_pos rfl]; exact hy
          · rw [drive_done M n (M.arrive x e) _ (M.feed s1 e) hfs, if_pos rfl,
              arrive_record M L x _ s1 e h0]
            exact hw
          · intro hl
            exact ⟨drive_mono M n 1 _ _ (hyl hl).1, checked_mono M n _ (hyl hl).2⟩
        · refine ⟨M.record x o s1, M.arrive (M.record x o s1) e, ?_, ?_, ?_, ?_⟩
          · rw [drive_done M n x o s1 hs, if_neg h1]
          · rw [drive_done M n (M.arrive x e) o (M.feed s1 e) hfs, if_neg h1,
              arrive_record M L x o s1 e h0]
          · intro _; rfl
          · intro hl
            have : (M.record x o s1).dead = true := by
              unfold record; simp [h0, h1]
            rw [this] at hl
            exact absurd hl (by decide)

theorem arrive_arrive (M : Machine σ) (L : M.Lawful) (x : Session σ) (a b : Bytes) :
    M.arrive (M.arrive x a) b = M.arrive x (a ++ b) := by
  unfold arrive
  simp only [L.feed_feed, List.length_append, Nat.add_assoc]

theorem receive_dead (M : Machine σ) (x : Session σ) (c : Bytes) (h : x.dead = true) :
    M.receive x c = M.arrive x c := by
  unfold receive
  rw [if_pos h]

theorem receive_live (M : Machine σ) (x : Session σ) (c : Bytes) (h : x.dead = false) :
    M.receive x c = M.settle (M.mu (M.feed x.parser c) + 1) (M.arrive x c) := by
  unfold receive
  rw [if_neg (by rw [h]; decide)]

/-- Two chunks in a row are received like their concatenation. -/
theorem receive_receive (M : Machine σ) (L : M.Lawful) (x : Session σ) (a b : Bytes) (n : Nat)
    (hdead : x.dead = false)
    (h : M.checked n (M.feed x.parser (a ++ b)) = true) :
    M.receive (M.receive x a) b = M.receive x (a ++ b) ∧
      ((M.receive x a).dead = false →
        M.checked n (M.feed (M.receive x a).parser b) = true) := by
  have h2 : M.checked n (M.feed (M.arrive x a).parser b) = true := by
    show M.checked n (M.feed (M.feed x.parser a) b) = true
    rw [L.feed_feed]; exact h
  obtain ⟨y, w, hy, hw, hyd, hyl⟩ := drive_arrive M L b n (M.arrive x a) hdead h2
  have hra : M.receive x a = y := by
    rw [receive_live M x a hdead]
    exact settle_of_drive M L _ _ y n (Nat.lt_succ_self _) hy
  have hrab : M.receive x (a ++ b) = w := by
    rw [receive_live M x (a ++ b) hdead, ← arrive_arrive M L]
    apply settle_of_drive M L _ _ w n _ hw
    show M.mu (M.feed (M.feed x.parser a) b) < M.mu (M.feed x.parser (a ++ b)) + 1
    rw [L.feed_feed]
    exact Nat.lt_succ_self _
  rw [hra, hrab]
  constructor
  · cases hd : y.dead with
    | true => rw [receive_dead M y b hd]; exact hyd hd
    | false =>
      rw [receive_live M y b hd]
      exact settle_of_drive M L _ _ w n (Nat.lt_succ_self _) (hyl hd).1
  · intro hd
    exact (hyl hd).2

theorem receive_chunks (M : Machine σ) (L : M.Lawful) (n : Nat) :
    ∀ (cs : List Bytes) (x : Session σ), cs ≠ [] →
      (x.dead = true ∨ M.checked n (M.feed x.parser (concat_chunks cs)) = true) →
      cs.foldl M.receive x = M.receive x (concat_chunks cs) := by
  intro cs
  induction cs with
  | nil => intro x h; exact absurd rfl h
  | cons c cs ih =>
    intro x _ h
    cases cs with
    | nil => simp [concat_chunks]
    | cons c1 cs1 =>
      rw [List.foldl_cons]
      cases hd : x.dead with
      | true =>
        rw [ih (M.receive x c) (by simp) (Or.inl (by rw [receive_dead M x c hd]; exact hd))]
        rw [receive_dead M x c hd, receive_dead M x _ hd,
          receive_dead M _ _ (show (M.arrive x c).dead = true from hd)]
        exact arrive_arrive M L x c _
      | false =>
        have hc : M.checked n (M.feed x.parser (c ++ concat_chunks (c1 :: cs1))) = true := by
          rcases h with h | h
          · rw [hd] at h; exact absurd h (by decide)
          · exact h
        obtain ⟨h1, h2⟩ := receive_receive M L x c (concat_chunks (c1 :: cs1)) n hd hc
        rw [ih (M.receive x c) (by simp) (by
          cases hrd : (M.receive x c).dead with
          | true => exact Or.inl rfl
          | false => exact Or.inr (h2 hrd))]
        exact h1

/-- Chunk boundaries are invisible: a parser that receives a stream in chunks
ends in the same state, after the same events, as one that receives it whole,
provided the whole run passes through sane states only. -/
theorem session_chunks (M : Machine σ) (L : M.Lawful) (s : σ) (cs : List Bytes) (n : Nat)
    (hne : cs ≠ [])
    (h : M.checked n (M.feed s (concat_chunks cs)) = true) :
    M.session s cs = M.session s [concat_chunks cs] := by
  unfold session
  rw [receive_chunks M L n cs _ hne (Or.inr h)]
  rfl

end Machine

theorem evbuffer_readln_append (e : Bytes) :
    ∀ (b l r : Bytes), evbuffer_readln b = some (l, r) →
      evbuffer_readln (b ++ e) = some (l, r ++ e) := by
  intro b
  induction b with
  | nil => intro l r h; simp [evbuffer_readln] at h
  | cons a b ih =>
    intro l r h
    cases b with
    | nil => simp [evbuffer_readln] at h
    | cons c b2 =>
      simp only [List.cons_append]
      simp only [evbuffer_readln] at h ⊢
      by_cases hc : a = 13 ∧ c = 10
      · simp only [hc, and_self, if_true, Option.some.injEq, Prod.mk.injEq] at h ⊢
        obtain ⟨h1, h2⟩ := h
        exact ⟨h1, by rw [← h2]⟩
      · simp only [hc, if_false] at h ⊢
        cases hr : evbuffer_readln (c :: b2) with
        | none => rw [hr] at h; simp at h
        | some lr =>
          obtain ⟨l1, r1⟩ := lr
          rw [hr] at h
          simp only [Option.some.injEq, Prod.mk.injEq] at h
          have := ih l1 r1 hr
          simp only [List.cons_append] at this
          rw [this]
          simp only [Option.some.injEq, Prod.mk.injEq]
          exact ⟨h.1, by rw [← h.2]⟩

theorem evbuffer_readln_length :
    ∀ (b l r : Bytes), evbuffer_readln b = some (l, r) →
      b.length = l.length + 2 + r.length := by
  intro b
  induction b with
  | nil => intro l r h; simp [evbuffer_readln] at h
  | cons a b ih =>
    intro l r h
    cases b with
    | nil => simp [evbuffer_readln] at h
    | cons c b2 =>
      simp only [evbuffer_readln] at h
      by_cases hc : a = 13 ∧ c = 10
      · simp only [hc, and_self, if_true, Option.some.injEq, Prod.mk.injEq] at h
        obtain ⟨h1, h2⟩ := h
        subst h1; subst h2
        simp only [List.length_cons, List.length_nil]
        omega
      · simp only [hc, if_false] at h
        cases hr : evbuffer_readln (c :: b2) with
        | none => rw [hr] at h; simp at h
        | some lr =>
          obtain ⟨l1, r1⟩ := lr
          rw [hr] at h
          simp only [Option.some.injEq, Prod.mk.injEq] at h
          have := ih l1 r1 hr
          obtain ⟨h1, h2⟩ := h
          subst h1; subst h2
          simp only [List.length_cons] at this ⊢
          omega

theorem take_append_le (b e : Bytes) (n : Nat) (h : n ≤ b.length) :
    (b ++ e).take n = b.take n := List.take_append_of_le_length h

theorem drop_append_le (b e : Bytes) (n : Nat) (h : n ≤ b.length) :
    (b ++ e).drop n = b.drop n ++ e := List.drop_append_of_le_length h

theorem redis_lawful (latency : Nat) : (redis_machine latency).Lawful := by
  constructor
  · intro s a b
    simp [redis_machine, List.append_assoc]
  · intro s e
    simp [redis_machine]
  · intro s e
    rfl
  · intro s e
    rfl
  · -- step_again
    intro s s1 e h _
    simp only [redis_machine] at h ⊢
    unfold redis_protocol.step at h ⊢
    cases hst : s.m_response_state with
    | rs_initial =>
      simp only [hst] at h ⊢
      cases hr : evbuffer_readln s.m_read_buf with
      | none => rw [hr] at h; simp at h
      | some lr =>
        obtain ⟨l, r⟩ := lr
        rw [hr] at h
        rw [evbuffer_readln_append e _ l r hr]
        simp only at h ⊢
        split_ifs at h ⊢
        simp only [Step.again.injEq] at h
        rw [← h]
    | rs_read_bulk =>
      simp only [hst] at h
      split_ifs at h
  · -- step_done
    intro s s1 o e h ho hsane
    simp only [redis_machine, decide_eq_true_eq] at h hsane ⊢
    unfold redis_protocol.step at h ⊢
    cases hst : s.m_response_state with
    | rs_initial =>
      simp only [hst] at h ⊢
      cases hr : evbuffer_readln s.m_read_buf with
      | none =>
        rw [hr] at h
        simp only [Step.done.injEq] at h
        exact absurd h.1.symm ho
      | some lr =>
        obtain ⟨l, r⟩ := lr
        rw [hr] at h
        rw [evbuffer_readln_append e _ l r hr]
        simp only at h ⊢
        split_ifs at h ⊢ <;>
          (simp only [Step.done.injEq] at h; obtain ⟨h1, h2⟩ := h; subst h1; subst h2;
           simp [protocol_response.set_error, protocol_response.set_status,
             protocol_response.set_total_len, protocol_response.set_latency,
             protocol_response.clear])
    | rs_read_bulk =>
      have hs2 := hsane hst
      simp only [hst, evbuffer_get_length, evbuffer_remove, evbuffer_drain] at h ⊢
      by_cases hlen : s.m_read_buf.length ≥ (s.m_bulk_len + 2) % 4294967296
      · have hlen2 : (s.m_read_buf ++ e).length ≥ (s.m_bulk_len + 2) % 4294967296 := by
          rw [List.length_append]; omega
        simp only [hlen, hlen2, if_true] at h ⊢
        simp only [Step.done.injEq] at h
        obtain ⟨h1, h2⟩ := h
        subst h1; subst h2
        by_cases hk : s.m_keep_value = true ∧ s.m_bulk_len > 0
        · have hb := hs2 hk.1 hk.2
          rw [Nat.mod_eq_of_lt hb] at hlen
          simp only [hk, and_self, if_true]
          rw [take_append_le _ _ _ (by omega), drop_append_le _ _ _ (by omega),
            drop_append_le _ _ _ (by rw [List.length_drop]; omega)]
        · simp only [hk, if_false]
          rw [drop_append_le _ _ _ hlen]
      · simp only [hlen, if_false, Step.done.injEq] at h
        exact absurd h.1.symm ho
  · -- step_zero
    intro s s1 e h
    simp only [redis_machine] at h ⊢
    unfold redis_protocol.step at h
    cases hst : s.m_response_state with
    | rs_initial =>
      simp only [hst] at h
      cases hr : evbuffer_readln s.m_read_buf with
      | none =>
        rw [hr] at h
        simp only [Step.done.injEq, true_and] at h
        subst h
        constructor
        · unfold redis_protocol.step
          simp only [hst]
        · simp [hst]
      | some lr =>
        obtain ⟨l, r⟩ := lr
        rw [hr] at h
        simp only at h
        split_ifs at h <;> simp at h
    | rs_read_bulk =>
      simp only [hst] at h
      split_ifs at h <;>
        (simp only [Step.done.injEq] at h; obtain ⟨h1, h2⟩ := h;
         first
         | (exact absurd h1 (by decide))
         | (subst h2; simp [hst]))
  · -- rank_again
    intro s s1 h
    simp only [redis_machine] at h ⊢
    unfold redis_protocol.step at h
    cases hst : s.m_response_state with
    | rs_initial =>
      simp only [hst] at h
      cases hr : evbuffer_readln s.m_read_buf with
      | none => rw [hr] at h; simp at h
      | some lr =>
        obtain ⟨l, r⟩ := lr
        rw [hr] at h
        simp only at h
        split_ifs at h
        simp only [Step.again.injEq] at h
        rw [← h]
        simp
    | rs_read_bulk =>
      simp only [hst] at h
      split_ifs at h
  · -- rank_fuel
    intro s
    simp only [redis_machine]
    split_ifs <;> omega
  · -- mu_again
    intro s s1 h
    simp only [redis_machine] at h ⊢
    unfold redis_protocol.step at h
    cases hst : s.m_response_state with
    | rs_initial =>
      simp only [hst] at h
      cases hr : evbuffer_readln s.m_read_buf with
      | none => rw [hr] at h; simp at h
      | some lr =>
        obtain ⟨l, r⟩ := lr
        have hl := evbuffer_readln_length _ l r hr
        rw [hr] at h
        simp only at h
        split_ifs at h
        simp only [Step.again.injEq] at h
        rw [← h]
        simp
        omega
    | rs_read_bulk =>
      simp only [hst] at h
      split_ifs at h
  · -- mu_done
    intro s s1 h
    simp only [redis_machine] at h ⊢
    unfold redis_protocol.step at h
    cases hst : s.m_response_state with
    | rs_initial =>
      simp only [hst] at h
      cases hr : evbuffer_readln s.m_read_buf with
      | none => rw [hr] at h; simp at h
      | some lr =>
        obtain ⟨l, r⟩ := lr
        have hl := evbuffer_readln_length _ l r hr
        rw [hr] at h
        simp only at h
        split_ifs at h <;>
          (simp only [Step.done.injEq] at h; obtain ⟨h1, h2⟩ := h; subst h2;
           first
           | (exact absurd h1 (by decide))
           | (simp [hst]; omega))
    | rs_read_bulk =>
      simp only [hst, evbuffer_get_length, evbuffer_remove, evbuffer_drain] at h
      split_ifs at h <;>
        (simp only [Step.done.injEq] at h; obtain ⟨h1, h2⟩ := h; subst h2;
         first
         | (exact absurd h1 (by decide))
         | (simp [List.length_drop]; omega))

theorem text_step_mirror (ndebug : Bool) (latency : Nat) (s : memcache_text_protocol)
    (e : Bytes)
    (hsane : s.m_response_state = text_response_state.rs_read_value →
      s.m_value_len + 2 < 4294967296) :
    (∀ s1, memcache_text_protocol.step ndebug latency s = Step.again s1 →
      memcache_text_protocol.step ndebug latency { s with m_read_buf := s.m_read_buf ++ e }
        = Step.again { s1 with m_read_buf := s1.m_read_buf ++ e }) ∧
    (∀ s1 o, memcache_text_protocol.step ndebug latency s = Step.done o s1 →
      o ≠ Outcome.ret 0 →
      memcache_text_protocol.step ndebug latency { s with m_read_buf := s.m_read_buf ++ e }
        = Step.done o { s1 with m_read_buf := s1.m_read_buf ++ e }) := by
  unfold memcache_text_protocol.step
  cases hst : s.m_response_state with
  | rs_initial =>
    simp only
    constructor
    · intro s1 h
      simp only [Step.again.injEq] at h
      rw [← h]
    · intro s1 o h; simp at h
  | rs_read_section =>
    simp only
    cases hr : evbuffer_readln s.m_read_buf with
    | none =>
      constructor
      · intro s1 h; simp at h
      · intro s1 o h ho
        simp only [Step.done.injEq] at h
        exact absurd h.1.symm ho
    | some lr =>
      obtain ⟨l, r⟩ := lr
      rw [evbuffer_readln_append e _ l r hr]
      simp only
      constructor
      · intro s1 h
        split_ifs at h ⊢ <;> (simp only [Step.again.injEq] at h; rw [← h])
      · intro s1 o h _
        split_ifs at h ⊢ <;>
          (simp only [Step.done.injEq] at h; obtain ⟨h1, h2⟩ := h; subst h1; subst h2; rfl)
  | rs_read_value =>
    have hv := hsane hst
    simp only [evbuffer_get_length, evbuffer_remove, evbuffer_drain]
    rw [Nat.mod_eq_of_lt hv]
    by_cases hlen : s.m_read_buf.length ≥ s.m_value_len + 2
    · have hlen2 : (s.m_read_buf ++ e).length ≥ s.m_value_len + 2 := by
        rw [List.length_append]; omega
      simp only [hlen, hlen2, if_true]
      rw [take_append_le _ _ _ (by omega), drop_append_le _ _ _ (by omega),
        drop_append_le _ _ _ (by rw [List.length_drop]; omega)]
      constructor
      · intro s1 h
        split_ifs at h ⊢ <;> (simp only [Step.again.injEq] at h; rw [← h])
      · intro s1 o h _
        split_ifs at h ⊢
        simp only [Step.done.injEq] at h
        obtain ⟨h1, h2⟩ := h
        subst h1; subst h2
        rfl
    · simp only [hlen, if_false]
      constructor
      · intro s1 h; simp at h
      · intro s1 o h ho
        simp only [Step.done.injEq] at h
        exact absurd h.1.symm ho
  | rs_read_end =>
    simp only
    constructor
    · intro s1 h; simp at h
    · intro s1 o h _
      simp only [Step.done.injEq] at h
      obtain ⟨h1, h2⟩ := h
      subst h1; subst h2
      rfl

theorem text_step_zero (ndebug : Bool) (latency : Nat) (s s1 : memcache_text_protocol)
    (h : memcache_text_protocol.step ndebug latency s = Step.done (Outcome.ret 0) s1) :
    s1 = s := by
  unfold memcache_text_protocol.step at h
  cases hst : s.m_response_state with
  | rs_initial => simp only [hst] at h; simp at h
  | rs_read_section =>
    simp only [hst] at h
    cases hr : evbuffer_readln s.m_read_buf with
    | none =>
      rw [hr] at h
      simp only [Step.done.injEq, true_and] at h
      exact h.symm
    | some lr =>
      obtain ⟨l, r⟩ := lr
      rw [hr] at h
      simp only at h
      split_ifs at h <;> simp at h
  | rs_read_value =>
    simp only [hst] at h
    split_ifs at h <;>
      (simp only [Step.done.injEq] at h; obtain ⟨h1, h2⟩ := h;
       first
       | (exact absurd h1 (by decide))
       | (exact h2.symm))
  | rs_read_end =>
    simp only [hst] at h
    simp at h

theorem text_step_again_len (ndebug : Bool) (latency : Nat) (s s1 : memcache_text_protocol)
    (h : memcache_text_protocol.step ndebug latency s = Step.again s1) :
    (s.m_response_state = text_response_state.rs_initial ∧
      s1.m_response_state = text_response_state.rs_read_section ∧
      s1.m_read_buf = s.m_read_buf) ∨
    (s.m_response_state = text_response_state.rs_read_section ∧
      s1.m_read_buf.length + 2 ≤ s.m_read_buf.length) ∨
    (s.m_response_state = text_response_state.rs_read_value ∧
      s1.m_response_state = text_response_state.rs_read_section ∧
      s1.m_read_buf.length ≤ s.m_read_buf.length) := by
  unfold memcache_text_protocol.step at h
  cases hst : s.m_response_state with
  | rs_initial =>
    simp only [hst] at h
    simp only [Step.again.injEq] at h
    subst h
    simp
  | rs_read_section =>
    simp only [hst] at h
    cases hr : evbuffer_readln s.m_read_buf with
    | none => rw [hr] at h; simp at h
    | some lr =>
      obtain ⟨l, r⟩ := lr
      have hl := evbuffer_readln_length _ l r hr
      rw [hr] at h
      simp only at h
      split_ifs at h <;>
        (simp only [Step.again.injEq] at h; subst h; simp; omega)
  | rs_read_value =>
    simp only [hst, evbuffer_get_length, evbuffer_remove, evbuffer_drain] at h
    split_ifs at h <;>
      (simp only [Step.again.injEq] at h; subst h; simp [List.length_drop])
  | rs_read_end =>
    simp only [hst] at h
    simp at h

theorem text_step_one (ndebug : Bool) (latency : Nat) (s s1 : memcache_text_protocol)
    (h : memcache_text_protocol.step ndebug latency s = Step.done (Outcome.ret 1) s1) :
    s.m_response_state = text_response_state.rs_read_end ∧
      s1.m_response_state = text_response_state.rs_initial ∧
      s1.m_read_buf = s.m_read_buf := by
  unfold memcache_text_protocol.step at h
  cases hst : s.m_response_state with
  | rs_initial => simp only [hst] at h; simp at h
  | rs_read_section =>
    simp only [hst] at h
    cases hr : evbuffer_readln s.m_read_buf with
    | none => rw [hr] at h; simp at h
    | some lr =>
      obtain ⟨l, r⟩ := lr
      rw [hr] at h
      simp only at h
      split_ifs at h <;> simp at h
  | rs_read_value =>
    simp only [hst] at h
    split_ifs at h <;> simp at h
  | rs_read_end =>
    simp only [hst] at h
    simp only [Step.done.injEq, true_and] at h
    subst h
    simp

theorem text_lawful (ndebug : Bool) (latency : Nat) : (text_machine ndebug latency).Lawful := by
  constructor
  · intro s a b
    simp [text_machine, List.append_assoc]
  · intro s e
    simp [text_machine]
  · intro s e
    rfl
  · intro s e
    rfl
  · intro s s1 e h hsane
    simp only [text_machine, decide_eq_true_eq] at h hsane ⊢
    exact (text_step_mirror ndebug latency s e hsane).1 s1 h
  · intro s s1 o e h ho hsane
    simp only [text_machine, decide_eq_true_eq] at h hsane ⊢
    exact (text_step_mirror ndebug latency s e hsane).2 s1 o h ho
  · intro s s1 e h
    simp only [text_machine] at h ⊢
    rw [text_step_zero ndebug latency s s1 h]
    exact ⟨rfl, rfl⟩
  · intro s s1 h
    simp only [text_machine] at h ⊢
    rcases text_step_again_len ndebug latency s s1 h with ⟨h1, h2, h3⟩ | ⟨h1, h2⟩ | ⟨h1, h2, h3⟩
    · simp [h1, h2, h3]
    · simp only [h1]
      split_ifs <;> simp <;> omega
    · simp [h1, h2]
      omega
  · intro s
    simp only [text_machine]
    split_ifs <;> omega
  · intro s s1 h
    simp only [text_machine] at h ⊢
    rcases text_step_again_len ndebug latency s s1 h with ⟨h1, h2, h3⟩ | ⟨h1, h2⟩ | ⟨h1, h2, h3⟩
    · simp [h1, h2, h3]
    · simp only [h1]
      split_ifs <;> simp <;> omega
    · simp [h1, h2]
      omega
  · intro s s1 h
    simp only [text_machine] at h ⊢
    obtain ⟨h1, h2, h3⟩ := text_step_one ndebug latency s s1 h
    simp [h1, h2, h3]

theorem multi_initial_mirror (latency : Nat) (s : memcache_binary_protocol) (e : Bytes) :
    (∀ s1, memcache_binary_protocol.multi_initial latency s = Step.again s1 →
      memcache_binary_protocol.multi_initial latency { s with m_read_buf := s.m_read_buf ++ e }
        = Step.again { s1 with m_read_buf := s1.m_read_buf ++ e }) ∧
    (∀ s1 o, memcache_binary_protocol.multi_initial latency s = Step.done o s1 →
      o ≠ Outcome.ret 0 →
      memcache_binary_protocol.multi_initial latency { s with m_read_buf := s.m_read_buf ++ e }
        = Step.done o { s1 with m_read_buf := s1.m_read_buf ++ e }) := by
  unfold memcache_binary_protocol.multi_initial
  simp only [evbuffer_get_length, evbuffer_remove, memcache_binary_protocol.status_text]
  by_cases hlen : s.m_read_buf.length < 24
  · simp only [hlen, if_true]
    constructor
    · intro s1 h; simp at h
    · intro s1 o h ho
      simp only [Step.done.injEq] at h
      exact absurd h.1.symm ho
  · have hlen2 : ¬ (s.m_read_buf ++ e).length < 24 := by
      rw [List.length_append]; omega
    simp only [hlen, hlen2, if_false]
    rw [take_append_le _ _ _ (by omega), drop_append_le _ _ _ (by omega)]
    constructor
    · intro s1 h
      split_ifs at h ⊢ <;> (simp only [Step.again.injEq] at h; rw [← h])
    · intro s1 o h _
      split_ifs at h ⊢ <;>
        (simp only [Step.done.injEq] at h; obtain ⟨h1, h2⟩ := h; subst h1; subst h2; rfl)

theorem finish_body_mirror (s : memcache_binary_protocol) (e : Bytes) :
    (∀ s1, memcache_binary_protocol.finish_body s = Step.again s1 →
      memcache_binary_protocol.finish_body { s with m_read_buf := s.m_read_buf ++ e }
        = Step.again { s1 with m_read_buf := s1.m_read_buf ++ e }) ∧
    (∀ s1 o, memcache_binary_protocol.finish_body s = Step.done o s1 →
      memcache_binary_protocol.finish_body { s with m_read_buf := s.m_read_buf ++ e }
        = Step.done o { s1 with m_read_buf := s1.m_read_buf ++ e }) := by
  unfold memcache_binary_protocol.finish_body
  simp only
  constructor
  · intro s1 h
    split_ifs at h ⊢ <;> (simp only [Step.again.injEq] at h; rw [← h])
  · intro s1 o h
    split_ifs at h ⊢ <;>
      (simp only [Step.done.injEq] at h; obtain ⟨h1, h2⟩ := h; subst h1; subst h2; rfl)

theorem binary_step_mirror (ndebug : Bool) (latency : Nat) (s : memcache_binary_protocol)
    (e : Bytes)
    (hsane : s.m_response_state = binary_response_state.rs_read_body →
      (s.m_response_hdr.extlen.toNat ≤ s.m_response_hdr.bodylen ∧
       s.m_response_hdr.bodylen - s.m_response_hdr.extlen.toNat < 2147483648 ∧
       (s.m_keep_value = true →
         s.m_response_hdr.extlen.toNat + s.m_response_hdr.keylen ≤ s.m_response_hdr.bodylen))) :
    (∀ s1, memcache_binary_protocol.step ndebug latency s = Step.again s1 →
      memcache_binary_protocol.step ndebug latency { s with m_read_buf := s.m_read_buf ++ e }
        = Step.again { s1 with m_read_buf := s1.m_read_buf ++ e }) ∧
    (∀ s1 o, memcache_binary_protocol.step ndebug latency s = Step.done o s1 →
      o ≠ Outcome.ret 0 →
      memcache_binary_protocol.step ndebug latency { s with m_read_buf := s.m_read_buf ++ e }
        = Step.done o { s1 with m_read_buf := s1.m_read_buf ++ e }) := by
  unfold memcache_binary_protocol.step
  cases hst : s.m_response_state with
  | rs_initial =>
    simp only
    exact multi_initial_mirror latency
      { s with m_last_response := s.m_last_response.clear,
               m_response_state := binary_response_state.rs_multi_initial,
               m_response_len := 0 } e
  | rs_multi_initial =>
    simp only
    have := multi_initial_mirror latency s e
    simp only [hst] at this
    exact this
  | rs_read_body =>
    obtain ⟨hx, hb, hk⟩ := hsane hst
    have ha : toInt32 ((s.m_response_hdr.bodylen : Int) - (s.m_response_hdr.extlen.toNat : Int))
        = ((s.m_response_hdr.bodylen - s.m_response_hdr.extlen.toNat : Nat) : Int) := by
      rw [toInt32_of_small _ (by omega) (by omega)]
      omega
    simp only [evbuffer_get_length, evbuffer_remove, evbuffer_drain]
    rw [ha]
    by_cases hlen : s.m_read_buf.length ≥ s.m_response_hdr.bodylen
    · have hlen2 : (s.m_read_buf ++ e).length ≥ s.m_response_hdr.bodylen := by
        rw [List.length_append]; omega
      simp only [hlen, hlen2, if_true]
      rw [drop_append_le _ _ _ (by omega)]
      cases hkeep : s.m_keep_value with
      | false =>
        simp only [Bool.false_eq_true, if_false]
        rw [toSizeT_of_small _ (by omega) (by omega), Int.toNat_ofNat,
          drop_append_le _ _ _ (by rw [List.length_drop]; omega)]
        exact ⟨(finish_body_mirror _ e).1, fun s1 o h _ => (finish_body_mirror _ e).2 s1 o h⟩
      | true =>
        have hk2 := hk hkeep
        have hb1 : toInt32 (((s.m_response_hdr.bodylen - s.m_response_hdr.extlen.toNat : Nat) : Int)
            - (s.m_response_hdr.keylen : Int))
            = ((s.m_response_hdr.bodylen - s.m_response_hdr.extlen.toNat
                - s.m_response_hdr.keylen : Nat) : Int) := by
          rw [toInt32_of_small _ (by omega) (by omega)]
          omega
        simp only [if_true]
        rw [hb1]
        have hneg : ¬ (((s.m_response_hdr.bodylen - s.m_response_hdr.extlen.toNat
                - s.m_response_hdr.keylen : Nat) : Int) < 0) := by omega
        simp only [hneg, if_false, Int.toNat_ofNat]
        rw [take_append_le _ _ _ (by rw [List.length_drop]; omega),
          drop_append_le _ _ _ (by rw [List.length_drop]; omega)]
        by_cases hop : s.m_response_hdr.opcode = PROTOCOL_BINARY_CMD_GETK ∨
            s.m_response_hdr.opcode = PROTOCOL_BINARY_CMD_GETKQ
        · simp only [hop, if_true]
          rw [take_append_le _ _ _ (by rw [List.length_drop, List.length_drop]; omega),
            drop_append_le _ _ _ (by rw [List.length_drop, List.length_drop]; omega)]
          exact ⟨(finish_body_mirror _ e).1, fun s1 o h _ => (finish_body_mirror _ e).2 s1 o h⟩
        · simp only [hop, if_false]
          rw [take_append_le _ _ _ (by rw [List.length_drop, List.length_drop]; omega),
            drop_append_le _ _ _ (by rw [List.length_drop, List.length_drop]; omega)]
          exact ⟨(finish_body_mirror _ e).1, fun s1 o h _ => (finish_body_mirror _ e).2 s1 o h⟩
    · simp only [hlen, if_false]
      constructor
      · intro s1 h; simp at h
      · intro s1 o h ho
        simp only [Step.done.injEq] at h
        exact absurd h.1.symm ho

theorem multi_initial_shape (latency : Nat) (s : memcache_binary_protocol) :
    (∀ s1, memcache_binary_protocol.multi_initial latency s = Step.again s1 →
      s1.m_response_state = binary_response_state.rs_read_body ∧
      s1.m_read_buf.length + 24 ≤ s.m_read_buf.length) ∧
    (∀ s1, memcache_binary_protocol.multi_initial latency s = Step.done (Outcome.ret 1) s1 →
      s1.m_response_state = s.m_response_state ∧
      s1.m_read_buf.length + 24 ≤ s.m_read_buf.length) ∧
    (∀ s1, memcache_binary_protocol.multi_initial latency s = Step.done (Outcome.ret 0) s1 →
      s1 = s) := by
  unfold memcache_binary_protocol.multi_initial
  simp only [evbuffer_get_length, evbuffer_remove, memcache_binary_protocol.status_text]
  by_cases hlen : s.m_read_buf.length < 24
  · simp only [hlen, if_true]
    refine ⟨?_, ?_, ?_⟩
    · intro s1 h; simp at h
    · intro s1 h; simp at h
    · intro s1 h
      simp only [Step.done.injEq, true_and] at h
      exact h.symm
  · simp only [hlen, if_false]
    refine ⟨?_, ?_, ?_⟩
    · intro s1 h
      split_ifs at h <;>
        (simp only [Step.again.injEq] at h; subst h; simp [List.length_drop]; omega)
    · intro s1 h
      split_ifs at h <;>
        (simp only [Step.done.injEq] at h; obtain ⟨h1, h2⟩ := h;
         first
         | (exact absurd h1 (by decide))
         | (subst h2; simp [List.length_drop]; omega))
    · intro s1 h
      split_ifs at h <;>
        (simp only [Step.done.injEq] at h; exact absurd h.1 (by decide))

theorem finish_body_shape (s : memcache_binary_protocol) :
    (∀ s1, memcache_binary_protocol.finish_body s = Step.again s1 →
      s1.m_response_state = binary_response_state.rs_multi_initial ∧
      s1.m_read_buf = s.m_read_buf) ∧
    (∀ s1 o, memcache_binary_protocol.finish_body s = Step.done o s1 →
      o = Outcome.ret 1 ∧ s1.m_response_state = binary_response_state.rs_initial ∧
      s1.m_read_buf = s.m_read_buf) := by
  unfold memcache_binary_protocol.finish_body
  simp only
  constructor
  · intro s1 h
    split_ifs at h <;> (simp only [Step.again.injEq] at h; subst h; simp)
  · intro s1 o h
    split_ifs at h <;>
      (simp only [Step.done.injEq] at h; obtain ⟨h1, h2⟩ := h; subst h1; subst h2; simp)

theorem binary_read_body_shape (ndebug : Bool) (latency : Nat) (s : memcache_binary_protocol)
    (hst : s.m_response_state = binary_response_state.rs_read_body) :
    (∀ s1, memcache_binary_protocol.step ndebug latency s = Step.again s1 →
      s1.m_response_state = binary_response_state.rs_multi_initial ∧
      s1.m_read_buf.length ≤ s.m_read_buf.length) ∧
    (∀ s1, memcache_binary_protocol.step ndebug latency s = Step.done (Outcome.ret 1) s1 →
      s1.m_response_state = binary_response_state.rs_initial ∧
      s1.m_read_buf.length ≤ s.m_read_buf.length) ∧
    (∀ s1, memcache_binary_protocol.step ndebug latency s = Step.done (Outcome.ret 0) s1 →
      s1 = s) := by
  unfold memcache_binary_protocol.step
  simp only [hst, evbuffer_get_length, evbuffer_remove, evbuffer_drain]
  refine ⟨?_, ?_, ?_⟩
  · intro s1 h
    split_ifs at h <;>
      (obtain ⟨h1, h2⟩ := (finish_body_shape _).1 s1 h
       refine ⟨h1, ?_⟩
       rw [h2]
       simp only [List.length_drop]
       omega)
  · intro s1 h
    split_ifs at h <;>
      first
      | (obtain ⟨_, h1, h2⟩ := (finish_body_shape _).2 s1 _ h
         refine ⟨h1, ?_⟩
         rw [h2]
         simp only [List.length_drop]
         omega)
      | (simp at h)
  · intro s1 h
    split_ifs at h <;>
      first
      | (exact absurd ((finish_body_shape _).2 s1 _ h).1 (by decide))
      | (simp only [Step.done.injEq, true_and] at h; exact h.symm)
      | (simp at h)

theorem binary_step_shape (ndebug : Bool) (latency : Nat) (s : memcache_binary_protocol) :
    (∀ s1, memcache_binary_protocol.step ndebug latency s = Step.again s1 →
      (s.m_response_state ≠ binary_response_state.rs_read_body ∧
        s1.m_response_state = binary_response_state.rs_read_body ∧
        s1.m_read_buf.length + 24 ≤ s.m_read_buf.length) ∨
      (s.m_response_state = binary_response_state.rs_read_body ∧
        s1.m_response_state = binary_response_state.rs_multi_initial ∧
        s1.m_read_buf.length ≤ s.m_read_buf.length)) ∧
    (∀ s1, memcache_binary_protocol.step ndebug latency s = Step.done (Outcome.ret 1) s1 →
      (s.m_response_state ≠ binary_response_state.rs_read_body ∧
        s1.m_response_state = binary_response_state.rs_multi_initial ∧
        s1.m_read_buf.length + 24 ≤ s.m_read_buf.length) ∨
      (s.m_response_state = binary_response_state.rs_read_body ∧
        s1.m_response_state = binary_response_state.rs_initial ∧
        s1.m_read_buf.length ≤ s.m_read_buf.length)) ∧
    (∀ s1, memcache_binary_protocol.step ndebug latency s = Step.done (Outcome.ret 0) s1 →
      s1 = s ∨
      (s.m_response_state = binary_response_state.rs_initial ∧
        s1 = { s with m_last_response := s.m_last_response.clear,
                      m_response_state := binary_response_state.rs_multi_initial,
                      m_response_len := 0 })) := by
  cases hst : s.m_response_state with
  | rs_initial =>
    have hstep : memcache_binary_protocol.step ndebug latency s =
        memcache_binary_protocol.multi_initial latency
          { s with m_last_response := s.m_last_response.clear,
                   m_response_state := binary_response_state.rs_multi_initial,
                   m_response_len := 0 } := by
      unfold memcache_binary_protocol.step
      simp only [hst]
    rw [hstep]
    obtain ⟨h1, h2, h3⟩ := multi_initial_shape latency
      { s with m_last_response := s.m_last_response.clear,
               m_response_state := binary_response_state.rs_multi_initial,
               m_response_len := 0 }
    refine ⟨?_, ?_, ?_⟩
    · intro s1 h
      exact Or.inl ⟨by decide, h1 s1 h⟩
    · intro s1 h
      exact Or.inl ⟨by decide, h2 s1 h⟩
    · intro s1 h
      exact Or.inr ⟨rfl, h3 s1 h⟩
  | rs_multi_initial =>
    have hstep : memcache_binary_protocol.step ndebug latency s =
        memcache_binary_protocol.multi_initial latency s := by
      unfold memcache_binary_protocol.step
      simp only [hst]
    rw [hstep]
    obtain ⟨h1, h2, h3⟩ := multi_initial_shape latency s
    refine ⟨?_, ?_, ?_⟩
    · intro s1 h
      exact Or.inl ⟨by decide, h1 s1 h⟩
    · intro s1 h
      exact Or.inl ⟨by decide, by rw [← hst]; exact h2 s1 h⟩
    · intro s1 h
      exact Or.inl (h3 s1 h)
  | rs_read_body =>
    obtain ⟨h1, h2, h3⟩ := binary_read_body_shape ndebug latency s hst
    refine ⟨?_, ?_, ?_⟩
    · intro s1 h
      exact Or.inr ⟨rfl, h1 s1 h⟩
    · intro s1 h
      exact Or.inr ⟨rfl, h2 s1 h⟩
    · intro s1 h
      exact Or.inl (h3 s1 h)

theorem binary_lawful (ndebug : Bool) (latency : Nat) :
    (binary_machine ndebug latency).Lawful := by
  constructor
  · intro s a b
    simp [binary_machine, List.append_assoc]
  · intro s e
    simp [binary_machine]
  · intro s e
    rfl
  · intro s e
    rfl
  · intro s s1 e h hsane
    simp only [binary_machine, decide_eq_true_eq] at h hsane ⊢
    exact (binary_step_mirror ndebug latency s e hsane).1 s1 h
  · intro s s1 o e h ho hsane
    simp only [binary_machine, decide_eq_true_eq] at h hsane ⊢
    exact (binary_step_mirror ndebug latency s e hsane).2 s1 o h ho
  · intro s s1 e h
    simp only [binary_machine] at h ⊢
    rcases (binary_step_shape ndebug latency s).2.2 s1 h with h1 | ⟨h1, h2⟩
    · rw [h1]
      exact ⟨rfl, rfl⟩
    · rw [h2]
      constructor
      · unfold memcache_binary_protocol.step
        simp only [h1]
      · simp [h1]
  · intro s s1 h
    simp only [binary_machine] at h ⊢
    rcases (binary_step_shape ndebug latency s).1 s1 h with ⟨h1, h2, h3⟩ | ⟨h1, h2, h3⟩
    · simp [h1, h2]
      omega
    · simp [h1, h2]
      omega
  · intro s
    simp only [binary_machine]
    split_ifs <;> omega
  · intro s s1 h
    simp only [binary_machine] at h ⊢
    rcases (binary_step_shape ndebug latency s).1 s1 h with ⟨h1, h2, h3⟩ | ⟨h1, h2, h3⟩
    · simp [h1, h2]
      omega
    · simp [h1, h2]
      omega
  · intro s s1 h
    simp only [binary_machine] at h ⊢
    rcases (binary_step_shape ndebug latency s).2.1 s1 h with ⟨h1, h2, h3⟩ | ⟨h1, h2, h3⟩
    · simp [h1, h2]
      omega
    · simp [h1, h2]
      omega

theorem redis_machine_call (latency : Nat) (p : redis_protocol) :
    (redis_machine latency).call p = p.parse_response latency := rfl

theorem text_machine_call (ndebug : Bool) (latency : Nat) (p : memcache_text_protocol) :
    (text_machine ndebug latency).call p = p.parse_response ndebug latency := rfl

theorem binary_machine_call (ndebug : Bool) (latency : Nat) (p : memcache_binary_protocol) :
    (binary_machine ndebug latency).call p = p.parse_response ndebug latency := rfl

/-- C1 as stated fails for each parser. Redis with retention on: after the header
`$4294967294` the length plus 2 wraps to 0, so the bulk is taken from whatever the
buffer holds; the stream in one piece gives one completion that swallows `+OK`, in two
pieces two completions. Cache-text: after `VALUE k 0 4294967294` the same wrap makes the
whole stream give no completion and the split stream one. Cache-binary: a body shorter
than its extras gives a negative length that drains the whole buffer, so the stream in
one piece gives one completion and in two pieces two. -/
theorem chunking_changes_completions :
    (completions ((redis_machine 7).session (redis_protocol.new [] true 0)
        [str "$4294967294\r\n+OK\r\n"]) = [(Outcome.ret 1, 18)] ∧
     completions ((redis_machine 7).session (redis_protocol.new [] true 0)
        [str "$4294967294\r\n", str "+OK\r\n"]) = [(Outcome.ret 1, 13), (Outcome.ret 1, 18)]) ∧
    (completions ((text_machine false 7).session (memcache_text_protocol.new [] false 0)
        [str "VALUE k 0 4294967294\r\nEND\r\n"]) = [] ∧
     completions ((text_machine false 7).session (memcache_text_protocol.new [] false 0)
        [str "VALUE k 0 4294967294\r\n", str "END\r\n"]) = [(Outcome.ret 1, 27)]) ∧
    (completions ((binary_machine false 7).session
        (memcache_binary_protocol.new [] false 0 (read_header []))
        [short_body_header ++ [0] ++ set_success_header]) = [(Outcome.ret 1, 49)] ∧
     completions ((binary_machine false 7).session
        (memcache_binary_protocol.new [] false 0 (read_header []))
        [short_body_header ++ [0], set_success_header])
          = [(Outcome.ret 1, 25), (Outcome.ret 1, 49)]) := by
  refine ⟨⟨?_, ?_⟩, ⟨?_, ?_⟩, ⟨?_, ?_⟩⟩ <;> decide

/-- C1 (amended): chunk-boundary determinism. For each of the three parsers, take a
reply byte stream on which the parser, run on the whole stream, passes only through sane
states: it never waits for a redis bulk kept as value whose length plus 2 is 2^32 or
more, nor for a cache-text value whose length plus 2 is 2^32 or more, nor for a
cache-binary body that is shorter than its extras (than extras plus key, with
retention) or at least 2^31 bytes longer than them. Then for every way of splitting the
stream into one or more chunks, calling `parse_response` with the same latency after
each chunk until it no longer returns 1, from a fresh parser, gives the same session as
feeding the whole stream at once: the same completions (results other than 0) after the
same numbers of consumed bytes with the same response at each, and the same parser
state and buffer at the end. -/
theorem chunk_boundary_determinism (ndebug keep : Bool) (latency t0 : Nat)
    (hdr0 : protocol_binary_response_header) (rs ts bs : List Bytes) (nr nt nb : Nat)
    (hr : rs ≠ []) (ht : ts ≠ []) (hb : bs ≠ [])
    (hrs : (redis_machine latency).checked nr
      (redis_protocol.new (concat_chunks rs) keep t0) = true)
    (hts : (text_machine ndebug latency).checked nt
      (memcache_text_protocol.new (concat_chunks ts) keep t0) = true)
    (hbs : (binary_machine ndebug latency).checked nb
      (memcache_binary_protocol.new (concat_chunks bs) keep t0 hdr0) = true) :
    (redis_machine latency).session (redis_protocol.new [] keep t0) rs
      = (redis_machine latency).session (redis_protocol.new [] keep t0) [concat_chunks rs] ∧
    (text_machine ndebug latency).session (memcache_text_protocol.new [] keep t0) ts
      = (text_machine ndebug latency).session (memcache_text_protocol.new [] keep t0)
          [concat_chunks ts] ∧
    (binary_machine ndebug latency).session (memcache_binary_protocol.new [] keep t0 hdr0) bs
      = (binary_machine ndebug latency).session (memcache_binary_protocol.new [] keep t0 hdr0)
          [concat_chunks bs] :=
  ⟨Machine.session_chunks _ (redis_lawful latency) _ rs nr hr hrs,
   Machine.session_chunks _ (text_lawful ndebug latency) _ ts nt ht hts,
   Machine.session_chunks _ (binary_lawful ndebug latency) _ bs nb hb hbs⟩

theorem chunk_boundary_determinism_witness :
    (redis_machine 7).session (redis_protocol.new [] true 0)
        [str "$5\r\nhe", str "llo\r\n+O", str "K\r\n"]
      = (redis_machine 7).session (redis_protocol.new [] true 0)
          [concat_chunks [str "$5\r\nhe", str "llo\r\n+O", str "K\r\n"]] ∧
    (text_machine true 7).session (memcache_text_protocol.new [] true 0)
        [str "VALUE k 0 5\r\nhel", str "lo\r\nEN", str "D\r\n"]
      = (text_machine true 7).session (memcache_text_protocol.new [] true 0)
          [concat_chunks [str "VALUE k 0 5\r\nhel", str "lo\r\nEN", str "D\r\n"]] ∧
    (binary_machine true 7).session
        (memcache_binary_protocol.new [] true 0 (read_header []))
        [(hit_frame 0x0c 107 118).header, (hit_frame 0x0c 107 118).body, set_success_header]
      = (binary_machine true 7).session
          (memcache_binary_protocol.new [] true 0 (read_header []))
          [concat_chunks
            [(hit_frame 0x0c 107 118).header, (hit_frame 0x0c 107 118).body,
              set_success_header]] :=
  chunk_boundary_determinism true true 7 0 (read_header [])
    [str "$5\r\nhe", str "llo\r\n+O", str "K\r\n"]
    [str "VALUE k 0 5\r\nhel", str "lo\r\nEN", str "D\r\n"]
    [(hit_frame 0x0c 107 118).header, (hit_frame 0x0c 107 118).body, set_success_header]
    8 8 8 (by decide) (by decide) (by decide) (by decide) (by decide) (by decide)

theorem redis_fatal_line (latency : Nat) (p : redis_protocol) (line rest : Bytes)
    (hs : p.m_response_state = redis_response_state.rs_initial)
    (hb : p.m_read_buf = line ++ 13 :: 10 :: rest)
    (hc : has_crlf line = false)
    (hh : line.head? = some 42 ∨
      (line.head? ≠ some 36 ∧ line.head? ≠ some 43 ∧ line.head? ≠ some 45 ∧
        line.head? ≠ some 58)) :
    ∃ p1, p.parse_response latency = some (Outcome.ret (-1), p1) ∧ p1.m_read_buf = rest ∧
      p1.m_response_state = redis_response_state.rs_initial := by
  have hr := evbuffer_readln_line line rest hc
  rw [← hb] at hr
  have hd : ∀ c : UInt8, line.head? ≠ some c → line.headD 0 = c → c = 0 := by
    intro c h1 h2
    cases line with
    | nil => simpa using h2.symm
    | cons a l => simp at h1 h2; exact absurd h2 h1
  unfold redis_protocol.parse_response
  by_cases h42 : line.headD 0 = 42
  · refine ⟨{ p with m_read_buf := rest, m_response_len := line.length + 2 },
      iterate_done _ _ p _ _ ?_, rfl, hs⟩
    unfold redis_protocol.step
    simp only [hs, hr, h42, if_true]
  · have h36 : line.headD 0 ≠ 36 := by
      rcases hh with h | ⟨h, _, _, _⟩
      · cases line with
        | nil => simp at h
        | cons a l => simp at h; simp [h] at h42
      · intro e; exact absurd (hd 36 h e) (by decide)
    have h43 : line.headD 0 ≠ 43 := by
      rcases hh with h | ⟨_, h, _, _⟩
      · cases line with
        | nil => simp at h
        | cons a l => simp at h; simp [h] at h42
      · intro e; exact absurd (hd 43 h e) (by decide)
    have h45 : line.headD 0 ≠ 45 := by
      rcases hh with h | ⟨_, _, h, _⟩
      · cases line with
        | nil => simp at h
        | cons a l => simp at h; simp [h] at h42
      · intro e; exact absurd (hd 45 h e) (by decide)
    have h58 : line.headD 0 ≠ 58 := by
      rcases hh with h | ⟨_, _, _, h⟩
      · cases line with
        | nil => simp at h
        | cons a l => simp at h; simp [h] at h42
      · intro e; exact absurd (hd 58 h e) (by decide)
    refine ⟨{ p with m_read_buf := rest, m_response_len := line.length + 2,
                     m_last_response := (p.m_last_response.clear).set_latency latency },
      iterate_done _ _ p _ _ ?_, rfl, hs⟩
    unfold redis_protocol.step
    simp only [hs, hr, h42, h36, h43, h45, h58, if_false, or_self]

theorem binary_fatal_magic (ndebug : Bool) (latency : Nat) (q : memcache_binary_protocol)
    (hb rest : Bytes)
    (hs : q.m_response_state = binary_response_state.rs_initial ∨
      q.m_response_state = binary_response_state.rs_multi_initial)
    (hbuf : q.m_read_buf = hb ++ rest) (hlen : hb.length = 24)
    (hmagic : (read_header hb).magic ≠ PROTOCOL_BINARY_RES) :
    ∃ q1, q.parse_response ndebug latency = some (Outcome.ret (-1), q1) ∧
      q1.m_read_buf = rest ∧ q1.m_response_hdr = read_header hb := by
  have hl : ¬ (hb ++ rest).length < 24 := by rw [List.length_append]; omega
  unfold memcache_binary_protocol.parse_response
  rcases hs with hs | hs
  · refine ⟨{ q with m_read_buf := rest, m_response_hdr := read_header hb,
                     m_last_response := q.m_last_response.clear,
                     m_response_state := binary_response_state.rs_multi_initial,
                     m_response_len := 0 },
      iterate_done _ _ q _ _ ?_, rfl, rfl⟩
    unfold memcache_binary_protocol.step memcache_binary_protocol.multi_initial
    simp only [hs, hbuf, evbuffer_get_length, hl, if_false, remove_header hb rest hlen]
    simp only [ne_eq, hmagic, not_false_eq_true, if_true]
  · refine ⟨{ q with m_read_buf := rest, m_response_hdr := read_header hb },
      iterate_done _ _ q _ _ ?_, rfl, rfl⟩
    unfold memcache_binary_protocol.step memcache_binary_protocol.multi_initial
    simp only [hs, hbuf, evbuffer_get_length, hl, if_false, remove_header hb rest hlen]
    simp only [ne_eq, hmagic, not_false_eq_true, if_true]

/-- C11: a redis parser in the Initial state whose buffer starts with a complete line
(terminated by the first CR LF) returns -1 when the line's first byte is '*', and when
the line is empty or its first byte is none of '$', '+', '-', ':'; a binary parser in the
Initial or MultiInitial state whose buffer starts with 24 bytes whose magic byte is not
0x81 returns -1. In both cases the call returns -1, not 1, having taken the line (with
its CR LF) or the header from the buffer. -/
theorem protocol_violations_are_fatal (ndebug : Bool) (latency : Nat)
    (p : redis_protocol) (line rest : Bytes)
    (q : memcache_binary_protocol) (hb rest2 : Bytes)
    (hs : p.m_response_state = redis_response_state.rs_initial)
    (hbuf : p.m_read_buf = line ++ 13 :: 10 :: rest)
    (hc : has_crlf line = false)
    (hh : line.head? = some 42 ∨
      (line.head? ≠ some 36 ∧ line.head? ≠ some 43 ∧ line.head? ≠ some 45 ∧
        line.head? ≠ some 58))
    (hqs : q.m_response_state = binary_response_state.rs_initial ∨
      q.m_response_state = binary_response_state.rs_multi_initial)
    (hqb : q.m_read_buf = hb ++ rest2) (hlen : hb.length = 24)
    (hmagic : (read_header hb).magic ≠ 0x81) :
    (∃ p1, p.parse_response latency = some (Outcome.ret (-1), p1) ∧ p1.m_read_buf = rest) ∧
    (∃ q1, q.parse_response ndebug latency = some (Outcome.ret (-1), q1) ∧
      q1.m_read_buf = rest2) := by
  obtain ⟨p1, h1, h2, _⟩ := redis_fatal_line latency p line rest hs hbuf hc hh
  obtain ⟨q1, h3, h4, _⟩ := binary_fatal_magic ndebug latency q hb rest2 hqs hqb hlen hmagic
  exact ⟨⟨p1, h1, h2⟩, ⟨q1, h3, h4⟩⟩

theorem protocol_violations_are_fatal_witness :
    (∃ p1, (redis_protocol.new (str "*2\r\n$1\r\na\r\n") true 0).parse_response 7
        = some (Outcome.ret (-1), p1) ∧ p1.m_read_buf = str "$1\r\na\r\n") ∧
    (∃ q1, (memcache_binary_protocol.new (0x80 :: set_success_header.tail ++ [1, 2]) true 0
        (read_header [])).parse_response false 7 = some (Outcome.ret (-1), q1) ∧
      q1.m_read_buf = [1, 2]) :=
  protocol_violations_are_fatal false 7
    (redis_protocol.new (str "*2\r\n$1\r\na\r\n") true 0) (str "*2") (str "$1\r\na\r\n")
    (memcache_binary_protocol.new (0x80 :: set_success_header.tail ++ [1, 2]) true 0
      (read_header []))
    (0x80 :: set_success_header.tail) [1, 2]
    rfl (by decide) (by decide) (Or.inl (by decide)) (Or.inl rfl) (by decide) (by decide)
    (by decide)

theorem text_bad_value_line (ndebug : Bool) (latency : Nat) (p : memcache_text_protocol)
    (line rest : Bytes)
    (hs : p.m_response_state = text_response_state.rs_read_section)
    (hb : p.m_read_buf = line ++ 13 :: 10 :: rest)
    (hc : has_crlf line = false)
    (hv : memcmp_eq line (str "VALUE") = true)
    (ho : (sscanf_value line).overrun = false)
    (hres : (sscanf_value line).res < 4 ∨ (sscanf_value line).res > 5) :
    ∃ p1, p.parse_response ndebug latency = some (Outcome.ret (-1), p1) ∧
      p1.m_read_buf = rest := by
  have hr := evbuffer_readln_line line rest hc
  rw [← hb] at hr
  unfold memcache_text_protocol.parse_response
  refine ⟨{ p with m_read_buf := rest,
                   m_response_len := p.m_response_len + (line.length + 2),
                   m_last_response :=
                     (if p.m_last_response.get_status = none
                      then p.m_last_response.set_status (some line)
                      else p.m_last_response).set_total_len
                        (p.m_response_len + (line.length + 2)),
                   m_value_len := (sscanf_value line).value_len.getD p.m_value_len },
    iterate_done _ _ p _ _ ?_, rfl⟩
  unfold memcache_text_protocol.step
  simp only [hs, hr, hv, ho, hres, if_true, Bool.false_eq_true, if_false]

theorem text_unknown_line_section (ndebug : Bool) (latency : Nat)
    (p : memcache_text_protocol) (line rest : Bytes)
    (hs : p.m_response_state = text_response_state.rs_read_section)
    (hb : p.m_read_buf = line ++ 13 :: 10 :: rest)
    (hc : has_crlf line = false)
    (h1 : memcmp_eq line (str "VALUE") = false)
    (h2 : memcmp_eq line (str "END") = false)
    (h3 : memcmp_eq line (str "STORED") = false) :
    ∃ p1, p.parse_response ndebug latency = some (Outcome.ret (-1), p1) ∧
      p1.m_read_buf = rest ∧ p1.m_last_response.m_error = true := by
  have hr := evbuffer_readln_line line rest hc
  rw [← hb] at hr
  unfold memcache_text_protocol.parse_response
  refine ⟨{ p with m_read_buf := rest,
                   m_response_len := p.m_response_len + (line.length + 2),
                   m_last_response :=
                     ((if p.m_last_response.get_status = none
                       then p.m_last_response.set_status (some line)
                       else p.m_last_response).set_total_len
                         (p.m_response_len + (line.length + 2))).set_error true },
    iterate_done _ _ p _ _ ?_, rfl, rfl⟩
  unfold memcache_text_protocol.step
  simp only [hs, hr, h1, h2, h3, Bool.false_eq_true, if_false, or_self]

/-- C12: a text parser in the ReadSection state fed the complete line `VALUE` followed
by 45 bytes `x`, one token of 50 bytes that is no `VALUE <key> <flags> <vlen>` line,
does not return -1: `sscanf` copies the token and its NUL, 51 bytes, into
`char prefix[50]`, which is undefined behaviour. -/
theorem text_value_line_overruns_prefix :
    (memcache_text_protocol.parse_response false
      { memcache_text_protocol.new
          (str "VALUExxxxxxxxxxxxxxxxxxxxxxxxxxxxxxxxxxxxxxxxxxxxx\r\n") false 0 with
        m_response_state := text_response_state.rs_read_section } 7).map (fun x => x.1)
      = some Outcome.undefined ∧
    (str "VALUExxxxxxxxxxxxxxxxxxxxxxxxxxxxxxxxxxxxxxxxxxxxx").length = 50 := by
  constructor <;> rfl

theorem evbuffer_readln_none : ∀ (b : Bytes), has_crlf b = false → evbuffer_readln b = none := by
  intro b
  induction b with
  | nil => intro _; simp [evbuffer_readln]
  | cons a b ih =>
    intro h
    cases b with
    | nil => simp [evbuffer_readln]
    | cons c b2 =>
      simp only [has_crlf, Bool.or_eq_false_iff, Bool.and_eq_false_imp, beq_iff_eq] at h
      obtain ⟨h1, h2⟩ := h
      have hc : ¬ (a = 13 ∧ c = 10) := by
        intro hh
        have := h1 hh.1
        simp [hh.2] at this
      simp only [evbuffer_readln, hc, if_false, ih h2]

theorem redis_needs_more (latency : Nat) (r : redis_protocol) (hr : r.needs_more = true) :
    r.parse_response latency = some (Outcome.ret 0,
      if r.m_response_state = redis_response_state.rs_initial
      then { r with m_response_len := 0 } else r) := by
  unfold redis_protocol.needs_more at hr
  unfold redis_protocol.parse_response
  apply iterate_done
  unfold redis_protocol.step
  cases hs : r.m_response_state with
  | rs_initial =>
    simp only [hs, Bool.not_eq_true', ] at hr
    simp only [evbuffer_readln_none _ hr, if_true]
  | rs_read_bulk =>
    simp only [hs, decide_eq_true_eq] at hr
    have : ¬ (evbuffer_get_length r.m_read_buf ≥ (r.m_bulk_len + 2) % 4294967296) := by
      simp only [evbuffer_get_length]; omega
    simp only [this, if_false]
    simp

theorem text_needs_more (ndebug : Bool) (latency : Nat) (t : memcache_text_protocol)
    (ht : t.needs_more = true) :
    t.parse_response ndebug latency = some (Outcome.ret 0,
      if t.m_response_state = text_response_state.rs_initial
      then { t with m_last_response := t.m_last_response.clear,
                    m_response_state := text_response_state.rs_read_section,
                    m_response_len := 0 }
      else t) := by
  unfold memcache_text_protocol.needs_more at ht
  unfold memcache_text_protocol.parse_response
  cases hs : t.m_response_state with
  | rs_initial =>
    simp only [hs, Bool.not_eq_true'] at ht
    rw [iterate_again _ _ t
      { t with m_last_response := t.m_last_response.clear,
               m_response_state := text_response_state.rs_read_section,
               m_response_len := 0 }
      (by unfold memcache_text_protocol.step; simp only [hs])]
    simp only [if_true]
    apply iterate_done
    unfold memcache_text_protocol.step
    simp only [evbuffer_readln_none _ ht]
  | rs_read_section =>
    simp only [hs, Bool.not_eq_true'] at ht
    apply iterate_done
    unfold memcache_text_protocol.step
    simp only [hs, evbuffer_readln_none _ ht]
    simp
  | rs_read_value =>
    simp only [hs, decide_eq_true_eq] at ht
    have : ¬ (evbuffer_get_length t.m_read_buf ≥ (t.m_value_len + 2) % 4294967296) := by
      simp only [evbuffer_get_length]; omega
    apply iterate_done
    unfold memcache_text_protocol.step
    simp only [hs, this, if_false]
    simp
  | rs_read_end =>
    simp [hs] at ht

theorem binary_needs_more (ndebug : Bool) (latency : Nat) (b : memcache_binary_protocol)
    (hb : b.needs_more = true) :
    b.parse_response ndebug latency = some (Outcome.ret 0,
      if b.m_response_state = binary_response_state.rs_initial
      then { b with m_last_response := b.m_last_response.clear,
                    m_response_state := binary_response_state.rs_multi_initial,
                    m_response_len := 0 }
      else b) := by
  unfold memcache_binary_protocol.needs_more at hb
  cases hs : b.m_response_state with
  | rs_initial =>
    simp only [hs, decide_eq_true_eq] at hb
    rw [binary_initial_empty ndebug latency b hs hb]
    simp
  | rs_multi_initial =>
    simp only [hs, decide_eq_true_eq] at hb
    rw [binary_multi_initial_empty ndebug latency b hs hb]
    simp
  | rs_read_body =>
    simp only [hs, decide_eq_true_eq] at hb
    have : ¬ (evbuffer_get_length b.m_read_buf ≥ b.m_response_hdr.bodylen) := by
      simp only [evbuffer_get_length]; omega
    unfold memcache_binary_protocol.parse_response
    apply iterate_done
    unfold memcache_binary_protocol.step
    simp only [hs, this, if_false]
    simp

/-- C13 as stated fails. A call can return 0 after it has consumed a header: a fresh
redis parser fed `$5\r\nhel` returns 0 having taken the 4 bytes of the header line,
moved to ReadBulk and set the status. A call made in the Initial state changes the
parser although nothing is there to read: after `STORED\r\n` has completed, the next
call of a cache-text parser on the empty buffer returns 0 having cleared the status and
moved to ReadSection; after a GET miss has completed, the next call of a binary parser
returns 0 having cleared the status and moved to MultiInitial; after `+OK\r\n` the next
call of a redis parser returns 0 having set its count of reply bytes from 5 to 0. -/
theorem need_more_changes_state :
    ((redis_protocol.new (str "$5\r\nhel") false 0).parse_response 7).map
        (fun x => (x.1, x.2.m_read_buf, x.2.m_response_state, x.2.m_last_response.m_status))
      = some (Outcome.ret 0, str "hel", redis_response_state.rs_read_bulk, some (str "$5")) ∧
    ((memcache_text_protocol.new (str "STORED\r\n") false 0).parse_response false 7).bind
        (fun x => (x.2.parse_response false 7).map
          (fun y => (x.1, x.2.m_last_response.m_status, x.2.m_response_state,
            y.1, y.2.m_last_response.m_status, y.2.m_response_state)))
      = some (Outcome.ret 1, some (str "STORED"), text_response_state.rs_initial,
          Outcome.ret 0, none, text_response_state.rs_read_section) ∧
    ((memcache_binary_protocol.new not_found_frame.bytes false 0
        (read_header [])).parse_response false 7).bind
        (fun x => (x.2.parse_response false 7).map
          (fun y => (x.1, x.2.m_last_response.m_status, x.2.m_response_state,
            y.1, y.2.m_last_response.m_status, y.2.m_response_state)))
      = some (Outcome.ret 1, some (str "PROTOCOL_BINARY_RESPONSE_KEY_ENOENT"),
          binary_response_state.rs_initial,
          Outcome.ret 0, none, binary_response_state.rs_multi_initial) ∧
    ((redis_protocol.new (str "+OK\r\n") false 0).parse_response 7).bind
        (fun x => (x.2.parse_response 7).map
          (fun y => (x.1, x.2.m_response_len, y.1, y.2.m_response_len)))
      = some (Outcome.ret 1, 5, Outcome.ret 0, 0) := by
  refine ⟨?_, ?_, ?_, ?_⟩ <;> rfl

/-- C13 (amended): for each of the three parsers, a call of `parse_response` made when
the read buffer does not hold the unit the parser is waiting for (no complete CR LF
line; fewer than 24 header bytes; fewer than length+2 / bodylen payload bytes) returns 0
and consumes no bytes. Made in any state but Initial it leaves the parser and the last
response unchanged. Made in the Initial state, a cache-text or cache-binary parser has
cleared the last response, set its count of reply bytes to 0 and moved to ReadSection /
MultiInitial, and a redis parser has set its count of reply bytes to 0; nothing else
changes. -/
theorem need_more_effect (ndebug : Bool) (latency : Nat)
    (r : redis_protocol) (t : memcache_text_protocol) (b : memcache_binary_protocol)
    (hr : r.needs_more = true) (ht : t.needs_more = true) (hb : b.needs_more = true) :
    r.parse_response latency = some (Outcome.ret 0,
      if r.m_response_state = redis_response_state.rs_initial
      then { r with m_response_len := 0 } else r) ∧
    t.parse_response ndebug latency = some (Outcome.ret 0,
      if t.m_response_state = text_response_state.rs_initial
      then { t with m_last_response := t.m_last_response.clear,
                    m_response_state := text_response_state.rs_read_section,
                    m_response_len := 0 }
      else t) ∧
    b.parse_response ndebug latency = some (Outcome.ret 0,
      if b.m_response_state = binary_response_state.rs_initial
      then { b with m_last_response := b.m_last_response.clear,
                    m_response_state := binary_response_state.rs_multi_initial,
                    m_response_len := 0 }
      else b) :=
  ⟨redis_needs_more latency r hr, text_needs_more ndebug latency t ht,
    binary_needs_more ndebug latency b hb⟩

theorem need_more_effect_witness :
    ({ redis_protocol.new (str "hel") true 0 with
        m_response_state := redis_response_state.rs_read_bulk,
        m_bulk_len := 5 } : redis_protocol).parse_response 7
      = some (Outcome.ret 0,
          { redis_protocol.new (str "hel") true 0 with
            m_response_state := redis_response_state.rs_read_bulk, m_bulk_len := 5 }) ∧
    ({ memcache_text_protocol.new (str "VALUE k 0 5\r") true 0 with
        m_response_state := text_response_state.rs_read_section }
          : memcache_text_protocol).parse_response false 7
      = some (Outcome.ret 0,
          { memcache_text_protocol.new (str "VALUE k 0 5\r") true 0 with
            m_response_state := text_response_state.rs_read_section }) ∧
    (memcache_binary_protocol.new [0x81, 0, 0] true 0 (read_header [])).parse_response false 7
      = some (Outcome.ret 0,
          { memcache_binary_protocol.new [0x81, 0, 0] true 0 (read_header []) with
            m_last_response := (protocol_response.new 0).clear,
            m_response_state := binary_response_state.rs_multi_initial }) :=
  need_more_effect false 7
    { redis_protocol.new (str "hel") true 0 with
      m_response_state := redis_response_state.rs_read_bulk, m_bulk_len := 5 }
    { memcache_text_protocol.new (str "VALUE k 0 5\r") true 0 with
      m_response_state := text_response_state.rs_read_section }
    (memcache_binary_protocol.new [0x81, 0, 0] true 0 (read_header []))
    (by decide) (by decide) (by decide)

namespace Machine

variable {σ : Type}

theorem iterate_invariant (M : Machine σ) (I : σ → Prop)
    (hagain : ∀ s s1, I s → M.step s = Step.again s1 → I s1)
    (hdone : ∀ s s1 o, I s → M.step s = Step.done o s1 → I s1) :
    ∀ (k : Nat) (s s1 : σ) (o : Outcome), I s → iterate M.step k s = some (o, s1) → I s1 := by
  intro k
  induction k with
  | zero => intro s s1 o _ h; simp [iterate] at h
  | succ k ih =>
    intro s s1 o hI h
    cases hs : M.step s with
    | again s2 =>
      rw [iterate_again _ _ _ _ hs] at h
      exact ih s2 s1 o (hagain s s2 hI hs) h
    | done o2 s2 =>
      rw [iterate_done _ _ _ _ _ hs] at h
      simp only [Option.some.injEq, Prod.mk.injEq] at h
      rw [← h.2]
      exact hdone s s2 o2 hI hs

theorem record_within (M : Machine σ) (I : σ → Prop) (x : Session σ) (o : Outcome) (s1 : σ)
    (hx : M.Within I x) (h1 : I s1) : M.Within I (M.record x o s1) := by
  unfold record
  by_cases ho : o = Outcome.ret 0
  · simp only [ho, if_true]
    exact ⟨h1, hx.2⟩
  · simp only [ho, if_false]
    refine ⟨h1, ?_⟩
    intro e he
    rw [List.mem_append, List.mem_singleton] at he
    rcases he with he | he
    · exact hx.2 e he
    · exact ⟨s1, h1, by rw [he]⟩

theorem settle_within (M : Machine σ) (I : σ → Prop)
    (hagain : ∀ s s1, I s → M.step s = Step.again s1 → I s1)
    (hdone : ∀ s s1 o, I s → M.step s = Step.done o s1 → I s1) :
    ∀ (n : Nat) (x : Session σ), M.Within I x → M.Within I (M.settle n x) := by
  intro n
  induction n with
  | zero => intro x hx; exact hx
  | succ n ih =>
    intro x hx
    unfold settle
    cases hc : M.call x.parser with
    | none => exact hx
    | some r =>
      obtain ⟨o, s1⟩ := r
      have h1 : I s1 := iterate_invariant M I hagain hdone _ _ _ _ hx.1 hc
      simp only
      split_ifs
      · exact ih _ (record_within M I x o s1 hx h1)
      · exact record_within M I x o s1 hx h1

theorem session_within (M : Machine σ) (I : σ → Prop)
    (hfeed : ∀ s e, I s → I (M.feed s e))
    (hagain : ∀ s s1, I s → M.step s = Step.again s1 → I s1)
    (hdone : ∀ s s1 o, I s → M.step s = Step.done o s1 → I s1)
    (s : σ) (hs : I s) (cs : List Bytes) : M.Within I (M.session s cs) := by
  unfold session
  have h0 : M.Within I (⟨s, M.len s, false, []⟩ : Session σ) :=
    ⟨hs, by intro e he; simp at he⟩
  generalize (⟨s, M.len s, false, []⟩ : Session σ) = x at h0
  induction cs generalizing x with
  | nil => exact h0
  | cons c cs ih =>
    rw [List.foldl_cons]
    apply ih
    have ha : M.Within I (M.arrive x c) := ⟨hfeed _ _ h0.1, h0.2⟩
    unfold receive
    split_ifs
    · exact ha
    · exact settle_within M I hagain hdone _ _ ha

end Machine

theorem redis_hits_invariant (latency : Nat) (s : redis_protocol)
    (hI : s.m_keep_value = true ∧
      s.m_last_response.m_hits = s.m_last_response.m_values.length ∧
      (s.m_response_state = redis_response_state.rs_read_bulk →
        s.m_last_response.m_values = [])) :
    (∀ s1, redis_protocol.step latency s = Step.again s1 →
      s1.m_keep_value = true ∧
      s1.m_last_response.m_hits = s1.m_last_response.m_values.length ∧
      (s1.m_response_state = redis_response_state.rs_read_bulk →
        s1.m_last_response.m_values = [])) ∧
    (∀ s1 o, redis_protocol.step latency s = Step.done o s1 →
      s1.m_keep_value = true ∧
      s1.m_last_response.m_hits = s1.m_last_response.m_values.length ∧
      (s1.m_response_state = redis_response_state.rs_read_bulk →
        s1.m_last_response.m_values = [])) := by
  obtain ⟨hk, hh, hv⟩ := hI
  unfold redis_protocol.step
  cases hst : s.m_response_state with
  | rs_initial =>
    simp only
    cases hr : evbuffer_readln s.m_read_buf with
    | none =>
      constructor
      · intro s1 h; simp at h
      · intro s1 o h
        simp only [Step.done.injEq] at h
        obtain ⟨_, h2⟩ := h
        subst h2
        exact ⟨hk, hh, by simp [hst]⟩
    | some lr =>
      obtain ⟨l, r⟩ := lr
      simp only
      constructor
      · intro s1 h
        split_ifs at h
        simp only [Step.again.injEq] at h
        subst h
        simp [hk, protocol_response.clear, protocol_response.set_latency,
          protocol_response.set_status]
      · intro s1 o h
        split_ifs at h <;>
          (simp only [Step.done.injEq] at h; obtain ⟨_, h2⟩ := h; subst h2;
           simp [hk, hh, hst, protocol_response.clear, protocol_response.set_latency,
             protocol_response.set_status, protocol_response.set_total_len,
             protocol_response.set_error])
  | rs_read_bulk =>
    have hv0 := hv hst
    have hh0 : s.m_last_response.m_hits = 0 := by rw [hh, hv0]; rfl
    simp only [evbuffer_get_length, evbuffer_remove, evbuffer_drain, hk, true_and]
    constructor
    · intro s1 h
      split_ifs at h
    · intro s1 o h
      split_ifs at h <;>
        (simp only [Step.done.injEq] at h; obtain ⟨_, h2⟩ := h; subst h2;
         simp [hk, hh0, hv0, hst, protocol_response.set_value, protocol_response.incr_hits,
           protocol_response.set_total_len])

theorem text_hits_invariant (ndebug : Bool) (latency : Nat) (s : memcache_text_protocol)
    (hI : s.m_keep_value = true ∧
      s.m_last_response.m_hits = s.m_last_response.m_values.length % 4294967296) :
    (∀ s1, memcache_text_protocol.step ndebug latency s = Step.again s1 →
      s1.m_keep_value = true ∧
      s1.m_last_response.m_hits = s1.m_last_response.m_values.length % 4294967296) ∧
    (∀ s1 o, memcache_text_protocol.step ndebug latency s = Step.done o s1 →
      s1.m_keep_value = true ∧
      s1.m_last_response.m_hits = s1.m_last_response.m_values.length % 4294967296) := by
  obtain ⟨hk, hh⟩ := hI
  unfold memcache_text_protocol.step
  cases hst : s.m_response_state with
  | rs_initial =>
    simp only
    constructor
    · intro s1 h
      simp only [Step.again.injEq] at h
      subst h
      simp [hk, protocol_response.clear]
    · intro s1 o h; simp at h
  | rs_read_section =>
    simp only
    cases hr : evbuffer_readln s.m_read_buf with
    | none =>
      constructor
      · intro s1 h; simp at h
      · intro s1 o h
        simp only [Step.done.injEq] at h
        obtain ⟨_, h2⟩ := h
        subst h2
        exact ⟨hk, hh⟩
    | some lr =>
      obtain ⟨l, r⟩ := lr
      simp only
      constructor
      · intro s1 h
        split_ifs at h <;>
          (simp only [Step.again.injEq] at h; subst h;
           simp [hk, hh, protocol_response.set_latency, protocol_response.set_status,
             protocol_response.set_total_len])
      · intro s1 o h
        split_ifs at h <;>
          (simp only [Step.done.injEq] at h; obtain ⟨_, h2⟩ := h; subst h2;
           simp [hk, hh, protocol_response.set_latency, protocol_response.set_status,
             protocol_response.set_total_len, protocol_response.set_error])
  | rs_read_value =>
    simp only [evbuffer_get_length, evbuffer_remove, evbuffer_drain, hk, if_true]
    constructor
    · intro s1 h
      split_ifs at h
      simp only [Step.again.injEq] at h
      subst h
      simp [hk, hh, protocol_response.set_value, protocol_response.incr_hits]
    · intro s1 o h
      split_ifs at h <;>
        (simp only [Step.done.injEq] at h; obtain ⟨_, h2⟩ := h; subst h2;
         simp [hk, hh])
  | rs_read_end =>
    simp only
    constructor
    · intro s1 h; simp at h
    · intro s1 o h
      simp only [Step.done.injEq] at h
      obtain ⟨_, h2⟩ := h
      subst h2
      exact ⟨hk, hh⟩

theorem finish_body_hits (s : memcache_binary_protocol)
    (hI : s.m_keep_value = true ∧
      s.m_last_response.m_hits + 1 ≤ s.m_last_response.m_values.length) :
    (∀ s1, memcache_binary_protocol.finish_body s = Step.again s1 →
      s1.m_keep_value = true ∧
      s1.m_last_response.m_hits ≤ s1.m_last_response.m_values.length) ∧
    (∀ s1 o, memcache_binary_protocol.finish_body s = Step.done o s1 →
      s1.m_keep_value = true ∧
      s1.m_last_response.m_hits ≤ s1.m_last_response.m_values.length) := by
  obtain ⟨hk, hh⟩ := hI
  have hm : (s.m_last_response.m_hits + 1) % 4294967296 ≤ s.m_last_response.m_values.length :=
    le_trans (Nat.mod_le _ _) hh
  unfold memcache_binary_protocol.finish_body
  simp only
  constructor
  · intro s1 h
    split_ifs at h <;>
      (simp only [Step.again.injEq] at h; subst h;
       simp [hk, protocol_response.incr_hits, protocol_response.set_total_len]; omega)
  · intro s1 o h
    split_ifs at h <;>
      (simp only [Step.done.injEq] at h; obtain ⟨_, h2⟩ := h; subst h2;
       simp [hk, protocol_response.incr_hits, protocol_response.set_total_len]; omega)

theorem multi_initial_hits (latency : Nat) (s : memcache_binary_protocol) :
    (∀ s1, memcache_binary_protocol.multi_initial latency s = Step.again s1 →
      s1.m_keep_value = s.m_keep_value ∧
      s1.m_last_response.m_hits = s.m_last_response.m_hits ∧
      s1.m_last_response.m_values = s.m_last_response.m_values) ∧
    (∀ s1 o, memcache_binary_protocol.multi_initial latency s = Step.done o s1 →
      s1.m_keep_value = s.m_keep_value ∧
      s1.m_last_response.m_hits = s.m_last_response.m_hits ∧
      s1.m_last_response.m_values = s.m_last_response.m_values) := by
  unfold memcache_binary_protocol.multi_initial
  simp only [evbuffer_get_length, evbuffer_remove]
  generalize memcache_binary_protocol.status_text _ = st
  constructor
  · intro s1 h
    split_ifs at h <;>
      (simp only [Step.again.injEq] at h; subst h;
       cases st <;>
         simp [protocol_response.set_latency, protocol_response.set_error,
           protocol_response.set_total_len, protocol_response.set_status])
  · intro s1 o h
    split_ifs at h <;>
      (simp only [Step.done.injEq] at h; obtain ⟨_, h2⟩ := h; subst h2;
       cases st <;>
         simp [protocol_response.set_latency, protocol_response.set_error,
           protocol_response.set_total_len, protocol_response.set_status])

theorem binary_hits_invariant (ndebug : Bool) (latency : Nat) (s : memcache_binary_protocol)
    (hI : s.m_keep_value = true ∧
      s.m_last_response.m_hits ≤ s.m_last_response.m_values.length) :
    (∀ s1, memcache_binary_protocol.step ndebug latency s = Step.again s1 →
      s1.m_keep_value = true ∧
      s1.m_last_response.m_hits ≤ s1.m_last_response.m_values.length) ∧
    (∀ s1 o, memcache_binary_protocol.step ndebug latency s = Step.done o s1 →
      s1.m_keep_value = true ∧
      s1.m_last_response.m_hits ≤ s1.m_last_response.m_values.length) := by
  obtain ⟨hk, hh⟩ := hI
  unfold memcache_binary_protocol.step
  cases hst : s.m_response_state with
  | rs_initial =>
    simp only
    obtain ⟨h1, h2⟩ := multi_initial_hits latency
      { s with m_last_response := s.m_last_response.clear,
               m_response_state := binary_response_state.rs_multi_initial,
               m_response_len := 0 }
    constructor
    · intro s1 h
      obtain ⟨a, b, c⟩ := h1 s1 h
      rw [a, b, c]
      exact ⟨hk, by simp [protocol_response.clear]⟩
    · intro s1 o h
      obtain ⟨a, b, c⟩ := h2 s1 o h
      rw [a, b, c]
      exact ⟨hk, by simp [protocol_response.clear]⟩
  | rs_multi_initial =>
    simp only
    obtain ⟨h1, h2⟩ := multi_initial_hits latency s
    constructor
    · intro s1 h
      obtain ⟨a, b, c⟩ := h1 s1 h
      rw [a, b, c]
      exact ⟨hk, hh⟩
    · intro s1 o h
      obtain ⟨a, b, c⟩ := h2 s1 o h
      rw [a, b, c]
      exact ⟨hk, hh⟩
  | rs_read_body =>
    simp only [evbuffer_get_length, evbuffer_remove, evbuffer_drain, hk, if_true]
    constructor
    · intro s1 h
      split_ifs at h <;>
        (refine (finish_body_hits _ ?_).1 s1 h
         simp [protocol_response.set_value]
         omega)
    · intro s1 o h
      split_ifs at h <;>
        first
        | (simp only [Step.done.injEq] at h; obtain ⟨_, h2⟩ := h; subst h2;
           first | exact ⟨rfl, hh⟩ | exact ⟨hk, hh⟩)
        | (refine (finish_body_hits _ ?_).2 s1 o h
           simp [protocol_response.set_value]
           omega)

theorem text_many_sections :
    ∀ (ss : List text_section), ss.length = 4294967296 → (∀ s ∈ ss, s = ⟨str "k", 0, []⟩) →
    ∃ p1, memcache_text_protocol.parse_response false
        (memcache_text_protocol.new (sections_bytes ss ++ str "END\r\n") true 0) 7
          = some (Outcome.ret 1, p1) ∧
      p1.m_last_response.m_hits = 0 ∧ p1.m_last_response.m_values.length = 4294967296 := by
  intro ss hlen hall
  obtain ⟨p1, hp, _, _, hhits, _, _, _, hvals, _⟩ :=
    text_get_reply_mod false 7
      (memcache_text_protocol.new (sections_bytes ss ++ str "END\r\n") true 0) ss rfl rfl
      (by
        intro s hs
        rw [hall s hs]
        decide)
      (Or.inr (Or.inr (by
        intro s hs
        rw [hall s hs])))
  refine ⟨p1, hp, ?_, ?_⟩
  · rw [hhits, hlen]
  · rw [hvals]
    show (if true = true then ss.map text_section.pair else []).length = 4294967296
    rw [if_pos rfl, List.length_map, hlen]

/-- C15 as stated fails for cache-text: `m_hits` is an `unsigned int`, so after a reply
of 2^32 sections `VALUE k 0 0` (each with an empty value) the call returns 1 with hits
wrapped to 0 while 2^32 values are queued. -/
theorem text_hits_wrap_around :
    ∃ p1, memcache_text_protocol.parse_response false
        (memcache_text_protocol.new
          (sections_bytes (List.replicate 4294967296 ⟨str "k", 0, []⟩) ++ str "END\r\n")
          true 0) 7 = some (Outcome.ret 1, p1) ∧
      p1.m_last_response.m_hits = 0 ∧ p1.m_last_response.m_values.length = 4294967296 :=
  text_many_sections _ (List.length_replicate _ _) (fun _ h => List.eq_of_mem_replicate h)

/-- C15 (amended): with retention enabled, for each of the three parsers and every
input stream, fed in any chunks to a fresh parser that is called after each chunk
until it no longer returns 1, the response at every call that returns 1 satisfies
hits <= number of queued values; for redis hits equals that number, and for cache-text
hits equals that number modulo 2^32. -/
theorem hits_bounded_by_values (ndebug : Bool) (latency t0 : Nat)
    (hdr0 : protocol_binary_response_header) (rs ts bs : List Bytes) :
    (∀ e ∈ ((redis_machine latency).session (redis_protocol.new [] true t0) rs).events,
      e.outcome = Outcome.ret 1 → e.response.m_hits = e.response.m_values.length) ∧
    (∀ e ∈ ((text_machine ndebug latency).session
        (memcache_text_protocol.new [] true t0) ts).events,
      e.outcome = Outcome.ret 1 →
        e.response.m_hits = e.response.m_values.length % 4294967296 ∧
        e.response.m_hits ≤ e.response.m_values.length) ∧
    (∀ e ∈ ((binary_machine ndebug latency).session
        (memcache_binary_protocol.new [] true t0 hdr0) bs).events,
      e.outcome = Outcome.ret 1 → e.response.m_hits ≤ e.response.m_values.length) := by
  refine ⟨?_, ?_, ?_⟩
  · intro e he _
    obtain ⟨s1, hI, hresp⟩ :=
      (Machine.session_within (redis_machine latency)
        (fun s => s.m_keep_value = true ∧
          s.m_last_response.m_hits = s.m_last_response.m_values.length ∧
          (s.m_response_state = redis_response_state.rs_read_bulk →
            s.m_last_response.m_values = []))
        (fun s _ h => h)
        (fun s s1 h hs => (redis_hits_invariant latency s h).1 s1 hs)
        (fun s s1 o h hs => (redis_hits_invariant latency s h).2 s1 o hs)
        (redis_protocol.new [] true t0) ⟨rfl, rfl, fun _ => rfl⟩ rs).2 e he
    rw [hresp]
    exact hI.2.1
  · intro e he _
    obtain ⟨s1, hI, hresp⟩ :=
      (Machine.session_within (text_machine ndebug latency)
        (fun s => s.m_keep_value = true ∧
          s.m_last_response.m_hits = s.m_last_response.m_values.length % 4294967296)
        (fun s _ h => h)
        (fun s s1 h hs => (text_hits_invariant ndebug latency s h).1 s1 hs)
        (fun s s1 o h hs => (text_hits_invariant ndebug latency s h).2 s1 o hs)
        (memcache_text_protocol.new [] true t0) ⟨rfl, rfl⟩ ts).2 e he
    rw [hresp]
    refine ⟨hI.2, ?_⟩
    have h2 : (text_machine ndebug latency).resp s1 = s1.m_last_response := rfl
    rw [h2, hI.2]
    exact Nat.mod_le _ _
  · intro e he _
    obtain ⟨s1, hI, hresp⟩ :=
      (Machine.session_within (binary_machine ndebug latency)
        (fun s => s.m_keep_value = true ∧
          s.m_last_response.m_hits ≤ s.m_last_response.m_values.length)
        (fun s _ h => h)
        (fun s s1 h hs => (binary_hits_invariant ndebug latency s h).1 s1 hs)
        (fun s s1 o h hs => (binary_hits_invariant ndebug latency s h).2 s1 o hs)
        (memcache_binary_protocol.new [] true t0 hdr0) ⟨rfl, Nat.le_refl _⟩ bs).2 e he
    rw [hresp]
    exact hI.2

namespace Machine

variable {σ : Type}

theorem iterate_erase (M : Machine σ) (f : σ → σ) (P : σ → Prop)
    (hagain : ∀ s s1, P s → M.step s = Step.again s1 →
      M.step (f s) = Step.again (f s1) ∧ P s1)
    (hdone : ∀ s s1 o, P s → M.step s = Step.done o s1 →
      M.step (f s) = Step.done o (f s1) ∧ (o = Outcome.ret 1 → P s1)) :
    ∀ (k : Nat) (s : σ), P s →
      iterate M.step k (f s) = (iterate M.step k s).map (fun r => (r.1, f r.2)) ∧
      (∀ o s1, iterate M.step k s = some (o, s1) → o = Outcome.ret 1 → P s1) := by
  intro k
  induction k with
  | zero => intro s _; simp [iterate]
  | succ k ih =>
    intro s hP
    cases hs : M.step s with
    | again s2 =>
      obtain ⟨h1, h2⟩ := hagain s s2 hP hs
      rw [iterate_again _ _ _ _ hs, iterate_again _ _ _ _ h1]
      exact ih s2 h2
    | done o2 s2 =>
      obtain ⟨h1, h2⟩ := hdone s s2 o2 hP hs
      rw [iterate_done _ _ _ _ _ hs, iterate_done _ _ _ _ _ h1]
      refine ⟨rfl, ?_⟩
      intro o s1 h ho
      simp only [Option.some.injEq, Prod.mk.injEq] at h
      rw [← h.2]
      exact h2 (by rw [h.1]; exact ho)

theorem record_erase (M : Machine σ) (f : σ → σ) (g : protocol_response → protocol_response)
    (E : M.Erasure f g) (x : Session σ) (o : Outcome) (s1 : σ) :
    M.record (Session.erase f g x) o (f s1) = Session.erase f g (M.record x o s1) := by
  unfold record
  by_cases ho : o = Outcome.ret 0
  · simp only [ho, if_true]
    rfl
  · simp only [ho, if_false]
    simp [Session.erase, E.len_f, E.resp_f]

theorem settle_erase (M : Machine σ) (f : σ → σ) (g : protocol_response → protocol_response)
    (E : M.Erasure f g) (P : σ → Prop)
    (hagain : ∀ s s1, P s → M.step s = Step.again s1 →
      M.step (f s) = Step.again (f s1) ∧ P s1)
    (hdone : ∀ s s1 o, P s → M.step s = Step.done o s1 →
      M.step (f s) = Step.done o (f s1) ∧ (o = Outcome.ret 1 → P s1)) :
    ∀ (n : Nat) (x : Session σ), P x.parser →
      M.settle n (Session.erase f g x) = Session.erase f g (M.settle n x) := by
  intro n
  induction n with
  | zero => intro x _; rfl
  | succ n ih =>
    intro x hP
    obtain ⟨h1, h2⟩ := iterate_erase M f P hagain hdone (M.fuel x.parser) x.parser hP
    have hc : M.call (Session.erase f g x).parser
        = (M.call x.parser).map (fun r => (r.1, f r.2)) := by
      show iterate M.step (M.fuel (f x.parser)) (f x.parser) = _
      rw [E.fuel_f]
      exact h1
    unfold settle
    rw [hc]
    cases hcall : M.call x.parser with
    | none => rfl
    | some r =>
      obtain ⟨o, s1⟩ := r
      simp only [Option.map_some']
      by_cases ho : o = Outcome.ret 1
      · simp only [ho, if_true]
        rw [record_erase M f g E]
        apply ih
        rw [record_parser_eq]
        exact h2 o s1 hcall ho
      · simp only [ho, if_false]
        exact record_erase M f g E x o s1

theorem arrive_erase (M : Machine σ) (f : σ → σ) (g : protocol_response → protocol_response)
    (E : M.Erasure f g) (x : Session σ) (c : Bytes) :
    M.arrive (Session.erase f g x) c = Session.erase f g (M.arrive x c) := by
  unfold arrive
  simp [Session.erase, E.feed_f]

theorem receive_erase (M : Machine σ) (f : σ → σ) (g : protocol_response → protocol_response)
    (E : M.Erasure f g) (P : σ → Prop)
    (hagain : ∀ s s1, P s → M.step s = Step.again s1 →
      M.step (f s) = Step.again (f s1) ∧ P s1)
    (hdone : ∀ s s1 o, P s → M.step s = Step.done o s1 →
      M.step (f s) = Step.done o (f s1) ∧ (o = Outcome.ret 1 → P s1))
    (x : Session σ) (c : Bytes) (hP : P (M.feed x.parser c)) :
    M.receive (Session.erase f g x) c = Session.erase f g (M.receive x c) := by
  unfold receive
  have hd : (Session.erase f g x).dead = x.dead := rfl
  rw [hd]
  by_cases h : x.dead = true
  · simp only [h, if_true]
    exact arrive_erase M f g E x c
  · simp only [h, if_false]
    have hmu : M.mu (M.feed (Session.erase f g x).parser c) = M.mu (M.feed x.parser c) := by
      show M.mu (M.feed (f x.parser) c) = _
      rw [← E.feed_f, E.mu_f]
    rw [hmu, arrive_erase M f g E]
    exact settle_erase M f g E P hagain hdone _ _ hP

theorem settle_keeps (M : Machine σ) (I : σ → Prop)
    (hagain : ∀ s s1, I s → M.step s = Step.again s1 → I s1)
    (hdone : ∀ s s1 o, I s → M.step s = Step.done o s1 → I s1) :
    ∀ (n : Nat) (x : Session σ), I x.parser → I (M.settle n x).parser := by
  intro n
  induction n with
  | zero => intro x hx; exact hx
  | succ n ih =>
    intro x hx
    unfold settle
    cases hc : M.call x.parser with
    | none => exact hx
    | some r =>
      obtain ⟨o, s1⟩ := r
      have h1 : I s1 := iterate_invariant M I hagain hdone _ _ _ _ hx hc
      simp only
      split_ifs
      · apply ih
        rw [record_parser_eq]
        exact h1
      · rw [record_parser_eq]
        exact h1

/-- When `f` commutes with every pass of the loop from every state that satisfies
`P`, and `P` is kept by the passes and by the arrival of bytes, the session of the
erased parser is the erased session, whatever the chunks. -/
theorem session_erase (M : Machine σ) (f : σ → σ) (g : protocol_response → protocol_response)
    (E : M.Erasure f g) (P : σ → Prop)
    (hfeed : ∀ s e, P s → P (M.feed s e))
    (hagain : ∀ s s1, P s → M.step s = Step.again s1 →
      M.step (f s) = Step.again (f s1) ∧ P s1)
    (hdone : ∀ s s1 o, P s → M.step s = Step.done o s1 →
      M.step (f s) = Step.done o (f s1) ∧ P s1)
    (s : σ) (hs : P s) (cs : List Bytes) :
    M.session (f s) cs = Session.erase f g (M.session s cs) := by
  unfold session
  have h0 : (⟨f s, M.len (f s), false, []⟩ : Session σ)
      = Session.erase f g ⟨s, M.len s, false, []⟩ := by
    simp [Session.erase, E.len_f]
  rw [h0]
  have hP : P (⟨s, M.len s, false, []⟩ : Session σ).parser := hs
  generalize (⟨s, M.len s, false, []⟩ : Session σ) = x at hP
  induction cs generalizing x with
  | nil => rfl
  | cons c cs ih =>
    rw [List.foldl_cons, List.foldl_cons]
    rw [receive_erase M f g E P hagain
      (fun s s1 o h hs => ⟨(hdone s s1 o h hs).1, fun _ => (hdone s s1 o h hs).2⟩)
      x c (hfeed _ _ hP)]
    apply ih
    have ha : P (M.arrive x c).parser := hfeed _ _ hP
    unfold receive
    split_ifs
    · exact ha
    · exact settle_keeps M P (fun s s1 h hs => (hagain s s1 h hs).2)
        (fun s s1 o h hs => (hdone s s1 o h hs).2) _ _ ha

end Machine

namespace Machine

variable {σ : Type}

theorem checked_erase (M : Machine σ) (f : σ → σ) (Q : σ → Prop)
    (hsane : ∀ s, Q s → M.sane s = true → M.sane (f s) = true)
    (hagain : ∀ s s1, Q s → M.sane s = true → M.step s = Step.again s1 →
      M.step (f s) = Step.again (f s1) ∧ Q s1)
    (hdone : ∀ s s1 o, Q s → M.sane s = true → M.step s = Step.done o s1 →
      M.step (f s) = Step.done o (f s1) ∧ Q s1) :
    ∀ (n : Nat) (s : σ), Q s → M.checked n s = true → M.checked n (f s) = true := by
  intro n
  induction n with
  | zero => intro s _ h; simp [checked] at h
  | succ n ih =>
    intro s hQ h
    rw [checked_succ] at h ⊢
    rw [Bool.and_eq_true] at h ⊢
    obtain ⟨h1, h2⟩ := h
    refine ⟨hsane s hQ h1, ?_⟩
    cases hs : M.step s with
    | again s1 =>
      obtain ⟨e1, q1⟩ := hagain s s1 hQ h1 hs
      rw [hs] at h2
      rw [e1]
      exact ih s1 q1 h2
    | done o s1 =>
      obtain ⟨e1, q1⟩ := hdone s s1 o hQ h1 hs
      rw [hs] at h2
      rw [e1]
      by_cases ho : o = Outcome.ret 1
      · simp only [ho, if_true] at h2 ⊢
        exact ih s1 q1 h2
      · simp only [ho, if_false]

/-- When `f` commutes with every pass of the loop from every sane state that
satisfies `Q`, the session of the erased parser is the erased session on every
stream whose whole-stream run passes through sane states only. -/
theorem session_erase_checked (M : Machine σ) (L : M.Lawful) (f : σ → σ)
    (g : protocol_response → protocol_response) (E : M.Erasure f g) (Q : σ → Prop)
    (hsane : ∀ s, Q s → M.sane s = true → M.sane (f s) = true)
    (hagain : ∀ s s1, Q s → M.sane s = true → M.step s = Step.again s1 →
      M.step (f s) = Step.again (f s1) ∧ Q s1)
    (hdone : ∀ s s1 o, Q s → M.sane s = true → M.step s = Step.done o s1 →
      M.step (f s) = Step.done o (f s1) ∧ Q s1)
    (hfeed : ∀ s e, Q s → Q (M.feed s e))
    (s : σ) (hQ : Q s) (cs : List Bytes) (n : Nat)
    (h : M.checked n (M.feed s (concat_chunks cs)) = true) :
    M.session (f s) cs = Session.erase f g (M.session s cs) := by
  by_cases hne : cs = []
  · subst hne
    simp [session, Session.erase, E.len_f]
  · have hf : M.checked n (M.feed (f s) (concat_chunks cs)) = true := by
      rw [← E.feed_f]
      exact checked_erase M f Q hsane hagain hdone n _ (hfeed _ _ hQ) h
    rw [session_chunks M L s cs n hne h, session_chunks M L (f s) cs n hne hf]
    unfold session
    rw [List.foldl_cons, List.foldl_nil, List.foldl_cons, List.foldl_nil]
    have h0 : (⟨f s, M.len (f s), false, []⟩ : Session σ)
        = Session.erase f g ⟨s, M.len s, false, []⟩ := by
      simp [Session.erase, E.len_f]
    rw [h0]
    refine receive_erase M f g E (fun s => Q s ∧ ∃ k, M.checked k s = true) ?_ ?_ _ _
      ⟨hfeed _ _ hQ, n, h⟩
    · intro s s1 hP hs
      obtain ⟨hq, k, hk⟩ := hP
      cases k with
      | zero => simp [checked] at hk
      | succ k =>
        rw [checked_succ, Bool.and_eq_true, hs] at hk
        obtain ⟨e1, q1⟩ := hagain s s1 hq hk.1 hs
        exact ⟨e1, q1, k, hk.2⟩
    · intro s s1 o hP hs
      obtain ⟨hq, k, hk⟩ := hP
      cases k with
      | zero => simp [checked] at hk
      | succ k =>
        rw [checked_succ, Bool.and_eq_true, hs] at hk
        obtain ⟨e1, q1⟩ := hdone s s1 o hq hk.1 hs
        refine ⟨e1, ?_⟩
        intro ho
        refine ⟨q1, k, ?_⟩
        have := hk.2
        simp only [ho, if_true] at this
        exact this

end Machine

theorem redis_erasure (latency : Nat) :
    (redis_machine latency).Erasure redis_protocol.forget protocol_response.forget :=
  ⟨fun _ _ => rfl, fun _ => rfl, fun _ => rfl, fun _ => rfl, fun _ => rfl⟩

theorem text_erasure (ndebug : Bool) (latency : Nat) :
    (text_machine ndebug latency).Erasure memcache_text_protocol.forget
      protocol_response.forget :=
  ⟨fun _ _ => rfl, fun _ => rfl, fun _ => rfl, fun _ => rfl, fun _ => rfl⟩

theorem binary_erasure (ndebug : Bool) (latency : Nat) :
    (binary_machine ndebug latency).Erasure memcache_binary_protocol.forget
      protocol_response.forget :=
  ⟨fun _ _ => rfl, fun _ => rfl, fun _ => rfl, fun _ => rfl, fun _ => rfl⟩

theorem redis_forget_step (latency : Nat) (s : redis_protocol)
    (hk : s.m_keep_value = true)
    (hsane : s.m_response_state = redis_response_state.rs_read_bulk →
      s.m_bulk_len > 0 → s.m_bulk_len + 2 < 4294967296) :
    (∀ s1, redis_protocol.step latency s = Step.again s1 →
      redis_protocol.step latency s.forget = Step.again s1.forget ∧ s1.m_keep_value = true) ∧
    (∀ s1 o, redis_protocol.step latency s = Step.done o s1 →
      redis_protocol.step latency s.forget = Step.done o s1.forget ∧
        s1.m_keep_value = true) := by
  unfold redis_protocol.step
  cases hst : s.m_response_state with
  | rs_initial =>
    simp only [redis_protocol.forget, hst]
    cases hr : evbuffer_readln s.m_read_buf with
    | none =>
      constructor
      · intro s1 h; simp at h
      · intro s1 o h
        simp only [Step.done.injEq] at h
        obtain ⟨h1, h2⟩ := h
        subst h1; subst h2
        exact ⟨rfl, hk⟩
    | some lr =>
      obtain ⟨l, r⟩ := lr
      simp only
      constructor
      · intro s1 h
        split_ifs at h ⊢
        simp only [Step.again.injEq] at h
        subst h
        exact ⟨rfl, hk⟩
      · intro s1 o h
        split_ifs at h ⊢ <;>
          (simp only [Step.done.injEq] at h; obtain ⟨h1, h2⟩ := h; subst h1; subst h2;
           exact ⟨rfl, hk⟩)
  | rs_read_bulk =>
    have hs2 := hsane hst
    simp only [redis_protocol.forget, hst, evbuffer_get_length, evbuffer_remove,
      evbuffer_drain, hk, true_and, Bool.false_eq_true, false_and, if_false]
    constructor
    · intro s1 h
      split_ifs at h
    · intro s1 o h
      by_cases hlen : s.m_read_buf.length ≥ (s.m_bulk_len + 2) % 4294967296
      · simp only [hlen, if_true] at h ⊢
        simp only [Step.done.injEq] at h
        obtain ⟨h1, h2⟩ := h
        subst h1; subst h2
        by_cases hb : s.m_bulk_len > 0
        · have hb2 := hs2 hb
          simp only [hb, if_true, Nat.mod_eq_of_lt hb2, List.drop_drop]
          refine ⟨?_, trivial⟩
          simp [protocol_response.forget, protocol_response.set_value,
            protocol_response.incr_hits, protocol_response.set_total_len, Nat.add_comm]
        · simp only [hb, if_false]
          exact ⟨rfl, trivial⟩
      · simp only [hlen, if_false] at h ⊢
        simp only [Step.done.injEq] at h
        obtain ⟨h1, h2⟩ := h
        subst h1; subst h2
        refine ⟨?_, hk⟩
        simp [hst]

theorem text_forget_step (latency : Nat) (s : memcache_text_protocol)
    (hk : s.m_keep_value = true) :
    (∀ s1, memcache_text_protocol.step true latency s = Step.again s1 →
      memcache_text_protocol.step true latency s.forget = Step.again s1.forget ∧
        s1.m_keep_value = true) ∧
    (∀ s1 o, memcache_text_protocol.step true latency s = Step.done o s1 →
      memcache_text_protocol.step true latency s.forget = Step.done o s1.forget ∧
        s1.m_keep_value = true) := by
  unfold memcache_text_protocol.step
  cases hst : s.m_response_state with
  | rs_initial =>
    simp only [memcache_text_protocol.forget, hst]
    constructor
    · intro s1 h
      simp only [Step.again.injEq] at h
      subst h
      exact ⟨rfl, hk⟩
    · intro s1 o h; simp at h
  | rs_read_section =>
    simp only [memcache_text_protocol.forget, hst]
    cases hr : evbuffer_readln s.m_read_buf with
    | none =>
      constructor
      · intro s1 h; simp at h
      · intro s1 o h
        simp only [Step.done.injEq] at h
        obtain ⟨h1, h2⟩ := h
        subst h1; subst h2
        refine ⟨?_, hk⟩
        simp [hst]
    | some lr =>
      obtain ⟨l, r⟩ := lr
      simp only [protocol_response.get_status, protocol_response.forget]
      constructor
      · intro s1 h
        split_ifs at h ⊢ <;>
          (simp only [Step.again.injEq] at h; subst h; exact ⟨rfl, hk⟩)
      · intro s1 o h
        split_ifs at h ⊢ <;>
          (simp only [Step.done.injEq] at h; obtain ⟨h1, h2⟩ := h; subst h1; subst h2;
           exact ⟨rfl, hk⟩)
  | rs_read_value =>
    simp only [memcache_text_protocol.forget, hst, evbuffer_get_length, evbuffer_remove,
      evbuffer_drain, hk, if_true, Bool.false_eq_true, if_false, Bool.not_true, false_and]
    constructor
    · intro s1 h
      split_ifs at h ⊢
      simp only [Step.again.injEq] at h
      subst h
      exact ⟨rfl, rfl⟩
    · intro s1 o h
      split_ifs at h ⊢
      simp only [Step.done.injEq] at h
      obtain ⟨h1, h2⟩ := h
      subst h1; subst h2
      refine ⟨?_, hk⟩
      simp [hst]
  | rs_read_end =>
    simp only [memcache_text_protocol.forget, hst]
    constructor
    · intro s1 h; simp at h
    · intro s1 o h
      simp only [Step.done.injEq] at h
      obtain ⟨h1, h2⟩ := h
      subst h1; subst h2
      exact ⟨rfl, hk⟩

theorem multi_initial_forget (latency : Nat) (s : memcache_binary_protocol) :
    (∀ s1, memcache_binary_protocol.multi_initial latency s = Step.again s1 →
      memcache_binary_protocol.multi_initial latency s.forget = Step.again s1.forget ∧
        s1.m_keep_value = s.m_keep_value) ∧
    (∀ s1 o, memcache_binary_protocol.multi_initial latency s = Step.done o s1 →
      memcache_binary_protocol.multi_initial latency s.forget = Step.done o s1.forget ∧
        s1.m_keep_value = s.m_keep_value) := by
  unfold memcache_binary_protocol.multi_initial
  simp only [evbuffer_get_length, evbuffer_remove, memcache_binary_protocol.forget]
  have hst : ∀ (a b : memcache_binary_protocol), a.m_response_hdr = b.m_response_hdr →
      a.status_text = b.status_text := by
    intro a b hab
    unfold memcache_binary_protocol.status_text
    rw [hab]
  rw [hst { m_read_buf := List.drop 24 s.m_read_buf, m_keep_value := false,
            m_last_response := s.m_last_response.forget,
            m_response_state := s.m_response_state,
            m_response_hdr := read_header (List.take 24 s.m_read_buf),
            m_response_len := s.m_response_len + 24 }
          { m_read_buf := List.drop 24 s.m_read_buf, m_keep_value := s.m_keep_value,
            m_last_response := s.m_last_response,
            m_response_state := s.m_response_state,
            m_response_hdr := read_header (List.take 24 s.m_read_buf),
            m_response_len := s.m_response_len + 24 } rfl]
  generalize memcache_binary_protocol.status_text _ = st
  constructor
  · intro s1 h
    split_ifs at h ⊢ <;>
      (simp only [Step.again.injEq] at h; subst h; cases st <;> exact ⟨rfl, rfl⟩)
  · intro s1 o h
    split_ifs at h ⊢ <;>
      (simp only [Step.done.injEq] at h; obtain ⟨h1, h2⟩ := h; subst h1; subst h2;
       cases st <;> exact ⟨rfl, rfl⟩)

theorem finish_body_forget (s : memcache_binary_protocol) :
    (∀ s1, memcache_binary_protocol.finish_body s = Step.again s1 →
      memcache_binary_protocol.finish_body s.forget = Step.again s1.forget ∧
        s1.m_keep_value = s.m_keep_value) ∧
    (∀ s1 o, memcache_binary_protocol.finish_body s = Step.done o s1 →
      memcache_binary_protocol.finish_body s.forget = Step.done o s1.forget ∧
        s1.m_keep_value = s.m_keep_value) := by
  unfold memcache_binary_protocol.finish_body
  simp only [memcache_binary_protocol.forget]
  constructor
  · intro s1 h
    split_ifs at h ⊢ <;>
      (simp only [Step.again.injEq] at h; subst h; exact ⟨rfl, rfl⟩)
  · intro s1 o h
    split_ifs at h ⊢ <;>
      (simp only [Step.done.injEq] at h; obtain ⟨h1, h2⟩ := h; subst h1; subst h2;
       exact ⟨rfl, rfl⟩)

theorem binary_forget_step (ndebug : Bool) (latency : Nat) (s : memcache_binary_protocol)
    (hkeep : s.m_keep_value = true)
    (hsane : s.m_response_state = binary_response_state.rs_read_body →
      (s.m_response_hdr.extlen.toNat ≤ s.m_response_hdr.bodylen ∧
       s.m_response_hdr.bodylen - s.m_response_hdr.extlen.toNat < 2147483648 ∧
       (s.m_keep_value = true →
         s.m_response_hdr.extlen.toNat + s.m_response_hdr.keylen ≤ s.m_response_hdr.bodylen))) :
    (∀ s1, memcache_binary_protocol.step ndebug latency s = Step.again s1 →
      memcache_binary_protocol.step ndebug latency s.forget = Step.again s1.forget ∧
        s1.m_keep_value = true) ∧
    (∀ s1 o, memcache_binary_protocol.step ndebug latency s = Step.done o s1 →
      memcache_binary_protocol.step ndebug latency s.forget = Step.done o s1.forget ∧
        s1.m_keep_value = true) := by
  cases hst : s.m_response_state with
  | rs_initial =>
    have e1 : memcache_binary_protocol.step ndebug latency s =
        memcache_binary_protocol.multi_initial latency
          { s with m_last_response := s.m_last_response.clear,
                   m_response_state := binary_response_state.rs_multi_initial,
                   m_response_len := 0 } := by
      unfold memcache_binary_protocol.step; simp only [hst]
    have e2 : memcache_binary_protocol.step ndebug latency s.forget =
        memcache_binary_protocol.multi_initial latency
          (memcache_binary_protocol.forget
            { s with m_last_response := s.m_last_response.clear,
                     m_response_state := binary_response_state.rs_multi_initial,
                     m_response_len := 0 }) := by
      unfold memcache_binary_protocol.step
      simp only [memcache_binary_protocol.forget, hst]
      rfl
    rw [e1, e2]
    obtain ⟨h1, h2⟩ := multi_initial_forget latency
      { s with m_last_response := s.m_last_response.clear,
               m_response_state := binary_response_state.rs_multi_initial,
               m_response_len := 0 }
    exact ⟨fun s1 h => ⟨(h1 s1 h).1, by rw [(h1 s1 h).2]; exact hkeep⟩,
      fun s1 o h => ⟨(h2 s1 o h).1, by rw [(h2 s1 o h).2]; exact hkeep⟩⟩
  | rs_multi_initial =>
    have e1 : memcache_binary_protocol.step ndebug latency s =
        memcache_binary_protocol.multi_initial latency s := by
      unfold memcache_binary_protocol.step; simp only [hst]
    have e2 : memcache_binary_protocol.step ndebug latency s.forget =
        memcache_binary_protocol.multi_initial latency s.forget := by
      unfold memcache_binary_protocol.step
      simp only [memcache_binary_protocol.forget, hst]
    rw [e1, e2]
    obtain ⟨h1, h2⟩ := multi_initial_forget latency s
    exact ⟨fun s1 h => ⟨(h1 s1 h).1, by rw [(h1 s1 h).2]; exact hkeep⟩,
      fun s1 o h => ⟨(h2 s1 o h).1, by rw [(h2 s1 o h).2]; exact hkeep⟩⟩
  | rs_read_body =>
    obtain ⟨hx, hb, hk⟩ := hsane hst
    have hk2 := hk hkeep
    have ha : toInt32 ((s.m_response_hdr.bodylen : Int) - (s.m_response_hdr.extlen.toNat : Int))
        = ((s.m_response_hdr.bodylen - s.m_response_hdr.extlen.toNat : Nat) : Int) := by
      rw [toInt32_of_small _ (by omega) (by omega)]
      omega
    have hb1 : toInt32 (((s.m_response_hdr.bodylen - s.m_response_hdr.extlen.toNat : Nat) : Int)
        - (s.m_response_hdr.keylen : Int))
        = ((s.m_response_hdr.bodylen - s.m_response_hdr.extlen.toNat
            - s.m_response_hdr.keylen : Nat) : Int) := by
      rw [toInt32_of_small _ (by omega) (by omega)]
      omega
    have hneg : ¬ (((s.m_response_hdr.bodylen - s.m_response_hdr.extlen.toNat
            - s.m_response_hdr.keylen : Nat) : Int) < 0) := by omega
    have hdrop : List.drop
        (s.m_response_hdr.bodylen - s.m_response_hdr.extlen.toNat - s.m_response_hdr.keylen)
        (List.drop s.m_response_hdr.keylen
          (List.drop s.m_response_hdr.extlen.toNat s.m_read_buf))
        = List.drop (s.m_response_hdr.bodylen - s.m_response_hdr.extlen.toNat)
          (List.drop s.m_response_hdr.extlen.toNat s.m_read_buf) := by
      rw [List.drop_drop]
      congr 1
      omega
    unfold memcache_binary_protocol.step
    simp only [memcache_binary_protocol.forget, hst, evbuffer_get_length, evbuffer_remove,
      evbuffer_drain, hkeep, if_true, Bool.false_eq_true, if_false, ha, hb1, hneg,
      Int.toNat_ofNat]
    rw [toSizeT_of_small _ (by omega) (by omega), Int.toNat_ofNat]
    by_cases hlen : s.m_read_buf.length ≥ s.m_response_hdr.bodylen
    · simp only [hlen, if_true]
      by_cases hop : s.m_response_hdr.opcode = PROTOCOL_BINARY_CMD_GETK ∨
          s.m_response_hdr.opcode = PROTOCOL_BINARY_CMD_GETKQ
      · simp only [hop, if_true, hdrop]
        constructor
        · intro s1 h
          obtain ⟨h1, h2⟩ := (finish_body_forget _).1 s1 h
          exact ⟨h1, h2⟩
        · intro s1 o h
          obtain ⟨h1, h2⟩ := (finish_body_forget _).2 s1 o h
          exact ⟨h1, h2⟩
      · simp only [hop, if_false, hdrop]
        constructor
        · intro s1 h
          obtain ⟨h1, h2⟩ := (finish_body_forget _).1 s1 h
          exact ⟨h1, h2⟩
        · intro s1 o h
          obtain ⟨h1, h2⟩ := (finish_body_forget _).2 s1 o h
          exact ⟨h1, h2⟩
    · simp only [hlen, if_false]
      constructor
      · intro s1 h; simp at h
      · intro s1 o h
        simp only [Step.done.injEq] at h
        obtain ⟨h1, h2⟩ := h
        subst h1; subst h2
        refine ⟨?_, hkeep⟩
        simp [hst]

theorem redis_huge_bulk (l : Bytes) (hl : l.length = 4294967294) :
    ((redis_protocol.new (str "$4294967294\r\n" ++ (l ++ str "\r\n")) true 0).parse_response 7).map
        (fun x => (x.1, x.2.m_read_buf, x.2.m_last_response.get_values_count))
      = some (Outcome.ret 1, [], 1) ∧
    ((redis_protocol.new (str "$4294967294\r\n" ++ (l ++ str "\r\n")) false 0).parse_response 7).map
        (fun x => (x.1, x.2.m_read_buf, x.2.m_last_response.get_values_count))
      = some (Outcome.ret 1, l ++ str "\r\n", 0) := by
  have hstep : ∀ keep : Bool, redis_protocol.step 7
      (redis_protocol.new (str "$4294967294\r\n" ++ (l ++ str "\r\n")) keep 0)
      = Step.again
        { m_read_buf := l ++ str "\r\n", m_keep_value := keep,
          m_last_response :=
            { m_status := some (str "$4294967294"), m_values := [], m_latencies := [7],
              m_value_len := 0, m_total_len := 0, m_hits := 0, m_error := false },
          m_response_state := redis_response_state.rs_read_bulk, m_bulk_len := 4294967294,
          m_response_len := 13 } := by
    intro keep
    rfl
  have hmod : (4294967294 + 2) % 4294967296 = 0 := by norm_num
  have ht : List.take 4294967294 (l ++ str "\r\n") = l := by
    rw [← hl]; exact List.take_left _ _
  have hd : List.drop 4294967294 (l ++ str "\r\n") = str "\r\n" := by
    rw [← hl]; exact List.drop_left _ _
  constructor
  · unfold redis_protocol.parse_response
    rw [iterate_again _ _ _ _ (hstep true)]
    rw [iterate_done (redis_protocol.step 7) 0 _
      { m_read_buf := [], m_keep_value := true,
        m_last_response :=
          { m_status := some (str "$4294967294"),
            m_values := [⟨some l, 4294967294, none, 0⟩], m_latencies := [7],
            m_value_len := 4294967294, m_total_len := 13, m_hits := 1, m_error := false },
        m_response_state := redis_response_state.rs_initial, m_bulk_len := 4294967294,
        m_response_len := 13 } (Outcome.ret 1)]
    · rfl
    · unfold redis_protocol.step
      simp only [evbuffer_get_length, evbuffer_remove, evbuffer_drain, hmod, ge_iff_le,
        Nat.zero_le, if_true, ht, hd]
      simp [protocol_response.set_value, protocol_response.set_total_len,
        protocol_response.incr_hits]
      rfl
  · unfold redis_protocol.parse_response
    rw [iterate_again _ _ _ _ (hstep false)]
    rw [iterate_done (redis_protocol.step 7) 0 _
      { m_read_buf := l ++ str "\r\n", m_keep_value := false,
        m_last_response :=
          { m_status := some (str "$4294967294"),
            m_values := [], m_latencies := [7],
            m_value_len := 0, m_total_len := 13, m_hits := 1, m_error := false },
        m_response_state := redis_response_state.rs_initial, m_bulk_len := 4294967294,
        m_response_len := 13 } (Outcome.ret 1)]
    · rfl
    · unfold redis_protocol.step
      simp only [evbuffer_get_length, evbuffer_remove, evbuffer_drain, hmod, ge_iff_le,
        Nat.zero_le, if_true, List.drop_zero]
      simp [protocol_response.set_value, protocol_response.set_total_len,
        protocol_response.incr_hits]

theorem binary_huge_body_kept (l : Bytes) (hl : l.length = 2147483648) (t0 latency : Nat)
    (hdr0 : protocol_binary_response_header) :
    (memcache_binary_protocol.parse_response false
      (memcache_binary_protocol.new
        (huge_getkq_header ++ (l ++ (hit_frame 0x0c 98 121).bytes)) true t0 hdr0)
      latency).map (fun x => (x.1, x.2.m_read_buf, x.2.m_last_response.m_hits))
    = some (Outcome.assert_failed, l ++ (hit_frame 0x0c 98 121).bytes, 0) := by
  rw [binary_parse_new]
  have hfuel : (huge_getkq_header ++ (l ++ (hit_frame 0x0c 98 121).bytes)).length + 2
      = ((huge_getkq_header ++ (l ++ (hit_frame 0x0c 98 121).bytes)).length) + 1 + 1 := by
    omega
  rw [hfuel]
  generalize (huge_getkq_header ++ (l ++ (hit_frame 0x0c 98 121).bytes)).length = n
  rw [binary_iterate_initial false latency _ _ rfl]
  simp only [memcache_binary_protocol.new]
  have hstep1 : memcache_binary_protocol.step false latency
        { m_read_buf := huge_getkq_header ++ (l ++ (hit_frame 0x0c 98 121).bytes),
          m_keep_value := true, m_last_response := (protocol_response.new t0).clear,
          m_response_state := binary_response_state.rs_multi_initial,
          m_response_hdr := hdr0, m_response_len := 0 }
      = Step.again
        { m_read_buf := l ++ (hit_frame 0x0c 98 121).bytes,
          m_keep_value := true,
          m_last_response :=
            after_header (protocol_response.new t0).clear 0 24 latency,
          m_response_state := binary_response_state.rs_read_body,
          m_response_hdr := read_header huge_getkq_header, m_response_len := 24 } := by
    unfold memcache_binary_protocol.step
    simp only
    rw [binary_header latency _ huge_getkq_header _ rfl rfl rfl]
    rfl
  have hstep2 : memcache_binary_protocol.step false latency
        { m_read_buf := l ++ (hit_frame 0x0c 98 121).bytes,
          m_keep_value := true,
          m_last_response :=
            after_header (protocol_response.new t0).clear 0 24 latency,
          m_response_state := binary_response_state.rs_read_body,
          m_response_hdr := read_header huge_getkq_header, m_response_len := 24 }
      = Step.done Outcome.assert_failed
        { m_read_buf := l ++ (hit_frame 0x0c 98 121).bytes,
          m_keep_value := true,
          m_last_response :=
            after_header (protocol_response.new t0).clear 0 24 latency,
          m_response_state := binary_response_state.rs_read_body,
          m_response_hdr := read_header huge_getkq_header, m_response_len := 24 } := by
    have hb : (read_header huge_getkq_header).bodylen = 2147483648 := rfl
    have he : (read_header huge_getkq_header).extlen.toNat = 0 := rfl
    have hk : (read_header huge_getkq_header).keylen = 0 := rfl
    have ho : (read_header huge_getkq_header).opcode = PROTOCOL_BINARY_CMD_GETKQ := rfl
    have hi : toInt32 (toInt32 (((2147483648 : Nat) : Int) - ((0 : Nat) : Int)) - ((0 : Nat) : Int))
        = -2147483648 := by
      norm_num [toInt32]
    have hlen : 2147483648 ≤ (l ++ (hit_frame 0x0c 98 121).bytes).length := by
      rw [List.length_append, hl]; exact Nat.le_add_right _ _
    unfold memcache_binary_protocol.step
    simp only [evbuffer_get_length, evbuffer_remove, evbuffer_drain, hb, he, hk, ho, hi,
      ge_iff_le, hlen, if_true, List.drop_zero, or_true]
    rfl
  rw [iterate_again _ _ _ _ hstep1, iterate_done _ _ _ _ _ hstep2]
  rfl

/-- C14 as stated fails. Cache-text compiled with assertions: on the reply
`VALUE k 0 5\r\nhello\r\nEND\r\n` the parser with retention on ends in a failed
assertion (it compares the byte count of `evbuffer_remove` with 0), with retention off
it returns 1. Redis: after the header `$4294967294` the length plus 2 wraps to 0, so with
retention on the call takes the 4294967294 payload bytes and their CR LF and queues a
value, with retention off it takes nothing and leaves them in the buffer. Cache-binary:
for a GETKQ frame whose body has 2^31 bytes (no extras, no key) the body length is
negative as an `int`: with retention on the allocation fails and the call ends in a
failed assertion, with retention off the call drains the whole buffer and returns 0. -/
theorem retention_changes_consumption :
    ((memcache_text_protocol.parse_response false
        (memcache_text_protocol.new (str "VALUE k 0 5\r\nhello\r\nEND\r\n") true 0) 7).map
          (fun x => x.1) = some Outcome.assert_failed ∧
     (memcache_text_protocol.parse_response false
        (memcache_text_protocol.new (str "VALUE k 0 5\r\nhello\r\nEND\r\n") false 0) 7).map
          (fun x => x.1) = some (Outcome.ret 1)) ∧
    (((redis_protocol.new
        (str "$4294967294\r\n" ++ (List.replicate 4294967294 120 ++ str "\r\n"))
        true 0).parse_response 7).map
          (fun x => (x.1, x.2.m_read_buf, x.2.m_last_response.get_values_count))
        = some (Outcome.ret 1, [], 1) ∧
     ((redis_protocol.new
        (str "$4294967294\r\n" ++ (List.replicate 4294967294 120 ++ str "\r\n"))
        false 0).parse_response 7).map
          (fun x => (x.1, x.2.m_read_buf, x.2.m_last_response.get_values_count))
        = some (Outcome.ret 1, List.replicate 4294967294 120 ++ str "\r\n", 0)) ∧
    ((memcache_binary_protocol.parse_response false
        (memcache_binary_protocol.new
          (huge_getkq_header ++ (List.replicate 2147483648 120 ++ (hit_frame 0x0c 98 121).bytes))
          true 0 (read_header [])) 7).map
          (fun x => (x.1, x.2.m_read_buf, x.2.m_last_response.m_hits))
        = some (Outcome.assert_failed,
            List.replicate 2147483648 120 ++ (hit_frame 0x0c 98 121).bytes, 0) ∧
     (memcache_binary_protocol.parse_response false
        (memcache_binary_protocol.new
          (huge_getkq_header ++ (List.replicate 2147483648 120 ++ (hit_frame 0x0c 98 121).bytes))
          false 0 (read_header [])) 7).map
          (fun x => (x.1, x.2.m_read_buf, x.2.m_last_response.m_hits))
        = some (Outcome.ret 0, [], 1)) :=
  ⟨⟨by rfl, by rfl⟩,
   redis_huge_bulk (List.replicate 4294967294 120) (List.length_replicate _ _),
   binary_huge_body_kept (List.replicate 2147483648 120) (List.length_replicate _ _) 0 7
     (read_header []),
   binary_huge_body (List.replicate 2147483648 120) (List.length_replicate _ _) 0 7
     (read_header [])⟩

/-- C14 (amended): retention does not change consumption. Take a stream, fed in any
chunks to a fresh parser that is called after each chunk until it no longer returns 1.
For redis and cache-binary, on every stream on which the parser with retention on, run
on the whole stream, never waits for an out-of-range payload (a redis bulk of length
L > 0 with L + 2 >= 2^32; a binary body with bodylen < extlen + keylen or
bodylen - extlen >= 2^31), and for cache-text compiled without assertions on every
stream, the session with retention off is the session with retention on seen without
its retained values: the same results after the same numbers of consumed bytes, the same
status, error, hits, total_len and latencies at every completion, the same parser state
and buffer at the end; only the queue of values differs, which is empty with retention
off. -/
theorem retention_keeps_consumption (ndebug : Bool) (latency t0 : Nat)
    (hdr0 : protocol_binary_response_header) (rs ts bs : List Bytes) (nr nb : Nat)
    (hrs : (redis_machine latency).checked nr
      (redis_protocol.new (concat_chunks rs) true t0) = true)
    (hbs : (binary_machine ndebug latency).checked nb
      (memcache_binary_protocol.new (concat_chunks bs) true t0 hdr0) = true) :
    (redis_machine latency).session (redis_protocol.new [] false t0) rs
      = Session.erase redis_protocol.forget protocol_response.forget
          ((redis_machine latency).session (redis_protocol.new [] true t0) rs) ∧
    (text_machine true latency).session (memcache_text_protocol.new [] false t0) ts
      = Session.erase memcache_text_protocol.forget protocol_response.forget
          ((text_machine true latency).session (memcache_text_protocol.new [] true t0) ts) ∧
    (binary_machine ndebug latency).session (memcache_binary_protocol.new [] false t0 hdr0) bs
      = Session.erase memcache_binary_protocol.forget protocol_response.forget
          ((binary_machine ndebug latency).session
            (memcache_binary_protocol.new [] true t0 hdr0) bs) := by
  refine ⟨?_, ?_, ?_⟩
  · exact Machine.session_erase_checked (redis_machine latency) (redis_lawful latency)
      redis_protocol.forget protocol_response.forget (redis_erasure latency)
      (fun s => s.m_keep_value = true)
      (fun s _ _ => by simp [redis_machine, redis_protocol.forget])
      (fun s s1 hk hs h => (redis_forget_step latency s hk
        (fun a b => by
          simp only [redis_machine, decide_eq_true_eq] at hs
          exact hs a hk b)).1 s1 h)
      (fun s s1 o hk hs h => (redis_forget_step latency s hk
        (fun a b => by
          simp only [redis_machine, decide_eq_true_eq] at hs
          exact hs a hk b)).2 s1 o h)
      (fun s e hk => hk)
      (redis_protocol.new [] true t0) rfl rs nr hrs
  · exact Machine.session_erase (text_machine true latency)
      memcache_text_protocol.forget protocol_response.forget (text_erasure true latency)
      (fun s => s.m_keep_value = true)
      (fun s e hk => hk)
      (fun s s1 hk h => (text_forget_step latency s hk).1 s1 h)
      (fun s s1 o hk h => (text_forget_step latency s hk).2 s1 o h)
      (memcache_text_protocol.new [] true t0) rfl ts
  · exact Machine.session_erase_checked (binary_machine ndebug latency)
      (binary_lawful ndebug latency)
      memcache_binary_protocol.forget protocol_response.forget (binary_erasure ndebug latency)
      (fun s => s.m_keep_value = true)
      (fun s _ hs => by
        simp only [binary_machine, decide_eq_true_eq, memcache_binary_protocol.forget] at hs ⊢
        intro a
        obtain ⟨h1, h2, _⟩ := hs a
        exact ⟨h1, h2, fun h => absurd h (by decide)⟩)
      (fun s s1 hk hs h => (binary_forget_step ndebug latency s hk
        (by simpa only [binary_machine, decide_eq_true_eq] using hs)).1 s1 h)
      (fun s s1 o hk hs h => (binary_forget_step ndebug latency s hk
        (by simpa only [binary_machine, decide_eq_true_eq] using hs)).2 s1 o h)
      (fun s e hk => hk)
      (memcache_binary_protocol.new [] true t0 hdr0) rfl bs nb hbs

theorem retention_keeps_consumption_witness :
    (redis_machine 7).session (redis_protocol.new [] false 0)
        [str "$5\r\nhe", str "llo\r\n+O", str "K\r\n"]
      = Session.erase redis_protocol.forget protocol_response.forget
          ((redis_machine 7).session (redis_protocol.new [] true 0)
            [str "$5\r\nhe", str "llo\r\n+O", str "K\r\n"]) ∧
    (text_machine true 7).session (memcache_text_protocol.new [] false 0)
        [str "VALUE k 0 5\r\nhel", str "lo\r\nEN", str "D\r\n"]
      = Session.erase memcache_text_protocol.forget protocol_response.forget
          ((text_machine true 7).session (memcache_text_protocol.new [] true 0)
            [str "VALUE k 0 5\r\nhel", str "lo\r\nEN", str "D\r\n"]) ∧
    (binary_machine false 7).session
        (memcache_binary_protocol.new [] false 0 (read_header []))
        [(hit_frame 0x0c 107 118).header, (hit_frame 0x0c 107 118).body, set_success_header]
      = Session.erase memcache_binary_protocol.forget protocol_response.forget
          ((binary_machine false 7).session
            (memcache_binary_protocol.new [] true 0 (read_header []))
            [(hit_frame 0x0c 107 118).header, (hit_frame 0x0c 107 118).body,
              set_success_header]) :=
  retention_keeps_consumption false 7 0 (read_header [])
    [str "$5\r\nhe", str "llo\r\n+O", str "K\r\n"]
    [str "VALUE k 0 5\r\nhel", str "lo\r\nEN", str "D\r\n"]
    [(hit_frame 0x0c 107 118).header, (hit_frame 0x0c 107 118).body, set_success_header]
    8 8 (by decide) (by decide)

theorem toInt32_add_left (a b : Int) : toInt32 (toInt32 a + b) = toInt32 (a + b) := by
  unfold toInt32
  simp only
  split <;> split <;> split <;> omega

theorem toInt32_add_right (a b : Int) : toInt32 (a + toInt32 b) = toInt32 (a + b) := by
  unfold toInt32
  simp only
  split <;> split <;> split <;> omega

theorem toUInt32_natCast (n : Nat) (h : n < 4294967296) : toUInt32 (n : Int) = n := by
  rw [toUInt32_of_small _ (by omega) (by omega)]
  exact Int.toNat_ofNat n

theorem toSizeT_natCast (n : Nat) (h : n < 4294967296) : toSizeT (n : Int) = n := by
  rw [toSizeT_of_small _ (by omega) (by omega)]
  exact Int.toNat_ofNat n

theorem cstr_of_no_nul (s : Bytes) (h : ∀ c ∈ s, c ≠ 0) : cstr s = s := by
  unfold cstr
  rw [List.takeWhile_eq_self_iff]
  intro c hc
  simpa using h c hc

theorem cstr_append_nul (s rest : Bytes) (h : ∀ c ∈ s, c ≠ 0) : cstr (s ++ 0 :: rest) = s := by
  unfold cstr
  induction s with
  | nil => simp
  | cons a l ih =>
    have ha : a ≠ 0 := h a (by simp)
    simp only [List.cons_append, List.takeWhile_cons, bne_iff_ne, ne_eq, ha, not_false_eq_true,
      decide_True, if_true]
    rw [ih (fun c hc => h c (List.mem_cons_of_mem _ hc))]

theorem decimal_no_nul (n : Nat) : ∀ c ∈ decimal n, c ≠ 0 := by
  intro c hc h0
  have := isdigit_toNat c (decimal_all n c hc)
  rw [h0] at this
  simp at this

theorem decimal_digits_fuel (fuel : Nat) :
    ∀ (fuel2 n : Nat), n < fuel → n < fuel2 → decimal_digits fuel n = decimal_digits fuel2 n := by
  induction fuel with
  | zero => intro fuel2 n h; omega
  | succ fuel ih =>
    intro fuel2 n h h2
    cases fuel2 with
    | zero => omega
    | succ fuel2 =>
      unfold decimal_digits
      by_cases h10 : n < 10
      · simp [h10]
      · simp only [h10, if_false]
        rw [ih fuel2 (n / 10) (by omega) (by omega)]

theorem decimal_step (n : Nat) (h : 10 ≤ n) :
    decimal n = decimal (n / 10) ++ [UInt8.ofNat (48 + n % 10)] := by
  unfold decimal
  rw [decimal_digits]
  simp only [show ¬ n < 10 by omega, if_false]
  rw [decimal_digits_fuel n (n / 10 + 1) (n / 10) (by omega) (by omega)]

theorem decimal_small (n : Nat) (h : n < 10) : decimal n = [UInt8.ofNat (48 + n)] := by
  unfold decimal
  rw [decimal_digits]
  simp [h]

theorem decimal_length_small (n : Nat) (h : n < 10) : (decimal n).length = 1 := by
  rw [decimal_small n h]; rfl

theorem decimal_length_step (n : Nat) (h : 10 ≤ n) :
    (decimal n).length = (decimal (n / 10)).length + 1 := by
  rw [decimal_step n h, List.length_append]; rfl

theorem decimal_length (n : Nat) (h : n < 4294967296) :
    ((decimal n).length : Int) = get_number_length n := by
  unfold get_number_length
  by_cases h1 : n < 10
  · simp [h1, decimal_length_small n h1]
  rw [decimal_length_step n (by omega)]
  by_cases h2 : n < 100
  · simp [h1, h2, decimal_length_small (n / 10) (by omega)]
  rw [decimal_length_step (n / 10) (by omega)]
  by_cases h3 : n < 1000
  · simp [h1, h2, h3, decimal_length_small (n / 10 / 10) (by omega)]
  rw [decimal_length_step (n / 10 / 10) (by omega)]
  by_cases h4 : n < 10000
  · simp [h1, h2, h3, h4, decimal_length_small (n / 10 / 10 / 10) (by omega)]
  rw [decimal_length_step (n / 10 / 10 / 10) (by omega)]
  by_cases h5 : n < 100000
  · simp [h1, h2, h3, h4, h5, decimal_length_small (n / 10 / 10 / 10 / 10) (by omega)]
  rw [decimal_length_step (n / 10 / 10 / 10 / 10) (by omega)]
  by_cases h6 : n < 1000000
  · simp [h1, h2, h3, h4, h5, h6,
      decimal_length_small (n / 10 / 10 / 10 / 10 / 10) (by omega)]
  rw [decimal_length_step (n / 10 / 10 / 10 / 10 / 10) (by omega)]
  by_cases h7 : n < 10000000
  · simp [h1, h2, h3, h4, h5, h6, h7,
      decimal_length_small (n / 10 / 10 / 10 / 10 / 10 / 10) (by omega)]
  rw [decimal_length_step (n / 10 / 10 / 10 / 10 / 10 / 10) (by omega)]
  by_cases h8 : n < 100000000
  · simp [h1, h2, h3, h4, h5, h6, h7, h8,
      decimal_length_small (n / 10 / 10 / 10 / 10 / 10 / 10 / 10) (by omega)]
  rw [decimal_length_step (n / 10 / 10 / 10 / 10 / 10 / 10 / 10) (by omega)]
  by_cases h9 : n < 1000000000
  · simp [h1, h2, h3, h4, h5, h6, h7, h8, h9,
      decimal_length_small (n / 10 / 10 / 10 / 10 / 10 / 10 / 10 / 10) (by omega)]
  rw [decimal_length_step (n / 10 / 10 / 10 / 10 / 10 / 10 / 10 / 10) (by omega)]
  simp [h1, h2, h3, h4, h5, h6, h7, h8, h9,
    decimal_length_small (n / 10 / 10 / 10 / 10 / 10 / 10 / 10 / 10 / 10) (by omega)]

theorem decimal_length_le (n : Nat) (h : n < 4294967296) :
    1 ≤ (decimal n).length ∧ (decimal n).length ≤ 10 := by
  have := decimal_length n h
  unfold get_number_length at this
  split_ifs at this <;> omega

theorem printf_u_length (n : Nat) (h : n < 4294967296) : printf_u (n : Int) = decimal n := by
  unfold printf_u
  rw [toUInt32_natCast n h]

theorem add_printf_small (buf out : Bytes) (h : out.length ≤ 2147483647) :
    evbuffer_add_printf buf out = ((out.length : Int), buf ++ out) := by
  unfold evbuffer_add_printf
  rw [if_pos h]

theorem add_exact (buf data : Bytes) : evbuffer_add buf data data.length = buf ++ data := by
  unfold evbuffer_add
  rw [List.take_length]

theorem decimal_text (n : Nat) (h : n < 4294967296) :
    strlen (snprintf (30 - 1) (printf_u (n : Int))) = (decimal n).length ∧
    printf_s (snprintf (30 - 1) (printf_u (n : Int))) = decimal n := by
  rw [printf_u_length n h]
  have hl := decimal_length_le n h
  have ht : List.take (30 - 1 - 1) (decimal n) = decimal n :=
    List.take_of_length_le (by omega)
  unfold strlen printf_s snprintf
  rw [ht, cstr_append_nul _ _ (decimal_no_nul n)]
  exact ⟨rfl, rfl⟩

theorem resp_length3 (a b c : Bytes) :
    (resp [a, b, c]).length = 4 + (resp_bulk a).length + (resp_bulk b).length +
      (resp_bulk c).length := by
  have h1 : (decimal (0 + 1 + 1 + 1)).length = 1 := by decide
  have h2 : (str "\r\n").length = 2 := by decide
  simp only [resp, List.map, List.flatten, List.length_append, List.length_nil,
    List.append_nil, List.length_cons, h1, h2]
  omega

theorem resp_length4 (a b c d : Bytes) :
    (resp [a, b, c, d]).length = 4 + (resp_bulk a).length + (resp_bulk b).length +
      (resp_bulk c).length + (resp_bulk d).length := by
  have h1 : (decimal (0 + 1 + 1 + 1 + 1)).length = 1 := by decide
  have h2 : (str "\r\n").length = 2 := by decide
  simp only [resp, List.map, List.flatten, List.length_append, List.length_nil,
    List.append_nil, List.length_cons, h1, h2]
  omega

theorem resp_bulk_length (a : Bytes) :
    (resp_bulk a).length = 1 + (decimal a.length).length + 2 + a.length + 2 := by
  have h : (str "\r\n").length = 2 := by decide
  simp only [resp_bulk, List.length_cons, List.length_append, h]
  omega

theorem redis_set_plain (ndebug : Bool) (w key value : Bytes)
    (hk : 0 < key.length) (hv : 0 < value.length)
    (hkl : key.length < 2147483648) (hvl : value.length < 2147483648) :
    redis_protocol.write_command_set ndebug w key key.length value value.length 0 0
      = (Outcome.ret (toInt32 (resp [str "SET", key, value]).length),
          w ++ resp [str "SET", key, value]) := by
  have hkd := decimal_length_le key.length (by omega)
  have hvd := decimal_length_le value.length (by omega)
  have l1 : (str "*3\r\n$3\r\nSET\r\n$").length = 14 := by decide
  have l2 : (str "\r\n").length = 2 := by decide
  have l3 : (str "\r\n$").length = 3 := by decide
  have l4 : (str "SET").length = 3 := by decide
  have l5 : (decimal 3).length = 1 := by decide
  have e1 : str "*3\r\n$3\r\nSET\r\n$" = 42 :: decimal 3 ++ str "\r\n" ++
      (36 :: decimal (str "SET").length ++ str "\r\n" ++ str "SET" ++ str "\r\n") ++ [36] := by
    decide
  have e3 : str "\r\n$" = str "\r\n" ++ [36] := by decide
  have e4 : List.take 2 (str "\r\n") = str "\r\n" := by decide
  unfold redis_protocol.write_command_set
  have a1 : ¬ ((!ndebug) = true ∧ ¬ ((key.length : Int) > 0)) := by
    intro h; exact h.2 (by omega)
  have a2 : ¬ ((!ndebug) = true ∧ ¬ ((value.length : Int) > 0)) := by
    intro h; exact h.2 (by omega)
  simp only [a1, a2, if_false, and_self, if_true]
  rw [printf_u_length _ (by omega), printf_u_length _ (by omega),
    toSizeT_natCast _ (by omega), toSizeT_natCast _ (by omega)]
  rw [add_printf_small _ _ (by
    simp only [List.length_append, l1, l2]; omega)]
  simp only [add_exact]
  rw [add_printf_small _ _ (by
    simp only [List.length_append, l3, l2]; omega)]
  simp only [evbuffer_add, e4]
  refine Prod.ext ?_ ?_
  · simp only [toInt32_add_left, toInt32_add_right]
    congr 2
    rw [resp_length3, resp_bulk_length, resp_bulk_length, resp_bulk_length]
    simp only [List.length_append, l1, l2, l3, l4, l5]
    push_cast
    omega
  · simp only [resp, resp_bulk, e1, e3, List.map, List.flatten, List.append_assoc,
      List.cons_append, List.nil_append, List.length_cons, List.length_nil, List.append_nil,
      List.singleton_append]

theorem redis_set_range (ndebug : Bool) (w key value : Bytes) (expiry : Int) (offset : Nat)
    (hk : 0 < key.length) (hv : 0 < value.length)
    (hkl : key.length < 2147483648) (hvl : value.length < 2147483648)
    (ho : offset ≠ 0) (ho2 : offset < 4294967296) :
    redis_protocol.write_command_set ndebug w key key.length value value.length expiry offset
      = (Outcome.ret (toInt32 (resp [str "SETRANGE", key, decimal offset, value]).length),
          w ++ resp [str "SETRANGE", key, decimal offset, value]) := by
  have hkd := decimal_length_le key.length (by omega)
  have hvd := decimal_length_le value.length (by omega)
  have hod := decimal_length_le offset ho2
  have hdd := decimal_length_le (decimal offset).length (by omega)
  obtain ⟨t1, t2⟩ := decimal_text offset ho2
  have l1 : (str "*4\r\n$8\r\nSETRANGE\r\n$").length = 19 := by decide
  have l2 : (str "\r\n").length = 2 := by decide
  have l3 : (str "\r\n$").length = 3 := by decide
  have l4 : (str "SETRANGE").length = 8 := by decide
  have l5 : (decimal 8).length = 1 := by decide
  have e1 : str "*4\r\n$8\r\nSETRANGE\r\n$" = 42 :: decimal 4 ++ str "\r\n" ++
      (36 :: decimal (str "SETRANGE").length ++ str "\r\n" ++ str "SETRANGE" ++ str "\r\n")
        ++ [36] := by
    decide
  have e3 : str "\r\n$" = str "\r\n" ++ [36] := by decide
  have e4 : List.take 2 (str "\r\n") = str "\r\n" := by decide
  unfold redis_protocol.write_command_set
  have a1 : ¬ ((!ndebug) = true ∧ ¬ ((key.length : Int) > 0)) := by
    intro h; exact h.2 (by omega)
  have a2 : ¬ ((!ndebug) = true ∧ ¬ ((value.length : Int) > 0)) := by
    intro h; exact h.2 (by omega)
  have a3 : ¬ (expiry = 0 ∧ offset = 0) := fun h => ho h.2
  simp only [a1, a2, a3, if_false]
  simp only [ho, ne_eq, not_false_eq_true, if_true, t1, t2]
  rw [printf_u_length _ (by omega), printf_u_length _ (by omega),
    printf_u_length _ (by omega),
    toSizeT_natCast _ (by omega), toSizeT_natCast _ (by omega)]
  rw [add_printf_small _ _ (by
    simp only [List.length_append, l1, l2]; omega)]
  simp only [add_exact]
  rw [add_printf_small _ _ (by
    simp only [List.length_append, l3, l2]; omega)]
  simp only [evbuffer_add, e4]
  refine Prod.ext ?_ ?_
  · simp only [toInt32_add_left, toInt32_add_right]
    congr 2
    rw [resp_length4, resp_bulk_length, resp_bulk_length, resp_bulk_length, resp_bulk_length]
    simp only [List.length_append, l1, l2, l3, l4, l5]
    push_cast
    omega
  · simp only [resp, resp_bulk, e1, e3, List.map, List.flatten, List.append_assoc,
      List.cons_append, List.nil_append, List.length_cons, List.length_nil, List.append_nil,
      List.singleton_append]

theorem redis_set_expiry (ndebug : Bool) (w key value : Bytes) (expiry : Nat)
    (hk : 0 < key.length) (hv : 0 < value.length)
    (hkl : key.length < 2147483648) (hvl : value.length < 2147483648)
    (he : expiry ≠ 0) (he2 : expiry < 2147483648) :
    redis_protocol.write_command_set ndebug w key key.length value value.length expiry 0
      = (Outcome.ret (toInt32 (resp [str "SETEX", key, decimal expiry, value]).length),
          w ++ resp [str "SETEX", key, decimal expiry, value]) := by
  have hkd := decimal_length_le key.length (by omega)
  have hvd := decimal_length_le value.length (by omega)
  have hod := decimal_length_le expiry (by omega)
  have hdd := decimal_length_le (decimal expiry).length (by omega)
  obtain ⟨t1, t2⟩ := decimal_text expiry (by omega)
  have l1 : (str "*4\r\n$5\r\nSETEX\r\n$").length = 16 := by decide
  have l2 : (str "\r\n").length = 2 := by decide
  have l3 : (str "\r\n$").length = 3 := by decide
  have l4 : (str "SETEX").length = 5 := by decide
  have l5 : (decimal 5).length = 1 := by decide
  have e1 : str "*4\r\n$5\r\nSETEX\r\n$" = 42 :: decimal 4 ++ str "\r\n" ++
      (36 :: decimal (str "SETEX").length ++ str "\r\n" ++ str "SETEX" ++ str "\r\n")
        ++ [36] := by
    decide
  have e3 : str "\r\n$" = str "\r\n" ++ [36] := by decide
  have e4 : List.take 2 (str "\r\n") = str "\r\n" := by decide
  unfold redis_protocol.write_command_set
  have a1 : ¬ ((!ndebug) = true ∧ ¬ ((key.length : Int) > 0)) := by
    intro h; exact h.2 (by omega)
  have a2 : ¬ ((!ndebug) = true ∧ ¬ ((value.length : Int) > 0)) := by
    intro h; exact h.2 (by omega)
  have a3 : ¬ (((expiry : Nat) : Int) = 0) := fun h => he (by omega)
  simp only [a1, a2, a3, false_and, if_false]
  simp only [ne_eq, not_true_eq_false, if_false, t1, t2]
  rw [printf_u_length _ (by omega), printf_u_length _ (by omega),
    printf_u_length _ (by omega),
    toSizeT_natCast _ (by omega), toSizeT_natCast _ (by omega)]
  rw [add_printf_small _ _ (by
    simp only [List.length_append, l1, l2]; omega)]
  simp only [add_exact]
  rw [add_printf_small _ _ (by
    simp only [List.length_append, l3, l2]; omega)]
  simp only [evbuffer_add, e4]
  refine Prod.ext ?_ ?_
  · simp only [toInt32_add_left, toInt32_add_right]
    congr 2
    rw [resp_length4, resp_bulk_length, resp_bulk_length, resp_bulk_length, resp_bulk_length]
    simp only [List.length_append, l1, l2, l3, l4, l5]
    push_cast
    omega
  · simp only [resp, resp_bulk, e1, e3, List.map, List.flatten, List.append_assoc,
      List.cons_append, List.nil_append, List.length_cons, List.length_nil, List.append_nil,
      List.singleton_append]

theorem redis_set_wrapped (ndebug : Bool) (w key value : Bytes) (expiry offset : Nat)
    (hk : 0 < key.length) (hv : 0 < value.length)
    (hkl : key.length < 2147483648) (hvl : value.length < 2147483648)
    (he : expiry < 2147483648) (ho : offset < 4294967296) :
    redis_protocol.write_command_set ndebug w key key.length value value.length expiry offset
      = (Outcome.ret (toInt32 (resp (redis_set_args key value expiry offset)).length),
          w ++ resp (redis_set_args key value expiry offset)) := by
  unfold redis_set_args
  by_cases h0 : offset = 0
  · by_cases he0 : expiry = 0
    · subst h0; subst he0
      simp only [and_self, if_true]
      exact redis_set_plain ndebug w key value hk hv hkl hvl
    · subst h0
      simp only [he0, false_and, if_false, gt_iff_lt, Nat.lt_irrefl]
      exact redis_set_expiry ndebug w key value expiry hk hv hkl hvl he0 he
  · have hpos : offset > 0 := Nat.pos_of_ne_zero h0
    simp only [h0, and_false, if_false, hpos, if_true]
    exact redis_set_range ndebug w key value expiry offset hk hv hkl hvl h0 ho

theorem redis_set_args_length (key value : Bytes) (expiry offset : Nat) :
    key.length + value.length + 19 ≤ (resp (redis_set_args key value expiry offset)).length := by
  unfold redis_set_args
  split_ifs
  · rw [resp_length3, resp_bulk_length, resp_bulk_length, resp_bulk_length]
    omega
  · rw [resp_length4, resp_bulk_length, resp_bulk_length, resp_bulk_length, resp_bulk_length]
    omega
  · rw [resp_length4, resp_bulk_length, resp_bulk_length, resp_bulk_length, resp_bulk_length]
    omega

theorem redis_set_huge (k v : Bytes) (hk : k.length = 1073741824) (hv : v.length = 1073741824) :
    redis_protocol.write_command_set false [] k 1073741824 v 1073741824 0 0
      = (Outcome.ret (-2147483605), resp [str "SET", k, v]) ∧
    (resp [str "SET", k, v]).length = 2147483691 := by
  have hlen : (resp [str "SET", k, v]).length = 2147483691 := by
    have d1 : (decimal 1073741824).length = 10 := by rfl
    have d2 : (decimal (str "SET").length).length = 1 := by decide
    have d3 : (str "SET").length = 3 := by decide
    rw [resp_length3, resp_bulk_length, resp_bulk_length, resp_bulk_length, hk, hv, d1, d2, d3]
  refine ⟨?_, hlen⟩
  have h := redis_set_plain false [] k v (by omega) (by omega) (by omega) (by omega)
  rw [hk, hv, hlen] at h
  rw [List.nil_append] at h
  exact h

/-- C16 as stated fails when the command has 2^31 bytes or more: the byte count is
summed in an `int`. For a key and a value of 2^30 bytes each (no expiry, no offset) the
encoder appends `SET key value` in RESP, 2147483691 bytes, and returns -2147483605. -/
theorem redis_set_size_overflows :
    redis_protocol.write_command_set false [] (List.replicate 1073741824 120) 1073741824
        (List.replicate 1073741824 120) 1073741824 0 0
      = (Outcome.ret (-2147483605),
          resp [str "SET", List.replicate 1073741824 120, List.replicate 1073741824 120]) ∧
    (resp [str "SET", List.replicate 1073741824 120, List.replicate 1073741824 120]).length
      = 2147483691 :=
  redis_set_huge _ _ (List.length_replicate _ _) (List.length_replicate _ _)

/-- C16 (amended): for every key (key_len > 0), value (value_len > 0), expiry >= 0 (an
`int`) and offset (an `unsigned int`) such that the command has fewer than 2^31 bytes,
`write_command_set` appends to the write buffer exactly resp(SET, key, value) when
expiry = 0 and offset = 0, exactly resp(SETRANGE, key, decimal(offset), value) when
offset > 0, whatever the expiry, and exactly resp(SETEX, key, decimal(expiry), value)
otherwise, where resp(a1..aN) is `*N\r\n` followed by `$<decimal |ai|>\r\n<ai>\r\n` for
each element; and it returns the number of bytes appended. -/
theorem redis_set_encoder (ndebug : Bool) (w key value : Bytes) (expiry offset : Nat)
    (hk : 0 < key.length) (hv : 0 < value.length)
    (he : expiry < 2147483648) (ho : offset < 4294967296)
    (hsize : (resp (redis_set_args key value expiry offset)).length < 2147483648) :
    redis_protocol.write_command_set ndebug w key key.length value value.length expiry offset
      = (Outcome.ret (resp (redis_set_args key value expiry offset)).length,
          w ++ resp (redis_set_args key value expiry offset)) := by
  have hl := redis_set_args_length key value expiry offset
  rw [redis_set_wrapped ndebug w key value expiry offset hk hv (by omega) (by omega) he ho,
    toInt32_of_small _ (by omega) (by omega)]

theorem redis_set_encoder_witness :
    redis_protocol.write_command_set false (str "old") (str "k") (str "k").length
        (str "v") (str "v").length (7 : Nat) 0
      = (Outcome.ret (resp (redis_set_args (str "k") (str "v") 7 0)).length,
          str "old" ++ resp (redis_set_args (str "k") (str "v") 7 0)) ∧
    resp (redis_set_args (str "k") (str "v") 7 0)
      = str "*4\r\n$5\r\nSETEX\r\n$1\r\nk\r\n$1\r\n7\r\n$1\r\nv\r\n" ∧
    resp (redis_set_args (str "k") (str "v") 7 3)
      = str "*4\r\n$8\r\nSETRANGE\r\n$1\r\nk\r\n$1\r\n3\r\n$1\r\nv\r\n" ∧
    resp (redis_set_args (str "k") (str "v") 0 0)
      = str "*3\r\n$3\r\nSET\r\n$1\r\nk\r\n$1\r\nv\r\n" :=
  ⟨redis_set_encoder false (str "old") (str "k") (str "v") 7 0
      (by decide) (by decide) (by decide) (by decide) (by decide),
    by decide, by decide, by decide⟩

theorem resp_length2 (a b : Bytes) :
    (resp [a, b]).length = 4 + (resp_bulk a).length + (resp_bulk b).length := by
  have h1 : (decimal (0 + 1 + 1)).length = 1 := by decide
  have h2 : (str "\r\n").length = 2 := by decide
  simp only [resp, List.map, List.flatten, List.length_append, List.length_nil,
    List.append_nil, List.length_cons, h1, h2]
  omega

theorem redis_get_plain (ndebug : Bool) (w key : Bytes)
    (hk : 0 < key.length) (hkl : key.length < 2147483646) :
    redis_protocol.write_command_get ndebug w key key.length 0
      = (Outcome.ret (toInt32 (resp [str "GET", key]).length), w ++ resp [str "GET", key]) := by
  have hkd := decimal_length_le key.length (by omega)
  have l1 : (str "*2\r\n$3\r\nGET\r\n$").length = 14 := by decide
  have l2 : (str "\r\n").length = 2 := by decide
  have l4 : (str "GET").length = 3 := by decide
  have l5 : (decimal 3).length = 1 := by decide
  have e1 : str "*2\r\n$3\r\nGET\r\n$" = 42 :: decimal 2 ++ str "\r\n" ++
      (36 :: decimal (str "GET").length ++ str "\r\n" ++ str "GET" ++ str "\r\n") ++ [36] := by
    decide
  have e4 : List.take 2 (str "\r\n") = str "\r\n" := by decide
  unfold redis_protocol.write_command_get
  have a1 : ¬ ((!ndebug) = true ∧ ¬ ((key.length : Int) > 0)) := by
    intro h; exact h.2 (by omega)
  simp only [a1, if_false, if_true]
  rw [printf_u_length _ (by omega), toSizeT_natCast _ (by omega)]
  rw [add_printf_small _ _ (by
    simp only [List.length_append, l1, l2]; omega)]
  simp only [add_exact]
  simp only [evbuffer_add, e4]
  refine Prod.ext ?_ ?_
  · simp only [toInt32_add_left, toInt32_add_right]
    congr 2
    rw [resp_length2, resp_bulk_length, resp_bulk_length]
    simp only [List.length_append, l1, l2, l4, l5]
    push_cast
    omega
  · simp only [resp, resp_bulk, e1, List.map, List.flatten, List.append_assoc,
      List.cons_append, List.nil_append, List.length_cons, List.length_nil, List.append_nil,
      List.singleton_append]

theorem redis_get_range (ndebug : Bool) (w key : Bytes) (offset : Nat)
    (hk : 0 < key.length) (hkl : key.length < 2147483648)
    (ho : offset ≠ 0) (ho2 : offset < 4294967296) :
    redis_protocol.write_command_get ndebug w key key.length offset
      = (Outcome.ret (toInt32 (resp [str "GETRANGE", key, decimal offset, str "-1"]).length),
          w ++ resp [str "GETRANGE", key, decimal offset, str "-1"]) := by
  have hkd := decimal_length_le key.length (by omega)
  have hod := decimal_length_le offset ho2
  have hdd := decimal_length_le (decimal offset).length (by omega)
  obtain ⟨t1, t2⟩ := decimal_text offset ho2
  have l1 : (str "*4\r\n$8\r\nGETRANGE\r\n$").length = 19 := by decide
  have l2 : (str "\r\n").length = 2 := by decide
  have l3 : (str "\r\n$").length = 3 := by decide
  have l4 : (str "GETRANGE").length = 8 := by decide
  have l5 : (decimal 8).length = 1 := by decide
  have l6 : (str "\r\n$2\r\n-1\r\n").length = 10 := by decide
  have l7 : (str "-1").length = 2 := by decide
  have l8 : (decimal 2).length = 1 := by decide
  have e1 : str "*4\r\n$8\r\nGETRANGE\r\n$" = 42 :: decimal 4 ++ str "\r\n" ++
      (36 :: decimal (str "GETRANGE").length ++ str "\r\n" ++ str "GETRANGE" ++ str "\r\n")
        ++ [36] := by
    decide
  have e3 : str "\r\n$" = str "\r\n" ++ [36] := by decide
  have e6 : str "\r\n$2\r\n-1\r\n" = str "\r\n" ++
      (36 :: decimal (str "-1").length ++ str "\r\n" ++ str "-1" ++ str "\r\n") := by decide
  unfold redis_protocol.write_command_get
  have a1 : ¬ ((!ndebug) = true ∧ ¬ ((key.length : Int) > 0)) := by
    intro h; exact h.2 (by omega)
  simp only [a1, if_false, ho, t1, t2]
  rw [printf_u_length _ (by omega), printf_u_length _ (by omega),
    toSizeT_natCast _ (by omega)]
  rw [add_printf_small _ _ (by
    simp only [List.length_append, l1, l2]; omega)]
  simp only [add_exact]
  rw [add_printf_small _ _ (by
    simp only [List.length_append, l3, l2, l6]; omega)]
  refine Prod.ext ?_ ?_
  · simp only [toInt32_add_left, toInt32_add_right]
    congr 2
    rw [resp_length4, resp_bulk_length, resp_bulk_length, resp_bulk_length, resp_bulk_length]
    simp only [List.length_append, l1, l2, l3, l4, l5, l6, l7, l8]
    push_cast
    omega
  · simp only [resp, resp_bulk, e1, e3, e6, List.map, List.flatten, List.append_assoc,
      List.cons_append, List.nil_append, List.length_cons, List.length_nil, List.append_nil,
      List.singleton_append]

theorem redis_get_args_length (key : Bytes) (offset : Nat) :
    key.length + 14 ≤ (resp (redis_get_args key offset)).length := by
  unfold redis_get_args
  split_ifs
  · rw [resp_length2, resp_bulk_length, resp_bulk_length]
    omega
  · rw [resp_length4, resp_bulk_length, resp_bulk_length, resp_bulk_length, resp_bulk_length]
    omega

theorem redis_get_huge (k : Bytes) (hk : k.length = 2147483638) :
    redis_protocol.write_command_get false [] k 2147483638 0
      = (Outcome.ret (-2147483630), resp [str "GET", k]) ∧
    (resp [str "GET", k]).length = 2147483666 := by
  have hlen : (resp [str "GET", k]).length = 2147483666 := by
    have d1 : (decimal 2147483638).length = 10 := by rfl
    have d2 : (decimal (str "GET").length).length = 1 := by decide
    have d3 : (str "GET").length = 3 := by decide
    rw [resp_length2, resp_bulk_length, resp_bulk_length, hk, d1, d2, d3]
  refine ⟨?_, hlen⟩
  have h := redis_get_plain false [] k (by omega) (by omega)
  rw [hk, hlen] at h
  rw [List.nil_append] at h
  exact h

/-- C17 as stated fails when the command has 2^31 bytes or more: the byte count is
summed in an `int`. For a key of 2147483638 bytes and no offset the encoder appends
`GET key` in RESP, 2147483666 bytes, and returns -2147483630. -/
theorem redis_get_size_overflows :
    redis_protocol.write_command_get false [] (List.replicate 2147483638 120) 2147483638 0
      = (Outcome.ret (-2147483630), resp [str "GET", List.replicate 2147483638 120]) ∧
    (resp [str "GET", List.replicate 2147483638 120]).length = 2147483666 :=
  redis_get_huge _ (List.length_replicate _ _)

/-- C17 (amended): for every key with key_len > 0 and every offset (an `unsigned int`)
such that the command has fewer than 2^31 bytes, `write_command_get` appends to the
write buffer exactly the RESP array (GET, key), that is
`*2\r\n$3\r\nGET\r\n$<key_len>\r\n<key>\r\n`, when offset = 0, and exactly the RESP array
(GETRANGE, key, decimal(offset), -1), every declared bulk length being its element's
byte length, when offset > 0; and it returns the number of bytes appended. -/
theorem redis_get_encoder (ndebug : Bool) (w key : Bytes) (offset : Nat)
    (hk : 0 < key.length) (ho : offset < 4294967296)
    (hsize : (resp (redis_get_args key offset)).length < 2147483648) :
    redis_protocol.write_command_get ndebug w key key.length offset
      = (Outcome.ret (resp (redis_get_args key offset)).length,
          w ++ resp (redis_get_args key offset)) ∧
    (offset = 0 →
      resp (redis_get_args key offset)
        = str "*2\r\n$3\r\nGET\r\n$" ++ decimal key.length ++ str "\r\n" ++ key ++ str "\r\n") := by
  have hl := redis_get_args_length key offset
  constructor
  · by_cases h0 : offset = 0
    · subst h0
      have h := redis_get_plain ndebug w key hk (by omega)
      simp only [redis_get_args, if_true] at hsize ⊢
      rw [h, toInt32_of_small _ (by omega) (by omega)]
    · have h := redis_get_range ndebug w key offset hk (by omega) h0 ho
      simp only [redis_get_args, h0, if_false] at hsize ⊢
      rw [h, toInt32_of_small _ (by omega) (by omega)]
  · intro h0
    have e1 : str "*2\r\n$3\r\nGET\r\n$" = 42 :: decimal 2 ++ str "\r\n" ++
        (36 :: decimal (str "GET").length ++ str "\r\n" ++ str "GET" ++ str "\r\n") ++ [36] := by
      decide
    simp only [redis_get_args, h0, if_true, resp, resp_bulk, e1, List.map, List.flatten,
      List.append_assoc, List.cons_append, List.nil_append, List.length_cons, List.length_nil,
      List.append_nil, List.singleton_append]

theorem redis_get_encoder_witness :
    (redis_protocol.write_command_get false (str "old") (str "key") (str "key").length 5
      = (Outcome.ret (resp (redis_get_args (str "key") 5)).length,
          str "old" ++ resp (redis_get_args (str "key") 5)) ∧
    ((5 : Nat) = 0 →
      resp (redis_get_args (str "key") 5)
        = str "*2\r\n$3\r\nGET\r\n$" ++ decimal (str "key").length ++ str "\r\n" ++ str "key" ++
            str "\r\n")) ∧
    resp (redis_get_args (str "key") 5)
      = str "*4\r\n$8\r\nGETRANGE\r\n$3\r\nkey\r\n$1\r\n5\r\n$2\r\n-1\r\n" ∧
    resp (redis_get_args (str "key") 0) = str "*2\r\n$3\r\nGET\r\n$3\r\nkey\r\n" :=
  ⟨redis_get_encoder false (str "old") (str "key") 5 (by decide) (by decide) (by decide),
    by decide, by decide⟩

theorem decimal_int_no_nul (v : Int) : ∀ c ∈ decimal_int v, c ≠ 0 := by
  intro c hc
  unfold decimal_int at hc
  split_ifs at hc
  · rw [List.mem_cons] at hc
    rcases hc with h | h
    · rw [h]; decide
    · exact decimal_no_nul _ c h
  · exact decimal_no_nul _ c hc

theorem decimal_int_length (v : Int) (h1 : -2147483648 ≤ v) (h2 : v < 2147483648) :
    1 ≤ (decimal_int v).length ∧ (decimal_int v).length ≤ 11 := by
  unfold decimal_int
  split_ifs
  · have := decimal_length_le (-v).toNat (by omega)
    simp only [List.length_cons]
    omega
  · have := decimal_length_le v.toNat (by omega)
    omega

theorem redis_select_db (w : Bytes) (db : Int) (h1 : -2147483648 ≤ db) (h2 : db < 2147483648) :
    redis_protocol.select_db w db
      = (Outcome.ret (resp [str "SELECT", decimal_int db]).length,
          w ++ resp [str "SELECT", decimal_int db]) := by
  have hl := decimal_int_length db h1 h2
  have hdd := decimal_length_le (decimal_int db).length (by omega)
  have ht : List.take (20 - 1 - 1) (decimal_int db) = decimal_int db :=
    List.take_of_length_le (by omega)
  have hc : cstr (snprintf (20 - 1) (decimal_int db)) = decimal_int db := by
    unfold snprintf
    rw [ht, cstr_append_nul _ _ (decimal_int_no_nul db)]
  have l1 : (str "*2\r\n$6\r\nSELECT\r\n$").length = 17 := by decide
  have l2 : (str "\r\n").length = 2 := by decide
  have l4 : (str "SELECT").length = 6 := by decide
  have l5 : (decimal 6).length = 1 := by decide
  have e1 : str "*2\r\n$6\r\nSELECT\r\n$" = 42 :: decimal 2 ++ str "\r\n" ++
      (36 :: decimal (str "SELECT").length ++ str "\r\n" ++ str "SELECT" ++ str "\r\n")
        ++ [36] := by
    decide
  unfold redis_protocol.select_db
  simp only [strlen, printf_s, hc]
  rw [printf_u_length _ (by omega)]
  rw [add_printf_small _ _ (by
    simp only [List.length_append, l1, l2]; omega)]
  refine Prod.ext ?_ ?_
  · simp only
    congr 2
    rw [resp_length2, resp_bulk_length, resp_bulk_length]
    simp only [List.length_append, l1, l2, l4, l5]
    omega
  · simp only [resp, resp_bulk, e1, List.map, List.flatten, List.append_assoc,
      List.cons_append, List.nil_append, List.length_cons, List.length_nil, List.append_nil,
      List.singleton_append]

theorem redis_authenticate (w credentials : Bytes)
    (hsize : (resp [str "AUTH", cstr credentials]).length < 2147483648) :
    redis_protocol.authenticate w credentials
      = (Outcome.ret (resp [str "AUTH", cstr credentials]).length,
          w ++ resp [str "AUTH", cstr credentials]) := by
  have l1 : (str "*2\r\n$4\r\nAUTH\r\n$").length = 15 := by decide
  have l2 : (str "\r\n").length = 2 := by decide
  have l4 : (str "AUTH").length = 4 := by decide
  have l5 : (decimal 4).length = 1 := by decide
  have e1 : str "*2\r\n$4\r\nAUTH\r\n$" = 42 :: decimal 2 ++ str "\r\n" ++
      (36 :: decimal (str "AUTH").length ++ str "\r\n" ++ str "AUTH" ++ str "\r\n")
        ++ [36] := by
    decide
  have hs := hsize
  rw [resp_length2, resp_bulk_length, resp_bulk_length, l4, l5] at hs
  unfold redis_protocol.authenticate
  simp only [strlen, printf_s]
  rw [printf_u_length _ (by omega)]
  rw [add_printf_small _ _ (by
    simp only [List.length_append, l1, l2]; omega)]
  refine Prod.ext ?_ ?_
  · simp only
    congr 2
    rw [resp_length2, resp_bulk_length, resp_bulk_length]
    simp only [List.length_append, l1, l2, l4, l5]
    omega
  · simp only [resp, resp_bulk, e1, List.map, List.flatten, List.append_assoc,
      List.cons_append, List.nil_append, List.length_cons, List.length_nil, List.append_nil,
      List.singleton_append]

theorem wait_text (n t : Nat) :
    str "*3\r\n$4\r\nWAIT\r\n$" ++ decimal (decimal n).length ++ str "\r\n" ++
      decimal n ++ str "\r\n$" ++ decimal (decimal t).length ++
      str "\r\n" ++ decimal t ++ str "\r\n" = resp [str "WAIT", decimal n, decimal t] := by
  have e1 : str "*3\r\n$4\r\nWAIT\r\n$" = 42 :: decimal 3 ++ str "\r\n" ++
      (36 :: decimal (str "WAIT").length ++ str "\r\n" ++ str "WAIT" ++ str "\r\n")
        ++ [36] := by
    decide
  have e3 : str "\r\n$" = str "\r\n" ++ [36] := by decide
  rw [e1, e3]
  simp only [resp, resp_bulk, List.map, List.flatten, List.append_assoc,
      List.cons_append, List.nil_append, List.length_cons, List.length_nil, List.append_nil,
      List.singleton_append]

theorem redis_wait (w : Bytes) (n t : Nat) (hn : n < 4294967296) (ht : t < 4294967296) :
    redis_protocol.write_command_wait w n t
      = (Outcome.ret (resp [str "WAIT", decimal n, decimal t]).length,
          w ++ resp [str "WAIT", decimal n, decimal t]) := by
  have hnl := decimal_length_le n hn
  have htl := decimal_length_le t ht
  have hnn := decimal_length_le (decimal n).length (by omega)
  have htt := decimal_length_le (decimal t).length (by omega)
  have l4 : (str "WAIT").length = 4 := by decide
  have l5 : (decimal 4).length = 1 := by decide
  have hlen : (resp [str "WAIT", decimal n, decimal t]).length ≤ 2147483647 := by
    rw [resp_length3, resp_bulk_length, resp_bulk_length, resp_bulk_length, l4, l5]
    omega
  unfold redis_protocol.write_command_wait
  rw [← decimal_length n hn, ← decimal_length t ht]
  rw [printf_u_length (decimal n).length (by omega), printf_u_length (decimal t).length (by omega),
    printf_u_length n hn, printf_u_length t ht, wait_text n t,
    add_printf_small _ _ hlen]

theorem redis_auth_huge (c : Bytes) (hc : c.length = 2147483648) (h0 : ∀ b ∈ c, b ≠ 0) :
    redis_protocol.authenticate [] c = (Outcome.ret (-1), []) := by
  have l1 : (str "*2\r\n$4\r\nAUTH\r\n$").length = 15 := by decide
  have l2 : (str "\r\n").length = 2 := by decide
  unfold redis_protocol.authenticate evbuffer_add_printf
  simp only [strlen, printf_s, cstr_of_no_nul c h0]
  rw [if_neg (by
    simp only [List.length_append, l1, l2, hc]
    omega)]

/-- C18 as stated fails for `authenticate` when the command has more than INT_MAX
bytes: it is written by one `evbuffer_add_printf`, whose count is an `int`. For
credentials of 2^31 bytes the call fails: it returns -1 and appends nothing. -/
theorem redis_auth_size_overflows :
    redis_protocol.authenticate [] (List.replicate 2147483648 120) = (Outcome.ret (-1), []) :=
  redis_auth_huge _ (List.length_replicate _ _)
    (fun b hb => by rw [List.eq_of_mem_replicate hb]; decide)

/-- C18 (amended): `select_db(db)` appends the RESP array (SELECT, decimal(db)) for
every `int` db; `authenticate(c)` appends (AUTH, c), c being the C string at the
pointer, whenever that command has fewer than 2^31 bytes; `write_command_wait(n, t)`
appends (WAIT, decimal(n), decimal(t)) for every 32-bit unsigned n and t, the bulk length
declared through `get_number_length` being the number of decimal digits printed. Each
returns the number of bytes appended. -/
theorem redis_admin_encoders (w credentials : Bytes) (db : Int) (n t : Nat)
    (hdb1 : -2147483648 ≤ db) (hdb2 : db < 2147483648)
    (hn : n < 4294967296) (ht : t < 4294967296)
    (hsize : (resp [str "AUTH", cstr credentials]).length < 2147483648) :
    redis_protocol.select_db w db
      = (Outcome.ret (resp [str "SELECT", decimal_int db]).length,
          w ++ resp [str "SELECT", decimal_int db]) ∧
    redis_protocol.authenticate w credentials
      = (Outcome.ret (resp [str "AUTH", cstr credentials]).length,
          w ++ resp [str "AUTH", cstr credentials]) ∧
    redis_protocol.write_command_wait w n t
      = (Outcome.ret (resp [str "WAIT", decimal n, decimal t]).length,
          w ++ resp [str "WAIT", decimal n, decimal t]) ∧
    get_number_length n = (decimal n).length ∧ get_number_length t = (decimal t).length :=
  ⟨redis_select_db w db hdb1 hdb2, redis_authenticate w credentials hsize,
    redis_wait w n t hn ht, (decimal_length n hn).symm, (decimal_length t ht).symm⟩

theorem redis_admin_encoders_witness :
    (redis_protocol.select_db (str "old") (-12)
      = (Outcome.ret (resp [str "SELECT", decimal_int (-12)]).length,
          str "old" ++ resp [str "SELECT", decimal_int (-12)]) ∧
    redis_protocol.authenticate (str "old") (str "secret\x00rest")
      = (Outcome.ret (resp [str "AUTH", cstr (str "secret\x00rest")]).length,
          str "old" ++ resp [str "AUTH", cstr (str "secret\x00rest")]) ∧
    redis_protocol.write_command_wait (str "old") 2 4294967295
      = (Outcome.ret (resp [str "WAIT", decimal 2, decimal 4294967295]).length,
          str "old" ++ resp [str "WAIT", decimal 2, decimal 4294967295]) ∧
    get_number_length 2 = (decimal 2).length ∧
    get_number_length 4294967295 = (decimal 4294967295).length) ∧
    resp [str "SELECT", decimal_int (-12)] = str "*2\r\n$6\r\nSELECT\r\n$3\r\n-12\r\n" ∧
    resp [str "AUTH", cstr (str "secret\x00rest")] = str "*2\r\n$4\r\nAUTH\r\n$6\r\nsecret\r\n" ∧
    resp [str "WAIT", decimal 2, decimal 4294967295]
      = str "*3\r\n$4\r\nWAIT\r\n$1\r\n2\r\n$10\r\n4294967295\r\n" :=
  ⟨redis_admin_encoders (str "old") (str "secret\x00rest") (-12) 2 4294967295
      (by decide) (by decide) (by decide) (by decide) (by decide),
    by decide, by decide, by rfl⟩

theorem keylist_get_key (kl : keylist) (hv : kl.valid) (i u : Nat) (hi : i < kl.m_keys_count) :
    ∃ e, (kl.m_keys.take kl.m_keys_count).drop i
        = e :: (kl.m_keys.take kl.m_keys_count).drop (i + 1) ∧
      kl.get_key i u = (some (kl.m_buffer.drop (e.key_ptr.getD 0)), e.key_len) ∧
      e.key_ptr.getD 0 + e.key_len ≤ kl.m_buffer.length ∧ e.key_len < 4294967296 := by
  obtain ⟨h1, _, h3⟩ := hv
  have hlen : (kl.m_keys.take kl.m_keys_count).length = kl.m_keys_count := by
    rw [List.length_take]; omega
  have hi2 : i < (kl.m_keys.take kl.m_keys_count).length := by omega
  have hi3 : i < kl.m_keys.length := by omega
  refine ⟨(kl.m_keys.take kl.m_keys_count)[i], (List.drop_eq_getElem_cons hi2), ?_, ?_⟩
  · have he : (kl.m_keys.take kl.m_keys_count)[i] = kl.m_keys[i] := by
      rw [List.getElem_take]
    have hd : kl.m_keys.getD i ⟨none, 0⟩ = kl.m_keys[i] := by
      rw [List.getD_eq_getElem?_getD, List.getElem?_eq_getElem hi3]
      rfl
    obtain ⟨hs, _, _⟩ := h3 _ (List.getElem_mem hi2)
    unfold keylist.get_key
    rw [if_neg (by omega), hd, he]
    rw [he] at hs
    cases hp : kl.m_keys[i].key_ptr with
    | none => rw [hp] at hs; simp at hs
    | some off => rfl
  · obtain ⟨_, h5, h6⟩ := h3 _ (List.getElem_mem hi2)
    exact ⟨h5, h6⟩

theorem entry_key_length (kl : keylist) (e : key_entry)
    (h : e.key_ptr.getD 0 + e.key_len ≤ kl.m_buffer.length) :
    (kl.entry_key e).length = e.key_len := by
  unfold keylist.entry_key
  rw [List.length_take, List.length_drop]
  omega

theorem toInt32_of_small2 (x : Int) (h0 : -2147483648 ≤ x) (h1 : x < 2147483648) :
    toInt32 x = x := by
  unfold toInt32
  simp only
  split <;> omega

theorem toInt32_range (x : Int) : -2147483648 ≤ toInt32 x ∧ toInt32 x < 2147483648 := by
  unfold toInt32
  simp only
  split <;> omega

theorem text_loop (ndebug : Bool) (kl : keylist) (u : Nat) (hv : kl.valid) :
    ∀ (fuel i : Nat) (size : Int) (w : Bytes), i + fuel = kl.m_keys_count →
      -2147483648 ≤ size → size < 2147483648 →
      memcache_text_protocol.multi_get_loop ndebug kl u fuel i size w
        = (Outcome.ret (toInt32 (size +
              ((((kl.m_keys.take kl.m_keys_count).drop i).map
                (fun e => 32 :: kl.entry_key e)).flatten.length : Nat))),
            w ++ (((kl.m_keys.take kl.m_keys_count).drop i).map
                (fun e => 32 :: kl.entry_key e)).flatten) := by
  intro fuel
  induction fuel with
  | zero =>
    intro i size w hi hs1 hs2
    have hlen : (kl.m_keys.take kl.m_keys_count).length ≤ i := by
      rw [List.length_take]; omega
    rw [List.drop_eq_nil_of_le hlen]
    unfold memcache_text_protocol.multi_get_loop
    simp only [List.map_nil, List.flatten_nil, List.length_nil, List.append_nil, Nat.cast_zero,
      add_zero]
    rw [toInt32_of_small2 size hs1 hs2]
  | succ fuel ih =>
    intro i size w hi _ _
    obtain ⟨e, hd, hg, hb, hk⟩ := keylist_get_key kl hv i u (by omega)
    unfold memcache_text_protocol.multi_get_loop
    simp only [hg]
    rw [ih (i + 1) _ _ (by omega) (toInt32_range _).1 (toInt32_range _).2, hd]
    have hsp : List.take 1 (str " ") = [32] := by decide
    simp only [evbuffer_add, hsp, List.map_cons, List.flatten_cons, List.length_append,
      List.length_cons, List.append_assoc, List.cons_append, List.nil_append,
      List.singleton_append]
    have hkey : List.take e.key_len (List.drop (e.key_ptr.getD 0) kl.m_buffer)
        = kl.entry_key e := rfl
    rw [hkey, entry_key_length kl e hb]
    refine Prod.ext ?_ rfl
    simp only [toInt32_add_left]
    congr 2
    push_cast
    omega

theorem precision_s_key (key : Bytes) (hnul : ∀ c ∈ key, c ≠ 0) :
    printf_precision_s (key.length : Int) key = key := by
  unfold printf_precision_s
  rw [if_neg (by omega), cstr_of_no_nul key hnul, Int.toNat_ofNat, List.take_length]

theorem text_set_command_length (key : Bytes) (expiry : Int) (value : Bytes) :
    (text_set_command key expiry value).length
      = 4 + key.length + 3 + (decimal (toUInt32 expiry)).length + 1 +
          (decimal value.length).length + 2 + value.length + 2 := by
  have l1 : (str "set ").length = 4 := by decide
  have l2 : (str " 0 ").length = 3 := by decide
  have l3 : (str " ").length = 1 := by decide
  have l4 : (str "\r\n").length = 2 := by decide
  simp only [text_set_command, List.length_append, l1, l2, l3, l4]

theorem text_set_wrapped (ndebug : Bool) (w key value : Bytes) (expiry : Int)
    (hk : 0 < key.length) (hnul : ∀ c ∈ key, c ≠ 0) (hv : 0 < value.length)
    (hkl : key.length + (decimal (toUInt32 expiry)).length +
      (decimal value.length).length + 10 ≤ 2147483647)
    (hvl : value.length < 2147483648) :
    memcache_text_protocol.write_command_set ndebug w key key.length value value.length expiry
      = (Outcome.ret (toInt32 (text_set_command key expiry value).length),
          w ++ text_set_command key expiry value) := by
  have hvd := decimal_length_le value.length (by omega)
  have hed : (decimal (toUInt32 expiry)).length ≤ 10 :=
    (decimal_length_le _ (by unfold toUInt32; omega)).2
  have l1 : (str "set ").length = 4 := by decide
  have l2 : (str " 0 ").length = 3 := by decide
  have l3 : (str " ").length = 1 := by decide
  have l4 : (str "\r\n").length = 2 := by decide
  have e4 : List.take 2 (str "\r\n") = str "\r\n" := by decide
  unfold memcache_text_protocol.write_command_set
  have a1 : ¬ ((!ndebug) = true ∧ ¬ ((key.length : Int) > 0)) := by
    intro h; exact h.2 (by omega)
  have a2 : ¬ ((!ndebug) = true ∧ ¬ ((value.length : Int) > 0)) := by
    intro h; exact h.2 (by omega)
  simp only [a1, a2, if_false]
  rw [precision_s_key key hnul, printf_u_length _ (by omega), toSizeT_natCast _ (by omega)]
  unfold printf_u
  rw [add_printf_small _ _ (by
    simp only [List.length_append, l1, l2, l3, l4]; omega)]
  simp only [add_exact]
  simp only [evbuffer_add, e4]
  refine Prod.ext ?_ ?_
  · simp only [toInt32_add_left, toInt32_add_right]
    congr 2
    rw [text_set_command_length]
    simp only [List.length_append, l1, l2, l3, l4]
    push_cast
    omega
  · simp only [text_set_command, List.append_assoc]

theorem text_get_line_single (key : Bytes) :
    text_get_line [key] = str "get " ++ key ++ str "\r\n" := by
  have e : str "get " = str "get" ++ [32] := by decide
  simp only [text_get_line, e, List.map, List.flatten, List.append_assoc, List.cons_append,
    List.nil_append, List.append_nil]

theorem text_get_bytes (ndebug : Bool) (w key : Bytes)
    (hk : 0 < key.length) (hnul : ∀ c ∈ key, c ≠ 0) (hkl : key.length + 6 ≤ 2147483647) :
    memcache_text_protocol.write_command_get ndebug w key key.length
      = (Outcome.ret (text_get_line [key]).length, w ++ text_get_line [key]) := by
  have l1 : (str "get ").length = 4 := by decide
  have l4 : (str "\r\n").length = 2 := by decide
  unfold memcache_text_protocol.write_command_get
  have a1 : ¬ ((!ndebug) = true ∧ ¬ ((key.length : Int) > 0)) := by
    intro h; exact h.2 (by omega)
  simp only [a1, if_false]
  rw [precision_s_key key hnul, text_get_line_single]
  rw [add_printf_small _ _ (by
    simp only [List.length_append, l1, l4]; omega)]

theorem text_multi_get_wrapped (ndebug : Bool) (w : Bytes) (kl : keylist) (u : Nat)
    (hv : kl.valid) (hn : 1 ≤ kl.m_keys_count) :
    memcache_text_protocol.write_command_multi_get ndebug w kl u
      = (Outcome.ret (toInt32 (text_get_line kl.keys).length), w ++ text_get_line kl.keys) := by
  have l1 : (str "get").length = 3 := by decide
  have l4 : (str "\r\n").length = 2 := by decide
  have e3 : List.take 3 (str "get") = str "get" := by decide
  have e4 : List.take 2 (str "\r\n") = str "\r\n" := by decide
  unfold memcache_text_protocol.write_command_multi_get
  have a1 : ¬ ((!ndebug) = true ∧ ¬ (kl.get_keys_count > 0)) := by
    intro h; exact h.2 (by unfold keylist.get_keys_count; omega)
  simp only [a1, if_false]
  unfold keylist.get_keys_count
  rw [text_loop ndebug kl u hv kl.m_keys_count 0 3 _ (by omega) (by omega) (by omega)]
  simp only [List.drop_zero, evbuffer_add, e3, e4]
  refine Prod.ext ?_ ?_
  · simp only [toInt32_add_left]
    congr 2
    simp only [text_get_line, keylist.keys, List.map_map, List.length_append, l1, l4]
    push_cast
    rw [show ((fun k => (32 : UInt8) :: k) ∘ kl.entry_key) = (fun e => 32 :: kl.entry_key e) from rfl]
  · simp only [text_get_line, keylist.keys, List.map_map, List.append_assoc]
    rfl

theorem text_set_huge (l : Bytes) (hl : l.length = 2147483638) :
    memcache_text_protocol.write_command_set false [] (str "k") 1 l 2147483638 0
      = (Outcome.ret (-2147483634), str "set k 0 0 2147483638\r\n" ++ l ++ str "\r\n") := by
  have h := text_set_wrapped false [] (str "k") l 0 (by decide) (by decide) (by omega)
    (by
      have d1 : (decimal 2147483638).length = 10 := by rfl
      have d2 : (decimal (toUInt32 0)).length = 1 := by decide
      have d3 : (str "k").length = 1 := by decide
      rw [hl, d1, d2, d3]
      decide)
    (by omega)
  have hlen : (text_set_command (str "k") 0 l).length = 2147483662 := by
    have d1 : (decimal 2147483638).length = 10 := by rfl
    have d2 : (decimal (toUInt32 0)).length = 1 := by decide
    have d3 : (str "k").length = 1 := by decide
    rw [text_set_command_length, hl, d1, d2, d3]
  have htxt : text_set_command (str "k") 0 l
      = str "set k 0 0 2147483638\r\n" ++ l ++ str "\r\n" := by
    have d1 : decimal 2147483638 = str "2147483638" := by rfl
    have d2 : str "set " ++ str "k" ++ str " 0 " ++ decimal (toUInt32 0) ++ str " " ++
        str "2147483638" ++ str "\r\n" = str "set k 0 0 2147483638\r\n" := by decide
    unfold text_set_command
    rw [hl, d1, d2]
  have c1 : (((str "k").length : Nat) : Int) = 1 := by decide
  rw [hl, hlen, htxt, c1, List.nil_append] at h
  exact h

theorem text_get_huge (l : Bytes) (hl : l.length = 2147483647) (hnul : ∀ c ∈ l, c ≠ 0) :
    memcache_text_protocol.write_command_get false [] l 2147483647 = (Outcome.ret (-1), []) := by
  have l1 : (str "get ").length = 4 := by decide
  have l4 : (str "\r\n").length = 2 := by decide
  have hp := precision_s_key l hnul
  rw [hl] at hp
  unfold memcache_text_protocol.write_command_get
  have a1 : ¬ ((!false) = true ∧ ¬ ((2147483647 : Int) > 0)) := by
    intro h; exact h.2 (by omega)
  simp only [a1, if_false]
  have e : ((2147483647 : Nat) : Int) = 2147483647 := rfl
  rw [← e, hp]
  unfold evbuffer_add_printf
  rw [if_neg (by simp only [List.length_append, l1, l4, hl]; omega)]

theorem text_multi_get_huge (l : Bytes) (hl : l.length = 2147483648) :
    memcache_text_protocol.write_command_multi_get false []
        ⟨l, 2147483648, 2147483648, [⟨some 0, 2147483648⟩], 1, 1⟩ 0
      = (Outcome.ret (-2147483642), str "get " ++ l ++ str "\r\n") := by
  have hv : (keylist.mk l 2147483648 2147483648 [⟨some 0, 2147483648⟩] 1 1).valid := by
    refine ⟨by simp, by simp, ?_⟩
    intro e he
    simp only [List.take_succ_cons, List.take_zero, List.mem_singleton] at he
    subst he
    refine ⟨rfl, ?_, by simp⟩
    simp only [Option.getD_some]
    omega
  have hkeys : (keylist.mk l 2147483648 2147483648 [⟨some 0, 2147483648⟩] 1 1).keys = [l] := by
    simp only [keylist.keys, keylist.entry_key, List.take_succ_cons, List.take_zero, List.map,
      Option.getD_some, List.drop_zero]
    rw [← hl, List.take_length]
  have h := text_multi_get_wrapped false [] _ 0 hv (by simp)
  rw [hkeys, text_get_line_single, List.nil_append] at h
  have hlen : (str "get " ++ l ++ str "\r\n").length = 2147483654 := by
    have l1 : (str "get ").length = 4 := by decide
    have l4 : (str "\r\n").length = 2 := by decide
    simp only [List.length_append, l1, l4, hl]
  rw [hlen] at h
  exact h

theorem replicate_no_nul (n : Nat) : ∀ c ∈ List.replicate n (120 : UInt8), c ≠ 0 := by
  intro c hc
  rw [List.eq_of_mem_replicate hc]
  decide

/-- C19 as stated fails for a negative expiry and for commands of 2^31 bytes or more.
The expiry is an `int` printed with `%u`: expiry -1 is written as `4294967295`. The byte
count is an `int`: a SET with a value of 2147483638 bytes appends 2147483662 bytes and
returns -2147483634; a GET whose line would exceed INT_MAX bytes appends nothing and
returns -1; a multi-get with one key of 2^31 bytes appends 2147483654 bytes and returns
-2147483642. -/
theorem text_encoders_wrap :
    memcache_text_protocol.write_command_set false [] (str "k") 1 (str "v") 1 (-1)
      = (Outcome.ret 25, str "set k 0 4294967295 1\r\nv\r\n") ∧
    memcache_text_protocol.write_command_set false [] (str "k") 1
        (List.replicate 2147483638 120) 2147483638 0
      = (Outcome.ret (-2147483634),
          str "set k 0 0 2147483638\r\n" ++ List.replicate 2147483638 120 ++ str "\r\n") ∧
    memcache_text_protocol.write_command_get false [] (List.replicate 2147483647 120) 2147483647
      = (Outcome.ret (-1), []) ∧
    memcache_text_protocol.write_command_multi_get false []
        ⟨List.replicate 2147483648 120, 2147483648, 2147483648, [⟨some 0, 2147483648⟩], 1, 1⟩ 0
      = (Outcome.ret (-2147483642), str "get " ++ List.replicate 2147483648 120 ++ str "\r\n") :=
  ⟨by decide,
    text_set_huge _ (List.length_replicate _ _),
    text_get_huge _ (List.length_replicate _ _) (replicate_no_nul _),
    text_multi_get_huge _ (List.length_replicate _ _)⟩

/-- C19 (amended): for every NUL-free key (key_len > 0), value (value_len > 0) and expiry
(an `int`) such that the command has fewer than 2^31 bytes, `write_command_set` appends
exactly `set <key> 0 <expiry> <value_len>\r\n<value>\r\n`, the expiry written as the
unsigned 32-bit number the `int` converts to (the expiry itself when it is not negative);
`write_command_get` and `write_command_get_key` both append exactly `get <key>\r\n`; for
every keylist with N >= 1 keys whose command has fewer than 2^31 bytes
`write_command_multi_get` appends exactly `get` followed by ` <ki>` for each key in list
order and then `\r\n`; and each returns the number of bytes appended. -/
theorem text_encoders (ndebug : Bool) (w key value : Bytes) (expiry : Int) (kl : keylist)
    (u : Nat)
    (hk : 0 < key.length) (hnul : ∀ c ∈ key, c ≠ 0) (hv : 0 < value.length)
    (he : -2147483648 ≤ expiry ∧ expiry < 2147483648)
    (hset : (text_set_command key expiry value).length < 2147483648)
    (hkl : kl.valid) (hn : 1 ≤ kl.m_keys_count)
    (hmulti : (text_get_line kl.keys).length < 2147483648) :
    memcache_text_protocol.write_command_set ndebug w key key.length value value.length expiry
      = (Outcome.ret (text_set_command key expiry value).length,
          w ++ text_set_command key expiry value) ∧
    (0 ≤ expiry →
      text_set_command key expiry value
        = str "set " ++ key ++ str " 0 " ++ decimal expiry.toNat ++ str " " ++
            decimal value.length ++ str "\r\n" ++ value ++ str "\r\n") ∧
    memcache_text_protocol.write_command_get ndebug w key key.length
      = (Outcome.ret (str "get " ++ key ++ str "\r\n").length,
          w ++ str "get " ++ key ++ str "\r\n") ∧
    memcache_text_protocol.write_command_get_key ndebug w key key.length
      = (Outcome.ret (str "get " ++ key ++ str "\r\n").length,
          w ++ str "get " ++ key ++ str "\r\n") ∧
    memcache_text_protocol.write_command_multi_get ndebug w kl u
      = (Outcome.ret (text_get_line kl.keys).length, w ++ text_get_line kl.keys) ∧
    text_get_line kl.keys
      = str "get" ++ (kl.keys.map (fun k => str " " ++ k)).flatten ++ str "\r\n" ∧
    kl.keys.length = kl.m_keys_count := by
  have hsl := text_set_command_length key expiry value
  have hg : memcache_text_protocol.write_command_get ndebug w key key.length
      = (Outcome.ret (str "get " ++ key ++ str "\r\n").length,
          w ++ str "get " ++ key ++ str "\r\n") := by
    rw [text_get_bytes ndebug w key hk hnul (by omega), text_get_line_single]
    simp only [List.append_assoc]
  refine ⟨?_, ?_, hg, ?_, ?_, ?_, ?_⟩
  · rw [text_set_wrapped ndebug w key value expiry hk hnul hv (by omega) (by omega),
      toInt32_of_small _ (by omega) (by omega)]
  · intro h0
    have : toUInt32 expiry = expiry.toNat := by unfold toUInt32; omega
    rw [text_set_command, this]
  · unfold memcache_text_protocol.write_command_get_key
    exact hg
  · rw [text_multi_get_wrapped ndebug w kl u hkl hn, toInt32_of_small _ (by omega) (by omega)]
  · rfl
  · simp only [keylist.keys, List.length_map, List.length_take]
    exact Nat.min_eq_left hkl.1

theorem text_encoders_witness :
    memcache_text_protocol.write_command_set false (str "old") (str "k") (str "k").length
        (str "v") (str "v").length 7
      = (Outcome.ret (text_set_command (str "k") 7 (str "v")).length,
          str "old" ++ text_set_command (str "k") 7 (str "v")) ∧
    text_set_command (str "k") 7 (str "v") = str "set k 0 7 1\r\nv\r\n" ∧
    memcache_text_protocol.write_command_multi_get false (str "old")
        ⟨str "abc", 3, 8, [⟨some 0, 1⟩, ⟨some 1, 2⟩], 2, 2⟩ 0
      = (Outcome.ret (text_get_line
            (keylist.mk (str "abc") 3 8 [⟨some 0, 1⟩, ⟨some 1, 2⟩] 2 2).keys).length,
          str "old" ++ text_get_line
            (keylist.mk (str "abc") 3 8 [⟨some 0, 1⟩, ⟨some 1, 2⟩] 2 2).keys) ∧
    text_get_line (keylist.mk (str "abc") 3 8 [⟨some 0, 1⟩, ⟨some 1, 2⟩] 2 2).keys
      = str "get a bc\r\n" :=
  ⟨(text_encoders false (str "old") (str "k") (str "v") 7
      ⟨str "abc", 3, 8, [⟨some 0, 1⟩, ⟨some 1, 2⟩], 2, 2⟩ 0
      (by decide) (by decide) (by decide) (by decide) (by decide) (by decide) (by decide)
      (by decide)).1,
    by decide,
    (text_encoders false (str "old") (str "k") (str "v") 7
      ⟨str "abc", 3, 8, [⟨some 0, 1⟩, ⟨some 1, 2⟩], 2, 2⟩ 0
      (by decide) (by decide) (by decide) (by decide) (by decide) (by decide) (by decide)
      (by decide)).2.2.2.2.1,
    by decide⟩

theorem be_bytes_length (k n : Nat) : (be_bytes k n).length = k := by
  induction k with
  | zero => rfl
  | succ k ih => simp only [be_bytes, List.length_cons, ih]

theorem request_header_length (op : UInt8) (kl : Nat) (ext : UInt8) (bl : Nat) :
    (request_header op kl ext bl).length = 24 := by
  simp only [request_header, List.length_append, List.length_cons, List.length_nil,
    be_bytes_length, List.length_replicate]

theorem getk_frame_length (op : UInt8) (k : Bytes) :
    (getk_frame op k).length = 24 + k.length := by
  simp only [getk_frame, List.length_append, request_header_length]

theorem getk_frames_snoc (ks : List Bytes) (k : Bytes) :
    getk_frames (ks ++ [k])
      = (ks.map (getk_frame PROTOCOL_BINARY_CMD_GETKQ)).flatten ++
          getk_frame PROTOCOL_BINARY_CMD_GETK k := by
  induction ks with
  | nil => simp only [List.nil_append, getk_frames, List.map_nil, List.flatten_nil]
  | cons a t ih =>
    cases t with
    | nil =>
      simp only [List.cons_append, List.nil_append, getk_frames, List.map_cons, List.map_nil,
        List.flatten_cons, List.flatten_nil, List.append_nil]
    | cons b t =>
      rw [List.cons_append, List.cons_append, getk_frames, ← List.cons_append, ih]
      simp only [List.map_cons, List.flatten_cons, List.append_assoc]

theorem getk_frames_length (ks : List Bytes) :
    (getk_frames ks).length = 24 * ks.length + (ks.map List.length).sum := by
  induction ks with
  | nil => rfl
  | cons a t ih =>
    cases t with
    | nil =>
      simp only [getk_frames, getk_frame_length, List.length_cons, List.length_nil,
        List.map_cons, List.map_nil, List.sum_cons, List.sum_nil]
      omega
    | cons b t =>
      rw [getk_frames, List.length_append, ih, getk_frame_length]
      simp only [List.length_cons, List.map_cons, List.sum_cons]
      omega

theorem binary_loop (kl : keylist) (hv : kl.valid) :
    ∀ (fuel i : Nat) (size : Int) (w : Bytes), i + fuel ≤ kl.m_keys_count →
      -2147483648 ≤ size → size < 2147483648 →
      memcache_binary_protocol.multi_get_loop kl fuel i size w
        = (Outcome.ret (toInt32 (size +
              (((((kl.m_keys.take kl.m_keys_count).drop i).take fuel).map
                (fun e => getk_frame PROTOCOL_BINARY_CMD_GETKQ (kl.entry_key e))).flatten.length
                  : Nat))),
            w ++ ((((kl.m_keys.take kl.m_keys_count).drop i).take fuel).map
                (fun e => getk_frame PROTOCOL_BINARY_CMD_GETKQ (kl.entry_key e))).flatten) := by
  intro fuel
  induction fuel with
  | zero =>
    intro i size w hi hs1 hs2
    unfold memcache_binary_protocol.multi_get_loop
    simp only [List.take_zero, List.map_nil, List.flatten_nil, List.length_nil,
      List.append_nil, Nat.cast_zero, add_zero]
    rw [toInt32_of_small2 size hs1 hs2]
  | succ fuel ih =>
    intro i size w hi _ _
    obtain ⟨e, hd, hg, hb, hk⟩ := keylist_get_key kl hv i 0 (by omega)
    unfold memcache_binary_protocol.multi_get_loop
    simp only [hg]
    rw [ih (i + 1) _ _ (by omega) (toInt32_range _).1 (toInt32_range _).2, hd]
    have hh : List.take 24 (request_header PROTOCOL_BINARY_CMD_GETKQ e.key_len 0 e.key_len)
        = request_header PROTOCOL_BINARY_CMD_GETKQ e.key_len 0 e.key_len := by
      rw [← request_header_length PROTOCOL_BINARY_CMD_GETKQ e.key_len 0 e.key_len,
        List.take_length]
    have hkey : List.take e.key_len (List.drop (e.key_ptr.getD 0) kl.m_buffer)
        = kl.entry_key e := rfl
    have hf : getk_frame PROTOCOL_BINARY_CMD_GETKQ (kl.entry_key e)
        = request_header PROTOCOL_BINARY_CMD_GETKQ e.key_len 0 e.key_len ++ kl.entry_key e := by
      rw [getk_frame, entry_key_length kl e hb]
    simp only [evbuffer_add, hh, hkey, List.take_succ_cons, List.map_cons, List.flatten_cons,
      List.length_append, List.append_assoc, hf, request_header_length,
      entry_key_length kl e hb]
    refine Prod.ext ?_ rfl
    simp only [toInt32_add_left]
    congr 2
    push_cast
    omega

theorem keylist_keys_split (kl : keylist) (hv : kl.valid) (hn : 1 ≤ kl.m_keys_count) :
    ∃ e, kl.get_key (kl.m_keys_count - 1) 0
          = (some (kl.m_buffer.drop (e.key_ptr.getD 0)), e.key_len) ∧
      e.key_ptr.getD 0 + e.key_len ≤ kl.m_buffer.length ∧ e.key_len < 4294967296 ∧
      kl.keys = ((kl.m_keys.take kl.m_keys_count).take (kl.m_keys_count - 1)).map kl.entry_key
          ++ [kl.entry_key e] := by
  obtain ⟨e, hd, hg, hb, hk⟩ := keylist_get_key kl hv (kl.m_keys_count - 1) 0 (by omega)
  refine ⟨e, hg, hb, hk, ?_⟩
  have hlen : (kl.m_keys.take kl.m_keys_count).length = kl.m_keys_count := by
    rw [List.length_take]; exact Nat.min_eq_left hv.1
  have hnil : (kl.m_keys.take kl.m_keys_count).drop (kl.m_keys_count - 1 + 1) = [] :=
    List.drop_eq_nil_of_le (by omega)
  rw [hnil] at hd
  have hsplit := List.take_append_drop (kl.m_keys_count - 1) (kl.m_keys.take kl.m_keys_count)
  rw [hd] at hsplit
  unfold keylist.keys
  conv_lhs => rw [← hsplit]
  rw [List.map_append, List.map_cons, List.map_nil]

theorem binary_multi_get_wrapped (w : Bytes) (kl : keylist) (hv : kl.valid)
    (hn : 1 ≤ kl.m_keys_count) :
    memcache_binary_protocol.write_command_multi_get w kl
      = (Outcome.ret (toInt32 (getk_frames kl.keys).length), w ++ getk_frames kl.keys) := by
  obtain ⟨e, hg, hb, hk, hkeys⟩ := keylist_keys_split kl hv hn
  have hcount : toUInt32 ((kl.get_keys_count : Int) - 1) = kl.m_keys_count - 1 := by
    have := hv.2.1
    unfold toUInt32 keylist.get_keys_count
    omega
  have hh : List.take 24 (request_header PROTOCOL_BINARY_CMD_GETK e.key_len 0 e.key_len)
      = request_header PROTOCOL_BINARY_CMD_GETK e.key_len 0 e.key_len := by
    rw [← request_header_length PROTOCOL_BINARY_CMD_GETK e.key_len 0 e.key_len,
      List.take_length]
  have hkey : List.take e.key_len (List.drop (e.key_ptr.getD 0) kl.m_buffer)
      = kl.entry_key e := rfl
  have hf : getk_frame PROTOCOL_BINARY_CMD_GETK (kl.entry_key e)
      = request_header PROTOCOL_BINARY_CMD_GETK e.key_len 0 e.key_len ++ kl.entry_key e := by
    rw [getk_frame, entry_key_length kl e hb]
  unfold memcache_binary_protocol.write_command_multi_get
  rw [hcount, binary_loop kl hv (kl.m_keys_count - 1) 0 0 w (by omega) (by omega) (by omega)]
  simp only [hg, List.drop_zero, evbuffer_add, hh, hkey]
  rw [hkeys, getk_frames_snoc, List.map_map, hf]
  refine Prod.ext ?_ ?_
  · simp only [toInt32_add_right]
    congr 2
    simp only [List.length_append, request_header_length, entry_key_length kl e hb, zero_add]
    push_cast
    rw [show (getk_frame PROTOCOL_BINARY_CMD_GETKQ ∘ kl.entry_key)
        = (fun e => getk_frame PROTOCOL_BINARY_CMD_GETKQ (kl.entry_key e)) from rfl]
    omega
  · simp only [List.append_assoc]
    rfl

theorem request_header_small (op : UInt8) (n : Nat) (hn : n ≤ 65535) :
    request_header op n 0 n
      = [0x80, op, UInt8.ofNat (n / 256), UInt8.ofNat (n % 256), 0, 0, 0, 0,
          0, 0, UInt8.ofNat (n / 256), UInt8.ofNat (n % 256)] ++ List.replicate 12 0 := by
  have h1 : n / 256 ^ 1 % 256 = n / 256 := by
    rw [pow_one]; exact Nat.mod_eq_of_lt (by omega)
  have h0 : n / 256 ^ 0 % 256 = n % 256 := by rw [pow_zero, Nat.div_one]
  have h3 : n / 256 ^ 3 % 256 = 0 := by
    rw [Nat.div_eq_of_lt (by norm_num; omega)]
  have h2 : n / 256 ^ 2 % 256 = 0 := by
    rw [Nat.div_eq_of_lt (by norm_num; omega)]
  simp only [request_header, be_bytes, h0, h1, h2, h3]
  rfl

theorem sum_of_equal_lengths (c : Nat) (ks : List Bytes) (h : ∀ k ∈ ks, k.length = c) :
    (ks.map List.length).sum = ks.length * c := by
  induction ks with
  | nil => simp
  | cons a t ih =>
    rw [List.map_cons, List.sum_cons, ih (fun k hk => h k (List.mem_cons_of_mem a hk)),
      h a (List.mem_cons_self a t), List.length_cons]
    ring

theorem full_keylist_entry (n : Nat) (block : Bytes) (e : key_entry)
    (he : e ∈ (full_keylist n block).m_keys.take (full_keylist n block).m_keys_count) :
    ∃ i, i < n ∧ e = ⟨some (i * 65536), 65535⟩ := by
  have he2 := List.mem_of_mem_take he
  have hm : (full_keylist n block).m_keys
      = (List.range n).map (fun i => ⟨some (i * 65536), 65535⟩) := rfl
  rw [hm] at he2
  obtain ⟨i, hi, h⟩ := List.mem_map.1 he2
  exact ⟨i, List.mem_range.1 hi, h.symm⟩

theorem full_keylist_valid (n : Nat) (block : Bytes) (hn : n < 4294967296)
    (hb : block.length = n * 65536) : (full_keylist n block).valid := by
  refine ⟨?_, hn, ?_⟩
  · simp only [full_keylist, List.length_map, List.length_range]
    exact Nat.le_refl _
  · intro e he
    obtain ⟨i, hi, rfl⟩ := full_keylist_entry n block e he
    have hm : (full_keylist n block).m_buffer = block := rfl
    refine ⟨rfl, ?_, ?_⟩
    · rw [hm, hb]
      simp only [Option.getD_some]
      omega
    · simp only
      omega

theorem full_keylist_keys (n : Nat) (block : Bytes) (hn : n < 4294967296)
    (hb : block.length = n * 65536) :
    (full_keylist n block).keys.length = n ∧
    ∀ k ∈ (full_keylist n block).keys, k.length = 65535 := by
  have hv := full_keylist_valid n block hn hb
  constructor
  · simp only [keylist.keys, List.length_map, List.length_take, full_keylist,
      List.length_range]
    exact Nat.min_self n
  · intro k hk
    simp only [keylist.keys, List.mem_map] at hk
    obtain ⟨e, he, rfl⟩ := hk
    obtain ⟨_, h2, _⟩ := hv.2.2 e he
    rw [entry_key_length _ e h2]
    obtain ⟨i, _, rfl⟩ := full_keylist_entry n block e he
    rfl

theorem full_keylist_multi_get (n : Nat) (block : Bytes) (hn0 : 1 ≤ n) (hn : n < 4294967296)
    (hb : block.length = n * 65536) :
    memcache_binary_protocol.write_command_multi_get [] (full_keylist n block)
      = (Outcome.ret (toInt32 ((n * 65559 : Nat) : Int)),
          getk_frames (full_keylist n block).keys) ∧
    (getk_frames (full_keylist n block).keys).length = n * 65559 := by
  obtain ⟨h1, h2⟩ := full_keylist_keys n block hn hb
  have hlen : (getk_frames (full_keylist n block).keys).length = n * 65559 := by
    rw [getk_frames_length, sum_of_equal_lengths 65535 _ h2, h1]
    omega
  refine ⟨?_, hlen⟩
  rw [binary_multi_get_wrapped [] _ (full_keylist_valid n block hn hb) hn0,
    hlen, List.nil_append]

/-- C20 as stated fails when the frames have 2^31 bytes or more: the byte count is
returned as an `int`. For a keylist of 32768 keys of 65535 bytes each the encoder appends
the 32768 frames, 2148237312 bytes, and returns -2146729984. -/
theorem binary_multi_get_size_overflows :
    (full_keylist 32768 (List.replicate 2147483648 120)).valid ∧
    (full_keylist 32768 (List.replicate 2147483648 120)).keys.length = 32768 ∧
    (∀ k ∈ (full_keylist 32768 (List.replicate 2147483648 120)).keys, k.length = 65535) ∧
    memcache_binary_protocol.write_command_multi_get []
        (full_keylist 32768 (List.replicate 2147483648 120))
      = (Outcome.ret (-2146729984),
          getk_frames (full_keylist 32768 (List.replicate 2147483648 120)).keys) ∧
    (getk_frames (full_keylist 32768 (List.replicate 2147483648 120)).keys).length
      = 2148237312 := by
  have hb : (List.replicate 2147483648 (120 : UInt8)).length = 32768 * 65536 :=
    List.length_replicate _ _
  have h := full_keylist_multi_get 32768 _ (by decide) (by decide) hb
  have hk := full_keylist_keys 32768 _ (by decide) hb
  have e : toInt32 ((32768 * 65559 : Nat) : Int) = -2146729984 := by decide
  rw [e] at h
  exact ⟨full_keylist_valid 32768 _ (by decide) hb, hk.1, hk.2, h.1, h.2⟩

/-- C20 (amended): for every keylist with N >= 1 keys (each of length <= 65535) whose
frames have fewer than 2^31 bytes in all, `write_command_multi_get` appends exactly N
frames in keylist order, each a 24-byte request header (magic 0x80, keylen and bodylen
both equal to the key length in network byte order, extlen 0, all other fields 0)
followed by the key bytes, where the first N-1 frames carry opcode GETKQ and the last
frame carries opcode GETK; the return value equals the total number of bytes appended,
24*N + sum of key lengths. -/
theorem binary_multi_get_encoder (w : Bytes) (kl : keylist)
    (hv : kl.valid) (hn : 1 ≤ kl.m_keys_count)
    (hlen : ∀ k ∈ kl.keys, k.length ≤ 65535)
    (hsize : 24 * kl.m_keys_count + (kl.keys.map List.length).sum < 2147483648) :
    memcache_binary_protocol.write_command_multi_get w kl
      = (Outcome.ret ((24 * kl.m_keys_count + (kl.keys.map List.length).sum : Nat) : Int),
          w ++ getk_frames kl.keys) ∧
    kl.keys.length = kl.m_keys_count ∧
    (getk_frames kl.keys).length = 24 * kl.m_keys_count + (kl.keys.map List.length).sum ∧
    (∀ ks k, kl.keys = ks ++ [k] →
      getk_frames kl.keys
        = (ks.map (getk_frame PROTOCOL_BINARY_CMD_GETKQ)).flatten ++
            getk_frame PROTOCOL_BINARY_CMD_GETK k) ∧
    (∀ k ∈ kl.keys, ∀ op : UInt8,
      getk_frame op k
        = [0x80, op, UInt8.ofNat (k.length / 256), UInt8.ofNat (k.length % 256), 0, 0, 0, 0,
            0, 0, UInt8.ofNat (k.length / 256), UInt8.ofNat (k.length % 256)] ++
          List.replicate 12 0 ++ k) := by
  have hkl : kl.keys.length = kl.m_keys_count := by
    simp only [keylist.keys, List.length_map, List.length_take]
    exact Nat.min_eq_left hv.1
  have hfl : (getk_frames kl.keys).length
      = 24 * kl.m_keys_count + (kl.keys.map List.length).sum := by
    rw [getk_frames_length, hkl]
  refine ⟨?_, hkl, hfl, ?_, ?_⟩
  · rw [binary_multi_get_wrapped w kl hv hn, hfl, toInt32_of_small _ (by omega) (by omega)]
  · intro ks k h
    rw [h, getk_frames_snoc]
  · intro k hk op
    rw [getk_frame, request_header_small op k.length (hlen k hk)]

theorem binary_multi_get_encoder_witness :
    memcache_binary_protocol.write_command_multi_get [7]
        ⟨[97, 0, 98, 99, 0], 5, 512, [⟨some 0, 1⟩, ⟨some 2, 2⟩], 2, 2⟩
      = (Outcome.ret 51,
          [7,
           0x80, 0x0d, 0, 1, 0, 0, 0, 0, 0, 0, 0, 1, 0, 0, 0, 0, 0, 0, 0, 0, 0, 0, 0, 0, 97,
           0x80, 0x0c, 0, 2, 0, 0, 0, 0, 0, 0, 0, 2, 0, 0, 0, 0, 0, 0, 0, 0, 0, 0, 0, 0,
           98, 99]) :=
  (binary_multi_get_encoder [7] ⟨[97, 0, 98, 99, 0], 5, 512, [⟨some 0, 1⟩, ⟨some 2, 2⟩], 2, 2⟩
    (by decide) (by decide) (by decide) (by decide)).1

/-- C30: a redis parser in the Initial state with retention off whose buffer starts with
`$-2\r\n` returns 1 in that call, whatever follows in the buffer: the length -2 is stored
as the `unsigned int` 4294967294, whose sum with 2 is 0 modulo 2^32, so the bulk counts
as available and nothing is drained after the 5-byte header line; hits = 1,
total_len = 5 (the sum 5 + 4294967294 + 2 cut to 32 bits), the status is the header
line, and the parser is back in the Initial state. -/
theorem redis_bulk_minus_two (rest : Bytes) (r : protocol_response) (b n latency : Nat) :
    redis_protocol.parse_response
      { m_read_buf := str "$-2\r\n" ++ rest, m_keep_value := false, m_last_response := r,
        m_response_state := redis_response_state.rs_initial, m_bulk_len := b,
        m_response_len := n } latency
    = some (Outcome.ret 1,
      { m_read_buf := rest, m_keep_value := false,
        m_last_response :=
          { m_status := some (str "$-2"), m_values := [], m_latencies := [latency],
            m_value_len := 0, m_total_len := 5, m_hits := 1, m_error := false },
        m_response_state := redis_response_state.rs_initial, m_bulk_len := 4294967294,
        m_response_len := 5 }) := by
  have hstep : redis_protocol.step latency
      { m_read_buf := str "$-2\r\n" ++ rest, m_keep_value := false, m_last_response := r,
        m_response_state := redis_response_state.rs_initial, m_bulk_len := b,
        m_response_len := n }
      = Step.again
        { m_read_buf := rest, m_keep_value := false,
          m_last_response :=
            { m_status := some (str "$-2"), m_values := [], m_latencies := [latency],
              m_value_len := 0, m_total_len := 0, m_hits := 0, m_error := false },
          m_response_state := redis_response_state.rs_read_bulk, m_bulk_len := 4294967294,
          m_response_len := 5 } := by
    rfl
  have hmod : (4294967294 + 2) % 4294967296 = 0 := by norm_num
  unfold redis_protocol.parse_response
  rw [iterate_again _ _ _ _ hstep]
  apply iterate_done
  unfold redis_protocol.step
  simp only [evbuffer_get_length, evbuffer_drain, hmod, ge_iff_le, Nat.zero_le, if_true,
    List.drop_zero]
  simp [protocol_response.set_total_len, protocol_response.incr_hits]

/-- C26: after `clear` the status is null, the queue of values and the queue of
latencies are empty, hits = 0, total_len = 0 and error = false, whatever the response
held before; and `clear` after `clear` changes nothing. -/
theorem response_clear_resets (r : protocol_response) :
    r.clear.get_status = none ∧ r.clear.m_values = [] ∧ r.clear.m_latencies = [] ∧
    r.clear.get_values_count = 0 ∧ r.clear.get_latencies_count = 0 ∧
    r.clear.get_value = none ∧ r.clear.get_latency = none ∧
    r.clear.get_hits = 0 ∧ r.clear.get_total_len = 0 ∧ r.clear.is_error = false ∧
    r.clear.clear = r.clear ∧ r.clear = (protocol_response.new 0).clear := by
  refine ⟨rfl, rfl, rfl, rfl, rfl, rfl, rfl, rfl, rfl, rfl, rfl, rfl⟩

theorem set_values_eq (vs : List key_val_node) :
    ∀ r : protocol_response,
      (r.set_values vs).m_values = r.m_values ++ vs ∧
      (r.set_values vs).m_latencies = r.m_latencies := by
  induction vs with
  | nil => intro r; simp [protocol_response.set_values]
  | cons v t ih =>
    intro r
    have h := ih (r.set_value v.value v.value_len v.key v.key_len)
    simp only [protocol_response.set_values, List.foldl_cons] at h ⊢
    rw [h.1, h.2]
    simp [protocol_response.set_value]

theorem set_latencies_eq (ls : List Nat) :
    ∀ r : protocol_response,
      (r.set_latencies ls).m_latencies = r.m_latencies ++ ls ∧
      (r.set_latencies ls).m_values = r.m_values := by
  induction ls with
  | nil => intro r; simp [protocol_response.set_latencies]
  | cons l t ih =>
    intro r
    have h := ih (r.set_latency l)
    simp only [protocol_response.set_latencies, List.foldl_cons] at h ⊢
    rw [h.1, h.2]
    simp [protocol_response.set_latency]

theorem get_values_take (k : Nat) :
    ∀ r : protocol_response, k ≤ r.m_values.length →
      r.get_values k = some (r.m_values.take k, { r with m_values := r.m_values.drop k }) := by
  induction k with
  | zero => intro r _; simp [protocol_response.get_values]
  | succ k ih =>
    intro r hk
    cases hv : r.m_values with
    | nil => rw [hv] at hk; simp at hk
    | cons v t =>
      rw [hv] at hk
      have hk2 : k ≤ ({ r with m_values := t } : protocol_response).m_values.length := by
        simp only [List.length_cons] at hk
        show k ≤ t.length
        omega
      simp only [protocol_response.get_values, protocol_response.get_value, hv, ih _ hk2,
        List.take_succ_cons, List.drop_succ_cons]

theorem get_latencies_take (k : Nat) :
    ∀ r : protocol_response, k ≤ r.m_latencies.length →
      r.get_latencies k
        = some (r.m_latencies.take k, { r with m_latencies := r.m_latencies.drop k }) := by
  induction k with
  | zero => intro r _; simp [protocol_response.get_latencies]
  | succ k ih =>
    intro r hk
    cases hv : r.m_latencies with
    | nil => rw [hv] at hk; simp at hk
    | cons v t =>
      rw [hv] at hk
      have hk2 : k ≤ ({ r with m_latencies := t } : protocol_response).m_latencies.length := by
        simp only [List.length_cons] at hk
        show k ≤ t.length
        omega
      simp only [protocol_response.get_latencies, protocol_response.get_latency, hv, ih _ hk2,
        List.take_succ_cons, List.drop_succ_cons]

theorem values_count_wraps (r : protocol_response) (vs : List key_val_node)
    (h : vs.length = 4294967296) :
    (r.clear.set_values vs).get_values_count = 0 ∧
    ((r.clear.set_values vs).get_value.map (fun x => (some x.1, x.2.get_values_count)))
      = some (vs.head?, 4294967295) := by
  have hm : (r.clear.set_values vs).m_values = vs := by
    rw [(set_values_eq vs r.clear).1]; rfl
  constructor
  · rw [protocol_response.get_values_count, hm, h]
  · cases vs with
    | nil => simp at h
    | cons v t =>
      simp only [List.length_cons] at h
      have ht : t.length = 4294967295 := by omega
      simp only [protocol_response.get_value, hm, Option.map_some', List.head?_cons,
        protocol_response.get_values_count, ht]

/-- C27 as stated fails for a queue of 2^32 values: `get_values_count` returns the size
of the list as an `unsigned int`. After 2^32 calls of `set_value` on a cleared response
the count is 0, and after one call of `get_value`, which returns the first node, the
count is 4294967295: it has not decreased by one. -/
theorem values_count_wraps_around :
    ((protocol_response.new 0).clear.set_values
        (List.replicate 4294967296 ⟨none, 0, none, 0⟩)).get_values_count = 0 ∧
    (((protocol_response.new 0).clear.set_values
        (List.replicate 4294967296 ⟨none, 0, none, 0⟩)).get_value.map
          (fun x => (some x.1, x.2.get_values_count)))
      = some ((List.replicate 4294967296 (⟨none, 0, none, 0⟩ : key_val_node)).head?,
          4294967295) :=
  values_count_wraps _ _ (List.length_replicate _ _)

/-- C27 (amended): the queues of a response are FIFO. For every sequence of fewer than
2^32 `set_value` calls on a cleared response, successive `get_value` calls return the
(value, value_len, key, key_len) tuples in the order they were enqueued (a null key
with key_len = 0 included) and `get_values_count` decreases by one per call; likewise
successive `get_latency` calls return the latencies in the order given to
`set_latency`. -/
theorem response_queues_fifo (r : protocol_response) (vs : List key_val_node)
    (ls : List Nat) (k j : Nat)
    (hv : vs.length < 4294967296) (hk : k ≤ vs.length) (hj : j ≤ ls.length) :
    ((r.clear.set_values vs).set_latencies ls).get_values_count = vs.length ∧
    ∃ r1, ((r.clear.set_values vs).set_latencies ls).get_values k = some (vs.take k, r1) ∧
      r1.get_values_count = vs.length - k ∧
      ∃ r2, r1.get_latencies j = some (ls.take j, r2) ∧
        r2.get_values_count = vs.length - k ∧
        r2.m_values = vs.drop k ∧ r2.m_latencies = ls.drop j := by
  have hm : ((r.clear.set_values vs).set_latencies ls).m_values = vs := by
    rw [(set_latencies_eq ls _).2, (set_values_eq vs r.clear).1]; rfl
  have hn : ((r.clear.set_values vs).set_latencies ls).m_latencies = ls := by
    rw [(set_latencies_eq ls _).1, (set_values_eq vs r.clear).2]; rfl
  obtain ⟨x, hx⟩ : ∃ x, x = (r.clear.set_values vs).set_latencies ls := ⟨_, rfl⟩
  rw [← hx] at hm hn ⊢
  have h1 := get_values_take k x (by rw [hm]; exact hk)
  rw [hm] at h1
  have h2 := get_latencies_take j { x with m_values := vs.drop k } (by
    show j ≤ x.m_latencies.length
    rw [hn]; exact hj)
  simp only [hn] at h1 h2
  refine ⟨?_, _, h1, ?_, _, h2, ?_, ?_, ?_⟩
  · rw [protocol_response.get_values_count, hm]; exact Nat.mod_eq_of_lt hv
  · simp only [protocol_response.get_values_count, List.length_drop]
    exact Nat.mod_eq_of_lt (by omega)
  · simp only [protocol_response.get_values_count, List.length_drop]
    exact Nat.mod_eq_of_lt (by omega)
  · rfl
  · rfl

theorem response_queues_fifo_witness :
    ∃ r1, (((protocol_response.new 9).clear.set_values
        [⟨some (str "v1"), 2, some (str "k"), 1⟩, ⟨some (str "v2"), 2, none, 0⟩]).set_latencies
          [30, 10, 20]).get_values 1
        = some ([⟨some (str "v1"), 2, some (str "k"), 1⟩], r1) ∧
      r1.get_values_count = 1 ∧
      ∃ r2, r1.get_latencies 2 = some ([30, 10], r2) ∧ r2.m_latencies = [20] :=
  let h := (response_queues_fifo (protocol_response.new 9)
    [⟨some (str "v1"), 2, some (str "k"), 1⟩, ⟨some (str "v2"), 2, none, 0⟩] [30, 10, 20] 1 2
    (by decide) (by decide) (by decide)).2
  ⟨h.choose, h.choose_spec.1, h.choose_spec.2.1,
    h.choose_spec.2.2.choose, h.choose_spec.2.2.choose_spec.1,
    h.choose_spec.2.2.choose_spec.2.2.2⟩

theorem be_value_fold (k : Nat) :
    ∀ (n acc : Nat),
      (be_bytes k n).foldl (fun acc b => acc * 256 + b.toNat) acc = acc * 256 ^ k + n % 256 ^ k := by
  induction k with
  | zero => intro n acc; simp [be_bytes, Nat.mod_one]
  | succ k ih =>
    intro n acc
    have hb : (UInt8.ofNat (n / 256 ^ k % 256)).toNat = n / 256 ^ k % 256 :=
      UInt8.toNat_ofNat_of_lt (by
        have : n / 256 ^ k % 256 < 256 := Nat.mod_lt _ (by norm_num)
        simpa [UInt8.size] using this)
    simp only [be_bytes, List.foldl_cons, ih, hb]
    have hm : n % 256 ^ (k + 1) = n % 256 ^ k + 256 ^ k * (n / 256 ^ k % 256) := by
      rw [pow_succ]; exact Nat.mod_mul
    rw [hm, pow_succ]
    ring

theorem be_value_be_bytes (k n : Nat) (h : n < 256 ^ k) : be_value (be_bytes k n) = n := by
  unfold be_value
  rw [be_value_fold, Nat.mod_eq_of_lt h]
  simp

theorem request_header_shape (op ext : UInt8) (n b : Nat) :
    request_header op n ext b
      = [0x80, op] ++ be_bytes 2 n ++ [ext, 0, 0, 0] ++ be_bytes 4 b ++ List.replicate 12 0 := by
  simp only [request_header, PROTOCOL_BINARY_REQ, PROTOCOL_BINARY_RAW_BYTES, List.append_assoc,
    List.cons_append, List.nil_append]
  rfl

theorem take_exact {α : Type} (l r : List α) (n : Nat) (h : l.length = n) :
    (l ++ r).take n = l := by
  rw [← h]; exact List.take_left _ _

theorem binary_set_wrapped (ndebug : Bool) (w key value : Bytes) (expiry : Int)
    (hk : 0 < key.length) (hk2 : key.length < 2147483648)
    (hv : 0 < value.length) (hv2 : value.length < 2147483648) :
    memcache_binary_protocol.write_command_set ndebug w key key.length value value.length expiry
      = (Outcome.ret (toInt32 ((32 + key.length + value.length : Nat) : Int)),
          w ++ (request_header PROTOCOL_BINARY_CMD_SET key.length 8
                  (toUInt32 (8 + (value.length : Int) + (key.length : Int))) ++
                [0, 0, 0, 0] ++ be_bytes 4 (toUInt32 expiry) ++ key ++ value)) := by
  unfold memcache_binary_protocol.write_command_set
  have a1 : ¬ ((!ndebug) = true ∧ ¬ ((key.length : Int) > 0)) := by
    intro h; exact h.2 (by omega)
  have a2 : ¬ ((!ndebug) = true ∧ ¬ ((value.length : Int) > 0)) := by
    intro h; exact h.2 (by omega)
  have hreq : (request_header PROTOCOL_BINARY_CMD_SET key.length 8
      (toUInt32 (8 + (value.length : Int) + (key.length : Int))) ++ [0, 0, 0, 0] ++
        be_bytes 4 (toUInt32 expiry)).length = 32 := by
    simp only [List.length_append, request_header_length, be_bytes_length, List.length_cons,
      List.length_nil]
  simp only [a1, a2, if_false]
  rw [toUInt32_natCast _ (by omega), toSizeT_natCast _ (by omega),
    toSizeT_natCast _ (by omega)]
  simp only [evbuffer_add, List.take_length]
  rw [← hreq, List.take_length]
  refine Prod.ext ?_ ?_
  · simp only
    congr 2
  · simp only [List.append_assoc]

theorem binary_set_huge (l : Bytes) (hl : l.length = 2147483647) :
    memcache_binary_protocol.write_command_set false [] (str "k") 1 l 2147483647 0
      = (Outcome.ret (-2147483616),
          [0x80, 0x01, 0, 1, 8, 0, 0, 0, 0x80, 0, 0, 8, 0, 0, 0, 0, 0, 0, 0, 0, 0, 0, 0, 0,
           0, 0, 0, 0, 0, 0, 0, 0] ++ str "k" ++ l) ∧
    ([0x80, 0x01, 0, 1, 8, 0, 0, 0, 0x80, 0, 0, 8, 0, 0, 0, 0, 0, 0, 0, 0, 0, 0, 0, 0,
       0, 0, 0, 0, 0, 0, 0, 0] ++ str "k" ++ l : Bytes).length = 2147483680 := by
  have h := binary_set_wrapped false [] (str "k") l 0 (by decide) (by decide) (by omega)
    (by omega)
  have c1 : (((str "k").length : Nat) : Int) = 1 := by decide
  have c2 : (str "k").length = 1 := by decide
  rw [hl, c1] at h
  rw [c2] at h
  simp only [Nat.cast_ofNat] at h
  constructor
  · rw [h]
    rfl
  · simp only [List.length_append, List.length_cons, List.length_nil, hl, c2]

/-- C21 as stated fails when 32 + key_len + value_len does not fit an `int`: for a
one-byte key and a value of 2147483647 bytes the encoder appends the header (bodylen
0x80000008), the extras, the key and the value, 2147483680 bytes in all, and returns
-2147483616. -/
theorem binary_set_size_overflows :
    memcache_binary_protocol.write_command_set false [] (str "k") 1
        (List.replicate 2147483647 120) 2147483647 0
      = (Outcome.ret (-2147483616),
          [0x80, 0x01, 0, 1, 8, 0, 0, 0, 0x80, 0, 0, 8, 0, 0, 0, 0, 0, 0, 0, 0, 0, 0, 0, 0,
           0, 0, 0, 0, 0, 0, 0, 0] ++ str "k" ++ List.replicate 2147483647 120) ∧
    ([0x80, 0x01, 0, 1, 8, 0, 0, 0, 0x80, 0, 0, 8, 0, 0, 0, 0, 0, 0, 0, 0, 0, 0, 0, 0,
       0, 0, 0, 0, 0, 0, 0, 0] ++ str "k" ++ List.replicate 2147483647 120 : Bytes).length
      = 2147483680 :=
  binary_set_huge _ (List.length_replicate _ _)

/-- C21 (amended): for every key (0 < key_len <= 65535), value (value_len > 0) and
expiry such that 32 + key_len + value_len is less than 2^31, `write_command_set`
appends exactly a 24-byte header with magic 0x80, opcode SET, keylen = key_len (16-bit
big-endian), extlen = 8, datatype 0, vbucket 0, bodylen = 8 + key_len + value_len
(32-bit big-endian), opaque 0, cas 0, followed by 8 bytes of extras (4 zero flag bytes
then the expiry as 32-bit big-endian, a negative expiry in two's complement), then the
key bytes, then the value bytes; the return value is 32 + key_len + value_len, the
number of bytes appended. -/
theorem binary_set_encoder (ndebug : Bool) (w key value : Bytes) (expiry : Int)
    (hk : 0 < key.length) (hk2 : key.length ≤ 65535) (hv : 0 < value.length)
    (he : -2147483648 ≤ expiry ∧ expiry < 2147483648)
    (hsize : 32 + key.length + value.length < 2147483648) :
    memcache_binary_protocol.write_command_set ndebug w key key.length value value.length expiry
      = (Outcome.ret ((32 + key.length + value.length : Nat) : Int),
          w ++ ([0x80, 0x01] ++ be_bytes 2 key.length ++ [8, 0, 0, 0] ++
                be_bytes 4 (8 + key.length + value.length) ++ List.replicate 12 0 ++
                [0, 0, 0, 0] ++ be_bytes 4 (toUInt32 expiry) ++ key ++ value)) ∧
    ([0x80, 0x01] ++ be_bytes 2 key.length ++ [8, 0, 0, 0] ++
        be_bytes 4 (8 + key.length + value.length) ++ List.replicate 12 0 ++
        [0, 0, 0, 0] ++ be_bytes 4 (toUInt32 expiry) ++ key ++ value : Bytes).length
      = 32 + key.length + value.length ∧
    be_value (be_bytes 2 key.length) = key.length ∧
    be_value (be_bytes 4 (8 + key.length + value.length)) = 8 + key.length + value.length ∧
    be_value (be_bytes 4 (toUInt32 expiry)) = toUInt32 expiry ∧
    (0 ≤ expiry → toUInt32 expiry = expiry.toNat) := by
  have e1 : toUInt32 (8 + (value.length : Int) + (key.length : Int))
      = 8 + key.length + value.length := by
    have := toUInt32_natCast (8 + key.length + value.length) (by omega)
    rw [← this]; congr 1; push_cast; ring
  have hu : toUInt32 expiry < 4294967296 := by unfold toUInt32; omega
  refine ⟨?_, ?_, be_value_be_bytes 2 _ (by norm_num; omega),
    be_value_be_bytes 4 _ (by norm_num; omega), be_value_be_bytes 4 _ (by norm_num; omega), ?_⟩
  · rw [binary_set_wrapped ndebug w key value expiry hk (by omega) hv (by omega), e1,
      toInt32_of_small _ (by omega) (by omega), request_header_shape]
    rfl
  · simp only [List.length_append, List.length_cons, List.length_nil, be_bytes_length,
      List.length_replicate]
  · intro h0
    unfold toUInt32
    omega

theorem binary_set_encoder_witness :
    memcache_binary_protocol.write_command_set false [7] (str "ab") (str "ab").length
        (str "xyz") (str "xyz").length 258
      = (Outcome.ret ((32 + (str "ab").length + (str "xyz").length : Nat) : Int),
          [7] ++ ([0x80, 0x01] ++ be_bytes 2 (str "ab").length ++ [8, 0, 0, 0] ++
                be_bytes 4 (8 + (str "ab").length + (str "xyz").length) ++
                List.replicate 12 0 ++ [0, 0, 0, 0] ++ be_bytes 4 (toUInt32 258) ++
                str "ab" ++ str "xyz")) ∧
    ([0x80, 0x01] ++ be_bytes 2 (str "ab").length ++ [8, 0, 0, 0] ++
        be_bytes 4 (8 + (str "ab").length + (str "xyz").length) ++
        List.replicate 12 0 ++ [0, 0, 0, 0] ++ be_bytes 4 (toUInt32 258) ++
        str "ab" ++ str "xyz" : Bytes)
      = [0x80, 0x01, 0, 2, 8, 0, 0, 0, 0, 0, 0, 13, 0, 0, 0, 0, 0, 0, 0, 0, 0, 0, 0, 0,
         0, 0, 0, 0, 0, 0, 1, 2, 97, 98, 120, 121, 122] :=
  ⟨(binary_set_encoder false [7] (str "ab") (str "xyz") 258 (by decide) (by decide)
      (by decide) (by decide) (by decide)).1, by decide⟩

theorem strchr_colon (user pass : Bytes)
    (hu : ∀ c ∈ user, c ≠ 0 ∧ c ≠ 58) (hp : ∀ c ∈ pass, c ≠ 0) :
    strchr (user ++ 58 :: pass) 58 = some user.length ∧
    strlen ((user ++ 58 :: pass).drop (user.length + 1)) = pass.length ∧
    (user ++ 58 :: pass).drop (user.length + 1) = pass ∧
    (user ++ 58 :: pass).take user.length = user := by
  have hc : cstr (user ++ 58 :: pass) = user ++ 58 :: pass := by
    apply cstr_of_no_nul
    intro c hc
    rcases List.mem_append.1 hc with h | h
    · exact (hu c h).1
    · rcases List.mem_cons.1 h with h | h
      · rw [h]; decide
      · exact hp c h
  have ht : (user ++ 58 :: pass).takeWhile (fun b => b != 58) = user := by
    apply takeWhile_append_stop
    · intro x hx
      simpa using (hu x hx).2
    · simp
  have hd : (user ++ 58 :: pass).drop (user.length + 1) = pass := by
    rw [← List.drop_drop, List.drop_left]
    rfl
  refine ⟨?_, ?_, hd, List.take_left _ _⟩
  · unfold strchr
    rw [hc, ht, if_pos (by simp)]
  · rw [hd, strlen, cstr_of_no_nul pass hp]

theorem binary_auth_wrapped (ndebug : Bool) (w user pass : Bytes)
    (hu : ∀ c ∈ user, c ≠ 0 ∧ c ≠ 58) (hp : ∀ c ∈ pass, c ≠ 0)
    (hul : user.length < 2147483648) (hpl : pass.length < 2147483648) :
    memcache_binary_protocol.authenticate ndebug w (user ++ 58 :: pass)
      = (Outcome.ret (toInt32 ((31 + user.length + pass.length : Nat) : Int)),
          w ++ (request_header PROTOCOL_BINARY_CMD_SASL_AUTH 5 0
                  ((7 + user.length + pass.length) % 4294967296) ++
                str "PLAIN" ++ [0] ++ user ++ [0] ++ pass)) := by
  obtain ⟨h1, h2, h3, h4⟩ := strchr_colon user pass hu hp
  rw [h3] at h2
  unfold memcache_binary_protocol.authenticate
  simp only [h1, h3, h2]
  have e1 : toInt32 ((user.length : Nat) : Int) = user.length :=
    toInt32_of_small _ (by omega) (by omega)
  have e2 : toInt32 ((pass.length : Nat) : Int) = pass.length :=
    toInt32_of_small _ (by omega) (by omega)
  have e3 : toUInt32 (toInt32 (5 + (user.length : Int) + (pass.length : Int) + 2))
      = (7 + user.length + pass.length) % 4294967296 := by
    unfold toUInt32 toInt32
    simp only
    split <;> omega
  have e4 : toUInt32 (5 : Int) = 5 := by decide
  have e5 : toSizeT (5 : Int) = 5 := by decide
  have e6 : List.take 5 (str "PLAIN" ++ [0]) = str "PLAIN" := by decide
  have hh : List.take 24 (request_header PROTOCOL_BINARY_CMD_SASL_AUTH 5 0
      ((7 + user.length + pass.length) % 4294967296))
      = request_header PROTOCOL_BINARY_CMD_SASL_AUTH 5 0
          ((7 + user.length + pass.length) % 4294967296) := by
    rw [← request_header_length PROTOCOL_BINARY_CMD_SASL_AUTH 5 0
      ((7 + user.length + pass.length) % 4294967296), List.take_length]
  rw [e1, e2, e3, e4, e5, toSizeT_natCast _ (by omega), toSizeT_natCast _ (by omega)]
  simp only [evbuffer_add, hh, e6, h4, List.take_length]
  have e7 : (24 + (user.length : Int) + (pass.length : Int) + 2 + 6 - 1)
      = ((31 + user.length + pass.length : Nat) : Int) := by
    push_cast; ring
  rw [e7]
  refine Prod.ext rfl ?_
  simp only [List.append_assoc]
  rfl

theorem binary_auth_huge (u p : Bytes) (hul : u.length = 1073741824)
    (hpl : p.length = 1073741824)
    (hu : ∀ c ∈ u, c ≠ 0 ∧ c ≠ 58) (hp : ∀ c ∈ p, c ≠ 0) :
    memcache_binary_protocol.authenticate false [] (u ++ 58 :: p)
      = (Outcome.ret (-2147483617),
          [0x80, 0x21, 0, 5, 0, 0, 0, 0, 0x80, 0, 0, 7, 0, 0, 0, 0, 0, 0, 0, 0, 0, 0, 0, 0] ++
            str "PLAIN" ++ [0] ++ u ++ [0] ++ p) ∧
    ([0x80, 0x21, 0, 5, 0, 0, 0, 0, 0x80, 0, 0, 7, 0, 0, 0, 0, 0, 0, 0, 0, 0, 0, 0, 0] ++
        str "PLAIN" ++ [0] ++ u ++ [0] ++ p : Bytes).length = 2147483679 := by
  have h := binary_auth_wrapped false [] u p hu hp (by omega) (by omega)
  rw [hul, hpl] at h
  constructor
  · rw [h]
    rfl
  · have l1 : (str "PLAIN").length = 5 := by decide
    simp only [List.length_append, List.length_cons, List.length_nil, hul, hpl, l1]

theorem replicate_no_nul_colon (n : Nat) :
    ∀ c ∈ List.replicate n (120 : UInt8), c ≠ 0 ∧ c ≠ 58 := by
  intro c hc
  rw [List.eq_of_mem_replicate hc]
  decide

/-- C22 as stated fails when the frame has 2^31 bytes or more: the return value is an
`int`. For a user and a password of 2^30 bytes each the encoder appends the header
(bodylen 0x80000007) and `PLAIN`, NUL, user, NUL, password, 2147483679 bytes in all,
and returns -2147483617. -/
theorem binary_auth_size_overflows :
    memcache_binary_protocol.authenticate false []
        (List.replicate 1073741824 120 ++ 58 :: List.replicate 1073741824 120)
      = (Outcome.ret (-2147483617),
          [0x80, 0x21, 0, 5, 0, 0, 0, 0, 0x80, 0, 0, 7, 0, 0, 0, 0, 0, 0, 0, 0, 0, 0, 0, 0] ++
            str "PLAIN" ++ [0] ++ List.replicate 1073741824 120 ++ [0] ++
            List.replicate 1073741824 120) ∧
    ([0x80, 0x21, 0, 5, 0, 0, 0, 0, 0x80, 0, 0, 7, 0, 0, 0, 0, 0, 0, 0, 0, 0, 0, 0, 0] ++
        str "PLAIN" ++ [0] ++ List.replicate 1073741824 120 ++ [0] ++
        List.replicate 1073741824 120 : Bytes).length = 2147483679 :=
  binary_auth_huge _ _ (List.length_replicate _ _) (List.length_replicate _ _)
    (replicate_no_nul_colon _) (replicate_no_nul _)

/-- C22 (amended): for every credentials string of the form user:pass (split at the
first ':') whose frame has fewer than 2^31 bytes, `authenticate` appends exactly a
24-byte header with magic 0x80, opcode SASL_AUTH, keylen = 5, extlen 0 and
bodylen = 5 + |user| + |pass| + 2 in network byte order, followed by the bytes `PLAIN`,
NUL, user, NUL, pass; the bytes after the header number exactly bodylen, and the return
value equals the number of bytes appended. -/
theorem binary_auth_encoder (ndebug : Bool) (w user pass : Bytes)
    (hu : ∀ c ∈ user, c ≠ 0 ∧ c ≠ 58) (hp : ∀ c ∈ pass, c ≠ 0)
    (hsize : 31 + user.length + pass.length < 2147483648) :
    memcache_binary_protocol.authenticate ndebug w (user ++ 58 :: pass)
      = (Outcome.ret ((31 + user.length + pass.length : Nat) : Int),
          w ++ ([0x80, 0x21, 0, 5, 0, 0, 0, 0] ++
                be_bytes 4 (5 + user.length + pass.length + 2) ++ List.replicate 12 0 ++
                (str "PLAIN" ++ [0] ++ user ++ [0] ++ pass))) ∧
    be_value (be_bytes 4 (5 + user.length + pass.length + 2))
      = 5 + user.length + pass.length + 2 ∧
    (str "PLAIN" ++ [0] ++ user ++ [0] ++ pass).length = 5 + user.length + pass.length + 2 ∧
    ([0x80, 0x21, 0, 5, 0, 0, 0, 0] ++
        be_bytes 4 (5 + user.length + pass.length + 2) ++ List.replicate 12 0 ++
        (str "PLAIN" ++ [0] ++ user ++ [0] ++ pass) : Bytes).length
      = 31 + user.length + pass.length := by
  have l1 : (str "PLAIN").length = 5 := by decide
  have e : (7 + user.length + pass.length) % 4294967296 = 5 + user.length + pass.length + 2 := by
    omega
  refine ⟨?_, be_value_be_bytes 4 _ (by norm_num; omega), ?_, ?_⟩
  · rw [binary_auth_wrapped ndebug w user pass hu hp (by omega) (by omega), e,
      toInt32_of_small _ (by omega) (by omega), request_header_shape]
    simp only [List.append_assoc]
    rfl
  · simp only [List.length_append, List.length_cons, List.length_nil, l1]
    omega
  · simp only [List.length_append, List.length_cons, List.length_nil, l1, be_bytes_length,
      List.length_replicate]
    omega

theorem binary_auth_encoder_witness :
    memcache_binary_protocol.authenticate false [7] (str "bob" ++ 58 :: str "pw")
      = (Outcome.ret ((31 + (str "bob").length + (str "pw").length : Nat) : Int),
          [7] ++ ([0x80, 0x21, 0, 5, 0, 0, 0, 0] ++
                be_bytes 4 (5 + (str "bob").length + (str "pw").length + 2) ++
                List.replicate 12 0 ++
                (str "PLAIN" ++ [0] ++ str "bob" ++ [0] ++ str "pw"))) ∧
    str "bob" ++ 58 :: str "pw" = str "bob:pw" ∧
    ([0x80, 0x21, 0, 5, 0, 0, 0, 0] ++
        be_bytes 4 (5 + (str "bob").length + (str "pw").length + 2) ++
        List.replicate 12 0 ++ (str "PLAIN" ++ [0] ++ str "bob" ++ [0] ++ str "pw") : Bytes)
      = [0x80, 0x21, 0, 5, 0, 0, 0, 0, 0, 0, 0, 12, 0, 0, 0, 0, 0, 0, 0, 0, 0, 0, 0, 0,
         80, 76, 65, 73, 78, 0, 98, 111, 98, 0, 112, 119] :=
  ⟨(binary_auth_encoder false [7] (str "bob") (str "pw") (by decide) (by decide)
      (by decide)).1, by decide, by decide⟩

theorem reply_status_snoc (fs : List binary_frame) (f : binary_frame) :
    reply_status (fs ++ [f])
      = (glossary_status f.hdr.status).orElse (fun _ => reply_status fs) := by
  unfold reply_status
  rw [List.reverse_append, List.reverse_singleton, List.singleton_append, List.find?_cons]
  cases h : glossary_status f.hdr.status with
  | none => simp
  | some s => simp [h]

theorem reply_error_snoc (fs : List binary_frame) (f : binary_frame) :
    reply_error (fs ++ [f])
      = (reply_error fs || decide (f.hdr.status ∈ glossary_error_codes)) := by
  unfold reply_error
  rw [List.any_append]
  simp

theorem frame_response_fields (keep : Bool) (latency len : Nat) (r : protocol_response)
    (f : binary_frame) :
    (f.response keep latency r len).m_latencies = r.m_latencies ++ [latency] ∧
    (f.response keep latency r len).m_status
      = (glossary_status f.hdr.status).orElse (fun _ => r.m_status) ∧
    (f.response keep latency r len).m_error
      = (r.m_error || decide (f.hdr.status ∈ glossary_error_codes)) := by
  cases keep <;> by_cases h : f.hdr.status = 0 <;>
    simp [binary_frame.response, h, after_header, protocol_response.incr_hits,
      protocol_response.set_total_len]

theorem orElse_assoc (a b c : Option Bytes) :
    a.orElse (fun _ => b.orElse (fun _ => c)) = (a.orElse (fun _ => b)).orElse (fun _ => c) := by
  cases a <;> rfl

theorem frames_advance_fields (latency : Nat) (fs : List binary_frame) :
    ∀ (p : memcache_binary_protocol),
      (fs.foldl (binary_frame.advance latency) p).m_last_response.m_latencies
        = p.m_last_response.m_latencies ++ List.replicate fs.length latency ∧
      (fs.foldl (binary_frame.advance latency) p).m_last_response.m_status
        = (reply_status fs).orElse (fun _ => p.m_last_response.m_status) ∧
      (fs.foldl (binary_frame.advance latency) p).m_last_response.m_error
        = (p.m_last_response.m_error || reply_error fs) := by
  induction fs using List.reverseRecOn with
  | nil =>
    intro p
    refine ⟨by simp, ?_, by simp [reply_error]⟩
    simp [reply_status]
  | append_singleton fs f ih =>
    intro p
    obtain ⟨h1, h2, h3⟩ := ih p
    obtain ⟨g1, g2, g3⟩ := frame_response_fields
      (fs.foldl (binary_frame.advance latency) p).m_keep_value latency
      (fs.foldl (binary_frame.advance latency) p).m_response_len
      (fs.foldl (binary_frame.advance latency) p).m_last_response f
    rw [List.foldl_append, List.foldl_cons, List.foldl_nil]
    simp only [binary_frame.advance]
    refine ⟨?_, ?_, ?_⟩
    · rw [g1, h1, List.length_append, List.length_singleton, List.replicate_succ',
        List.append_assoc]
    · rw [g2, h2, reply_status_snoc, orElse_assoc]
    · rw [g3, h3, reply_error_snoc, Bool.or_assoc]

theorem binary_last_frame (ndebug : Bool) (latency n : Nat) (q : memcache_binary_protocol)
    (f : binary_frame) (rest : Bytes)
    (hs : q.m_response_state = binary_response_state.rs_multi_initial)
    (hbuf : q.m_read_buf = f.bytes ++ rest)
    (hf : f.ends_reply) :
    ∃ p1, iterate (memcache_binary_protocol.step ndebug latency) (n + 2) q
        = some (Outcome.ret 1, p1) ∧
      p1.m_read_buf = rest ∧
      p1.m_last_response.m_latencies = q.m_last_response.m_latencies ++ [latency] ∧
      p1.m_last_response.m_status
        = (glossary_status f.hdr.status).orElse (fun _ => q.m_last_response.m_status) ∧
      p1.m_last_response.m_error
        = (q.m_last_response.m_error || decide (f.hdr.status ∈ glossary_error_codes)) := by
  rcases hf with ⟨hsane, hop⟩ | ⟨h24, hmagic, hbody, hnil⟩
  · obtain ⟨g1, g2, g3⟩ := frame_response_fields q.m_keep_value latency q.m_response_len
      q.m_last_response f
    refine ⟨{ f.advance latency q with
      m_response_state := binary_response_state.rs_initial }, ?_, ?_, ?_, ?_, ?_⟩
    · rw [binary_frame_advance ndebug latency n q f rest hs hbuf hsane, if_neg hop]
    · simp [binary_frame.advance, hbuf]
    · simpa [binary_frame.advance] using g1
    · simpa [binary_frame.advance] using g2
    · simpa [binary_frame.advance] using g3
  · have hb : q.m_read_buf = f.header ++ rest := by
      rw [hbuf, binary_frame.bytes, hnil, List.append_nil]
    have hstep : memcache_binary_protocol.step ndebug latency q
        = Step.done (Outcome.ret 1)
          { q with m_read_buf := rest, m_response_hdr := read_header f.header,
                   m_response_len := q.m_response_len + 24,
                   m_last_response := after_header q.m_last_response (read_header f.header).status
                     (q.m_response_len + 24) latency } := by
      have h := binary_header latency q f.header rest hb h24 hmagic
      have hz : ¬ ((read_header f.header).bodylen > 0) := by
        have : (read_header f.header).bodylen = 0 := hbody
        omega
      rw [if_neg hz] at h
      unfold memcache_binary_protocol.step
      rw [hs] at h ⊢
      exact h
    refine ⟨_, iterate_done _ _ _ _ _ hstep, rfl, ?_, ?_, ?_⟩
    · simp [after_header]
    · simp [after_header, binary_frame.hdr]
    · simp [after_header, binary_frame.hdr]

theorem binary_reply_run (ndebug : Bool) (latency : Nat) (p : memcache_binary_protocol)
    (fs : List binary_frame) (f : binary_frame) (rest : Bytes)
    (hs : p.m_response_state = binary_response_state.rs_multi_initial)
    (hbuf : p.m_read_buf = frames_bytes fs ++ (f.bytes ++ rest))
    (hfs : ∀ g ∈ fs, g.sane ∧ g.hdr.opcode = PROTOCOL_BINARY_CMD_GETKQ)
    (hf : f.ends_reply) :
    ∃ p1, p.parse_response ndebug latency = some (Outcome.ret 1, p1) ∧
      p1.m_read_buf = rest ∧
      p1.m_last_response.m_latencies
        = p.m_last_response.m_latencies ++ List.replicate (fs.length + 1) latency ∧
      p1.m_last_response.m_status
        = (reply_status (fs ++ [f])).orElse (fun _ => p.m_last_response.m_status) ∧
      p1.m_last_response.m_error = (p.m_last_response.m_error || reply_error (fs ++ [f])) := by
  have hlen := frames_bytes_length fs (fun g hg => (hfs g hg).1)
  have hfl : 24 ≤ f.bytes.length := by
    rcases hf with ⟨hsane, _⟩ | ⟨h24, _, _, _⟩
    · obtain ⟨h24, _⟩ := hsane
      simp only [binary_frame.bytes, List.length_append]
      omega
    · simp only [binary_frame.bytes, List.length_append]
      omega
  have hfuel : p.m_read_buf.length + 2
      = (p.m_read_buf.length - 2 * fs.length - 2 + 2) + 2 + 2 * fs.length := by
    rw [hbuf]
    simp only [List.length_append]
    omega
  obtain ⟨h1, h2, h3⟩ := frames_advance_fields latency fs p
  obtain ⟨p1, hp1, hb1, hl1, hst1, he1⟩ :=
    binary_last_frame ndebug latency (p.m_read_buf.length - 2 * fs.length - 2 + 2)
      (fs.foldl (binary_frame.advance latency) p) f rest
      (frames_advance_state latency fs p hs)
      (frames_advance_buf latency fs p _ hbuf) hf
  refine ⟨p1, ?_, hb1, ?_, ?_, ?_⟩
  · unfold memcache_binary_protocol.parse_response
    rw [hfuel, binary_getkq_run ndebug latency fs _ p (f.bytes ++ rest) hs hbuf hfs]
    exact hp1
  · rw [hl1, h1, List.replicate_succ', List.append_assoc]
  · rw [hst1, h2, reply_status_snoc, orElse_assoc]
  · rw [he1, h3, reply_error_snoc, Bool.or_assoc]

theorem binary_reply_initial (ndebug : Bool) (latency : Nat) (p : memcache_binary_protocol)
    (fs : List binary_frame) (f : binary_frame) (rest : Bytes)
    (hs : p.m_response_state = binary_response_state.rs_initial)
    (hbuf : p.m_read_buf = frames_bytes fs ++ (f.bytes ++ rest))
    (hfs : ∀ g ∈ fs, g.sane ∧ g.hdr.opcode = PROTOCOL_BINARY_CMD_GETKQ)
    (hf : f.ends_reply) :
    ∃ p1, p.parse_response ndebug latency = some (Outcome.ret 1, p1) ∧
      p1.m_read_buf = rest ∧
      p1.m_last_response.m_latencies = List.replicate (fs.length + 1) latency ∧
      p1.m_last_response.m_status = reply_status (fs ++ [f]) ∧
      p1.m_last_response.m_error = reply_error (fs ++ [f]) := by
  obtain ⟨p1, hp1, hb1, hl1, hst1, he1⟩ :=
    binary_reply_run ndebug latency
      { p with m_last_response := p.m_last_response.clear,
               m_response_state := binary_response_state.rs_multi_initial,
               m_response_len := 0 } fs f rest rfl hbuf hfs hf
  refine ⟨p1, ?_, hb1, ?_, ?_, ?_⟩
  · unfold memcache_binary_protocol.parse_response at hp1 ⊢
    rw [binary_iterate_initial ndebug latency _ p hs]
    exact hp1
  · rw [hl1]; simp [protocol_response.clear]
  · rw [hst1]
    cases reply_status (fs ++ [f]) <;> simp [protocol_response.clear]
  · rw [he1]; simp [protocol_response.clear]

theorem reply_status_last (as bs : List binary_frame) (g : binary_frame)
    (hg : (glossary_status g.hdr.status).isSome = true)
    (hbs : ∀ h ∈ bs, glossary_status h.hdr.status = none) :
    reply_status (as ++ g :: bs) = glossary_status g.hdr.status := by
  unfold reply_status
  have hrev : (as ++ g :: bs).reverse = bs.reverse ++ g :: as.reverse := by simp
  have hnone : bs.reverse.find? (fun g => (glossary_status g.hdr.status).isSome) = none := by
    rw [List.find?_eq_none]
    intro x hx
    rw [hbs x (List.mem_reverse.1 hx)]
    simp
  rw [hrev, List.find?_append, hnone, List.find?_cons, hg]
  rfl

theorem reply_status_none (fs : List binary_frame)
    (h : ∀ g ∈ fs, glossary_status g.hdr.status = none) : reply_status fs = none := by
  unfold reply_status
  have hnone : fs.reverse.find? (fun g => (glossary_status g.hdr.status).isSome) = none := by
    rw [List.find?_eq_none]
    intro x hx
    rw [h x (List.mem_reverse.1 hx)]
    simp
  rw [hnone]
  rfl

theorem reply_error_iff (fs : List binary_frame) :
    reply_error fs = true ↔ ∃ g ∈ fs, g.hdr.status ∈ glossary_error_codes := by
  unfold reply_error
  rw [List.any_eq_true]
  constructor
  · rintro ⟨g, hg, h⟩
    exact ⟨g, hg, of_decide_eq_true h⟩
  · rintro ⟨g, hg, h⟩
    exact ⟨g, hg, decide_eq_true h⟩

/-- A binary parser in the Initial state whose buffer starts with a reply made of
GETKQ frames (each with a body) followed by a terminating frame (a frame with a body and
another opcode, or a header that announces no body) returns 1 having consumed the reply.
The status of the completed response is the table text of the last frame whose status
code is in the table, each such frame overwriting the status left by the frames before
it (no status if no code is in the table), and error is true if and only if at least
one frame of the reply carried a status of the error set. -/
theorem binary_reply_aggregation (ndebug : Bool) (latency : Nat)
    (p : memcache_binary_protocol) (fs : List binary_frame) (f : binary_frame) (rest : Bytes)
    (hs : p.m_response_state = binary_response_state.rs_initial)
    (hbuf : p.m_read_buf = frames_bytes fs ++ (f.bytes ++ rest))
    (hfs : ∀ g ∈ fs, g.sane ∧ g.hdr.opcode = PROTOCOL_BINARY_CMD_GETKQ)
    (hf : f.ends_reply) :
    ∃ p1, p.parse_response ndebug latency = some (Outcome.ret 1, p1) ∧
      p1.m_read_buf = rest ∧
      p1.m_last_response.m_status = reply_status (fs ++ [f]) ∧
      (∀ (as bs : List binary_frame) (g : binary_frame), fs ++ [f] = as ++ g :: bs →
        (glossary_status g.hdr.status).isSome = true →
        (∀ h ∈ bs, glossary_status h.hdr.status = none) →
        p1.m_last_response.m_status = glossary_status g.hdr.status) ∧
      ((∀ g ∈ fs ++ [f], glossary_status g.hdr.status = none) →
        p1.m_last_response.m_status = none) ∧
      (p1.m_last_response.m_error = true ↔
        ∃ g ∈ fs ++ [f], g.hdr.status ∈ glossary_error_codes) := by
  obtain ⟨p1, hp1, hb1, _, hst1, he1⟩ :=
    binary_reply_initial ndebug latency p fs f rest hs hbuf hfs hf
  refine ⟨p1, hp1, hb1, hst1, ?_, ?_, ?_⟩
  · intro as bs g heq hg hbs
    rw [hst1, heq, reply_status_last as bs g hg hbs]
  · intro h
    rw [hst1, reply_status_none _ h]
  · rw [he1, reply_error_iff]

theorem binary_reply_aggregation_witness :
    ∃ p1, memcache_binary_protocol.parse_response false
        (memcache_binary_protocol.new
          (frames_bytes
              [⟨[0x81, 0x0d, 0, 0, 0, 0, 0, 0x04, 0, 0, 0, 1, 0, 0, 0, 0, 0, 0, 0, 0, 0, 0, 0, 0],
                [], [], [120]⟩,
               hit_frame 0x0d 98 121] ++
            ((⟨[0x81, 0x0c, 0, 0, 0, 0, 0, 0x10, 0, 0, 0, 1, 0, 0, 0, 0, 0, 0, 0, 0, 0, 0, 0, 0],
                [], [], [122]⟩ : binary_frame).bytes ++ [])) true 0 (read_header [])) 7
          = some (Outcome.ret 1, p1) ∧
      p1.m_last_response.m_status
        = reply_status
            ([⟨[0x81, 0x0d, 0, 0, 0, 0, 0, 0x04, 0, 0, 0, 1, 0, 0, 0, 0, 0, 0, 0, 0, 0, 0, 0, 0],
                [], [], [120]⟩,
               hit_frame 0x0d 98 121] ++
             [⟨[0x81, 0x0c, 0, 0, 0, 0, 0, 0x10, 0, 0, 0, 1, 0, 0, 0, 0, 0, 0, 0, 0, 0, 0, 0, 0],
                [], [], [122]⟩]) ∧
      reply_status
            ([⟨[0x81, 0x0d, 0, 0, 0, 0, 0, 0x04, 0, 0, 0, 1, 0, 0, 0, 0, 0, 0, 0, 0, 0, 0, 0, 0],
                [], [], [120]⟩,
               hit_frame 0x0d 98 121] ++
             [⟨[0x81, 0x0c, 0, 0, 0, 0, 0, 0x10, 0, 0, 0, 1, 0, 0, 0, 0, 0, 0, 0, 0, 0, 0, 0, 0],
                [], [], [122]⟩])
        = some (str "PROTOCOL_BINARY_RESPONSE_SUCCESS") ∧
      p1.m_last_response.m_error = true :=
  let ⟨p1, h1, _, h3, _, _, h6⟩ :=
    binary_reply_aggregation false 7
      (memcache_binary_protocol.new
        (frames_bytes
            [⟨[0x81, 0x0d, 0, 0, 0, 0, 0, 0x04, 0, 0, 0, 1, 0, 0, 0, 0, 0, 0, 0, 0, 0, 0, 0, 0],
              [], [], [120]⟩,
             hit_frame 0x0d 98 121] ++
          ((⟨[0x81, 0x0c, 0, 0, 0, 0, 0, 0x10, 0, 0, 0, 1, 0, 0, 0, 0, 0, 0, 0, 0, 0, 0, 0, 0],
              [], [], [122]⟩ : binary_frame).bytes ++ [])) true 0 (read_header []))
      [⟨[0x81, 0x0d, 0, 0, 0, 0, 0, 0x04, 0, 0, 0, 1, 0, 0, 0, 0, 0, 0, 0, 0, 0, 0, 0, 0],
          [], [], [120]⟩,
        hit_frame 0x0d 98 121]
      ⟨[0x81, 0x0c, 0, 0, 0, 0, 0, 0x10, 0, 0, 0, 1, 0, 0, 0, 0, 0, 0, 0, 0, 0, 0, 0, 0],
        [], [], [122]⟩
      [] rfl rfl (by decide) (by decide)
  ⟨p1, h1, h3, by decide, h6.2 (by decide)⟩

theorem redis_nil_latency (latency : Nat) (p : redis_protocol) (rest : Bytes)
    (hs : p.m_response_state = redis_response_state.rs_initial)
    (hb : p.m_read_buf = str "$-1\r\n" ++ rest) :
    ∃ p1, p.parse_response latency = some (Outcome.ret 1, p1) ∧ p1.m_read_buf = rest ∧
      p1.m_last_response.m_latencies = [latency] := by
  obtain ⟨b, k, r, st, bl, n⟩ := p
  simp only at hs hb
  subst hs hb
  exact ⟨_, rfl, rfl, rfl⟩

/-- C28: every completed reply carries the latency given to `parse_response`. A redis
reply (a single line, a nil bulk or a bulk with its payload) queues exactly one entry. A
cache-text reply of n VALUE sections followed by END, parsed with retention off or
without assertions (or with empty values), queues exactly n + 1 entries, one at each
VALUE line and one at the END line, and the reply `STORED` queues one; so a single GET
hit queues two. A cache-binary reply of k GETKQ frames followed by a terminating frame
queues exactly k + 1 entries, one per frame; they are alone in the queue when the
parser starts the reply in the Initial state, which clears the response, and follow the
entries that are there when it starts in MultiInitial (after a reply without body). -/
theorem latency_entries_per_reply (ndebug : Bool) (latency : Nat)
    (r1 r2 r3 : redis_protocol) (line rest1 payload rest2 rest3 : Bytes) (L : Nat)
    (t : memcache_text_protocol) (ss : List text_section)
    (q : memcache_binary_protocol) (fs : List binary_frame) (f : binary_frame) (rest4 : Bytes)
    (h1s : r1.m_response_state = redis_response_state.rs_initial)
    (h1b : r1.m_read_buf = line ++ 13 :: 10 :: rest1)
    (h1c : has_crlf line = false)
    (h1h : line.head? = some 43 ∨ line.head? = some 45 ∨ line.head? = some 58)
    (h2s : r2.m_response_state = redis_response_state.rs_initial)
    (h2b : r2.m_read_buf = 36 :: decimal L ++ 13 :: 10 :: (payload ++ 13 :: 10 :: rest2))
    (h2l : payload.length = L) (h2L : L + 2 < 4294967296)
    (h3s : r3.m_response_state = redis_response_state.rs_initial)
    (h3b : r3.m_read_buf = str "$-1\r\n" ++ rest3)
    (hts : t.m_response_state = text_response_state.rs_initial)
    (htb : t.m_read_buf = sections_bytes ss ++ str "END\r\n")
    (hok : ∀ s ∈ ss, s.ok)
    (hmode : t.m_keep_value = false ∨ ndebug = true ∨ ∀ s ∈ ss, s.value = [])
    (hqs : q.m_response_state = binary_response_state.rs_initial ∨
      q.m_response_state = binary_response_state.rs_multi_initial)
    (hqb : q.m_read_buf = frames_bytes fs ++ (f.bytes ++ rest4))
    (hfs : ∀ g ∈ fs, g.sane ∧ g.hdr.opcode = PROTOCOL_BINARY_CMD_GETKQ)
    (hf : f.ends_reply) :
    (∃ p1, r1.parse_response latency = some (Outcome.ret 1, p1) ∧ p1.m_read_buf = rest1 ∧
      p1.m_last_response.m_latencies = [latency]) ∧
    (∃ p1, r2.parse_response latency = some (Outcome.ret 1, p1) ∧ p1.m_read_buf = rest2 ∧
      p1.m_last_response.m_latencies = [latency]) ∧
    (∃ p1, r3.parse_response latency = some (Outcome.ret 1, p1) ∧ p1.m_read_buf = rest3 ∧
      p1.m_last_response.m_latencies = [latency]) ∧
    (∃ p1, t.parse_response ndebug latency = some (Outcome.ret 1, p1) ∧ p1.m_read_buf = [] ∧
      p1.m_last_response.m_latencies = List.replicate (ss.length + 1) latency) ∧
    (∀ keep t0, ∃ p1, memcache_text_protocol.parse_response ndebug
        (memcache_text_protocol.new (str "STORED\r\n") keep t0) latency
          = some (Outcome.ret 1, p1) ∧
      p1.m_read_buf = [] ∧ p1.m_last_response.m_latencies = [latency]) ∧
    (∃ p1, q.parse_response ndebug latency = some (Outcome.ret 1, p1) ∧ p1.m_read_buf = rest4 ∧
      p1.m_last_response.m_latencies
        = (if q.m_response_state = binary_response_state.rs_initial then []
           else q.m_last_response.m_latencies) ++ List.replicate (fs.length + 1) latency) := by
  refine ⟨?_, ?_, redis_nil_latency latency r3 rest3 h3s h3b, ?_, ?_, ?_⟩
  · exact ⟨_, redis_single_line latency r1 line rest1 h1s h1b h1c h1h, rfl, rfl⟩
  · exact ⟨_, redis_bulk latency r2 L payload rest2 h2s h2b h2l h2L, rfl, rfl⟩
  · obtain ⟨p1, hp, hb, _, _, _, _, _, _, hl⟩ :=
      text_get_reply_mod ndebug latency t ss hts htb hok hmode
    exact ⟨p1, hp, hb, hl⟩
  · intro keep t0
    exact ⟨_, text_stored_reply ndebug keep t0 latency, rfl, rfl⟩
  · rcases hqs with hq | hq
    · obtain ⟨p1, hp1, hb1, hl1, _, _⟩ :=
        binary_reply_initial ndebug latency q fs f rest4 hq hqb hfs hf
      exact ⟨p1, hp1, hb1, by rw [hl1, if_pos hq, List.nil_append]⟩
    · obtain ⟨p1, hp1, hb1, hl1, _, _⟩ :=
        binary_reply_run ndebug latency q fs f rest4 hq hqb hfs hf
      exact ⟨p1, hp1, hb1, by rw [hl1, if_neg (by rw [hq]; decide)]⟩

theorem latency_entries_per_reply_witness :
    (∃ p1, memcache_text_protocol.parse_response false
        (memcache_text_protocol.new
          (sections_bytes [⟨str "k", 0, str "hello"⟩] ++ str "END\r\n") false 0) 7
          = some (Outcome.ret 1, p1) ∧
      p1.m_read_buf = [] ∧ p1.m_last_response.m_latencies = [7, 7]) ∧
    sections_bytes [⟨str "k", 0, str "hello"⟩] ++ str "END\r\n"
      = str "VALUE k 0 5\r\nhello\r\nEND\r\n" ∧
    (∃ p1, memcache_binary_protocol.parse_response false
        (memcache_binary_protocol.new
          (frames_bytes [hit_frame 0x0d 97 120, hit_frame 0x0d 98 121] ++
            ((hit_frame 0x0c 99 122).bytes ++ [])) true 0 (read_header [])) 7
          = some (Outcome.ret 1, p1) ∧
      p1.m_read_buf = [] ∧ p1.m_last_response.m_latencies = [7, 7, 7]) :=
  let h := latency_entries_per_reply false 7
    (redis_protocol.new (str "+OK\r\n") false 0)
    (redis_protocol.new (36 :: decimal 3 ++ 13 :: 10 :: (str "foo" ++ 13 :: 10 :: [])) false 0)
    (redis_protocol.new (str "$-1\r\n" ++ []) false 0)
    (str "+OK") [] (str "foo") [] [] 3
    (memcache_text_protocol.new
      (sections_bytes [⟨str "k", 0, str "hello"⟩] ++ str "END\r\n") false 0)
    [⟨str "k", 0, str "hello"⟩]
    (memcache_binary_protocol.new
      (frames_bytes [hit_frame 0x0d 97 120, hit_frame 0x0d 98 121] ++
        ((hit_frame 0x0c 99 122).bytes ++ [])) true 0 (read_header []))
    [hit_frame 0x0d 97 120, hit_frame 0x0d 98 121] (hit_frame 0x0c 99 122) []
    rfl rfl rfl (Or.inl rfl) rfl rfl rfl (by decide) rfl rfl rfl rfl (by decide)
    (Or.inl rfl) (Or.inl rfl) rfl (by decide) (by decide)
  ⟨h.2.2.2.1, by decide, h.2.2.2.2.2⟩

theorem grow_size_zero (need : Nat) : ∀ fuel, keylist.grow_size need fuel 0 = none := by
  intro fuel
  induction fuel with
  | zero => rfl
  | succ fuel ih =>
    unfold keylist.grow_size
    rw [if_pos (Nat.zero_le _)]
    exact ih

theorem grow_size_pow :
    ∀ fuel k, k ≤ 31 → keylist.grow_size 2147483648 fuel (2 ^ k) = none := by
  intro fuel
  induction fuel with
  | zero => intro k _; rfl
  | succ fuel ih =>
    intro k hk
    have h31 : (2 : Nat) ^ 31 = 2147483648 := by norm_num
    have hle : 2 ^ k ≤ 2147483648 := by
      rw [← h31]; exact Nat.pow_le_pow_right (by norm_num) hk
    unfold keylist.grow_size
    rw [if_pos hle]
    by_cases h : k = 31
    · subst h
      have : 2 ^ 31 * 2 % 4294967296 = 0 := by norm_num
      rw [this]
      exact grow_size_zero _ _
    · have hk2 : k + 1 ≤ 31 := by omega
      have hlt : 2 ^ (k + 1) ≤ 2147483648 := by
        rw [← h31]; exact Nat.pow_le_pow_right (by norm_num) hk2
      have : 2 ^ k * 2 % 4294967296 = 2 ^ (k + 1) := by
        rw [← pow_succ]; exact Nat.mod_eq_of_lt (by omega)
      rw [this]
      exact ih (k + 1) hk2

theorem grow_size_ok (need : Nat) (hneed : need < 2147483648) :
    ∀ fuel size, 0 < size → size < 4294967296 → need < size * 2 ^ fuel →
      ∃ s, keylist.grow_size need (fuel + 1) size = some s ∧ need < s ∧ s < 4294967296 ∧
        size ≤ s := by
  intro fuel
  induction fuel with
  | zero =>
    intro size _ h2 h3
    simp only [pow_zero, Nat.mul_one] at h3
    exact ⟨size, by unfold keylist.grow_size; rw [if_neg (by omega)], h3, h2, Nat.le_refl _⟩
  | succ fuel ih =>
    intro size h1 h2 h3
    by_cases h : need ≥ size
    · have hm : size * 2 % 4294967296 = size * 2 := Nat.mod_eq_of_lt (by omega)
      obtain ⟨s, hs, hn, hlt, hle⟩ := ih (size * 2) (by omega) (by omega) (by
        rw [pow_succ] at h3
        calc need < size * (2 ^ fuel * 2) := h3
          _ = size * 2 * 2 ^ fuel := by ring)
      refine ⟨s, ?_, hn, hlt, by omega⟩
      unfold keylist.grow_size
      rw [if_pos h, hm]
      exact hs
    · exact ⟨size, by unfold keylist.grow_size; rw [if_neg h], by omega, h2, Nat.le_refl _⟩

theorem grow_size_enough (need size fuel : Nat) (hneed : need < 2147483648)
    (h1 : 0 < size) (h2 : size < 4294967296) (hf : 33 ≤ fuel) :
    ∃ s, keylist.grow_size need fuel size = some s ∧ need < s ∧ s < 4294967296 ∧ size ≤ s := by
  obtain ⟨f, rfl⟩ : ∃ f, fuel = f + 1 := ⟨fuel - 1, by omega⟩
  apply grow_size_ok need hneed f size h1 h2
  have hp : (2 : Nat) ^ 32 ≤ 2 ^ f := Nat.pow_le_pow_right (by norm_num) (by omega)
  have h32 : (2 : Nat) ^ 32 = 4294967296 := by norm_num
  calc need < 4294967296 := by omega
    _ ≤ 2 ^ f := by rw [← h32]; exact hp
    _ ≤ size * 2 ^ f := Nat.le_mul_of_pos_left _ h1

theorem take_drop_window {α : Type} (l : List α) (a b : Nat) :
    (l.drop a).take b = (l.take (a + b)).drop a := by
  rw [List.drop_take]
  congr 1
  omega

theorem write_keeps_below (buf k tail : Bytes) (ptr off len : Nat)
    (h1 : off + len ≤ ptr) (h2 : ptr ≤ buf.length) :
    ((buf.take ptr ++ k ++ [0] ++ tail).drop off).take len = (buf.drop off).take len := by
  rw [take_drop_window, take_drop_window buf]
  congr 1
  rw [List.append_assoc, List.append_assoc, List.take_append_of_le_length (by
    rw [List.length_take]; omega), List.take_take]
  congr 1
  omega

theorem write_reads_back (buf k tail : Bytes) (ptr : Nat) (h2 : ptr ≤ buf.length) :
    ((buf.take ptr ++ k ++ [0] ++ tail).drop ptr).take k.length = k := by
  have hl : (buf.take ptr).length = ptr := by rw [List.length_take]; omega
  rw [List.append_assoc, List.append_assoc, List.drop_append_eq_append_drop, hl, Nat.sub_self,
    List.drop_zero, List.drop_eq_nil_of_le (by omega), List.nil_append, List.take_left]

theorem append_keeps_below (buf extra : Bytes) (off len : Nat) (h : off + len ≤ buf.length) :
    ((buf ++ extra).drop off).take len = (buf.drop off).take len := by
  rw [take_drop_window, take_drop_window buf, List.take_append_of_le_length h]

theorem take_set_succ {α : Type} (l : List α) (n : Nat) (e : α) (h : n < l.length) :
    (l.set n e).take (n + 1) = l.take n ++ [e] := by
  induction l generalizing n with
  | nil => simp at h
  | cons a t ih =>
    cases n with
    | zero => simp
    | succ n =>
      simp only [List.length_cons] at h
      simp only [List.set_cons_succ, List.take_succ_cons, List.cons_append]
      rw [ih n (by omega)]

theorem take_set_same {α : Type} (l : List α) (n : Nat) (e : α) :
    (l.set n e).take n = l.take n := by
  induction l generalizing n with
  | nil => simp
  | cons a t ih =>
    cases n with
    | zero => simp
    | succ n =>
      simp only [List.set_cons_succ, List.take_succ_cons]
      rw [ih n]

theorem add_key_full (fuel : Nat) (moved : Bool) (fill key : Bytes) (key_len : Nat)
    (kl : keylist) (h : kl.m_keys_count ≥ kl.m_keys_size) :
    keylist.add_key fuel moved fill kl key key_len = some (Outcome.ret 0, kl) := by
  unfold keylist.add_key
  rw [if_pos h]

theorem add_key_fits (fuel : Nat) (moved : Bool) (fill key : Bytes) (key_len : Nat)
    (kl : keylist) (h1 : kl.m_keys_count < kl.m_keys_size)
    (h2 : kl.m_buffer_ptr + key_len < kl.m_buffer_size) (h3 : key_len ≤ key.length) :
    keylist.add_key fuel moved fill kl key key_len
      = some (Outcome.ret 1, kl.stored key key_len) := by
  unfold keylist.add_key
  rw [if_neg (by omega)]
  simp only [if_neg (show ¬ (kl.m_buffer_ptr + key_len ≥ kl.m_buffer_size) by omega)]
  rw [if_neg (by simp; omega)]
  rfl

theorem add_key_grows (fuel : Nat) (fill key : Bytes) (key_len s : Nat)
    (kl : keylist) (h1 : kl.m_keys_count < kl.m_keys_size)
    (h2 : kl.m_buffer_ptr + key_len ≥ kl.m_buffer_size)
    (hg : keylist.grow_size (kl.m_buffer_ptr + key_len) fuel kl.m_buffer_size = some s)
    (h3 : key_len ≤ key.length) :
    keylist.add_key fuel false fill kl key key_len
      = some (Outcome.ret 1, (kl.grown s fill).stored key key_len) := by
  unfold keylist.add_key
  rw [if_neg (by omega)]
  simp only [if_pos h2, hg, Option.map_some']
  rw [if_neg (by simp; omega)]
  rfl

theorem add_key_moved (fuel : Nat) (fill key : Bytes) (key_len s : Nat)
    (kl : keylist) (h1 : kl.m_keys_count < kl.m_keys_size)
    (h2 : kl.m_buffer_ptr + key_len ≥ kl.m_buffer_size)
    (hg : keylist.grow_size (kl.m_buffer_ptr + key_len) fuel kl.m_buffer_size = some s) :
    keylist.add_key fuel true fill kl key key_len
      = some (Outcome.undefined, kl.grown s fill) := by
  unfold keylist.add_key
  rw [if_neg (by omega)]
  simp only [if_pos h2, hg, Option.map_some']
  rw [if_pos (Or.inl trivial)]
  rfl

theorem add_key_loops (fuel : Nat) (moved : Bool) (fill key : Bytes) (key_len : Nat)
    (kl : keylist) (h1 : kl.m_keys_count < kl.m_keys_size)
    (h2 : kl.m_buffer_ptr + key_len ≥ kl.m_buffer_size)
    (hg : keylist.grow_size (kl.m_buffer_ptr + key_len) fuel kl.m_buffer_size = none) :
    keylist.add_key fuel moved fill kl key key_len = none := by
  unfold keylist.add_key
  rw [if_neg (by omega)]
  simp only [if_pos h2, hg, Option.map_none']

theorem wf_valid (kl : keylist) (h : kl.wf) : kl.valid := by
  obtain ⟨h1, h2, h3, h4, h5, h6, h7⟩ := h
  refine ⟨by omega, by omega, ?_⟩
  intro e he
  obtain ⟨a, b⟩ := h7 e he
  exact ⟨a, by omega, by omega⟩

theorem stored_wf (kl : keylist) (key : Bytes) (key_len : Nat) (h : kl.wf)
    (h1 : kl.m_keys_count < kl.m_keys_size)
    (h2 : kl.m_buffer_ptr + key_len < kl.m_buffer_size) (h3 : key_len ≤ key.length) :
    (kl.stored key key_len).wf ∧
    (kl.stored key key_len).keys = kl.keys ++ [key.take key_len] := by
  obtain ⟨w1, w2, w3, w4, w5, w6, w7⟩ := h
  have hcnt : kl.m_keys_count < kl.m_keys.length := by omega
  have hk : (key.take key_len).length = key_len := by
    rw [List.length_take]; omega
  have htake : ((kl.stored key key_len).m_keys).take (kl.stored key key_len).m_keys_count
      = kl.m_keys.take kl.m_keys_count ++ [⟨some kl.m_buffer_ptr, key_len⟩] :=
    take_set_succ _ _ _ hcnt
  constructor
  · refine ⟨?_, ?_, w3, w4, ?_, ?_, ?_⟩
    · simp only [keylist.stored, List.length_set]; exact w1
    · simp only [keylist.stored, List.length_append, List.length_take, List.length_drop,
        List.length_cons, List.length_nil]
      omega
    · simp only [keylist.stored]; omega
    · simp only [keylist.stored]; omega
    · intro e he
      rw [htake, List.mem_append, List.mem_singleton] at he
      rcases he with he | he
      · obtain ⟨a, b⟩ := w7 e he
        refine ⟨a, ?_⟩
        simp only [keylist.stored]
        omega
      · subst he
        refine ⟨rfl, ?_⟩
        simp only [keylist.stored, Option.getD_some]
        omega
  · unfold keylist.keys
    rw [htake, List.map_append, List.map_cons, List.map_nil]
    congr 1
    · apply List.map_congr_left
      intro e he
      obtain ⟨_, b⟩ := w7 e he
      simp only [keylist.entry_key, keylist.stored]
      exact write_keeps_below _ _ _ _ _ _ (by omega) (by omega)
    · congr 1
      simp only [keylist.entry_key, keylist.stored, Option.getD_some]
      have := write_reads_back kl.m_buffer (key.take key_len)
        (kl.m_buffer.drop (kl.m_buffer_ptr + key_len + 1)) kl.m_buffer_ptr (by omega)
      rw [hk] at this
      exact this

theorem grown_wf (kl : keylist) (s : Nat) (fill : Bytes) (h : kl.wf)
    (h1 : kl.m_buffer_size ≤ s) (h2 : s < 4294967296) :
    (kl.grown s fill).wf ∧ (kl.grown s fill).keys = kl.keys ∧
    (kl.grown s fill).m_keys_count = kl.m_keys_count ∧
    (kl.grown s fill).m_keys_size = kl.m_keys_size ∧
    (kl.grown s fill).m_buffer_ptr = kl.m_buffer_ptr ∧
    (kl.grown s fill).m_buffer_size = s := by
  obtain ⟨w1, w2, w3, w4, w5, w6, w7⟩ := h
  refine ⟨⟨w1, ?_, w3, h2, w5, ?_, w7⟩, ?_, rfl, rfl, rfl, rfl⟩
  · simp only [keylist.grown, List.length_append, List.length_take, List.length_replicate]
    omega
  · simp only [keylist.grown]; omega
  · unfold keylist.keys
    apply List.map_congr_left
    intro e he
    obtain ⟨_, b⟩ := w7 e he
    simp only [keylist.entry_key, keylist.grown]
    exact append_keeps_below _ _ _ _ (by omega)

theorem add_key_in_place (fuel : Nat) (fill key : Bytes) (key_len : Nat) (kl : keylist)
    (h : kl.wf) (h1 : kl.m_keys_count < kl.m_keys_size) (h3 : key_len ≤ key.length)
    (hneed : kl.m_buffer_ptr + key_len < 2147483648) (hsize : 0 < kl.m_buffer_size)
    (hfuel : 33 ≤ fuel) :
    ∃ kl1, keylist.add_key fuel false fill kl key key_len = some (Outcome.ret 1, kl1) ∧
      kl1.wf ∧ kl1.keys = kl.keys ++ [key.take key_len] ∧
      kl1.m_keys_count = kl.m_keys_count + 1 ∧ kl1.m_keys_size = kl.m_keys_size ∧
      kl1.m_buffer_ptr = kl.m_buffer_ptr + key_len + 1 ∧
      kl.m_buffer_size ≤ kl1.m_buffer_size := by
  by_cases h2 : kl.m_buffer_ptr + key_len < kl.m_buffer_size
  · obtain ⟨a, b⟩ := stored_wf kl key key_len h h1 h2 h3
    exact ⟨_, add_key_fits fuel false fill key key_len kl h1 h2 h3, a, b, rfl, rfl, rfl,
      Nat.le_refl _⟩
  · obtain ⟨s, hs, hn, hlt, hle⟩ :=
      grow_size_enough (kl.m_buffer_ptr + key_len) kl.m_buffer_size fuel hneed hsize h.2.2.2.1
        hfuel
    obtain ⟨g1, g2, g3, g4, g5, g6⟩ := grown_wf kl s fill h hle hlt
    obtain ⟨a, b⟩ := stored_wf (kl.grown s fill) key key_len g1 (by rw [g3, g4]; exact h1)
      (by rw [g5, g6]; exact hn) h3
    refine ⟨_, add_key_grows fuel fill key key_len s kl h1 (by omega) hs h3, a, ?_, ?_, ?_, ?_,
      ?_⟩
    · rw [b, g2]
    · show (kl.grown s fill).m_keys_count + 1 = _
      rw [g3]
    · show (kl.grown s fill).m_keys_size = _
      rw [g4]
    · show (kl.grown s fill).m_buffer_ptr + key_len + 1 = _
      rw [g5]
    · show _ ≤ (kl.grown s fill).m_buffer_size
      rw [g6]; exact hle

theorem add_key_result (fuel : Nat) (moved : Bool) (fill key : Bytes) (key_len : Nat)
    (kl kl1 : keylist) (c : Int)
    (h : keylist.add_key fuel moved fill kl key key_len = some (Outcome.ret c, kl1)) :
    (c = 0 ∧ kl1 = kl ∧ kl.m_keys_count ≥ kl.m_keys_size) ∨
    (c = 1 ∧ kl.m_keys_count < kl.m_keys_size ∧ kl1.m_keys_count = kl.m_keys_count + 1 ∧
      kl1.m_keys_size = kl.m_keys_size) := by
  unfold keylist.add_key at h
  by_cases h1 : kl.m_keys_count ≥ kl.m_keys_size
  · rw [if_pos h1] at h
    simp only [Option.some.injEq, Prod.mk.injEq, Outcome.ret.injEq] at h
    exact Or.inl ⟨h.1.symm, h.2.symm, h1⟩
  · rw [if_neg h1] at h
    right
    by_cases h2 : kl.m_buffer_ptr + key_len ≥ kl.m_buffer_size
    · simp only [if_pos h2] at h
      cases hg : keylist.grow_size (kl.m_buffer_ptr + key_len) fuel kl.m_buffer_size with
      | none => simp [hg] at h
      | some s =>
        simp only [hg, Option.map_some'] at h
        split_ifs at h <;>
          first
          | (simp only [Option.some.injEq, Prod.mk.injEq, Outcome.ret.injEq] at h
             obtain ⟨hc, hk⟩ := h
             subst hk
             exact ⟨hc.symm, by omega, rfl, rfl⟩)
          | (simp at h)
    · simp only [if_neg h2] at h
      split_ifs at h <;>
        first
        | (simp only [Option.some.injEq, Prod.mk.injEq, Outcome.ret.injEq] at h
           obtain ⟨hc, hk⟩ := h
           subst hk
           exact ⟨hc.symm, by omega, rfl, rfl⟩)
        | (simp at h)

theorem run_invariant (ops : List keylist.op) :
    ∀ (kl kl1 : keylist), kl.m_keys_count ≤ kl.m_keys_size → keylist.run kl ops = some kl1 →
      kl1.m_keys_count ≤ kl1.m_keys_size ∧ kl1.m_keys_size = kl.m_keys_size := by
  induction ops with
  | nil =>
    intro kl kl1 h hr
    simp only [keylist.run, Option.some.injEq] at hr
    subst hr
    exact ⟨h, rfl⟩
  | cons o os ih =>
    intro kl kl1 h hr
    cases o with
    | clear =>
      simp only [keylist.run] at hr
      exact ih kl.clear kl1 (Nat.zero_le _) hr
    | add fuel moved fill key key_len =>
      simp only [keylist.run] at hr
      cases ha : keylist.add_key fuel moved fill kl key key_len with
      | none => simp [ha] at hr
      | some r =>
        obtain ⟨o, kl2⟩ := r
        cases o with
        | ret c =>
          simp only [ha] at hr
          rcases add_key_result fuel moved fill key key_len kl kl2 c ha with
            ⟨_, hk, _⟩ | ⟨_, hlt, hc, hs⟩
          · subst hk
            exact ih _ kl1 h hr
          · obtain ⟨a, b⟩ := ih kl2 kl1 (by omega) hr
            exact ⟨a, by rw [b, hs]⟩
        | assert_failed => simp [ha] at hr
        | undefined => simp [ha] at hr

theorem add_keys_ok (fuel : Nat) (hfuel : 33 ≤ fuel) (cs : List keylist.call) :
    ∀ (kl : keylist), kl.wf → 0 < kl.m_buffer_size →
      kl.m_keys_count + cs.length ≤ kl.m_keys_size →
      (∀ c ∈ cs, c.key_len ≤ c.key.length) →
      kl.m_buffer_ptr + (cs.map (fun c => c.key_len + 1)).sum ≤ 2147483648 →
      ∃ kl1, keylist.add_keys fuel kl cs = some kl1 ∧ kl1.wf ∧
        kl1.keys = kl.keys ++ cs.map (fun c => c.key.take c.key_len) ∧
        kl1.m_keys_count = kl.m_keys_count + cs.length ∧
        kl1.m_keys_size = kl.m_keys_size := by
  induction cs with
  | nil =>
    intro kl h _ _ _ _
    exact ⟨kl, rfl, h, by simp, rfl, rfl⟩
  | cons c cs ih =>
    intro kl h hs hc hk hsum
    simp only [List.length_cons] at hc
    simp only [List.map_cons, List.sum_cons] at hsum
    obtain ⟨kl1, ha, w, hkeys, hcount, hsize, hptr, hbs⟩ :=
      add_key_in_place fuel c.fill c.key c.key_len kl h (by omega) (hk c (by simp))
        (by omega) hs hfuel
    obtain ⟨kl2, hb, w2, hkeys2, hcount2, hsize2⟩ :=
      ih kl1 w (by omega) (by rw [hcount, hsize]; omega)
        (fun d hd => hk d (List.mem_cons_of_mem _ hd)) (by rw [hptr]; omega)
    refine ⟨kl2, ?_, w2, ?_, ?_, ?_⟩
    · simp only [keylist.add_keys, ha]
      exact hb
    · rw [hkeys2, hkeys, List.append_assoc]
      rfl
    · rw [hcount2, hcount, List.length_cons]; omega
    · rw [hsize2, hsize]

theorem init_wf (n : Nat) (h : n < 4294967296) :
    (keylist.init n).wf ∧ (keylist.init n).keys = [] ∧ (keylist.init n).m_keys_count = 0 ∧
    (keylist.init n).m_keys_size = n ∧ (keylist.init n).m_buffer_ptr = 0 ∧
    (keylist.init n).m_buffer_size = 256 * n % 4294967296 := by
  refine ⟨⟨?_, ?_, h, ?_, Nat.zero_le _, Nat.zero_le _, ?_⟩, ?_, rfl, rfl, rfl, rfl⟩
  · simp only [keylist.init, List.length_replicate]
  · simp only [keylist.init, List.length_replicate]
  · exact Nat.mod_lt _ (by norm_num)
  · intro e he
    simp only [keylist.init, List.take_zero, List.not_mem_nil] at he
  · simp only [keylist.keys, keylist.init, List.take_zero, List.map_nil]

theorem clear_wf (kl : keylist) (h : kl.wf) :
    kl.clear.wf ∧ kl.clear.keys = [] ∧ kl.clear.get_keys_count = 0 ∧
    kl.clear.m_keys_size = kl.m_keys_size ∧ kl.clear.m_buffer_ptr = 0 ∧
    kl.clear.m_buffer_size = kl.m_buffer_size ∧ kl.clear.m_buffer = kl.m_buffer := by
  obtain ⟨w1, w2, w3, w4, w5, w6, w7⟩ := h
  refine ⟨⟨w1, w2, w3, w4, Nat.zero_le _, Nat.zero_le _, ?_⟩, ?_, rfl, rfl, rfl, rfl, rfl⟩
  · intro e he
    simp only [keylist.clear, List.take_zero, List.not_mem_nil] at he
  · simp only [keylist.keys, keylist.clear, List.take_zero, List.map_nil]

theorem clear_get_key (kl : keylist) (i u : Nat) : kl.clear.get_key i u = (none, u) := by
  unfold keylist.get_key
  exact if_pos (Nat.zero_le _)

theorem get_key_null_iff (kl : keylist) (h : kl.wf) (i u : Nat) :
    (kl.get_key i u).1 = none ↔ i ≥ kl.m_keys_count := by
  constructor
  · intro hn
    by_contra hi
    obtain ⟨e, _, hg, _⟩ := keylist_get_key kl (wf_valid kl h) i u (by omega)
    rw [hg] at hn
    simp at hn
  · intro hi
    unfold keylist.get_key
    rw [if_pos hi]

theorem get_key_reads_keys (kl : keylist) (h : kl.wf) (i u : Nat) (hi : i < kl.m_keys_count) :
    ∃ p len, kl.get_key i u = (some p, len) ∧ kl.keys[i]? = some (p.take len) := by
  obtain ⟨e, hd, hg, _⟩ := keylist_get_key kl (wf_valid kl h) i u hi
  refine ⟨_, _, hg, ?_⟩
  have h1 : kl.keys.drop i = kl.entry_key e :: (kl.keys.drop (i + 1)) := by
    unfold keylist.keys
    rw [← List.map_drop, hd, List.map_cons, ← List.map_drop]
  have h2 : kl.keys[i]? = (kl.keys.drop i)[0]? := by
    rw [List.getElem?_drop]
    rfl
  rw [h2, h1]
  simp only [List.getElem?_cons_zero, keylist.entry_key]

/-- With a `realloc` that extends the block in place, the keys added to a fresh
keylist are read back by `get_key`, whether or not the block had to grow. -/
theorem round_trip_in_place (fuel cap : Nat) (cs : List keylist.call) (u : Nat)
    (hfuel : 33 ≤ fuel) (hcap : cap < 16777216) (hpos : 0 < cap) (hn : cs.length ≤ cap)
    (hk : ∀ c ∈ cs, c.key_len ≤ c.key.length)
    (hsum : (cs.map (fun c => c.key_len + 1)).sum ≤ 2147483648) :
    ∃ kl, keylist.add_keys fuel (keylist.init cap) cs = some kl ∧
      kl.get_keys_count = cs.length ∧
      ∀ i c, cs[i]? = some c →
        ∃ p, kl.get_key i u = (some p, c.key_len) ∧ p.take c.key_len = c.key.take c.key_len := by
  obtain ⟨w, hkeys, hcount, hsize, hptr, hbs⟩ := init_wf cap (by omega)
  obtain ⟨kl, ha, w1, hkeys1, hcount1, hsize1⟩ :=
    add_keys_ok fuel hfuel cs (keylist.init cap) w (by rw [hbs]; omega)
      (by rw [hcount, hsize]; omega) hk (by rw [hptr]; omega)
  rw [hkeys, List.nil_append] at hkeys1
  rw [hcount, Nat.zero_add] at hcount1
  refine ⟨kl, ha, hcount1, ?_⟩
  intro i c hc
  have hi : i < cs.length := by
    by_contra hge
    rw [List.getElem?_eq_none (by omega)] at hc
    simp at hc
  obtain ⟨p, len, hg, hr⟩ := get_key_reads_keys kl w1 i u (by rw [hcount1]; exact hi)
  rw [hkeys1, List.getElem?_map, hc, Option.map_some', Option.some.injEq] at hr
  have hlen : len = c.key_len := by
    have h1 : (p.take len).length = (c.key.take c.key_len).length := by rw [hr]
    have h2 := hk c (List.mem_iff_getElem?.mpr ⟨i, hc⟩)
    have h3 : (kl.get_key i u).2 = len := by rw [hg]
    obtain ⟨e, hd, hg2, hb, _⟩ := keylist_get_key kl (wf_valid kl w1) i u
      (by rw [hcount1]; exact hi)
    rw [hg2, Prod.mk.injEq, Option.some.injEq] at hg
    obtain ⟨hp, hl⟩ := hg
    rw [List.length_take, List.length_take, ← hp, List.length_drop] at h1
    omega
  subst hlen
  exact ⟨p, hg, hr.symm ▸ rfl⟩

/-- After `clear` the keylist takes as many keys as its capacity again, with a
`realloc` that extends the block in place, and then `add_key` returns false. -/
theorem clear_then_capacity (fuel : Nat) (kl : keylist) (cs : List keylist.call)
    (moved : Bool) (fill key : Bytes) (key_len : Nat)
    (hfuel : 33 ≤ fuel) (h : kl.wf) (hs : 0 < kl.m_buffer_size)
    (hn : cs.length = kl.m_keys_size) (hk : ∀ c ∈ cs, c.key_len ≤ c.key.length)
    (hsum : (cs.map (fun c => c.key_len + 1)).sum ≤ 2147483648) :
    ∃ kl1, keylist.add_keys fuel kl.clear cs = some kl1 ∧
      kl1.get_keys_count = kl.m_keys_size ∧
      keylist.add_key fuel moved fill kl1 key key_len = some (Outcome.ret 0, kl1) := by
  obtain ⟨w, hkeys, hcount, hsize, hptr, hbs, _⟩ := clear_wf kl h
  obtain ⟨kl1, ha, w1, hkeys1, hcount1, hsize1⟩ :=
    add_keys_ok fuel hfuel cs kl.clear w (by rw [hbs]; exact hs)
      (by rw [hsize]; show 0 + cs.length ≤ _; omega) hk (by rw [hptr]; omega)
  have hc : kl1.m_keys_count = kl.m_keys_size := by
    rw [hcount1]; show 0 + cs.length = _; omega
  refine ⟨kl1, ha, hc, ?_⟩
  exact add_key_full fuel moved fill key key_len kl1 (by rw [hc, hsize1, hsize])

theorem init_spins (n fuel : Nat) (moved : Bool) (fill key : Bytes) (key_len : Nat)
    (hn : 0 < n) (h0 : 256 * n % 4294967296 = 0) :
    keylist.add_key fuel moved fill (keylist.init n) key key_len = none ∧
    keylist.add_key fuel moved fill (keylist.init n).clear key key_len = none := by
  have hg : keylist.grow_size (0 + key_len) fuel (256 * n % 4294967296) = none := by
    rw [h0]; exact grow_size_zero _ _
  constructor
  · exact add_key_loops fuel moved fill key key_len (keylist.init n) hn
      (by show 0 + key_len ≥ 256 * n % 4294967296; omega) hg
  · exact add_key_loops fuel moved fill key key_len (keylist.init n).clear hn
      (by show 0 + key_len ≥ 256 * n % 4294967296; omega) hg

/-- C23: the round trip fails where the block has to grow and `realloc` returns a
block at another address. A keylist of capacity 2 takes the key `ab` in its 512-byte
block and returns true. A second key of 600 bytes makes `add_key` double the size to
1024 and call `realloc`; the write pointer and the pointer stored for `ab` still
point into the block that `realloc` freed, so the copy of the second key is
undefined behaviour and the first key is not preserved. -/
theorem keylist_growth_leaves_stale_pointers (fuel : Nat) (fill key : Bytes) :
    keylist.add_key fuel false fill (keylist.init 2) (str "ab") 2
      = some (Outcome.ret 1, (keylist.init 2).stored (str "ab") 2) ∧
    ((keylist.init 2).stored (str "ab") 2).keys = [str "ab"] ∧
    ((keylist.init 2).stored (str "ab") 2).m_keys_count = 1 ∧
    ((keylist.init 2).stored (str "ab") 2).m_keys_size = 2 ∧
    ((keylist.init 2).stored (str "ab") 2).m_buffer_ptr = 3 ∧
    ((keylist.init 2).stored (str "ab") 2).m_buffer_size = 512 ∧
    keylist.grow_size (3 + 600) (fuel + 2) 512 = some 1024 ∧
    keylist.add_key (fuel + 2) true fill ((keylist.init 2).stored (str "ab") 2) key 600
      = some (Outcome.undefined, ((keylist.init 2).stored (str "ab") 2).grown 1024 fill) := by
  obtain ⟨w, hkeys, hcount, hsize, hptr, hbs⟩ := init_wf 2 (by norm_num)
  have hg : keylist.grow_size (3 + 600) (fuel + 2) 512 = some 1024 := by
    simp [keylist.grow_size]
  obtain ⟨_, b⟩ := stored_wf (keylist.init 2) (str "ab") 2 w (by rw [hcount, hsize]; norm_num)
    (by rw [hptr, hbs]; norm_num) (by decide)
  refine ⟨?_, ?_, rfl, rfl, rfl, rfl, hg, ?_⟩
  · exact add_key_fits fuel false fill (str "ab") 2 (keylist.init 2)
      (by rw [hcount, hsize]; norm_num) (by rw [hptr, hbs]; norm_num) (by decide)
  · rw [b, hkeys]
    rfl
  · exact add_key_moved (fuel + 2) fill key 600 1024 _ (by show 0 + 1 < 2; norm_num)
      (by show 0 + 2 + 1 + 600 ≥ 256 * 2 % 4294967296; norm_num) hg

/-- C24: `add_key` does not return true on a keylist that has room. The constructor
computes the block size `256 * max_keys` in `unsigned int`, which is 0 for a capacity
of 16777216: with `keys_count` 0 below the capacity, the loop that doubles the size
keeps it 0 and never ends, whatever the key. The same happens on a keylist of
capacity 1 for a key of 2147483648 bytes: the size goes from 256 up to 2147483648,
then to 0. -/
theorem keylist_add_key_never_returns (fuel : Nat) (moved : Bool) (fill key : Bytes)
    (key_len : Nat) :
    (keylist.init 16777216).m_keys_count = 0 ∧
    (keylist.init 16777216).m_keys_size = 16777216 ∧
    (keylist.init 16777216).m_buffer_size = 0 ∧
    keylist.add_key fuel moved fill (keylist.init 16777216) key key_len = none ∧
    (keylist.init 1).m_keys_count = 0 ∧ (keylist.init 1).m_keys_size = 1 ∧
    (keylist.init 1).m_buffer_size = 256 ∧
    keylist.add_key fuel moved fill (keylist.init 1) key 2147483648 = none := by
  refine ⟨rfl, rfl, ?_, ?_, rfl, rfl, ?_, ?_⟩
  · show 256 * 16777216 % 4294967296 = 0
    norm_num
  · exact (init_spins 16777216 fuel moved fill key key_len (by norm_num) (by norm_num)).1
  · show 256 * 1 % 4294967296 = 256
    norm_num
  · exact add_key_loops fuel moved fill key 2147483648 (keylist.init 1)
      (by show 0 < 1; norm_num) (by show 0 + 2147483648 ≥ 256 * 1 % 4294967296; norm_num)
      (by
        show keylist.grow_size (0 + 2147483648) fuel (256 * 1 % 4294967296) = none
        have h := grow_size_pow fuel 8 (by norm_num)
        norm_num at h ⊢
        exact h)

/-- C25: after `clear`, `add_key` does not succeed again for every key. A keylist of
capacity 1 takes the key `a`, and `clear` sets the count to 0 and the write pointer
to the start of the 256-byte block, the capacity staying 1. For a key of 300 bytes
`add_key` then doubles the size to 512 and calls `realloc`; when the block comes back
at another address the write pointer is stale and the copy is undefined behaviour.
And a keylist of capacity 16777216, whose block size is 0, never returns from
`add_key` after `clear`. -/
theorem keylist_clear_then_growth (fuel : Nat) (moved : Bool) (fill key : Bytes)
    (key_len : Nat) :
    keylist.add_key fuel false fill (keylist.init 1) (str "a") 1
      = some (Outcome.ret 1, (keylist.init 1).stored (str "a") 1) ∧
    ((keylist.init 1).stored (str "a") 1).clear.get_keys_count = 0 ∧
    ((keylist.init 1).stored (str "a") 1).clear.m_keys_size = 1 ∧
    ((keylist.init 1).stored (str "a") 1).clear.m_buffer_ptr = 0 ∧
    ((keylist.init 1).stored (str "a") 1).clear.m_buffer_size = 256 ∧
    keylist.grow_size (0 + 300) (fuel + 2) 256 = some 512 ∧
    keylist.add_key (fuel + 2) true fill ((keylist.init 1).stored (str "a") 1).clear key 300
      = some (Outcome.undefined,
          ((keylist.init 1).stored (str "a") 1).clear.grown 512 fill) ∧
    keylist.add_key fuel moved fill (keylist.init 16777216).clear key key_len = none := by
  obtain ⟨w, hkeys, hcount, hsize, hptr, hbs⟩ := init_wf 1 (by norm_num)
  have hg : keylist.grow_size (0 + 300) (fuel + 2) 256 = some 512 := by
    simp [keylist.grow_size]
  refine ⟨?_, rfl, rfl, rfl, rfl, hg, ?_, ?_⟩
  · exact add_key_fits fuel false fill (str "a") 1 (keylist.init 1)
      (by rw [hcount, hsize]; norm_num) (by rw [hptr, hbs]; norm_num) (by decide)
  · exact add_key_moved (fuel + 2) fill key 300 512 _ (by show 0 < 1; norm_num)
      (by show 0 + 300 ≥ 256 * 1 % 4294967296; norm_num) hg
  · exact (init_spins 16777216 fuel moved fill key key_len (by norm_num) (by norm_num)).2

theorem get_key_entry (kl : keylist) (h : kl.wf) (i u : Nat) (hi : i < kl.m_keys_count) :
    ∃ p len, kl.get_key i u = (some p, len) ∧ kl.keys[i]? = some (p.take len) ∧
      len ≤ p.length := by
  obtain ⟨e, _, hg, hb, _⟩ := keylist_get_key kl (wf_valid kl h) i u hi
  obtain ⟨p, len, hg2, hk⟩ := get_key_reads_keys kl h i u hi
  rw [hg, Prod.mk.injEq, Option.some.injEq] at hg2
  obtain ⟨hp, hl⟩ := hg2
  refine ⟨p, len, by rw [hg, hp, hl], hk, ?_⟩
  rw [← hp, ← hl, List.length_drop]
  omega

theorem keys_length (kl : keylist) (h : kl.wf) : kl.keys.length = kl.m_keys_count := by
  obtain ⟨w1, _, _, _, w5, _⟩ := h
  unfold keylist.keys
  rw [List.length_map, List.length_take]
  omega

theorem copy_loop_in_place (fuel : Nat) (hfuel : 33 ≤ fuel) (fill : Nat → Bytes)
    (source : keylist) (hw : source.wf) :
    ∀ (n i : Nat) (kl : keylist), i + n = source.m_keys_count → kl.wf →
      kl.m_keys_count = i → kl.m_keys_size = source.m_keys_count →
      kl.keys = source.keys.take i → (0 < n → 0 < kl.m_buffer_size) →
      kl.m_buffer_ptr + ((source.keys.drop i).map (fun k => k.length + 1)).sum
        ≤ 2147483648 →
      ∃ kl1, keylist.copy_loop fuel (fun _ => false) fill source n i kl = some (some kl1) ∧
        kl1.wf ∧ kl1.keys = source.keys ∧ kl1.m_keys_count = source.m_keys_count ∧
        kl1.m_keys_size = source.m_keys_count := by
  intro n
  induction n with
  | zero =>
    intro i kl hi w hc hs hk _ _
    refine ⟨kl, rfl, w, ?_, by omega, hs⟩
    rw [hk, List.take_of_length_le]
    rw [keys_length source hw]
    omega
  | succ n ih =>
    intro i kl hi w hc hs hk hb hsum
    obtain ⟨p, len, hg, hki, hl⟩ := get_key_entry source hw i 0 (by omega)
    have hlen : (p.take len).length = len := by
      rw [List.length_take]; omega
    have hd : source.keys.drop i = p.take len :: source.keys.drop (i + 1) := by
      obtain ⟨hlt, he⟩ := List.getElem?_eq_some.mp hki
      rw [List.drop_eq_getElem_cons hlt, he]
    rw [hd, List.map_cons, List.sum_cons, hlen] at hsum
    obtain ⟨kl1, ha, w1, hkeys, hcount, hsize, hptr, hbs⟩ :=
      add_key_in_place fuel (fill i) p len kl w (by omega) hl (by omega) (hb (by omega)) hfuel
    obtain ⟨kl2, hr, w2, hk2, hc2, hs2⟩ :=
      ih (i + 1) kl1 (by omega) w1 (by omega) (by omega)
        (by rw [hkeys, hk, List.take_succ, hki]; rfl) (fun _ => by have := hb (by omega); omega)
        (by rw [hptr]; omega)
    refine ⟨kl2, ?_, w2, hk2, hc2, hs2⟩
    simp only [keylist.copy_loop, hg, ha]
    exact hr

/-- With a `realloc` that extends the block in place, the copy of a keylist of fewer
than 16777216 keys has the keys of the source in order, as many keys as the source
and that number as its capacity, so that `add_key` on it returns false. -/
theorem copy_in_place (fuel : Nat) (hfuel : 33 ≤ fuel) (fill : Nat → Bytes)
    (source : keylist) (hw : source.wf) (hcount : source.m_keys_count < 16777216)
    (hsum : (source.keys.map (fun k => k.length + 1)).sum ≤ 2147483648) :
    ∃ kl, keylist.copy fuel (fun _ => false) fill source = some (some kl) ∧ kl.wf ∧
      kl.keys = source.keys ∧ kl.get_keys_count = source.get_keys_count ∧
      kl.m_keys_size = source.get_keys_count ∧
      (∀ (i u : Nat), i < source.get_keys_count →
        ∃ p q len, source.get_key i u = (some p, len) ∧ kl.get_key i u = (some q, len) ∧
          q.take len = p.take len) ∧
      ∀ (f : Nat) (m : Bool) (fl key : Bytes) (key_len : Nat),
        keylist.add_key f m fl kl key key_len = some (Outcome.ret 0, kl) := by
  obtain ⟨w, hkeys, hc, hs, hptr, hbs⟩ := init_wf source.m_keys_count (by omega)
  obtain ⟨kl, hr, w1, hk1, hc1, hs1⟩ :=
    copy_loop_in_place fuel hfuel fill source hw source.m_keys_count 0
      (keylist.init source.m_keys_count) (by omega) w hc hs (by rw [hkeys]; rfl)
      (fun h => by rw [hbs]; omega) (by rw [hptr]; simpa using hsum)
  refine ⟨kl, hr, w1, hk1, hc1, hs1, ?_, ?_⟩
  · intro i u hi
    obtain ⟨p, len, hg, hki, hl⟩ := get_key_entry source hw i u hi
    obtain ⟨q, len2, hg2, hki2, hl2⟩ := get_key_entry kl w1 i u (by rw [hc1]; exact hi)
    rw [hk1, hki, Option.some.injEq] at hki2
    have e : len = len2 := by
      have h1 : (p.take len).length = (q.take len2).length := by rw [hki2]
      rw [List.length_take, List.length_take] at h1
      omega
    subst e
    exact ⟨p, q, len, hg, hg2, hki2.symm⟩
  · intro f m fl key key_len
    exact add_key_full f m fl key key_len kl (by rw [hc1, hs1])

/-- The copy of a keylist whose number of keys makes `256 * count` zero in 32 bits
does not return: the first `add_key` finds a block of size 0. -/
theorem copy_spins (fuel : Nat) (moved : Nat → Bool) (fill : Nat → Bytes)
    (source : keylist) (hn : 0 < source.m_keys_count)
    (h0 : 256 * source.m_keys_count % 4294967296 = 0) :
    keylist.copy fuel moved fill source = none := by
  unfold keylist.copy keylist.get_keys_count
  obtain ⟨n, hn2⟩ : ∃ n, source.m_keys_count = n + 1 := ⟨source.m_keys_count - 1, by omega⟩
  have hs := fun (key : Bytes) (key_len : Nat) =>
    (init_spins source.m_keys_count fuel (moved 0) (fill 0) key key_len hn h0).1
  generalize keylist.init source.m_keys_count = kl at hs ⊢
  rw [hn2]
  unfold keylist.copy_loop
  cases hg : (source.get_key 0 0).1 with
  | none => simp only [hs, hg]
  | some key => simp only [hs, hg]

theorem copy_first_key_moved (fuel : Nat) (fill : Nat → Bytes) (moved : Nat → Bool)
    (source : keylist) (n s : Nat) (p : Bytes) (len : Nat)
    (hc : source.m_keys_count = n + 1) (hm : moved 0 = true)
    (hg : source.get_key 0 0 = (some p, len))
    (h2 : len ≥ 256 * (n + 1) % 4294967296)
    (hs : keylist.grow_size (0 + len) fuel (256 * (n + 1) % 4294967296) = some s) :
    keylist.copy fuel moved fill source = some none := by
  unfold keylist.copy keylist.get_keys_count
  rw [hc]
  have ha := add_key_moved fuel (fill 0) p len s (keylist.init (n + 1))
    (by show 0 < n + 1; omega) (by show 0 + len ≥ 256 * (n + 1) % 4294967296; omega) hs
  unfold keylist.copy_loop
  simp only [hg, hm, ha]

/-- C31: the copy constructor does not yield the keys of the source when they need more
than the `256 * keys_count` bytes that `init` allocates and `realloc` returns a block
at another address. A keylist of capacity 2 that holds one key of 300 bytes has
keys_count 1, so the copy starts with capacity 1 and a block of 256 bytes; its only
`add_key` doubles the size to 512 and calls `realloc` without updating the write
pointer, and the copy of the key through the stale pointer is undefined behaviour. -/
theorem keylist_copy_of_long_key (fuel : Nat) (fl : Bytes) (fill : Nat → Bytes) :
    keylist.add_key fuel false fl (keylist.init 2) (List.replicate 300 120) 300
      = some (Outcome.ret 1, (keylist.init 2).stored (List.replicate 300 120) 300) ∧
    ((keylist.init 2).stored (List.replicate 300 120) 300).keys = [List.replicate 300 120] ∧
    ((keylist.init 2).stored (List.replicate 300 120) 300).get_keys_count = 1 ∧
    (keylist.init 1).m_keys_size = 1 ∧
    (keylist.init 1).m_buffer_size = 256 ∧
    keylist.grow_size (0 + 300) (fuel + 2) 256 = some 512 ∧
    keylist.copy (fuel + 2) (fun _ => true) fill
        ((keylist.init 2).stored (List.replicate 300 120) 300) = some none := by
  obtain ⟨w, hkeys, hcount, hsize, hptr, hbs⟩ := init_wf 2 (by norm_num)
  have hl : (List.replicate 300 (120 : UInt8)).length = 300 := List.length_replicate _ _
  have ht : (List.replicate 300 (120 : UInt8)).take 300 = List.replicate 300 120 := by
    rw [List.take_of_length_le (by rw [hl])]
  have hg : keylist.grow_size (0 + 300) (fuel + 2) 256 = some 512 := by
    simp [keylist.grow_size]
  obtain ⟨ws, hk⟩ := stored_wf (keylist.init 2) (List.replicate 300 120) 300 w
    (by rw [hcount, hsize]; norm_num) (by rw [hptr, hbs]; norm_num) (by rw [hl])
  rw [hkeys, List.nil_append, ht] at hk
  refine ⟨?_, hk, rfl, rfl, rfl, hg, ?_⟩
  · exact add_key_fits fuel false fl (List.replicate 300 120) 300 (keylist.init 2)
      (by rw [hcount, hsize]; norm_num) (by rw [hptr, hbs]; norm_num) (by rw [hl])
  · obtain ⟨p, len, hgk, hki, hle⟩ :=
      get_key_entry ((keylist.init 2).stored (List.replicate 300 120) 300) ws 0 0
        (by show 0 < 0 + 1; norm_num)
    rw [hk, List.getElem?_cons_zero, Option.some.injEq] at hki
    have hlen : len = 300 := by
      have h1 : (List.replicate 300 (120 : UInt8)).length = (p.take len).length := by rw [hki]
      rw [hl, List.length_take] at h1
      omega
    subst hlen
    exact copy_first_key_moved (fuel + 2) fill (fun _ => true) _ 0 512 p 300 rfl rfl hgk
      (by norm_num) hg

/-- C29: the error flag of a reply is not only that of its frames when the reply
before it had no body. A new parser is fed a header with status UNKNOWN_COMMAND and
bodylen 0, then a reply of two hits (a GETKQ frame and a GETK frame, both with status
SUCCESS). The first call returns 1 with error = true and leaves the parser in
MultiInitial; the second call returns 1 for the two frames without clearing the
response, so error is still true (and three latencies are queued) although no frame of
the reply carries a status of the error set. The same reply fed to a new parser gives
error = false. -/
theorem binary_reply_inherits_error (ndebug keep : Bool) (t0 latency : Nat)
    (hdr0 : protocol_binary_response_header) :
    ∃ p1 p2 p3,
      memcache_binary_protocol.parse_response ndebug
        (memcache_binary_protocol.new
          (unknown_command_header ++
            (frames_bytes [hit_frame 0x0d 97 120] ++ ((hit_frame 0x0c 98 121).bytes ++ [])))
          keep t0 hdr0) latency = some (Outcome.ret 1, p1) ∧
      p1.m_read_buf = frames_bytes [hit_frame 0x0d 97 120] ++ ((hit_frame 0x0c 98 121).bytes ++ []) ∧
      p1.m_response_state = binary_response_state.rs_multi_initial ∧
      p1.m_last_response.m_error = true ∧
      p1.parse_response ndebug latency = some (Outcome.ret 1, p2) ∧
      p2.m_read_buf = [] ∧
      p2.m_last_response.m_error = true ∧
      p2.m_last_response.m_latencies = [latency, latency, latency] ∧
      (∀ g ∈ [hit_frame 0x0d 97 120, hit_frame 0x0c 98 121],
        g.hdr.status = 0 ∧ g.hdr.status ∉ glossary_error_codes) ∧
      memcache_binary_protocol.parse_response ndebug
        (memcache_binary_protocol.new
          (frames_bytes [hit_frame 0x0d 97 120] ++ ((hit_frame 0x0c 98 121).bytes ++ []))
          keep t0 hdr0) latency = some (Outcome.ret 1, p3) ∧
      p3.m_read_buf = [] ∧
      p3.m_last_response.m_error = false := by
  have h1 := binary_zero_body_fresh ndebug latency keep t0 hdr0 unknown_command_header
    (frames_bytes [hit_frame 0x0d 97 120] ++ ((hit_frame 0x0c 98 121).bytes ++ []))
    (by decide) (by decide) (by decide)
  have hfs : ∀ g ∈ [hit_frame 0x0d 97 120],
      g.sane ∧ g.hdr.opcode = PROTOCOL_BINARY_CMD_GETKQ := by
    intro g hg
    rw [List.mem_singleton] at hg
    subst hg
    decide
  have hf : (hit_frame 0x0c 98 121).ends_reply := by decide
  have hre : reply_error ([hit_frame 0x0d 97 120] ++ [hit_frame 0x0c 98 121]) = false := by
    decide
  obtain ⟨p2, hp2, hb2, hl2, _, he2⟩ := binary_reply_run ndebug latency
    { m_read_buf := frames_bytes [hit_frame 0x0d 97 120] ++ ((hit_frame 0x0c 98 121).bytes ++ []),
      m_keep_value := keep,
      m_last_response :=
        after_header (protocol_response.new t0).clear
          (read_header unknown_command_header).status 24 latency,
      m_response_state := binary_response_state.rs_multi_initial,
      m_response_hdr := read_header unknown_command_header, m_response_len := 24 }
    [hit_frame 0x0d 97 120] (hit_frame 0x0c 98 121) [] rfl rfl hfs hf
  obtain ⟨p3, hp3, hb3, _, _, he3⟩ := binary_reply_initial ndebug latency
    (memcache_binary_protocol.new
      (frames_bytes [hit_frame 0x0d 97 120] ++ ((hit_frame 0x0c 98 121).bytes ++ []))
      keep t0 hdr0)
    [hit_frame 0x0d 97 120] (hit_frame 0x0c 98 121) [] rfl rfl hfs hf
  have hst : (read_header unknown_command_header).status = 0x81 := by decide
  refine ⟨_, p2, p3, h1, rfl, rfl, ?_, hp2, hb2, ?_, ?_, ?_, hp3, hb3, ?_⟩
  · simp [after_header, hst, glossary_error_codes, protocol_response.clear,
      protocol_response.new]
  · rw [he2, hre]
    simp [after_header, hst, glossary_error_codes, protocol_response.clear,
      protocol_response.new]
  · rw [hl2]
    simp [after_header, protocol_response.clear, protocol_response.new]
  · intro g hg
    simp only [List.mem_cons, List.mem_singleton, List.not_mem_nil, or_false] at hg
    rcases hg with hg | hg <;> subst hg <;> decide
  · rw [he3, hre]

end Memtier
